import Mathlib

/-!
# Strassen matrix multiplication: embedding of `matrix_operation/matrix.c`

The C program is embedded by explicit state passing.

* A C `int` is a Lean `Int` (exact arithmetic, as the specification assumes).
* `struct Matrix` is a record holding the element buffer as a `List Int`
  together with the fields `row` and `col`.
* A function that mutates `*C` through a pointer returns the new value of `*C`;
  the pointers passed to one call are taken to be pairwise distinct objects.
* `malloc` is taken to succeed and hands out uninitialised storage: its contents
  are given by an arbitrary oracle `junk serial index`, and the number of live
  allocations is kept in a `Heap` record that is threaded through every
  allocating function.
* A `for` loop is a left fold over its index range.
* The recursion of `strassenMul` is driven by a fuel argument counting nested
  frames; `none` means that the fuel ran out.
* The operand set-up of `main` in `Strassen/strassen.c` is embedded as
  `mainOperands`.
* For the claims about index safety and about what a call leaves untouched, the
  same functions are embedded once more on a memory of records addressed by
  pointers, with every access checked (`sumMatrixAt`, …, `strassenMulAt`).
* For the claims about the storage invariant and about the temporaries of a
  frame, `strassenMul` is run with assertions at the entry of its invocations
  (`strassenMulChecked`) and at the seven calls of every frame
  (`strassenMulTemps`); such a run yields `none` when an assertion fails.
* `StrassenMul/strassenV1.c` is embedded on raw element buffers (`sum_matrix`, …,
  `strassen_mul`), and `strassenMul` of `StrassenMul/strassen.c` separately.
* For the claims about 32-bit arithmetic the element arithmetic is embedded once
  more with every result reduced modulo `2 ^ 32` (`wrap32`, `sumMatrix32`, …,
  `strassenMul32`, `nextPowerOfTwo32`).
-/

namespace Strassen

/-! ## Data model -/

/-- The record `struct Matrix` of `matrix.h`: element buffer in row-major order,
number of rows, number of columns. -/
structure Matrix where
  matrix : List Int
  row : Int
  col : Int
deriving DecidableEq

/-- Allocation state: how many allocations are live, and how many were made so
far (the serial number of the next allocation). -/
structure Heap where
  live : Nat
  serial : Nat
deriving DecidableEq

/-- Read `m[idx]`; an access outside the buffer yields `0`. -/
def rdBuf (m : List Int) (idx : Int) : Int :=
  if 0 ≤ idx then m.getD idx.toNat 0 else 0

/-- Write `m[idx] = v`; an access outside the buffer leaves the buffer as it is. -/
def wrBuf (m : List Int) (idx : Int) (v : Int) : List Int :=
  if 0 ≤ idx then m.set idx.toNat v else m

/-- The macro `matrixElem(m, r, c, cols)` used as an rvalue:
`m[(r) * (cols) + (c)]`. -/
def matrixElem (m : List Int) (r c cols : Int) : Int :=
  rdBuf m (r * cols + c)

/-- The macro `matrixElem(m, r, c, cols)` used as an lvalue:
`m[(r) * (cols) + (c)] = v`. -/
def matrixElemSet (m : List Int) (r c cols : Int) (v : Int) : List Int :=
  wrBuf m (r * cols + c) v

/-- Assignment `matrixElem(C->matrix, r, c, cols) = v` on a matrix record. -/
def Matrix.store (C : Matrix) (r c cols : Int) (v : Int) : Matrix :=
  { C with matrix := matrixElemSet C.matrix r c cols v }

/-- The loop `for (int i = lo; i < hi; i++) body`, acting on a state. -/
def forLoop {σ : Type} (lo hi : Int) (body : Int → σ → σ) (s : σ) : σ :=
  (List.range (hi - lo).toNat).foldl (fun st (k : Nat) => body (lo + (k : Int)) st) s

/-! ## Allocation and initialisation -/

/-- Function `allocMatrix(side)`: a buffer of `side * side` uninitialised
elements, `row = col = side`. -/
def allocMatrix (junk : Nat → Nat → Int) (hp : Heap) (side : Int) : Matrix × Heap :=
  ({ matrix := (List.range (side * side).toNat).map (junk hp.serial),
     row := side, col := side },
   { live := hp.live + 1, serial := hp.serial + 1 })

/-- Function `freeMatrix(mat)`: releases the buffer and resets the dimensions. -/
def freeMatrix (hp : Heap) (_mat : Matrix) : Matrix × Heap :=
  ({ matrix := [], row := 0, col := 0 }, { hp with live := hp.live - 1 })

/-- Function `initMatrixZeros(mat)`. -/
def initMatrixZeros (mat : Matrix) : Matrix :=
  forLoop 0 mat.row (fun i mat =>
    forLoop 0 mat.col (fun j mat => mat.store i j mat.col 0) mat) mat

/-- Function `nextPowerOfTwo(n)`. The test `!(n & (n - 1))` is taken on the
non-negative values it is applied to; `(int)ceil(log2(n))` is the least `k` with
`n ≤ 2 ^ k` (the logarithm taken in exact real arithmetic), and `1 << k` is
`2 ^ k` in exact arithmetic. With a 32-bit `int` the shift is taken modulo
`2 ^ 32`: that function is `nextPowerOfTwo32`, and the two agree for every
`n ≤ 2 ^ 30`. -/
def nextPowerOfTwo (n : Int) : Int :=
  if n ≤ 0 then 1
  else if n.toNat &&& (n - 1).toNat = 0 then n
  else ((1 <<< Nat.clog 2 n.toNat : Nat) : Int)

/-! ## Block primitives -/

/-- Function `sumMatrix`: returns the `int` result and the new value of `*C`. -/
def sumMatrix (A : Matrix) (rowA colA : Int) (B : Matrix) (rowB colB : Int)
    (C : Matrix) (rowC colC : Int) (blockSize : Int) : Int × Matrix :=
  (0, forLoop 0 blockSize (fun i C =>
    forLoop 0 blockSize (fun j C =>
      C.store (i + rowC) (j + colC) C.col
        (matrixElem A.matrix (i + rowA) (j + colA) A.col +
         matrixElem B.matrix (i + rowB) (j + colB) B.col)) C) C)

/-- Function `subMatrix`: returns the `int` result and the new value of `*C`. -/
def subMatrix (A : Matrix) (rowA colA : Int) (B : Matrix) (rowB colB : Int)
    (C : Matrix) (rowC colC : Int) (blockSize : Int) : Int × Matrix :=
  (0, forLoop 0 blockSize (fun i C =>
    forLoop 0 blockSize (fun j C =>
      C.store (i + rowC) (j + colC) C.col
        (matrixElem A.matrix (i + rowA) (j + colA) A.col -
         matrixElem B.matrix (i + rowB) (j + colB) B.col)) C) C)

/-- Function `addSubmatrix`: returns the `int` result and the new value of `*B`. -/
def addSubmatrix (A : Matrix) (B : Matrix) (rowB colB : Int) (blockSize : Int) :
    Int × Matrix :=
  (0, forLoop 0 blockSize (fun i B =>
    forLoop 0 blockSize (fun j B =>
      B.store (i + rowB) (j + colB) B.col
        (matrixElem B.matrix (i + rowB) (j + colB) B.col +
         matrixElem A.matrix i j A.col)) B) B)

/-- Function `subSubmatrix`: returns the `int` result and the new value of `*B`. -/
def subSubmatrix (A : Matrix) (B : Matrix) (rowB colB : Int) (blockSize : Int) :
    Int × Matrix :=
  (0, forLoop 0 blockSize (fun i B =>
    forLoop 0 blockSize (fun j B =>
      B.store (i + rowB) (j + colB) B.col
        (matrixElem B.matrix (i + rowB) (j + colB) B.col -
         matrixElem A.matrix i j A.col)) B) B)

/-- Function `copySubmatrix`: returns the `int` result and the new value of `*C`. -/
def copySubmatrix (A : Matrix) (rowA colA : Int) (C : Matrix) (rowC colC : Int)
    (blockSize : Int) : Int × Matrix :=
  (0, forLoop 0 blockSize (fun i C =>
    forLoop 0 blockSize (fun j C =>
      C.store (i + rowC) (j + colC) C.col
        (matrixElem A.matrix (i + rowA) (j + colA) A.col)) C) C)

/-! ## Conventional multiplication -/

/-- Function `mul(A, B, C)`: the value of `*C` on return (the returned pointer
is `C` itself). Every access uses the field `row` as the stride, as the source
does. -/
def mul (A B C : Matrix) : Matrix :=
  forLoop 0 A.row (fun i C =>
    forLoop 0 A.col (fun j C =>
      let C := C.store i j C.row
        (matrixElem A.matrix i 0 A.row * matrixElem B.matrix 0 j B.row)
      forLoop 1 A.row (fun k C =>
        C.store i j C.row
          (matrixElem C.matrix i j C.row +
           matrixElem A.matrix i k A.row * matrixElem B.matrix k j B.row)) C) C) C

/-! ## Strassen recursion -/

/-- The recursive part of `strassenMul` (from `int newSide = A->row / 2` to the
final `return C`). The body of `strassenMul_hybrid` after its cutoff test is the
same text, and both make their seven calls to `strassenMul`; that callee is the
argument `recur`. -/
def strassenFrame (junk : Nat → Nat → Int)
    (recur : Heap → Matrix → Matrix → Matrix → Option (Matrix × Heap))
    (hp : Heap) (A B C : Matrix) : Option (Matrix × Heap) :=
  let newSide := A.row.tdiv 2
  let (temp1, hp) := allocMatrix junk hp newSide
  let (temp2, hp) := allocMatrix junk hp newSide
  let (P, hp) := allocMatrix junk hp newSide
  let C := initMatrixZeros C
  -- P1 = (A12 - A22) * (B21 + B22)
  let temp1 := (subMatrix A 0 newSide A newSide newSide temp1 0 0 newSide).2
  let temp2 := (sumMatrix B newSide 0 B newSide newSide temp2 0 0 newSide).2
  (recur hp temp1 temp2 P).bind fun (P, hp) =>
  -- C11 = P1
  let C := (copySubmatrix P 0 0 C 0 0 newSide).2
  -- P2 = (A11 + A22) * (B11 + B22)
  let temp1 := (sumMatrix A 0 0 A newSide newSide temp1 0 0 newSide).2
  let temp2 := (sumMatrix B 0 0 B newSide newSide temp2 0 0 newSide).2
  (recur hp temp1 temp2 P).bind fun (P, hp) =>
  -- C11 += P2, C22 = P2
  let C := (addSubmatrix P C 0 0 newSide).2
  let C := (copySubmatrix P 0 0 C newSide newSide newSide).2
  -- P3 = (A11 - A21) * (B11 + B12)
  let temp1 := (subMatrix A 0 0 A newSide 0 temp1 0 0 newSide).2
  let temp2 := (sumMatrix B 0 0 B 0 newSide temp2 0 0 newSide).2
  (recur hp temp1 temp2 P).bind fun (P, hp) =>
  -- C22 -= P3
  let C := (subSubmatrix P C newSide newSide newSide).2
  -- P4 = (A11 + A12) * B22
  let temp1 := (sumMatrix A 0 0 A 0 newSide temp1 0 0 newSide).2
  let temp2 := (copySubmatrix B newSide newSide temp2 0 0 newSide).2
  (recur hp temp1 temp2 P).bind fun (P, hp) =>
  -- C11 -= P4, C12 = P4
  let C := (subSubmatrix P C 0 0 newSide).2
  let C := (copySubmatrix P 0 0 C 0 newSide newSide).2
  -- P5 = A11 * (B12 - B22)
  let temp1 := (copySubmatrix A 0 0 temp1 0 0 newSide).2
  let temp2 := (subMatrix B 0 newSide B newSide newSide temp2 0 0 newSide).2
  (recur hp temp1 temp2 P).bind fun (P, hp) =>
  -- C12 += P5, C22 += P5
  let C := (addSubmatrix P C 0 newSide newSide).2
  let C := (addSubmatrix P C newSide newSide newSide).2
  -- P6 = A22 * (B21 - B11)
  let temp1 := (copySubmatrix A newSide newSide temp1 0 0 newSide).2
  let temp2 := (subMatrix B newSide 0 B 0 0 temp2 0 0 newSide).2
  (recur hp temp1 temp2 P).bind fun (P, hp) =>
  -- C11 += P6, C21 = P6
  let C := (addSubmatrix P C 0 0 newSide).2
  let C := (copySubmatrix P 0 0 C newSide 0 newSide).2
  -- P7 = (A21 + A22) * B11
  let temp1 := (sumMatrix A newSide 0 A newSide newSide temp1 0 0 newSide).2
  let temp2 := (copySubmatrix B 0 0 temp2 0 0 newSide).2
  (recur hp temp1 temp2 P).bind fun (P, hp) =>
  -- C21 += P7, C22 -= P7
  let C := (addSubmatrix P C newSide 0 newSide).2
  let C := (subSubmatrix P C newSide newSide newSide).2
  let (_, hp) := freeMatrix hp temp1
  let (_, hp) := freeMatrix hp temp2
  let (_, hp) := freeMatrix hp P
  some (C, hp)

/-- Function `strassenMul(A, B, C)`: the value of `*C` and the heap on return,
or `none` when more than `fuel` nested frames are needed. -/
def strassenMul (junk : Nat → Nat → Int) :
    Nat → Heap → Matrix → Matrix → Matrix → Option (Matrix × Heap)
  | 0, _, _, _, _ => none
  | fuel + 1, hp, A, B, C =>
    if A.row = 1 then
      some (C.store 0 0 C.col
        (matrixElem A.matrix 0 0 A.col * matrixElem B.matrix 0 0 B.col), hp)
    else
      strassenFrame junk (strassenMul junk fuel) hp A B C

/-- Function `strassenMul_hybrid(A, B, C, cutoff)`; `fuel` bounds the nested
frames of the `strassenMul` calls it makes. -/
def strassenMul_hybrid (junk : Nat → Nat → Int) (fuel : Nat) (hp : Heap)
    (A B C : Matrix) (cutoff : Int) : Option (Matrix × Heap) :=
  if A.row ≤ cutoff then
    some (mul A B C, hp)
  else
    strassenFrame junk (strassenMul junk fuel) hp A B C

/-! ## The benchmark driver -/

/-- The loop of `main` (`Strassen/strassen.c`) that fills both operands: `1`
inside the top-left `originalSide × originalSide` block, `0` elsewhere. -/
def mainFill (originalSide paddedSide : Int) (AB : Matrix × Matrix) : Matrix × Matrix :=
  forLoop 0 paddedSide (fun i AB =>
    forLoop 0 paddedSide (fun j AB =>
      if i < originalSide ∧ j < originalSide then
        (AB.1.store i j paddedSide 1, AB.2.store i j paddedSide 1)
      else
        (AB.1.store i j paddedSide 0, AB.2.store i j paddedSide 0)) AB) AB

/-- The set-up of `main` (`Strassen/strassen.c`) up to the timed call: the
padded side, the three allocations (taken to succeed) and the filling loop.
Returns the matrices `A`, `B`, `C` and the heap. -/
def mainOperands (junk : Nat → Nat → Int) (hp : Heap) (originalSide : Int) :
    (Matrix × Matrix × Matrix) × Heap :=
  let paddedSide := nextPowerOfTwo originalSide
  let (A, hp) := allocMatrix junk hp paddedSide
  let (B, hp) := allocMatrix junk hp paddedSide
  let (C, hp) := allocMatrix junk hp paddedSide
  let (A, B) := mainFill originalSide paddedSide (A, B)
  ((A, B, C), hp)

/-! ## Vocabulary of the specification -/

/-- The storage invariant: `row = col = n` and the buffer holds `n * n` elements. -/
def Matrix.IsSquare (M : Matrix) (n : Nat) : Prop :=
  M.row = (n : Int) ∧ M.col = (n : Int) ∧ M.matrix.length = n * n

/-- The element at row `i`, column `j`, read with the stride `col`. -/
def Matrix.cell (M : Matrix) (i j : Nat) : Int :=
  matrixElem M.matrix (i : Int) (j : Int) M.col

/-- The product of two matrices given by their cells: entry `(i, j)` of the
product of the leading `n × n` blocks. -/
def matProd (n : Nat) (a b : Nat → Nat → Int) (i j : Nat) : Int :=
  ∑ t in Finset.range n, a i t * b t j

/-- The cells that one Strassen level assembles from seven products `R` of
half-side operands, following the formulas in the comment above `strassenMul`:
quadrants lie at offsets `(0,0)`, `(0,h)`, `(h,0)`, `(h,h)`, and a cell outside
the four quadrants is `0`. -/
def strassenCombine (h : Nat)
    (R : (Nat → Nat → Int) → (Nat → Nat → Int) → Nat → Nat → Int)
    (a b : Nat → Nat → Int) (i j : Nat) : Int :=
  let P1 := R (fun i j => a i (j + h) - a (i + h) (j + h)) (fun i j => b (i + h) j + b (i + h) (j + h))
  let P2 := R (fun i j => a i j + a (i + h) (j + h)) (fun i j => b i j + b (i + h) (j + h))
  let P3 := R (fun i j => a i j - a (i + h) j) (fun i j => b i j + b i (j + h))
  let P4 := R (fun i j => a i j + a i (j + h)) (fun i j => b (i + h) (j + h))
  let P5 := R (fun i j => a i j) (fun i j => b i (j + h) - b (i + h) (j + h))
  let P6 := R (fun i j => a (i + h) (j + h)) (fun i j => b (i + h) j - b i j)
  let P7 := R (fun i j => a (i + h) j + a (i + h) (j + h)) (fun i j => b i j)
  if i < h then
    if j < h then P1 i j + P2 i j - P4 i j + P6 i j
    else if j < h + h then P4 i (j - h) + P5 i (j - h)
    else 0
  else if i < h + h then
    if j < h then P6 (i - h) j + P7 (i - h) j
    else if j < h + h then
      P2 (i - h) (j - h) - P3 (i - h) (j - h) + P5 (i - h) (j - h) - P7 (i - h) (j - h)
    else 0
  else 0

/-- Same dimensions and same buffer length. -/
def Matrix.SameShape (M N : Matrix) : Prop :=
  M.row = N.row ∧ M.col = N.col ∧ M.matrix.length = N.matrix.length

/-- The cells that `strassenMul` computes from the cells `a`, `b` of its operands
on side `n`, following its recursion for at most `fuel` nested frames: the scalar
product on side 1, otherwise the combination of seven results on side `n / 2`. -/
def strassenRef : Nat → Nat → (Nat → Nat → Int) → (Nat → Nat → Int) → Nat → Nat → Int
  | 0, _, _, _ => fun _ _ => 0
  | fuel + 1, n, a, b =>
    if n = 1 then fun _ _ => a 0 0 * b 0 0
    else strassenCombine (n / 2) (strassenRef fuel (n / 2)) a b

/-- The number of frames of `strassenMul` that go past the base case, on an
operand with `side` rows and within `fuel` nested frames: none on side 1,
otherwise this frame and those of its seven calls on `side / 2`. -/
def strassenFrames : Nat → Int → Nat
  | 0, _ => 0
  | fuel + 1, side => if side = 1 then 0 else 1 + 7 * strassenFrames fuel (side.tdiv 2)

/-- The storage invariant of one matrix as a test: `side ≥ 1`, `row = col = side`
and a buffer of `side * side` elements. -/
def Matrix.invariantOk (M : Matrix) (side : Int) : Bool :=
  decide (1 ≤ side) && decide (M.row = side) && decide (M.col = side) &&
    decide ((M.matrix.length : Int) = side * side)

/-- Function `strassenMul` run with the storage invariant asserted, at the entry
of every invocation, on both operands and on the result matrix (so on the three
temporaries handed to every recursive call): `none` also when an assertion
fails. -/
def strassenMulChecked (junk : Nat → Nat → Int) :
    Nat → Heap → Matrix → Matrix → Matrix → Option (Matrix × Heap)
  | 0, _, _, _, _ => none
  | fuel + 1, hp, A, B, C =>
    if A.invariantOk A.row && B.invariantOk A.row && C.invariantOk A.row then
      if A.row = 1 then
        some (C.store 0 0 C.col
          (matrixElem A.matrix 0 0 A.col * matrixElem B.matrix 0 0 B.col), hp)
      else
        strassenFrame junk (strassenMulChecked junk fuel) hp A B C
    else none

/-- Function `strassenMul_hybrid` run with the storage invariant asserted at its
entry and at the entry of every `strassenMul` invocation it causes. -/
def strassenMul_hybridChecked (junk : Nat → Nat → Int) (fuel : Nat) (hp : Heap)
    (A B C : Matrix) (cutoff : Int) : Option (Matrix × Heap) :=
  if A.invariantOk A.row && B.invariantOk A.row && C.invariantOk A.row then
    if A.row ≤ cutoff then
      some (mul A B C, hp)
    else
      strassenFrame junk (strassenMulChecked junk fuel) hp A B C
  else none

/-- A callee of a frame run with an assertion at its entry: both operands and
the result matrix handed to it are well-formed of side `side ≥ 1`, and exactly
`live` allocations are live; `none` when the assertion fails. -/
def assertTemps (side : Int) (live : Nat)
    (recur : Heap → Matrix → Matrix → Matrix → Option (Matrix × Heap)) :
    Heap → Matrix → Matrix → Matrix → Option (Matrix × Heap) :=
  fun hp X Y Z =>
    if X.invariantOk side && Y.invariantOk side && Z.invariantOk side &&
        decide (hp.live = live) then
      recur hp X Y Z
    else none

/-- Function `strassenMul` run with an assertion at each of the seven calls of
every frame: the matrices handed to the call, which are the temporaries `temp1`,
`temp2` and `P` of the frame, are well-formed of side `floor(A->row / 2)`, and
the live allocations are those at the entry of the frame and three more. -/
def strassenMulTemps (junk : Nat → Nat → Int) :
    Nat → Heap → Matrix → Matrix → Matrix → Option (Matrix × Heap)
  | 0, _, _, _, _ => none
  | fuel + 1, hp, A, B, C =>
    if A.row = 1 then
      some (C.store 0 0 C.col
        (matrixElem A.matrix 0 0 A.col * matrixElem B.matrix 0 0 B.col), hp)
    else
      strassenFrame junk
        (assertTemps (A.row / 2) (hp.live + 3) (strassenMulTemps junk fuel)) hp A B C

/-- Function `strassenMul_hybrid` run with the same assertion at each of the
seven calls of its frame and of every frame below. -/
def strassenMul_hybridTemps (junk : Nat → Nat → Int) (fuel : Nat) (hp : Heap)
    (A B C : Matrix) (cutoff : Int) : Option (Matrix × Heap) :=
  if A.row ≤ cutoff then
    some (mul A B C, hp)
  else
    strassenFrame junk
      (assertTemps (A.row / 2) (hp.live + 3) (strassenMulTemps junk fuel)) hp A B C

/-- The matrix `P` is what `strassenMul` returns, within `fuel` nested frames, on
a pair of well-formed operands of side `h` whose cells are `f` and `g` (called
with some well-formed result matrix of side `h`, in some heap). -/
def strassenReturns (junk : Nat → Nat → Int) (fuel h : Nat) (f g : Nat → Nat → Int)
    (P : Matrix) : Prop :=
  ∃ (hp : Heap) (X Y Z : Matrix) (hp' : Heap),
    X.IsSquare h ∧ Y.IsSquare h ∧ Z.IsSquare h ∧
    (∀ i j, i < h → j < h → X.cell i j = f i j) ∧
    (∀ i j, i < h → j < h → Y.cell i j = g i j) ∧
    strassenMul junk fuel hp X Y Z = some (P, hp')

/-! ## Variants of the recursion named by the specification -/

/-- The reference recursion `hybridRef` of the specification: `mul` when
`side ≤ cutoff`, otherwise one Strassen level whose seven products are `hybridRef`
products with the same cutoff (the text of `strassenMul_hybrid` with its seven
calls made to itself). -/
def hybridRef (junk : Nat → Nat → Int) :
    Nat → Heap → Matrix → Matrix → Matrix → Int → Option (Matrix × Heap)
  | 0, _, _, _, _, _ => none
  | fuel + 1, hp, A, B, C, cutoff =>
    if A.row ≤ cutoff then
      some (mul A B C, hp)
    else
      strassenFrame junk (fun hp X Y Z => hybridRef junk fuel hp X Y Z cutoff) hp A B C

/-- The text of `strassenFrame` with the call `initMatrixZeros(C)` removed. -/
def strassenFrameNoInit (junk : Nat → Nat → Int)
    (recur : Heap → Matrix → Matrix → Matrix → Option (Matrix × Heap))
    (hp : Heap) (A B C : Matrix) : Option (Matrix × Heap) :=
  let newSide := A.row.tdiv 2
  let (temp1, hp) := allocMatrix junk hp newSide
  let (temp2, hp) := allocMatrix junk hp newSide
  let (P, hp) := allocMatrix junk hp newSide
  -- P1 = (A12 - A22) * (B21 + B22)
  let temp1 := (subMatrix A 0 newSide A newSide newSide temp1 0 0 newSide).2
  let temp2 := (sumMatrix B newSide 0 B newSide newSide temp2 0 0 newSide).2
  (recur hp temp1 temp2 P).bind fun (P, hp) =>
  -- C11 = P1
  let C := (copySubmatrix P 0 0 C 0 0 newSide).2
  -- P2 = (A11 + A22) * (B11 + B22)
  let temp1 := (sumMatrix A 0 0 A newSide newSide temp1 0 0 newSide).2
  let temp2 := (sumMatrix B 0 0 B newSide newSide temp2 0 0 newSide).2
  (recur hp temp1 temp2 P).bind fun (P, hp) =>
  -- C11 += P2, C22 = P2
  let C := (addSubmatrix P C 0 0 newSide).2
  let C := (copySubmatrix P 0 0 C newSide newSide newSide).2
  -- P3 = (A11 - A21) * (B11 + B12)
  let temp1 := (subMatrix A 0 0 A newSide 0 temp1 0 0 newSide).2
  let temp2 := (sumMatrix B 0 0 B 0 newSide temp2 0 0 newSide).2
  (recur hp temp1 temp2 P).bind fun (P, hp) =>
  -- C22 -= P3
  let C := (subSubmatrix P C newSide newSide newSide).2
  -- P4 = (A11 + A12) * B22
  let temp1 := (sumMatrix A 0 0 A 0 newSide temp1 0 0 newSide).2
  let temp2 := (copySubmatrix B newSide newSide temp2 0 0 newSide).2
  (recur hp temp1 temp2 P).bind fun (P, hp) =>
  -- C11 -= P4, C12 = P4
  let C := (subSubmatrix P C 0 0 newSide).2
  let C := (copySubmatrix P 0 0 C 0 newSide newSide).2
  -- P5 = A11 * (B12 - B22)
  let temp1 := (copySubmatrix A 0 0 temp1 0 0 newSide).2
  let temp2 := (subMatrix B 0 newSide B newSide newSide temp2 0 0 newSide).2
  (recur hp temp1 temp2 P).bind fun (P, hp) =>
  -- C12 += P5, C22 += P5
  let C := (addSubmatrix P C 0 newSide newSide).2
  let C := (addSubmatrix P C newSide newSide newSide).2
  -- P6 = A22 * (B21 - B11)
  let temp1 := (copySubmatrix A newSide newSide temp1 0 0 newSide).2
  let temp2 := (subMatrix B newSide 0 B 0 0 temp2 0 0 newSide).2
  (recur hp temp1 temp2 P).bind fun (P, hp) =>
  -- C11 += P6, C21 = P6
  let C := (addSubmatrix P C 0 0 newSide).2
  let C := (copySubmatrix P 0 0 C newSide 0 newSide).2
  -- P7 = (A21 + A22) * B11
  let temp1 := (sumMatrix A newSide 0 A newSide newSide temp1 0 0 newSide).2
  let temp2 := (copySubmatrix B 0 0 temp2 0 0 newSide).2
  (recur hp temp1 temp2 P).bind fun (P, hp) =>
  -- C21 += P7, C22 -= P7
  let C := (addSubmatrix P C newSide 0 newSide).2
  let C := (subSubmatrix P C newSide newSide newSide).2
  let (_, hp) := freeMatrix hp temp1
  let (_, hp) := freeMatrix hp temp2
  let (_, hp) := freeMatrix hp P
  some (C, hp)

/-- The variant of `strassenMul` with the call `initMatrixZeros(C)` removed (its
recursive calls are calls of the variant). -/
def strassenMulNoInit (junk : Nat → Nat → Int) :
    Nat → Heap → Matrix → Matrix → Matrix → Option (Matrix × Heap)
  | 0, _, _, _, _ => none
  | fuel + 1, hp, A, B, C =>
    if A.row = 1 then
      some (C.store 0 0 C.col
        (matrixElem A.matrix 0 0 A.col * matrixElem B.matrix 0 0 B.col), hp)
    else
      strassenFrameNoInit junk (strassenMulNoInit junk fuel) hp A B C

/-! ## The program on a memory of records addressed by pointers

The functions are embedded a second time, now the way the C code passes its
arguments: a matrix argument is a pointer, i.e. a position in a memory holding
the `struct Matrix` records in existence, reads and writes go through the
pointers (so aliased arguments share their record), and the local records
`temp1`, `temp2`, `P` of a frame are appended to the memory and dropped on
return. Every element access is bounds-checked and every block handed to a
primitive is checked to lie within its matrix; a failed check yields `none`. -/

/-- Bounds test of one element access `matrixElem(M->matrix, r, c, cols)`:
`0 ≤ r < row`, `0 ≤ c < col`, and the row-major index lies in the buffer. -/
def Matrix.inBounds (M : Matrix) (r c cols : Int) : Bool :=
  decide (0 ≤ r ∧ r < M.row ∧ 0 ≤ c ∧ c < M.col ∧
    0 ≤ r * cols + c ∧ r * cols + c < (M.matrix.length : Int))

/-- Read `matrixElem(p->matrix, r, c, stride)` through the pointer `p`, the stride
being a field of `*p`; `none` when `p` is no object of the memory or the access
is out of bounds. -/
def readAt (mem : List Matrix) (p : Nat) (stride : Matrix → Int) (r c : Int) : Option Int :=
  (mem[p]?).bind fun M =>
    if M.inBounds r c (stride M) then some (matrixElem M.matrix r c (stride M)) else none

/-- Assignment `matrixElem(p->matrix, r, c, stride) = v` through the pointer `p`;
`none` when `p` is no object of the memory or the access is out of bounds. -/
def storeAt (mem : List Matrix) (p : Nat) (stride : Matrix → Int) (r c : Int) (v : Int) :
    Option (List Matrix) :=
  (mem[p]?).bind fun M =>
    if M.inBounds r c (stride M) then some (mem.set p (M.store r c (stride M) v)) else none

/-- Test that the block of side `s` at offset `(r, c)` lies within `*p`:
non-negative offsets, `r + s ≤ row`, `c + s ≤ col`. -/
def blockAt (mem : List Matrix) (p : Nat) (r c s : Int) : Bool :=
  match mem[p]? with
  | some M => decide (0 ≤ r ∧ 0 ≤ c ∧ r + s ≤ M.row ∧ c + s ≤ M.col)
  | none => false

/-- The loop `for (int i = lo; i < hi; i++) body` with a body that may fail. -/
def forLoopM {σ : Type} (lo hi : Int) (body : Int → σ → Option σ) (s : σ) : Option σ :=
  (List.range (hi - lo).toNat).foldl
    (fun st (k : Nat) => st.bind (body (lo + (k : Int)))) (some s)

/-- Function `initMatrixZeros` on a memory of matrix records addressed by
pointers, every element access checked. -/
def initMatrixZerosAt (mat : Nat) (mem : List Matrix) : Option (List Matrix) :=
  (mem[mat]?).bind fun M =>
    forLoopM 0 M.row (fun i mem =>
      forLoopM 0 M.col (fun j mem => storeAt mem mat Matrix.col i j 0) mem) mem

/-- Function `sumMatrix` on a memory of matrix records addressed by pointers,
every element access checked, and the three blocks checked at entry. -/
def sumMatrixAt (A : Nat) (rowA colA : Int) (B : Nat) (rowB colB : Int)
    (C : Nat) (rowC colC : Int) (blockSize : Int) (mem : List Matrix) :
    Option (Int × List Matrix) :=
  if blockAt mem A rowA colA blockSize && blockAt mem B rowB colB blockSize &&
      blockAt mem C rowC colC blockSize then
    (forLoopM 0 blockSize (fun i mem =>
      forLoopM 0 blockSize (fun j mem =>
        (readAt mem A Matrix.col (i + rowA) (j + colA)).bind fun a =>
        (readAt mem B Matrix.col (i + rowB) (j + colB)).bind fun b =>
        storeAt mem C Matrix.col (i + rowC) (j + colC) (a + b)) mem) mem).map
      fun mem => (0, mem)
  else none

/-- Function `subMatrix` on a memory of matrix records addressed by pointers,
every element access checked, and the three blocks checked at entry. -/
def subMatrixAt (A : Nat) (rowA colA : Int) (B : Nat) (rowB colB : Int)
    (C : Nat) (rowC colC : Int) (blockSize : Int) (mem : List Matrix) :
    Option (Int × List Matrix) :=
  if blockAt mem A rowA colA blockSize && blockAt mem B rowB colB blockSize &&
      blockAt mem C rowC colC blockSize then
    (forLoopM 0 blockSize (fun i mem =>
      forLoopM 0 blockSize (fun j mem =>
        (readAt mem A Matrix.col (i + rowA) (j + colA)).bind fun a =>
        (readAt mem B Matrix.col (i + rowB) (j + colB)).bind fun b =>
        storeAt mem C Matrix.col (i + rowC) (j + colC) (a - b)) mem) mem).map
      fun mem => (0, mem)
  else none

/-- Function `addSubmatrix` on a memory of matrix records addressed by pointers,
every element access checked, and both blocks checked at entry (the source block
lies at the origin of `*A`). -/
def addSubmatrixAt (A : Nat) (B : Nat) (rowB colB : Int) (blockSize : Int)
    (mem : List Matrix) : Option (Int × List Matrix) :=
  if blockAt mem A 0 0 blockSize && blockAt mem B rowB colB blockSize then
    (forLoopM 0 blockSize (fun i mem =>
      forLoopM 0 blockSize (fun j mem =>
        (readAt mem B Matrix.col (i + rowB) (j + colB)).bind fun b =>
        (readAt mem A Matrix.col i j).bind fun a =>
        storeAt mem B Matrix.col (i + rowB) (j + colB) (b + a)) mem) mem).map
      fun mem => (0, mem)
  else none

/-- Function `subSubmatrix` on a memory of matrix records addressed by pointers,
every element access checked, and both blocks checked at entry. -/
def subSubmatrixAt (A : Nat) (B : Nat) (rowB colB : Int) (blockSize : Int)
    (mem : List Matrix) : Option (Int × List Matrix) :=
  if blockAt mem A 0 0 blockSize && blockAt mem B rowB colB blockSize then
    (forLoopM 0 blockSize (fun i mem =>
      forLoopM 0 blockSize (fun j mem =>
        (readAt mem B Matrix.col (i + rowB) (j + colB)).bind fun b =>
        (readAt mem A Matrix.col i j).bind fun a =>
        storeAt mem B Matrix.col (i + rowB) (j + colB) (b - a)) mem) mem).map
      fun mem => (0, mem)
  else none

/-- Function `copySubmatrix` on a memory of matrix records addressed by pointers,
every element access checked, and both blocks checked at entry. -/
def copySubmatrixAt (A : Nat) (rowA colA : Int) (C : Nat) (rowC colC : Int)
    (blockSize : Int) (mem : List Matrix) : Option (Int × List Matrix) :=
  if blockAt mem A rowA colA blockSize && blockAt mem C rowC colC blockSize then
    (forLoopM 0 blockSize (fun i mem =>
      forLoopM 0 blockSize (fun j mem =>
        (readAt mem A Matrix.col (i + rowA) (j + colA)).bind fun a =>
        storeAt mem C Matrix.col (i + rowC) (j + colC) a) mem) mem).map
      fun mem => (0, mem)
  else none

/-- Function `mul` on a memory of matrix records addressed by pointers, every
element access checked (stride `row`, as in the source). -/
def mulAt (A B C : Nat) (mem : List Matrix) : Option (List Matrix) :=
  (mem[A]?).bind fun MA =>
    forLoopM 0 MA.row (fun i mem =>
      forLoopM 0 MA.col (fun j mem =>
        (readAt mem A Matrix.row i 0).bind fun a =>
        (readAt mem B Matrix.row 0 j).bind fun b =>
        (storeAt mem C Matrix.row i j (a * b)).bind fun mem =>
        forLoopM 1 MA.row (fun k mem =>
          (readAt mem C Matrix.row i j).bind fun c =>
          (readAt mem A Matrix.row i k).bind fun a =>
          (readAt mem B Matrix.row k j).bind fun b =>
          storeAt mem C Matrix.row i j (c + a * b)) mem) mem) mem

/-- Sequencing of a step that may fail with the rest of the computation. -/
@[noinline]
def seqStep {α β : Type} (x : Option α) (f : α → Option β) : Option β :=
  x.bind f

/-- The recursive part of `strassenMul` on a memory of matrix records addressed
by pointers: the three temporaries are new objects at the end of the memory,
every block handed to a primitive and every element access is checked, the seven
calls go to `recur`, and on return the three local records are gone. -/
def strassenFrameAt (junk : Nat → Nat → Int)
    (recur : Heap → Nat → Nat → Nat → List Matrix → Option (List Matrix × Heap))
    (hp : Heap) (A B C : Nat) (mem : List Matrix) : Option (List Matrix × Heap) :=
  seqStep (mem[A]?) fun MA =>
  let newSide := MA.row.tdiv 2
  let (t1, hp) := allocMatrix junk hp newSide
  let (t2, hp) := allocMatrix junk hp newSide
  let (t3, hp) := allocMatrix junk hp newSide
  let temp1 := mem.length
  let temp2 := mem.length + 1
  let P := mem.length + 2
  let mem := mem ++ [t1, t2, t3]
  seqStep (initMatrixZerosAt C mem) fun mem =>
  -- P1 = (A12 - A22) * (B21 + B22)
  seqStep (subMatrixAt A 0 newSide A newSide newSide temp1 0 0 newSide mem) fun r =>
  let mem := r.2
  seqStep (sumMatrixAt B newSide 0 B newSide newSide temp2 0 0 newSide mem) fun r =>
  let mem := r.2
  seqStep (recur hp temp1 temp2 P mem) fun r =>
  let mem := r.1
  let hp := r.2
  -- C11 = P1
  seqStep (copySubmatrixAt P 0 0 C 0 0 newSide mem) fun r =>
  let mem := r.2
  -- P2 = (A11 + A22) * (B11 + B22)
  seqStep (sumMatrixAt A 0 0 A newSide newSide temp1 0 0 newSide mem) fun r =>
  let mem := r.2
  seqStep (sumMatrixAt B 0 0 B newSide newSide temp2 0 0 newSide mem) fun r =>
  let mem := r.2
  seqStep (recur hp temp1 temp2 P mem) fun r =>
  let mem := r.1
  let hp := r.2
  -- C11 += P2, C22 = P2
  seqStep (addSubmatrixAt P C 0 0 newSide mem) fun r =>
  let mem := r.2
  seqStep (copySubmatrixAt P 0 0 C newSide newSide newSide mem) fun r =>
  let mem := r.2
  -- P3 = (A11 - A21) * (B11 + B12)
  seqStep (subMatrixAt A 0 0 A newSide 0 temp1 0 0 newSide mem) fun r =>
  let mem := r.2
  seqStep (sumMatrixAt B 0 0 B 0 newSide temp2 0 0 newSide mem) fun r =>
  let mem := r.2
  seqStep (recur hp temp1 temp2 P mem) fun r =>
  let mem := r.1
  let hp := r.2
  -- C22 -= P3
  seqStep (subSubmatrixAt P C newSide newSide newSide mem) fun r =>
  let mem := r.2
  -- P4 = (A11 + A12) * B22
  seqStep (sumMatrixAt A 0 0 A 0 newSide temp1 0 0 newSide mem) fun r =>
  let mem := r.2
  seqStep (copySubmatrixAt B newSide newSide temp2 0 0 newSide mem) fun r =>
  let mem := r.2
  seqStep (recur hp temp1 temp2 P mem) fun r =>
  let mem := r.1
  let hp := r.2
  -- C11 -= P4, C12 = P4
  seqStep (subSubmatrixAt P C 0 0 newSide mem) fun r =>
  let mem := r.2
  seqStep (copySubmatrixAt P 0 0 C 0 newSide newSide mem) fun r =>
  let mem := r.2
  -- P5 = A11 * (B12 - B22)
  seqStep (copySubmatrixAt A 0 0 temp1 0 0 newSide mem) fun r =>
  let mem := r.2
  seqStep (subMatrixAt B 0 newSide B newSide newSide temp2 0 0 newSide mem) fun r =>
  let mem := r.2
  seqStep (recur hp temp1 temp2 P mem) fun r =>
  let mem := r.1
  let hp := r.2
  -- C12 += P5, C22 += P5
  seqStep (addSubmatrixAt P C 0 newSide newSide mem) fun r =>
  let mem := r.2
  seqStep (addSubmatrixAt P C newSide newSide newSide mem) fun r =>
  let mem := r.2
  -- P6 = A22 * (B21 - B11)
  seqStep (copySubmatrixAt A newSide newSide temp1 0 0 newSide mem) fun r =>
  let mem := r.2
  seqStep (subMatrixAt B newSide 0 B 0 0 temp2 0 0 newSide mem) fun r =>
  let mem := r.2
  seqStep (recur hp temp1 temp2 P mem) fun r =>
  let mem := r.1
  let hp := r.2
  -- C11 += P6, C21 = P6
  seqStep (addSubmatrixAt P C 0 0 newSide mem) fun r =>
  let mem := r.2
  seqStep (copySubmatrixAt P 0 0 C newSide 0 newSide mem) fun r =>
  let mem := r.2
  -- P7 = (A21 + A22) * B11
  seqStep (sumMatrixAt A newSide 0 A newSide newSide temp1 0 0 newSide mem) fun r =>
  let mem := r.2
  seqStep (copySubmatrixAt B 0 0 temp2 0 0 newSide mem) fun r =>
  let mem := r.2
  seqStep (recur hp temp1 temp2 P mem) fun r =>
  let mem := r.1
  let hp := r.2
  -- C21 += P7, C22 -= P7
  seqStep (addSubmatrixAt P C newSide 0 newSide mem) fun r =>
  let mem := r.2
  seqStep (subSubmatrixAt P C newSide newSide newSide mem) fun r =>
  let mem := r.2
  let hp := (freeMatrix hp (mem.getD temp1 ⟨[], 0, 0⟩)).2
  let hp := (freeMatrix hp (mem.getD temp2 ⟨[], 0, 0⟩)).2
  let hp := (freeMatrix hp (mem.getD P ⟨[], 0, 0⟩)).2
  some (mem.take temp1, hp)

/-- Function `strassenMul(A, B, C)` on a memory of matrix records addressed by
pointers, with every element access and every block checked: the memory and the
heap on return, or `none` when a check fails or more than `fuel` nested frames
are needed. -/
def strassenMulAt (junk : Nat → Nat → Int) :
    Nat → Heap → Nat → Nat → Nat → List Matrix → Option (List Matrix × Heap)
  | 0, _, _, _, _, _ => none
  | fuel + 1, hp, A, B, C, mem =>
    (mem[A]?).bind fun MA =>
      if MA.row = 1 then
        (readAt mem A Matrix.col 0 0).bind fun a =>
        (readAt mem B Matrix.col 0 0).bind fun b =>
        (storeAt mem C Matrix.col 0 0 (a * b)).map fun mem => (mem, hp)
      else
        strassenFrameAt junk (strassenMulAt junk fuel) hp A B C mem

/-- Function `strassenMul_hybrid(A, B, C, cutoff)` on a memory of matrix records
addressed by pointers, with every element access and every block checked. -/
def strassenMul_hybridAt (junk : Nat → Nat → Int) (fuel : Nat) (hp : Heap)
    (A B C : Nat) (cutoff : Int) (mem : List Matrix) : Option (List Matrix × Heap) :=
  (mem[A]?).bind fun MA =>
    if MA.row ≤ cutoff then
      (mulAt A B C mem).map fun mem => (mem, hp)
    else
      strassenFrameAt junk (strassenMulAt junk fuel) hp A B C mem

/-- The memory inside a frame: the caller's memory with the result matrix at `pC`
holding `Cv`, followed by the three temporaries. -/
def frameMem (mem : List Matrix) (pC : Nat) (Cv T U P : Matrix) : List Matrix :=
  mem.set pC Cv ++ [T, U, P]

/-- The memory `mem'` differs from `mem` at most in the record at `p`: same
number of records, and every other record is as before. -/
def onlyChanges (mem mem' : List Matrix) (p : Nat) : Prop :=
  mem'.length = mem.length ∧ ∀ q, q ≠ p → mem'[q]? = mem[q]?

/-- Function `strassenMul` with its base-case multiplications counted: the text
of `strassenMul`, except that every execution of the base case also advances the
counter `serial` of the heap record by one, so that `serial` counts the
allocations made plus the scalar multiplications executed. -/
def strassenMulCounting (junk : Nat → Nat → Int) :
    Nat → Heap → Matrix → Matrix → Matrix → Option (Matrix × Heap)
  | 0, _, _, _, _ => none
  | fuel + 1, hp, A, B, C =>
    if A.row = 1 then
      some (C.store 0 0 C.col
        (matrixElem A.matrix 0 0 A.col * matrixElem B.matrix 0 0 B.col),
        { hp with serial := hp.serial + 1 })
    else
      strassenFrame junk (strassenMulCounting junk fuel) hp A B C

/-- The number of base-case multiplications `strassenMul` executes on an operand
with `side` rows, within `fuel` nested frames: one on side 1, otherwise those of
the seven calls on `side / 2`. -/
def strassenBaseCases : Nat → Int → Nat
  | 0, _ => 0
  | fuel + 1, side => if side = 1 then 1 else 7 * strassenBaseCases fuel (side.tdiv 2)

/-- The value of a signed 32-bit `int` holding `x` modulo `2 ^ 32`
(two's complement): the representative in `[-2 ^ 31, 2 ^ 31)`. -/
def wrap32 (x : Int) : Int :=
  (x + 2 ^ 31) % 2 ^ 32 - 2 ^ 31

/-- Function `nextPowerOfTwo(n)` in signed 32-bit arithmetic: as
`nextPowerOfTwo`, with the result of the shift `1 << k` taken modulo `2 ^ 32`. -/
def nextPowerOfTwo32 (n : Int) : Int :=
  if n ≤ 0 then 1
  else if n.toNat &&& (n - 1).toNat = 0 then n
  else wrap32 ((1 <<< Nat.clog 2 n.toNat : Nat) : Int)

/-! ## The raw-buffer variant of `StrassenMul/strassenV1.c` -/

/-- Function `alloc_matrix(side)` of `strassenV1.c`: a buffer of `side * side`
uninitialised elements. -/
def alloc_matrix (junk : Nat → Nat → Int) (hp : Heap) (side : Int) : List Int × Heap :=
  ((List.range (side * side).toNat).map (junk hp.serial),
   { live := hp.live + 1, serial := hp.serial + 1 })

/-- The library call `free(p)` on a buffer obtained from `alloc_matrix`. -/
def free (hp : Heap) : Heap :=
  { hp with live := hp.live - 1 }

/-- Function `sum_matrix` of `strassenV1.c`: returns the `int` result and the new
contents of the buffer `C`. -/
def sum_matrix (A B C : List Int) (rowA colA rowB colB rowC colC : Int)
    (block_size side_source side_dest : Int) : Int × List Int :=
  (0, forLoop 0 block_size (fun i C =>
    forLoop 0 block_size (fun j C =>
      matrixElemSet C (i + rowC) (j + colC) side_dest
        (matrixElem A (i + rowA) (j + colA) side_source +
         matrixElem B (i + rowB) (j + colB) side_source)) C) C)

/-- Function `sub_matrix` of `strassenV1.c`: returns the `int` result and the new
contents of the buffer `C`. -/
def sub_matrix (A B C : List Int) (rowA colA rowB colB rowC colC : Int)
    (block_size side_source side_dest : Int) : Int × List Int :=
  (0, forLoop 0 block_size (fun i C =>
    forLoop 0 block_size (fun j C =>
      matrixElemSet C (i + rowC) (j + colC) side_dest
        (matrixElem A (i + rowA) (j + colA) side_source -
         matrixElem B (i + rowB) (j + colB) side_source)) C) C)

/-- Function `add_submatrix` of `strassenV1.c` (`B[...] += A[...]`): returns the
`int` result and the new contents of the buffer `B`. -/
def add_submatrix (A B : List Int) (rowB colB : Int) (block_size side_A side_B : Int) :
    Int × List Int :=
  (0, forLoop 0 block_size (fun i B =>
    forLoop 0 block_size (fun j B =>
      matrixElemSet B (i + rowB) (j + colB) side_B
        (matrixElem B (i + rowB) (j + colB) side_B + matrixElem A i j side_A)) B) B)

/-- Function `sub_submatrix` of `strassenV1.c` (`B[...] -= A[...]`): returns the
`int` result and the new contents of the buffer `B`. -/
def sub_submatrix (A B : List Int) (rowB colB : Int) (block_size side_A side_B : Int) :
    Int × List Int :=
  (0, forLoop 0 block_size (fun i B =>
    forLoop 0 block_size (fun j B =>
      matrixElemSet B (i + rowB) (j + colB) side_B
        (matrixElem B (i + rowB) (j + colB) side_B - matrixElem A i j side_A)) B) B)

/-- Function `copy_submatrix` of `strassenV1.c`: returns the `int` result and the
new contents of the buffer `C`. -/
def copy_submatrix (A : List Int) (rowA colA : Int) (C : List Int) (rowC colC : Int)
    (block_size side_A side_C : Int) : Int × List Int :=
  (0, forLoop 0 block_size (fun i C =>
    forLoop 0 block_size (fun j C =>
      matrixElemSet C (i + rowC) (j + colC) side_C
        (matrixElem A (i + rowA) (j + colA) side_A)) C) C)

/-- Function `init_matrix_zeros(C, side)` of `strassenV1.c`. -/
def init_matrix_zeros (C : List Int) (side : Int) : List Int :=
  forLoop 0 side (fun i C =>
    forLoop 0 side (fun j C => matrixElemSet C i j side 0) C) C

/-- The recursive part of `strassen_mul` of `StrassenMul/strassenV1.c` (from
`int new_side = side / 2` to the final `return C`), on raw buffers with explicit
sides; the diagnostic printing is left out, and the seven calls go to `recur`. -/
def strassen_mulFrame (junk : Nat → Nat → Int)
    (recur : Heap → List Int → List Int → List Int → Int → Option (List Int × Heap))
    (hp : Heap) (A B C : List Int) (side : Int) : Option (List Int × Heap) :=
  let new_side := side.tdiv 2
  let (temp1, hp) := alloc_matrix junk hp new_side
  let (temp2, hp) := alloc_matrix junk hp new_side
  let (P, hp) := alloc_matrix junk hp new_side
  let C := init_matrix_zeros C side
  -- P1 = (A12 - A22) * (B21 + B22)
  let temp1 := (sub_matrix A A temp1 0 new_side new_side new_side 0 0 new_side side new_side).2
  let temp2 := (sum_matrix B B temp2 new_side 0 new_side new_side 0 0 new_side side new_side).2
  (recur hp temp1 temp2 P new_side).bind fun (P, hp) =>
  -- C11 = P1
  let C := (copy_submatrix P 0 0 C 0 0 new_side new_side side).2
  -- P2 = (A11 + A22) * (B11 + B22)
  let temp1 := (sum_matrix A A temp1 0 0 new_side new_side 0 0 new_side side new_side).2
  let temp2 := (sum_matrix B B temp2 0 0 new_side new_side 0 0 new_side side new_side).2
  (recur hp temp1 temp2 P new_side).bind fun (P, hp) =>
  -- C11 += P2, C22 = P2
  let C := (add_submatrix P C 0 0 new_side new_side side).2
  let C := (copy_submatrix P 0 0 C new_side new_side new_side new_side side).2
  -- P3 = (A11 - A21) * (B11 + B12)
  let temp1 := (sub_matrix A A temp1 0 0 new_side 0 0 0 new_side side new_side).2
  let temp2 := (sum_matrix B B temp2 0 0 0 new_side 0 0 new_side side new_side).2
  (recur hp temp1 temp2 P new_side).bind fun (P, hp) =>
  -- C22 -= P3
  let C := (sub_submatrix P C new_side new_side new_side new_side side).2
  -- P4 = (A11 + A12) * B22
  let temp1 := (sum_matrix A A temp1 0 0 0 new_side 0 0 new_side side new_side).2
  let temp2 := (copy_submatrix B new_side new_side temp2 0 0 new_side side new_side).2
  (recur hp temp1 temp2 P new_side).bind fun (P, hp) =>
  -- C11 -= P4, C12 = P4
  let C := (sub_submatrix P C 0 0 new_side new_side side).2
  let C := (copy_submatrix P 0 0 C 0 new_side new_side new_side side).2
  -- P5 = A11 * (B12 - B22)
  let temp1 := (copy_submatrix A 0 0 temp1 0 0 new_side side new_side).2
  let temp2 := (sub_matrix B B temp2 0 new_side new_side new_side 0 0 new_side side new_side).2
  (recur hp temp1 temp2 P new_side).bind fun (P, hp) =>
  -- C12 += P5, C22 += P5
  let C := (add_submatrix P C 0 new_side new_side new_side side).2
  let C := (add_submatrix P C new_side new_side new_side new_side side).2
  -- P6 = A22 * (B21 - B11)
  let temp1 := (copy_submatrix A new_side new_side temp1 0 0 new_side side new_side).2
  let temp2 := (sub_matrix B B temp2 new_side 0 0 0 0 0 new_side side new_side).2
  (recur hp temp1 temp2 P new_side).bind fun (P, hp) =>
  -- C11 += P6, C21 = P6
  let C := (add_submatrix P C 0 0 new_side new_side side).2
  let C := (copy_submatrix P 0 0 C new_side 0 new_side new_side side).2
  -- P7 = (A21 + A22) * B11
  let temp1 := (sum_matrix A A temp1 new_side 0 new_side new_side 0 0 new_side side new_side).2
  let temp2 := (copy_submatrix B 0 0 temp2 0 0 new_side side new_side).2
  (recur hp temp1 temp2 P new_side).bind fun (P, hp) =>
  -- C21 += P7, C22 -= P7
  let C := (add_submatrix P C new_side 0 new_side new_side side).2
  let C := (sub_submatrix P C new_side new_side new_side new_side side).2
  let hp := free hp
  let hp := free hp
  let hp := free hp
  some (C, hp)

/-- Function `strassen_mul(A, B, C, side)` of `strassenV1.c`: the contents of the
buffer `C` and the heap on return, or `none` when more than `fuel` nested frames
are needed. -/
def strassen_mul (junk : Nat → Nat → Int) :
    Nat → Heap → List Int → List Int → List Int → Int → Option (List Int × Heap)
  | 0, _, _, _, _, _ => none
  | fuel + 1, hp, A, B, C, side =>
    if side = 1 then
      some (matrixElemSet C 0 0 side (matrixElem A 0 0 side * matrixElem B 0 0 side), hp)
    else
      strassen_mulFrame junk (strassen_mul junk fuel) hp A B C side

/-! ## The copy in `StrassenMul/strassen.c`

That file declares `struct Matrix` and `matrixElem` itself and repeats
`allocMatrix`, `freeMatrix`, `initMatrixZeros` and the five block primitives with
the same code as `matrix_operation/matrix.c`, so these share their embedding; its
`strassenMul` is embedded separately below. -/

/-- The recursive part of `strassenMul` in `StrassenMul/strassen.c`. -/
def StrassenMulFile.strassenFrame (junk : Nat → Nat → Int)
    (recur : Heap → Matrix → Matrix → Matrix → Option (Matrix × Heap))
    (hp : Heap) (A B C : Matrix) : Option (Matrix × Heap) :=
  let newSide := A.row.tdiv 2
  let (temp1, hp) := allocMatrix junk hp newSide
  let (temp2, hp) := allocMatrix junk hp newSide
  let (P, hp) := allocMatrix junk hp newSide
  let C := initMatrixZeros C
  -- P1 = (A12 - A22) * (B21 + B22)
  let temp1 := (subMatrix A 0 newSide A newSide newSide temp1 0 0 newSide).2
  let temp2 := (sumMatrix B newSide 0 B newSide newSide temp2 0 0 newSide).2
  (recur hp temp1 temp2 P).bind fun (P, hp) =>
  -- C11 = P1
  let C := (copySubmatrix P 0 0 C 0 0 newSide).2
  -- P2 = (A11 + A22) * (B11 + B22)
  let temp1 := (sumMatrix A 0 0 A newSide newSide temp1 0 0 newSide).2
  let temp2 := (sumMatrix B 0 0 B newSide newSide temp2 0 0 newSide).2
  (recur hp temp1 temp2 P).bind fun (P, hp) =>
  -- C11 += P2, C22 = P2
  let C := (addSubmatrix P C 0 0 newSide).2
  let C := (copySubmatrix P 0 0 C newSide newSide newSide).2
  -- P3 = (A11 - A21) * (B11 + B12)
  let temp1 := (subMatrix A 0 0 A newSide 0 temp1 0 0 newSide).2
  let temp2 := (sumMatrix B 0 0 B 0 newSide temp2 0 0 newSide).2
  (recur hp temp1 temp2 P).bind fun (P, hp) =>
  -- C22 -= P3
  let C := (subSubmatrix P C newSide newSide newSide).2
  -- P4 = (A11 + A12) * B22
  let temp1 := (sumMatrix A 0 0 A 0 newSide temp1 0 0 newSide).2
  let temp2 := (copySubmatrix B newSide newSide temp2 0 0 newSide).2
  (recur hp temp1 temp2 P).bind fun (P, hp) =>
  -- C11 -= P4, C12 = P4
  let C := (subSubmatrix P C 0 0 newSide).2
  let C := (copySubmatrix P 0 0 C 0 newSide newSide).2
  -- P5 = A11 * (B12 - B22)
  let temp1 := (copySubmatrix A 0 0 temp1 0 0 newSide).2
  let temp2 := (subMatrix B 0 newSide B newSide newSide temp2 0 0 newSide).2
  (recur hp temp1 temp2 P).bind fun (P, hp) =>
  -- C12 += P5, C22 += P5
  let C := (addSubmatrix P C 0 newSide newSide).2
  let C := (addSubmatrix P C newSide newSide newSide).2
  -- P6 = A22 * (B21 - B11)
  let temp1 := (copySubmatrix A newSide newSide temp1 0 0 newSide).2
  let temp2 := (subMatrix B newSide 0 B 0 0 temp2 0 0 newSide).2
  (recur hp temp1 temp2 P).bind fun (P, hp) =>
  -- C11 += P6, C21 = P6
  let C := (addSubmatrix P C 0 0 newSide).2
  let C := (copySubmatrix P 0 0 C newSide 0 newSide).2
  -- P7 = (A21 + A22) * B11
  let temp1 := (sumMatrix A newSide 0 A newSide newSide temp1 0 0 newSide).2
  let temp2 := (copySubmatrix B 0 0 temp2 0 0 newSide).2
  (recur hp temp1 temp2 P).bind fun (P, hp) =>
  -- C21 += P7, C22 -= P7
  let C := (addSubmatrix P C newSide 0 newSide).2
  let C := (subSubmatrix P C newSide newSide newSide).2
  let (_, hp) := freeMatrix hp temp1
  let (_, hp) := freeMatrix hp temp2
  let (_, hp) := freeMatrix hp P
  some (C, hp)

/-- Function `strassenMul(A, B, C)` of `StrassenMul/strassen.c`. -/
def StrassenMulFile.strassenMul (junk : Nat → Nat → Int) :
    Nat → Heap → Matrix → Matrix → Matrix → Option (Matrix × Heap)
  | 0, _, _, _, _ => none
  | fuel + 1, hp, A, B, C =>
    if A.row = 1 then
      some (C.store 0 0 C.col
        (matrixElem A.matrix 0 0 A.col * matrixElem B.matrix 0 0 B.col), hp)
    else
      StrassenMulFile.strassenFrame junk (StrassenMulFile.strassenMul junk fuel) hp A B C

/-! ## The program with 32-bit element arithmetic

Every `+`, `-` and `*` on matrix elements is followed by `wrap32`, the reduction
to the two's-complement representative modulo `2 ^ 32`; index arithmetic is left
exact. `copySubmatrix` and `initMatrixZeros` do no element arithmetic and are used
as they are. -/

/-- The matrix whose elements are those of `M` reduced to signed 32-bit values. -/
def Matrix.toInt32 (M : Matrix) : Matrix :=
  { M with matrix := M.matrix.map wrap32 }

/-- Every element of the buffer is a signed 32-bit value. -/
def Matrix.IsInt32 (M : Matrix) : Prop :=
  ∀ x ∈ M.matrix, -2 ^ 31 ≤ x ∧ x < 2 ^ 31

/-- Function `sumMatrix` with the element arithmetic taken modulo `2 ^ 32`. -/
def sumMatrix32 (A : Matrix) (rowA colA : Int) (B : Matrix) (rowB colB : Int)
    (C : Matrix) (rowC colC : Int) (blockSize : Int) : Int × Matrix :=
  (0, forLoop 0 blockSize (fun i C =>
    forLoop 0 blockSize (fun j C =>
      C.store (i + rowC) (j + colC) C.col
        (wrap32 (matrixElem A.matrix (i + rowA) (j + colA) A.col +
         matrixElem B.matrix (i + rowB) (j + colB) B.col))) C) C)

/-- Function `subMatrix` with the element arithmetic taken modulo `2 ^ 32`. -/
def subMatrix32 (A : Matrix) (rowA colA : Int) (B : Matrix) (rowB colB : Int)
    (C : Matrix) (rowC colC : Int) (blockSize : Int) : Int × Matrix :=
  (0, forLoop 0 blockSize (fun i C =>
    forLoop 0 blockSize (fun j C =>
      C.store (i + rowC) (j + colC) C.col
        (wrap32 (matrixElem A.matrix (i + rowA) (j + colA) A.col -
         matrixElem B.matrix (i + rowB) (j + colB) B.col))) C) C)

/-- Function `addSubmatrix` with the element arithmetic taken modulo `2 ^ 32`. -/
def addSubmatrix32 (A : Matrix) (B : Matrix) (rowB colB : Int) (blockSize : Int) :
    Int × Matrix :=
  (0, forLoop 0 blockSize (fun i B =>
    forLoop 0 blockSize (fun j B =>
      B.store (i + rowB) (j + colB) B.col
        (wrap32 (matrixElem B.matrix (i + rowB) (j + colB) B.col +
         matrixElem A.matrix i j A.col))) B) B)

/-- Function `subSubmatrix` with the element arithmetic taken modulo `2 ^ 32`. -/
def subSubmatrix32 (A : Matrix) (B : Matrix) (rowB colB : Int) (blockSize : Int) :
    Int × Matrix :=
  (0, forLoop 0 blockSize (fun i B =>
    forLoop 0 blockSize (fun j B =>
      B.store (i + rowB) (j + colB) B.col
        (wrap32 (matrixElem B.matrix (i + rowB) (j + colB) B.col -
         matrixElem A.matrix i j A.col))) B) B)

/-- Function `mul` with the element arithmetic taken modulo `2 ^ 32`. -/
def mul32 (A B C : Matrix) : Matrix :=
  forLoop 0 A.row (fun i C =>
    forLoop 0 A.col (fun j C =>
      let C := C.store i j C.row
        (wrap32 (matrixElem A.matrix i 0 A.row * matrixElem B.matrix 0 j B.row))
      forLoop 1 A.row (fun k C =>
        C.store i j C.row
          (wrap32 (matrixElem C.matrix i j C.row +
           wrap32 (matrixElem A.matrix i k A.row * matrixElem B.matrix k j B.row)))) C) C) C

/-- The recursive part of `strassenMul` with the element arithmetic taken modulo
`2 ^ 32`. -/
def strassenFrame32 (junk : Nat → Nat → Int)
    (recur : Heap → Matrix → Matrix → Matrix → Option (Matrix × Heap))
    (hp : Heap) (A B C : Matrix) : Option (Matrix × Heap) :=
  let newSide := A.row.tdiv 2
  let (temp1, hp) := allocMatrix junk hp newSide
  let (temp2, hp) := allocMatrix junk hp newSide
  let (P, hp) := allocMatrix junk hp newSide
  let C := initMatrixZeros C
  -- P1 = (A12 - A22) * (B21 + B22)
  let temp1 := (subMatrix32 A 0 newSide A newSide newSide temp1 0 0 newSide).2
  let temp2 := (sumMatrix32 B newSide 0 B newSide newSide temp2 0 0 newSide).2
  (recur hp temp1 temp2 P).bind fun (P, hp) =>
  -- C11 = P1
  let C := (copySubmatrix P 0 0 C 0 0 newSide).2
  -- P2 = (A11 + A22) * (B11 + B22)
  let temp1 := (sumMatrix32 A 0 0 A newSide newSide temp1 0 0 newSide).2
  let temp2 := (sumMatrix32 B 0 0 B newSide newSide temp2 0 0 newSide).2
  (recur hp temp1 temp2 P).bind fun (P, hp) =>
  -- C11 += P2, C22 = P2
  let C := (addSubmatrix32 P C 0 0 newSide).2
  let C := (copySubmatrix P 0 0 C newSide newSide newSide).2
  -- P3 = (A11 - A21) * (B11 + B12)
  let temp1 := (subMatrix32 A 0 0 A newSide 0 temp1 0 0 newSide).2
  let temp2 := (sumMatrix32 B 0 0 B 0 newSide temp2 0 0 newSide).2
  (recur hp temp1 temp2 P).bind fun (P, hp) =>
  -- C22 -= P3
  let C := (subSubmatrix32 P C newSide newSide newSide).2
  -- P4 = (A11 + A12) * B22
  let temp1 := (sumMatrix32 A 0 0 A 0 newSide temp1 0 0 newSide).2
  let temp2 := (copySubmatrix B newSide newSide temp2 0 0 newSide).2
  (recur hp temp1 temp2 P).bind fun (P, hp) =>
  -- C11 -= P4, C12 = P4
  let C := (subSubmatrix32 P C 0 0 newSide).2
  let C := (copySubmatrix P 0 0 C 0 newSide newSide).2
  -- P5 = A11 * (B12 - B22)
  let temp1 := (copySubmatrix A 0 0 temp1 0 0 newSide).2
  let temp2 := (subMatrix32 B 0 newSide B newSide newSide temp2 0 0 newSide).2
  (recur hp temp1 temp2 P).bind fun (P, hp) =>
  -- C12 += P5, C22 += P5
  let C := (addSubmatrix32 P C 0 newSide newSide).2
  let C := (addSubmatrix32 P C newSide newSide newSide).2
  -- P6 = A22 * (B21 - B11)
  let temp1 := (copySubmatrix A newSide newSide temp1 0 0 newSide).2
  let temp2 := (subMatrix32 B newSide 0 B 0 0 temp2 0 0 newSide).2
  (recur hp temp1 temp2 P).bind fun (P, hp) =>
  -- C11 += P6, C21 = P6
  let C := (addSubmatrix32 P C 0 0 newSide).2
  let C := (copySubmatrix P 0 0 C newSide 0 newSide).2
  -- P7 = (A21 + A22) * B11
  let temp1 := (sumMatrix32 A newSide 0 A newSide newSide temp1 0 0 newSide).2
  let temp2 := (copySubmatrix B 0 0 temp2 0 0 newSide).2
  (recur hp temp1 temp2 P).bind fun (P, hp) =>
  -- C21 += P7, C22 -= P7
  let C := (addSubmatrix32 P C newSide 0 newSide).2
  let C := (subSubmatrix32 P C newSide newSide newSide).2
  let (_, hp) := freeMatrix hp temp1
  let (_, hp) := freeMatrix hp temp2
  let (_, hp) := freeMatrix hp P
  some (C, hp)

/-- Function `strassenMul` with the element arithmetic taken modulo `2 ^ 32`. -/
def strassenMul32 (junk : Nat → Nat → Int) :
    Nat → Heap → Matrix → Matrix → Matrix → Option (Matrix × Heap)
  | 0, _, _, _, _ => none
  | fuel + 1, hp, A, B, C =>
    if A.row = 1 then
      some (C.store 0 0 C.col
        (wrap32 (matrixElem A.matrix 0 0 A.col * matrixElem B.matrix 0 0 B.col)), hp)
    else
      strassenFrame32 junk (strassenMul32 junk fuel) hp A B C

/-! ## Buffers, cells and loops -/

theorem wrBuf_length (m : List Int) (idx v : Int) : (wrBuf m idx v).length = m.length := by
  unfold wrBuf; split <;> simp

theorem rdBuf_wrBuf_nat (m : List Int) (p q : Nat) (v : Int) (hp : p < m.length) :
    rdBuf (wrBuf m (p : Int) v) (q : Int) = if q = p then v else rdBuf m (q : Int) := by
  unfold rdBuf wrBuf
  simp only [Int.natCast_nonneg, if_true, Int.toNat_ofNat]
  by_cases h : q = p
  · subst h; simp [List.getD_eq_getElem?_getD, hp]
  · simp [List.getD_eq_getElem?_getD, h, List.getElem?_set_ne (Ne.symm h)]

theorem rowMajor_lt {n a b : Nat} (ha : a < n) (hb : b < n) : a * n + b < n * n := by
  have : (a + 1) * n ≤ n * n := Nat.mul_le_mul_right n ha
  nlinarith

theorem rowMajor_inj {n a b a' b' : Nat} (hb : b < n) (hb' : b' < n)
    (h : a * n + b = a' * n + b') : a = a' ∧ b = b' := by
  have h1 : (a * n + b) / n = (a' * n + b') / n := by rw [h]
  have hn : 0 < n := by omega
  rw [Nat.mul_comm a n, Nat.mul_comm a' n, Nat.mul_add_div hn, Nat.mul_add_div hn,
    Nat.div_eq_of_lt hb, Nat.div_eq_of_lt hb'] at h1
  simp at h1
  subst h1
  exact ⟨rfl, by omega⟩

theorem IsSquare_store {M : Matrix} {n : Nat} (h : M.IsSquare n) (r c cols v : Int) :
    (M.store r c cols v).IsSquare n := by
  obtain ⟨h1, h2, h3⟩ := h
  exact ⟨h1, h2, by simp [Matrix.store, matrixElemSet, wrBuf_length, h3]⟩

theorem cell_store {M : Matrix} {n : Nat} (h : M.IsSquare n) {a b i j : Nat}
    (ha : a < n) (hb : b < n) (hj : j < n) {r c cols : Int} (hr : r = (a : Int))
    (hc : c = (b : Int)) (hcols : cols = (n : Int)) (v : Int) :
    (M.store r c cols v).cell i j = if i = a ∧ j = b then v else M.cell i j := by
  obtain ⟨h1, h2, h3⟩ := h
  subst hr hc hcols
  unfold Matrix.cell Matrix.store matrixElem matrixElemSet
  simp only [h2]
  have e1 : ((a : Int) * (n : Int) + (b : Int)) = ((a * n + b : Nat) : Int) := by push_cast; ring
  have e2 : ((i : Int) * (n : Int) + (j : Int)) = ((i * n + j : Nat) : Int) := by push_cast; ring
  rw [e1, e2, rdBuf_wrBuf_nat _ _ _ _ (by rw [h3]; exact rowMajor_lt ha hb)]
  by_cases hij : i = a ∧ j = b
  · obtain ⟨rfl, rfl⟩ := hij; simp
  · have : ¬ (i * n + j = a * n + b) := fun e => hij (rowMajor_inj hj hb e)
    simp [this, hij]

/-- Invariant rule for a `for` loop that runs `n` times from `lo`. -/
theorem forLoop_inv {σ : Type} (lo : Int) (n : Nat) (body : Int → σ → σ) (P : Nat → σ → Prop)
    (s : σ) (h0 : P 0 s)
    (hstep : ∀ k st, k < n → P k st → P (k + 1) (body (lo + (k : Int)) st)) :
    P n (forLoop lo (lo + (n : Int)) body s) := by
  unfold forLoop
  have e : (lo + (n : Int) - lo).toNat = n := by simp
  rw [e]
  have key : ∀ m, m ≤ n →
      P m ((List.range m).foldl (fun st (k : Nat) => body (lo + (k : Int)) st) s) := by
    intro m
    induction m with
    | zero => intro _; simpa using h0
    | succ m ih =>
      intro hm
      rw [List.range_succ, List.foldl_append]
      exact hstep m _ (by omega) (ih (by omega))
  exact key n le_rfl

/-! ## Loops that update a matrix cell by cell -/

/-- A loop whose iteration `k` rewrites exactly the cells selected by `sel k`,
each cell being selected by at most one iteration, rewrites every selected cell
once and leaves the others alone. -/
theorem forLoop_touch {n s : Nat} (upd : Int → Matrix → Matrix) (sel : Nat → Nat → Nat → Prop)
    (g : Nat → Nat → Int → Int)
    (hdisj : ∀ k k' i j, sel k i j → sel k' i j → k = k')
    (hupd : ∀ (k : Nat) (D : Matrix), k < s → D.IsSquare n →
      (upd (k : Int) D).IsSquare n ∧ ∀ i j, i < n → j < n →
        ((sel k i j → (upd (k : Int) D).cell i j = g i j (D.cell i j)) ∧
         (¬ sel k i j → (upd (k : Int) D).cell i j = D.cell i j)))
    (D0 : Matrix) (h0 : D0.IsSquare n) :
    (forLoop 0 (s : Int) upd D0).IsSquare n ∧ ∀ i j, i < n → j < n →
      ((∀ k, k < s → sel k i j → (forLoop 0 (s : Int) upd D0).cell i j = g i j (D0.cell i j)) ∧
       ((∀ k, k < s → ¬ sel k i j) → (forLoop 0 (s : Int) upd D0).cell i j = D0.cell i j)) := by
  have key := forLoop_inv 0 s upd (fun m D => D.IsSquare n ∧ ∀ i j, i < n → j < n →
      ((∀ k, k < m → sel k i j → D.cell i j = g i j (D0.cell i j)) ∧
       ((∀ k, k < m → ¬ sel k i j) → D.cell i j = D0.cell i j))) D0
    ⟨h0, fun i j _ _ => ⟨fun k hk => absurd hk (Nat.not_lt_zero k), fun _ => rfl⟩⟩
    (by
      intro m D hm ⟨hD, hcells⟩
      rw [zero_add]
      obtain ⟨hD', hc'⟩ := hupd m D hm hD
      refine ⟨hD', fun i j hi hj => ?_⟩
      obtain ⟨c1, c2⟩ := hc' i j hi hj
      obtain ⟨o1, o2⟩ := hcells i j hi hj
      by_cases hs : sel m i j
      · have hnone : ∀ k, k < m → ¬ sel k i j := fun k hk hsk => by
          have := hdisj k m i j hsk hs; omega
        refine ⟨fun _ _ _ => ?_, fun hall => absurd hs (hall m (Nat.lt_succ_self m))⟩
        rw [c1 hs, o2 hnone]
      · refine ⟨fun k hk hsk => ?_, fun hall => ?_⟩
        · have hkm : k < m := by
            rcases Nat.lt_succ_iff_lt_or_eq.mp hk with h | h
            · exact h
            · subst h; exact absurd hsk hs
          rw [c2 hs]; exact o1 k hkm hsk
        · rw [c2 hs]; exact o2 (fun k hk => hall k (Nat.lt_succ_of_lt hk)))
  rw [zero_add] at key
  exact key

/-- Two nested loops over a block of side `s` at offset `(r, c)` whose body
rewrites the cell `(i + r, j + c)`: every cell of the block is rewritten once,
the rest of the matrix is kept. -/
theorem block_update {n s r c : Nat} (upd : Int → Int → Matrix → Matrix) (g : Nat → Nat → Int → Int)
    (hupd : ∀ (a b : Nat) (D : Matrix), a < s → b < s → D.IsSquare n →
      (upd (a : Int) (b : Int) D).IsSquare n ∧ ∀ i j, i < n → j < n →
        (upd (a : Int) (b : Int) D).cell i j =
          if i = a + r ∧ j = b + c then g i j (D.cell i j) else D.cell i j)
    (D0 : Matrix) (h0 : D0.IsSquare n) :
    (forLoop 0 (s : Int) (fun i D => forLoop 0 (s : Int) (fun j D => upd i j D) D) D0).IsSquare n ∧
    ∀ i j, i < n → j < n →
      (forLoop 0 (s : Int) (fun i D => forLoop 0 (s : Int) (fun j D => upd i j D) D) D0).cell i j =
        if r ≤ i ∧ i < r + s ∧ c ≤ j ∧ j < c + s then g i j (D0.cell i j) else D0.cell i j := by
  have inner : ∀ (a : Nat) (D : Matrix), a < s → D.IsSquare n →
      (forLoop 0 (s : Int) (fun j D => upd (a : Int) j D) D).IsSquare n ∧ ∀ i j, i < n → j < n →
        (((i = a + r ∧ c ≤ j ∧ j < c + s) →
          (forLoop 0 (s : Int) (fun j D => upd (a : Int) j D) D).cell i j = g i j (D.cell i j)) ∧
         (¬ (i = a + r ∧ c ≤ j ∧ j < c + s) →
          (forLoop 0 (s : Int) (fun j D => upd (a : Int) j D) D).cell i j = D.cell i j)) := by
    intro a D ha hD
    obtain ⟨w, hc⟩ := forLoop_touch (n := n) (s := s) (fun j D => upd (a : Int) j D)
      (fun b i j => i = a + r ∧ j = b + c) g
      (fun k k' i j h1 h2 => by omega)
      (fun b D' hb hD' => by
        obtain ⟨w', hc'⟩ := hupd a b D' ha hb hD'
        refine ⟨w', fun i j hi hj => ?_⟩
        rw [hc' i j hi hj]
        constructor
        · intro h; rw [if_pos h]
        · intro h; rw [if_neg h]) D hD
    refine ⟨w, fun i j hi hj => ⟨fun h => ?_, fun h => ?_⟩⟩
    · exact (hc i j hi hj).1 (j - c) (by omega) ⟨h.1, by omega⟩
    · exact (hc i j hi hj).2 (fun b hb hb' => h ⟨hb'.1, by omega, by omega⟩)
  obtain ⟨w, hc⟩ := forLoop_touch (n := n) (s := s)
    (fun i D => forLoop 0 (s : Int) (fun j D => upd i j D) D)
    (fun a i j => i = a + r ∧ c ≤ j ∧ j < c + s) g
    (fun k k' i j h1 h2 => by omega)
    (fun a D ha hD => inner a D ha hD) D0 h0
  refine ⟨w, fun i j hi hj => ?_⟩
  by_cases h : r ≤ i ∧ i < r + s ∧ c ≤ j ∧ j < c + s
  · rw [if_pos h]
    exact (hc i j hi hj).1 (i - r) (by omega) ⟨by omega, h.2.2.1, h.2.2.2⟩
  · rw [if_neg h]
    exact (hc i j hi hj).2 (fun a ha ha' => h ⟨by omega, by omega, ha'.2.1, ha'.2.2⟩)

/-! ## What the block primitives compute -/

theorem cell_eq_matrixElem (M : Matrix) (i j : Nat) {x y : Int} (hx : x = (i : Int))
    (hy : y = (j : Int)) : matrixElem M.matrix x y M.col = M.cell i j := by
  subst hx hy; rfl

theorem store_block {D : Matrix} {n a b r c : Nat} (hD : D.IsSquare n) (ha : a + r < n)
    (hb : b + c < n) (v : Int) :
    (D.store ((a : Int) + (r : Int)) ((b : Int) + (c : Int)) D.col v).IsSquare n ∧
    ∀ i j, i < n → j < n →
      (D.store ((a : Int) + (r : Int)) ((b : Int) + (c : Int)) D.col v).cell i j =
        if i = a + r ∧ j = b + c then v else D.cell i j :=
  ⟨IsSquare_store hD _ _ _ _, fun _ _ _ hj =>
    cell_store hD ha hb hj (by push_cast; rfl) (by push_cast; rfl) hD.2.1 v⟩

theorem sumMatrix_spec (A B : Matrix) {C : Matrix} {n s r c : Nat} (rA cA rB cB : Nat)
    (hC : C.IsSquare n) (hr : r + s ≤ n) (hc : c + s ≤ n) :
    (sumMatrix A rA cA B rB cB C r c s).2.IsSquare n ∧ ∀ i j, i < n → j < n →
      (sumMatrix A rA cA B rB cB C r c s).2.cell i j =
        if r ≤ i ∧ i < r + s ∧ c ≤ j ∧ j < c + s then
          A.cell (i - r + rA) (j - c + cA) + B.cell (i - r + rB) (j - c + cB)
        else C.cell i j := by
  refine block_update (r := r) (c := c) _
    (fun i j _ => A.cell (i - r + rA) (j - c + cA) + B.cell (i - r + rB) (j - c + cB))
    (fun a b D ha hb hD => ?_) C hC
  obtain ⟨w, hcell⟩ := store_block (a := a) (b := b) (r := r) (c := c) hD (by omega) (by omega)
    (matrixElem A.matrix (a + rA) (b + cA) A.col + matrixElem B.matrix (a + rB) (b + cB) B.col)
  refine ⟨w, fun i j hi hj => ?_⟩
  rw [hcell i j hi hj]
  by_cases h : i = a + r ∧ j = b + c
  · obtain ⟨rfl, rfl⟩ := h
    simp only [and_self, if_true, Nat.add_sub_cancel]
    rw [cell_eq_matrixElem A (a + rA) (b + cA) (by push_cast; rfl) (by push_cast; rfl),
      cell_eq_matrixElem B (a + rB) (b + cB) (by push_cast; rfl) (by push_cast; rfl)]
  · rw [if_neg h, if_neg h]

theorem subMatrix_spec (A B : Matrix) {C : Matrix} {n s r c : Nat} (rA cA rB cB : Nat)
    (hC : C.IsSquare n) (hr : r + s ≤ n) (hc : c + s ≤ n) :
    (subMatrix A rA cA B rB cB C r c s).2.IsSquare n ∧ ∀ i j, i < n → j < n →
      (subMatrix A rA cA B rB cB C r c s).2.cell i j =
        if r ≤ i ∧ i < r + s ∧ c ≤ j ∧ j < c + s then
          A.cell (i - r + rA) (j - c + cA) - B.cell (i - r + rB) (j - c + cB)
        else C.cell i j := by
  refine block_update (r := r) (c := c) _
    (fun i j _ => A.cell (i - r + rA) (j - c + cA) - B.cell (i - r + rB) (j - c + cB))
    (fun a b D ha hb hD => ?_) C hC
  obtain ⟨w, hcell⟩ := store_block (a := a) (b := b) (r := r) (c := c) hD (by omega) (by omega)
    (matrixElem A.matrix (a + rA) (b + cA) A.col - matrixElem B.matrix (a + rB) (b + cB) B.col)
  refine ⟨w, fun i j hi hj => ?_⟩
  rw [hcell i j hi hj]
  by_cases h : i = a + r ∧ j = b + c
  · obtain ⟨rfl, rfl⟩ := h
    simp only [and_self, if_true, Nat.add_sub_cancel]
    rw [cell_eq_matrixElem A (a + rA) (b + cA) (by push_cast; rfl) (by push_cast; rfl),
      cell_eq_matrixElem B (a + rB) (b + cB) (by push_cast; rfl) (by push_cast; rfl)]
  · rw [if_neg h, if_neg h]

theorem copySubmatrix_spec (A : Matrix) {C : Matrix} {n s r c : Nat} (rA cA : Nat)
    (hC : C.IsSquare n) (hr : r + s ≤ n) (hc : c + s ≤ n) :
    (copySubmatrix A rA cA C r c s).2.IsSquare n ∧ ∀ i j, i < n → j < n →
      (copySubmatrix A rA cA C r c s).2.cell i j =
        if r ≤ i ∧ i < r + s ∧ c ≤ j ∧ j < c + s then A.cell (i - r + rA) (j - c + cA)
        else C.cell i j := by
  refine block_update (r := r) (c := c) _
    (fun i j _ => A.cell (i - r + rA) (j - c + cA))
    (fun a b D ha hb hD => ?_) C hC
  obtain ⟨w, hcell⟩ := store_block (a := a) (b := b) (r := r) (c := c) hD (by omega) (by omega)
    (matrixElem A.matrix (a + rA) (b + cA) A.col)
  refine ⟨w, fun i j hi hj => ?_⟩
  rw [hcell i j hi hj]
  by_cases h : i = a + r ∧ j = b + c
  · obtain ⟨rfl, rfl⟩ := h
    simp only [and_self, if_true, Nat.add_sub_cancel]
    rw [cell_eq_matrixElem A (a + rA) (b + cA) (by push_cast; rfl) (by push_cast; rfl)]
  · rw [if_neg h, if_neg h]

theorem addSubmatrix_spec (A : Matrix) {B : Matrix} {n s r c : Nat}
    (hB : B.IsSquare n) (hr : r + s ≤ n) (hc : c + s ≤ n) :
    (addSubmatrix A B r c s).2.IsSquare n ∧ ∀ i j, i < n → j < n →
      (addSubmatrix A B r c s).2.cell i j =
        if r ≤ i ∧ i < r + s ∧ c ≤ j ∧ j < c + s then B.cell i j + A.cell (i - r) (j - c)
        else B.cell i j := by
  refine block_update (r := r) (c := c) _
    (fun i j old => old + A.cell (i - r) (j - c))
    (fun a b D ha hb hD => ?_) B hB
  obtain ⟨w, hcell⟩ := store_block (a := a) (b := b) (r := r) (c := c) hD (by omega) (by omega)
    (matrixElem D.matrix (a + r) (b + c) D.col + matrixElem A.matrix a b A.col)
  refine ⟨w, fun i j hi hj => ?_⟩
  rw [hcell i j hi hj]
  by_cases h : i = a + r ∧ j = b + c
  · obtain ⟨rfl, rfl⟩ := h
    simp only [and_self, if_true, Nat.add_sub_cancel]
    rw [cell_eq_matrixElem D (a + r) (b + c) (by push_cast; rfl) (by push_cast; rfl),
      cell_eq_matrixElem A a b rfl rfl]
  · rw [if_neg h, if_neg h]

theorem subSubmatrix_spec (A : Matrix) {B : Matrix} {n s r c : Nat}
    (hB : B.IsSquare n) (hr : r + s ≤ n) (hc : c + s ≤ n) :
    (subSubmatrix A B r c s).2.IsSquare n ∧ ∀ i j, i < n → j < n →
      (subSubmatrix A B r c s).2.cell i j =
        if r ≤ i ∧ i < r + s ∧ c ≤ j ∧ j < c + s then B.cell i j - A.cell (i - r) (j - c)
        else B.cell i j := by
  refine block_update (r := r) (c := c) _
    (fun i j old => old - A.cell (i - r) (j - c))
    (fun a b D ha hb hD => ?_) B hB
  obtain ⟨w, hcell⟩ := store_block (a := a) (b := b) (r := r) (c := c) hD (by omega) (by omega)
    (matrixElem D.matrix (a + r) (b + c) D.col - matrixElem A.matrix a b A.col)
  refine ⟨w, fun i j hi hj => ?_⟩
  rw [hcell i j hi hj]
  by_cases h : i = a + r ∧ j = b + c
  · obtain ⟨rfl, rfl⟩ := h
    simp only [and_self, if_true, Nat.add_sub_cancel]
    rw [cell_eq_matrixElem D (a + r) (b + c) (by push_cast; rfl) (by push_cast; rfl),
      cell_eq_matrixElem A a b rfl rfl]
  · rw [if_neg h, if_neg h]

theorem store_plain {D : Matrix} {n a b : Nat} (hD : D.IsSquare n) (ha : a < n)
    (hb : b < n) {cols : Int} (hcols : cols = (n : Int)) (v : Int) :
    (D.store (a : Int) (b : Int) cols v).IsSquare n ∧
    ∀ i j, i < n → j < n →
      (D.store (a : Int) (b : Int) cols v).cell i j =
        if i = a ∧ j = b then v else D.cell i j :=
  ⟨IsSquare_store hD _ _ _ _, fun _ _ _ hj => cell_store hD ha hb hj rfl rfl hcols v⟩

theorem initMatrixZeros_spec {M : Matrix} {n : Nat} (hM : M.IsSquare n) :
    (initMatrixZeros M).IsSquare n ∧ ∀ i j, i < n → j < n → (initMatrixZeros M).cell i j = 0 := by
  unfold initMatrixZeros
  rw [hM.1]
  obtain ⟨w, hc⟩ := forLoop_touch (n := n) (s := n)
    (fun i mat => forLoop 0 mat.col (fun j mat => mat.store i j mat.col 0) mat)
    (fun a i _ => i = a) (fun _ _ _ => 0) (fun k k' i j h1 h2 => by omega)
    (fun a D ha hD => by
      beta_reduce
      rw [hD.2.1]
      obtain ⟨w, hc⟩ := forLoop_touch (n := n) (s := n)
        (fun j mat => mat.store (a : Int) j mat.col 0)
        (fun b i j => i = a ∧ j = b) (fun _ _ _ => 0) (fun k k' i j h1 h2 => by omega)
        (fun b D' hb hD' => by
          obtain ⟨w', hc'⟩ := store_plain hD' ha hb hD'.2.1 0
          refine ⟨w', fun i j hi hj => ?_⟩
          rw [hc' i j hi hj]
          exact ⟨fun h => by rw [if_pos h], fun h => by rw [if_neg h]⟩) D hD
      refine ⟨w, fun i j hi hj => ⟨fun h => ?_, fun h => ?_⟩⟩
      · exact (hc i j hi hj).1 j hj ⟨h, rfl⟩
      · exact (hc i j hi hj).2 (fun b _ hb' => h hb'.1)) M hM
  exact ⟨w, fun i j hi hj => (hc i j hi hj).1 i hi rfl⟩

/-! ## What the conventional multiplication computes -/

theorem mul_cell {A B D : Matrix} {n a b : Nat} (hA : A.IsSquare n) (hB : B.IsSquare n)
    (hD : D.IsSquare n) (ha : a < n) (hb : b < n) :
    (forLoop 1 A.row (fun k C =>
        C.store (a : Int) (b : Int) C.row
          (matrixElem C.matrix (a : Int) (b : Int) C.row +
           matrixElem A.matrix (a : Int) k A.row * matrixElem B.matrix k (b : Int) B.row))
      (D.store (a : Int) (b : Int) D.row
        (matrixElem A.matrix (a : Int) 0 A.row * matrixElem B.matrix 0 (b : Int) B.row))).IsSquare n ∧
    ∀ i j, i < n → j < n →
      (forLoop 1 A.row (fun k C =>
        C.store (a : Int) (b : Int) C.row
          (matrixElem C.matrix (a : Int) (b : Int) C.row +
           matrixElem A.matrix (a : Int) k A.row * matrixElem B.matrix k (b : Int) B.row))
      (D.store (a : Int) (b : Int) D.row
        (matrixElem A.matrix (a : Int) 0 A.row * matrixElem B.matrix 0 (b : Int) B.row))).cell i j =
        if i = a ∧ j = b then matProd n A.cell B.cell a b else D.cell i j := by
  obtain ⟨m, rfl⟩ : ∃ m, n = m + 1 := ⟨n - 1, by omega⟩
  have hArow : A.row = 1 + (m : Int) := by rw [hA.1]; push_cast; ring
  have hAc : A.col = 1 + (m : Int) := by rw [hA.2.1]; push_cast; ring
  have hBc : B.col = B.row := by rw [hB.1, hB.2.1]
  rw [hArow]
  obtain ⟨w0, c0⟩ := store_plain hD ha hb hD.1
    (matrixElem A.matrix (a : Int) 0 (1 + (m : Int)) * matrixElem B.matrix 0 (b : Int) B.row)
  exact forLoop_inv 1 m (fun k C =>
        C.store (a : Int) (b : Int) C.row
          (matrixElem C.matrix (a : Int) (b : Int) C.row +
           matrixElem A.matrix (a : Int) k (1 + (m : Int)) * matrixElem B.matrix k (b : Int) B.row))
    (fun p E => E.IsSquare (m + 1) ∧ ∀ i j, i < m + 1 → j < m + 1 →
      E.cell i j = if i = a ∧ j = b then matProd (p + 1) A.cell B.cell a b else D.cell i j)
    (D.store (a : Int) (b : Int) D.row
        (matrixElem A.matrix (a : Int) 0 (1 + (m : Int)) * matrixElem B.matrix 0 (b : Int) B.row))
    ⟨w0, fun i j hi hj => by
      rw [c0 i j hi hj]
      by_cases h : i = a ∧ j = b
      · rw [if_pos h, if_pos h, ← hAc, ← hBc]
        simp [matProd, Matrix.cell]
      · rw [if_neg h, if_neg h]⟩
    (by
      intro p E hp ⟨wE, cE⟩
      have hErc : E.row = E.col := by rw [wE.1, wE.2.1]
      obtain ⟨w1, c1⟩ := store_plain wE ha hb wE.1
        (matrixElem E.matrix (a : Int) (b : Int) E.row +
           matrixElem A.matrix (a : Int) (1 + (p : Int)) (1 + (m : Int)) *
             matrixElem B.matrix (1 + (p : Int)) (b : Int) B.row)
      refine ⟨w1, fun i j hi hj => ?_⟩
      rw [c1 i j hi hj]
      by_cases h : i = a ∧ j = b
      · rw [if_pos h, if_pos h, hErc, cell_eq_matrixElem E a b rfl rfl, cE a b ha hb,
          if_pos ⟨rfl, rfl⟩, ← hAc, ← hBc,
          cell_eq_matrixElem A a (p + 1) rfl (by push_cast; ring),
          cell_eq_matrixElem B (p + 1) b (by push_cast; ring) rfl]
        simp only [matProd]
        rw [Finset.sum_range_succ _ (p + 1)]
      · rw [if_neg h, if_neg h, cE i j hi hj, if_neg h])

/-- Function `mul` keeps the shape of `C` and writes the product into it. -/
theorem mul_spec {A B C : Matrix} {n : Nat} (hA : A.IsSquare n) (hB : B.IsSquare n)
    (hC : C.IsSquare n) :
    (mul A B C).IsSquare n ∧ ∀ i j, i < n → j < n →
      (mul A B C).cell i j = matProd n A.cell B.cell i j := by
  have hAc : A.col = (n : Int) := hA.2.1
  have hAr : A.row = (n : Int) := hA.1
  unfold mul
  rw [hAc, hAr]
  obtain ⟨w, hc⟩ := block_update (n := n) (s := n) (r := 0) (c := 0)
    (fun i j C => forLoop 1 (n : Int) (fun k C =>
        C.store i j C.row
          (matrixElem C.matrix i j C.row +
           matrixElem A.matrix i k (n : Int) * matrixElem B.matrix k j B.row))
      (C.store i j C.row
        (matrixElem A.matrix i 0 (n : Int) * matrixElem B.matrix 0 j B.row)))
    (fun i j _ => matProd n A.cell B.cell i j)
    (fun a b D ha hb hD => by
      obtain ⟨w, hc⟩ := mul_cell hA hB hD ha hb
      rw [hAr] at w hc
      refine ⟨w, fun i j hi hj => ?_⟩
      rw [hc i j hi hj]
      by_cases h : i = a ∧ j = b
      · obtain ⟨rfl, rfl⟩ := h
        simp
      · have h' : ¬ (i = a + 0 ∧ j = b + 0) := by simpa using h
        rw [if_neg h, if_neg h']) C hC
  refine ⟨w, fun i j hi hj => ?_⟩
  have := hc i j hi hj
  rw [if_pos ⟨Nat.zero_le _, by omega, Nat.zero_le _, by omega⟩] at this
  exact this

/-! ## Matrices are determined by their cells -/

theorem rdBuf_natCast (m : List Int) (p : Nat) (hp : p < m.length) :
    rdBuf m (p : Int) = m[p] := by
  unfold rdBuf
  simp [List.getD_eq_getElem?_getD, hp]

/-- Two well-formed matrices of the same side with the same cells are equal. -/
theorem Matrix.ext_cells {M N : Matrix} {n : Nat} (hM : M.IsSquare n) (hN : N.IsSquare n)
    (h : ∀ i j, i < n → j < n → M.cell i j = N.cell i j) : M = N := by
  obtain ⟨m1, m2, m3⟩ := hM
  obtain ⟨n1, n2, n3⟩ := hN
  have hbuf : M.matrix = N.matrix := by
    apply List.ext_getElem (by rw [m3, n3])
    intro p hp hp'
    have hn : 0 < n := by
      rcases Nat.eq_zero_or_pos n with h0 | h0
      · subst h0; simp at m3; rw [m3] at hp; simp at hp
      · exact h0
    have hpn : p < n * n := by rw [← m3]; exact hp
    have hi : p / n < n := Nat.div_lt_of_lt_mul hpn
    have hj : p % n < n := Nat.mod_lt _ hn
    have e := h (p / n) (p % n) hi hj
    unfold Matrix.cell matrixElem at e
    rw [m2, n2] at e
    have e2 : ((p / n : Nat) : Int) * (n : Int) + ((p % n : Nat) : Int) = ((p : Nat) : Int) := by
      have : p / n * n + p % n = p := by rw [Nat.mul_comm]; exact Nat.div_add_mod p n
      exact_mod_cast this
    rw [e2, rdBuf_natCast _ _ hp, rdBuf_natCast _ _ hp'] at e
    exact e
  cases M; cases N
  simp only [Matrix.mk.injEq]
  simp only at hbuf m1 m2 n1 n2
  exact ⟨hbuf, by rw [m1, n1], by rw [m2, n2]⟩

/-! ## One level of the Strassen recursion -/

theorem allocMatrix_IsSquare (junk : Nat → Nat → Int) (hp : Heap) (h : Nat) :
    (allocMatrix junk hp (h : Int)).1.IsSquare h := by
  refine ⟨rfl, rfl, ?_⟩
  simp only [allocMatrix, List.length_map, List.length_range]
  have : ((h : Int) * (h : Int)) = ((h * h : Nat) : Int) := by push_cast; rfl
  rw [this, Int.toNat_ofNat]

theorem sumMatrix_temp (A B : Matrix) {T : Matrix} {h : Nat} (rA cA rB cB : Nat)
    (hT : T.IsSquare h) :
    (sumMatrix A rA cA B rB cB T 0 0 h).2.IsSquare h ∧ ∀ i j, i < h → j < h →
      (sumMatrix A rA cA B rB cB T 0 0 h).2.cell i j =
        A.cell (i + rA) (j + cA) + B.cell (i + rB) (j + cB) := by
  obtain ⟨w, hc⟩ := sumMatrix_spec A B (r := 0) (c := 0) (s := h) rA cA rB cB hT
    (by omega) (by omega)
  simp only [Nat.cast_zero] at w hc
  refine ⟨w, fun i j hi hj => ?_⟩
  rw [hc i j hi hj, if_pos ⟨Nat.zero_le _, by omega, Nat.zero_le _, by omega⟩]
  simp

theorem subMatrix_temp (A B : Matrix) {T : Matrix} {h : Nat} (rA cA rB cB : Nat)
    (hT : T.IsSquare h) :
    (subMatrix A rA cA B rB cB T 0 0 h).2.IsSquare h ∧ ∀ i j, i < h → j < h →
      (subMatrix A rA cA B rB cB T 0 0 h).2.cell i j =
        A.cell (i + rA) (j + cA) - B.cell (i + rB) (j + cB) := by
  obtain ⟨w, hc⟩ := subMatrix_spec A B (r := 0) (c := 0) (s := h) rA cA rB cB hT
    (by omega) (by omega)
  simp only [Nat.cast_zero] at w hc
  refine ⟨w, fun i j hi hj => ?_⟩
  rw [hc i j hi hj, if_pos ⟨Nat.zero_le _, by omega, Nat.zero_le _, by omega⟩]
  simp

theorem copySubmatrix_temp (A : Matrix) {T : Matrix} {h : Nat} (rA cA : Nat)
    (hT : T.IsSquare h) :
    (copySubmatrix A rA cA T 0 0 h).2.IsSquare h ∧ ∀ i j, i < h → j < h →
      (copySubmatrix A rA cA T 0 0 h).2.cell i j = A.cell (i + rA) (j + cA) := by
  obtain ⟨w, hc⟩ := copySubmatrix_spec A (r := 0) (c := 0) (s := h) rA cA hT
    (by omega) (by omega)
  simp only [Nat.cast_zero] at w hc
  refine ⟨w, fun i j hi hj => ?_⟩
  rw [hc i j hi hj, if_pos ⟨Nat.zero_le _, by omega, Nat.zero_le _, by omega⟩]
  simp

/-- One frame of the recursion, for any side `n` and `h = n / 2`: if the callee
returns on operands of side `h`, computing the cells `R f g` from the cells `f`,
`g` of its operands and preserving the number of live allocations, then the
frame returns, `C` keeps its shape, its cells are those of `strassenCombine`,
and the three temporaries are released. -/
theorem strassenFrame_spec (junk : Nat → Nat → Int)
    (recur : Heap → Matrix → Matrix → Matrix → Option (Matrix × Heap))
    (R : (Nat → Nat → Int) → (Nat → Nat → Int) → Nat → Nat → Int) {n h : Nat}
    (hh : h = n / 2)
    (Hrec : ∀ (hp : Heap) (X Y Z : Matrix) (f g : Nat → Nat → Int),
      X.IsSquare h → Y.IsSquare h → Z.IsSquare h →
      (∀ i j, i < h → j < h → X.cell i j = f i j) →
      (∀ i j, i < h → j < h → Y.cell i j = g i j) →
      ∃ Z' hp', recur hp X Y Z = some (Z', hp') ∧ Z'.IsSquare h ∧ hp'.live = hp.live ∧
        ∀ i j, i < h → j < h → Z'.cell i j = R f g i j)
    (hp : Heap) {A B C : Matrix} (hA : A.row = (n : Int)) (hC : C.IsSquare n) :
    ∃ C' hp', strassenFrame junk recur hp A B C = some (C', hp') ∧ C'.IsSquare n ∧
      hp'.live = hp.live ∧
      ∀ i j, i < n → j < n → C'.cell i j = strassenCombine h R A.cell B.cell i j := by
  have hside : A.row.tdiv 2 = (h : Int) := by
    rw [hA, Int.tdiv_eq_ediv (by omega) (by omega), hh]; omega
  have h2 : h + h ≤ n := by omega
  unfold strassenFrame
  simp only [hside]
  -- the three temporaries and the zeroed result
  have wt1 := allocMatrix_IsSquare junk hp h
  have wt2 := allocMatrix_IsSquare junk (allocMatrix junk hp h).2 h
  have wP0 := allocMatrix_IsSquare junk (allocMatrix junk (allocMatrix junk hp h).2 h).2 h
  have hlive : (allocMatrix junk (allocMatrix junk (allocMatrix junk hp h).2 h).2 h).2.live
      = hp.live + 3 := rfl
  generalize (allocMatrix junk (allocMatrix junk (allocMatrix junk hp h).2 h).2 h).2 = hp0
    at hlive ⊢
  generalize (allocMatrix junk (allocMatrix junk (allocMatrix junk hp h).2 h).2 h).1 = P0
    at wP0 ⊢
  generalize (allocMatrix junk (allocMatrix junk hp h).2 h).1 = t2 at wt2 ⊢
  generalize (allocMatrix junk hp h).1 = t1 at wt1 ⊢
  obtain ⟨wC0, cC0⟩ := initMatrixZeros_spec hC
  generalize initMatrixZeros C = C0 at wC0 cC0 ⊢
  -- product 1
  obtain ⟨wT1, cT1⟩ := subMatrix_temp A A 0 h h h wt1
  try simp only [Nat.cast_zero] at wT1 cT1
  generalize (subMatrix A 0 h A h h t1 0 0 h).2 = T1 at wT1 cT1 ⊢
  obtain ⟨wU1, cU1⟩ := sumMatrix_temp B B h 0 h h wt2
  try simp only [Nat.cast_zero] at wU1 cU1
  generalize (sumMatrix B h 0 B h h t2 0 0 h).2 = U1 at wU1 cU1 ⊢
  obtain ⟨P1, hp1, e1, wP1, l1, cP1⟩ := Hrec hp0 T1 U1 P0
    (fun i j => A.cell i (j + h) - A.cell (i + h) (j + h))
    (fun i j => B.cell (i + h) j + B.cell (i + h) (j + h))
    wT1 wU1 wP0 cT1 cU1
  rw [e1]
  simp only [Option.some_bind]
  obtain ⟨wC1, cC1⟩ := copySubmatrix_spec P1 (r := 0) (c := 0) (s := h) 0 0 wC0 (by omega) (by omega)
  try simp only [Nat.cast_zero] at wC1 cC1
  generalize (copySubmatrix P1 0 0 C0 0 0 h).2 = C1 at wC1 cC1 ⊢
  -- product 2
  obtain ⟨wT2, cT2⟩ := sumMatrix_temp A A 0 0 h h wT1
  try simp only [Nat.cast_zero] at wT2 cT2
  generalize (sumMatrix A 0 0 A h h T1 0 0 h).2 = T2 at wT2 cT2 ⊢
  obtain ⟨wU2, cU2⟩ := sumMatrix_temp B B 0 0 h h wU1
  try simp only [Nat.cast_zero] at wU2 cU2
  generalize (sumMatrix B 0 0 B h h U1 0 0 h).2 = U2 at wU2 cU2 ⊢
  obtain ⟨P2, hp2, e2, wP2, l2, cP2⟩ := Hrec hp1 T2 U2 P1
    (fun i j => A.cell i j + A.cell (i + h) (j + h))
    (fun i j => B.cell i j + B.cell (i + h) (j + h))
    wT2 wU2 wP1 cT2 cU2
  rw [e2]
  simp only [Option.some_bind]
  obtain ⟨wC2, cC2⟩ := addSubmatrix_spec P2 (r := 0) (c := 0) (s := h) wC1 (by omega) (by omega)
  try simp only [Nat.cast_zero] at wC2 cC2
  generalize (addSubmatrix P2 C1 0 0 h).2 = C2 at wC2 cC2 ⊢
  obtain ⟨wC3, cC3⟩ := copySubmatrix_spec P2 (r := h) (c := h) (s := h) 0 0 wC2 (by omega) (by omega)
  try simp only [Nat.cast_zero] at wC3 cC3
  generalize (copySubmatrix P2 0 0 C2 h h h).2 = C3 at wC3 cC3 ⊢
  -- product 3
  obtain ⟨wT3, cT3⟩ := subMatrix_temp A A 0 0 h 0 wT2
  try simp only [Nat.cast_zero] at wT3 cT3
  generalize (subMatrix A 0 0 A h 0 T2 0 0 h).2 = T3 at wT3 cT3 ⊢
  obtain ⟨wU3, cU3⟩ := sumMatrix_temp B B 0 0 0 h wU2
  try simp only [Nat.cast_zero] at wU3 cU3
  generalize (sumMatrix B 0 0 B 0 h U2 0 0 h).2 = U3 at wU3 cU3 ⊢
  obtain ⟨P3, hp3, e3, wP3, l3, cP3⟩ := Hrec hp2 T3 U3 P2
    (fun i j => A.cell i j - A.cell (i + h) j)
    (fun i j => B.cell i j + B.cell i (j + h))
    wT3 wU3 wP2 cT3 cU3
  rw [e3]
  simp only [Option.some_bind]
  obtain ⟨wC4, cC4⟩ := subSubmatrix_spec P3 (r := h) (c := h) (s := h) wC3 (by omega) (by omega)
  try simp only [Nat.cast_zero] at wC4 cC4
  generalize (subSubmatrix P3 C3 h h h).2 = C4 at wC4 cC4 ⊢
  -- product 4
  obtain ⟨wT4, cT4⟩ := sumMatrix_temp A A 0 0 0 h wT3
  try simp only [Nat.cast_zero] at wT4 cT4
  generalize (sumMatrix A 0 0 A 0 h T3 0 0 h).2 = T4 at wT4 cT4 ⊢
  obtain ⟨wU4, cU4⟩ := copySubmatrix_temp B h h wU3
  try simp only [Nat.cast_zero] at wU4 cU4
  generalize (copySubmatrix B h h U3 0 0 h).2 = U4 at wU4 cU4 ⊢
  obtain ⟨P4, hp4, e4, wP4, l4, cP4⟩ := Hrec hp3 T4 U4 P3
    (fun i j => A.cell i j + A.cell i (j + h))
    (fun i j => B.cell (i + h) (j + h))
    wT4 wU4 wP3 cT4 cU4
  rw [e4]
  simp only [Option.some_bind]
  obtain ⟨wC5, cC5⟩ := subSubmatrix_spec P4 (r := 0) (c := 0) (s := h) wC4 (by omega) (by omega)
  try simp only [Nat.cast_zero] at wC5 cC5
  generalize (subSubmatrix P4 C4 0 0 h).2 = C5 at wC5 cC5 ⊢
  obtain ⟨wC6, cC6⟩ := copySubmatrix_spec P4 (r := 0) (c := h) (s := h) 0 0 wC5 (by omega) (by omega)
  try simp only [Nat.cast_zero] at wC6 cC6
  generalize (copySubmatrix P4 0 0 C5 0 h h).2 = C6 at wC6 cC6 ⊢
  -- product 5
  obtain ⟨wT5, cT5⟩ := copySubmatrix_temp A 0 0 wT4
  try simp only [Nat.cast_zero] at wT5 cT5
  generalize (copySubmatrix A 0 0 T4 0 0 h).2 = T5 at wT5 cT5 ⊢
  obtain ⟨wU5, cU5⟩ := subMatrix_temp B B 0 h h h wU4
  try simp only [Nat.cast_zero] at wU5 cU5
  generalize (subMatrix B 0 h B h h U4 0 0 h).2 = U5 at wU5 cU5 ⊢
  obtain ⟨P5, hp5, e5, wP5, l5, cP5⟩ := Hrec hp4 T5 U5 P4
    (fun i j => A.cell i j)
    (fun i j => B.cell i (j + h) - B.cell (i + h) (j + h))
    wT5 wU5 wP4 cT5 cU5
  rw [e5]
  simp only [Option.some_bind]
  obtain ⟨wC7, cC7⟩ := addSubmatrix_spec P5 (r := 0) (c := h) (s := h) wC6 (by omega) (by omega)
  try simp only [Nat.cast_zero] at wC7 cC7
  generalize (addSubmatrix P5 C6 0 h h).2 = C7 at wC7 cC7 ⊢
  obtain ⟨wC8, cC8⟩ := addSubmatrix_spec P5 (r := h) (c := h) (s := h) wC7 (by omega) (by omega)
  try simp only [Nat.cast_zero] at wC8 cC8
  generalize (addSubmatrix P5 C7 h h h).2 = C8 at wC8 cC8 ⊢
  -- product 6
  obtain ⟨wT6, cT6⟩ := copySubmatrix_temp A h h wT5
  try simp only [Nat.cast_zero] at wT6 cT6
  generalize (copySubmatrix A h h T5 0 0 h).2 = T6 at wT6 cT6 ⊢
  obtain ⟨wU6, cU6⟩ := subMatrix_temp B B h 0 0 0 wU5
  try simp only [Nat.cast_zero] at wU6 cU6
  generalize (subMatrix B h 0 B 0 0 U5 0 0 h).2 = U6 at wU6 cU6 ⊢
  obtain ⟨P6, hp6, e6, wP6, l6, cP6⟩ := Hrec hp5 T6 U6 P5
    (fun i j => A.cell (i + h) (j + h))
    (fun i j => B.cell (i + h) j - B.cell i j)
    wT6 wU6 wP5 cT6 cU6
  rw [e6]
  simp only [Option.some_bind]
  obtain ⟨wC9, cC9⟩ := addSubmatrix_spec P6 (r := 0) (c := 0) (s := h) wC8 (by omega) (by omega)
  try simp only [Nat.cast_zero] at wC9 cC9
  generalize (addSubmatrix P6 C8 0 0 h).2 = C9 at wC9 cC9 ⊢
  obtain ⟨wC10, cC10⟩ := copySubmatrix_spec P6 (r := h) (c := 0) (s := h) 0 0 wC9 (by omega) (by omega)
  try simp only [Nat.cast_zero] at wC10 cC10
  generalize (copySubmatrix P6 0 0 C9 h 0 h).2 = C10 at wC10 cC10 ⊢
  -- product 7
  obtain ⟨wT7, cT7⟩ := sumMatrix_temp A A h 0 h h wT6
  try simp only [Nat.cast_zero] at wT7 cT7
  generalize (sumMatrix A h 0 A h h T6 0 0 h).2 = T7 at wT7 cT7 ⊢
  obtain ⟨wU7, cU7⟩ := copySubmatrix_temp B 0 0 wU6
  try simp only [Nat.cast_zero] at wU7 cU7
  generalize (copySubmatrix B 0 0 U6 0 0 h).2 = U7 at wU7 cU7 ⊢
  obtain ⟨P7, hp7, e7, wP7, l7, cP7⟩ := Hrec hp6 T7 U7 P6
    (fun i j => A.cell (i + h) j + A.cell (i + h) (j + h))
    (fun i j => B.cell i j)
    wT7 wU7 wP6 cT7 cU7
  rw [e7]
  simp only [Option.some_bind]
  obtain ⟨wC11, cC11⟩ := addSubmatrix_spec P7 (r := h) (c := 0) (s := h) wC10 (by omega) (by omega)
  try simp only [Nat.cast_zero] at wC11 cC11
  generalize (addSubmatrix P7 C10 h 0 h).2 = C11 at wC11 cC11 ⊢
  obtain ⟨wC12, cC12⟩ := subSubmatrix_spec P7 (r := h) (c := h) (s := h) wC11 (by omega) (by omega)
  try simp only [Nat.cast_zero] at wC12 cC12
  generalize (subSubmatrix P7 C11 h h h).2 = C12 at wC12 cC12 ⊢

  simp only [freeMatrix]
  refine ⟨_, _, rfl, wC12, by simp only; omega, ?_⟩
  intro i j hi hj
  by_cases hi1 : i < h
  · have ni : ¬ h ≤ i := by omega
    by_cases hj1 : j < h
    · have nj : ¬ h ≤ j := by omega
      simp only [strassenCombine, cC12 i j hi hj, cC11 i j hi hj, cC10 i j hi hj, cC9 i j hi hj, cC8 i j hi hj, cC7 i j hi hj, cC6 i j hi hj, cC5 i j hi hj, cC4 i j hi hj, cC3 i j hi hj, cC2 i j hi hj, cC1 i j hi hj, cC0 i j hi hj, hi1, hj1, ni, nj, Nat.zero_le, zero_add, Nat.sub_zero, Nat.add_zero, true_and, and_true, false_and, and_false, if_true, if_false, and_self]
      rw [cP1 i j hi1 hj1, cP2 i j hi1 hj1, cP4 i j hi1 hj1, cP6 i j hi1 hj1]
    · have nj : h ≤ j := by omega
      by_cases hj2 : j < h + h
      · have hj3 : j - h < h := by omega
        simp only [strassenCombine, cC12 i j hi hj, cC11 i j hi hj, cC10 i j hi hj, cC9 i j hi hj, cC8 i j hi hj, cC7 i j hi hj, cC6 i j hi hj, cC5 i j hi hj, cC4 i j hi hj, cC3 i j hi hj, cC2 i j hi hj, cC1 i j hi hj, cC0 i j hi hj, hi1, hj1, hj2, ni, nj, Nat.zero_le, zero_add, Nat.sub_zero, Nat.add_zero, true_and, and_true, false_and, and_false, if_true, if_false, and_self]
        rw [cP4 i (j - h) hi1 hj3, cP5 i (j - h) hi1 hj3]
      · simp only [strassenCombine, cC12 i j hi hj, cC11 i j hi hj, cC10 i j hi hj, cC9 i j hi hj, cC8 i j hi hj, cC7 i j hi hj, cC6 i j hi hj, cC5 i j hi hj, cC4 i j hi hj, cC3 i j hi hj, cC2 i j hi hj, cC1 i j hi hj, cC0 i j hi hj, hi1, hj1, hj2, ni, nj, Nat.zero_le, zero_add, Nat.sub_zero, Nat.add_zero, true_and, and_true, false_and, and_false, if_true, if_false, and_self]
  · have ni : h ≤ i := by omega
    by_cases hi2 : i < h + h
    · have hi3 : i - h < h := by omega
      by_cases hj1 : j < h
      · have nj : ¬ h ≤ j := by omega
        simp only [strassenCombine, cC12 i j hi hj, cC11 i j hi hj, cC10 i j hi hj, cC9 i j hi hj, cC8 i j hi hj, cC7 i j hi hj, cC6 i j hi hj, cC5 i j hi hj, cC4 i j hi hj, cC3 i j hi hj, cC2 i j hi hj, cC1 i j hi hj, cC0 i j hi hj, hi1, hi2, hj1, ni, nj, Nat.zero_le, zero_add, Nat.sub_zero, Nat.add_zero, true_and, and_true, false_and, and_false, if_true, if_false, and_self]
        rw [cP6 (i - h) j hi3 hj1, cP7 (i - h) j hi3 hj1]
      · have nj : h ≤ j := by omega
        by_cases hj2 : j < h + h
        · have hj3 : j - h < h := by omega
          simp only [strassenCombine, cC12 i j hi hj, cC11 i j hi hj, cC10 i j hi hj, cC9 i j hi hj, cC8 i j hi hj, cC7 i j hi hj, cC6 i j hi hj, cC5 i j hi hj, cC4 i j hi hj, cC3 i j hi hj, cC2 i j hi hj, cC1 i j hi hj, cC0 i j hi hj, hi1, hi2, hj1, hj2, ni, nj, Nat.zero_le, zero_add, Nat.sub_zero, Nat.add_zero, true_and, and_true, false_and, and_false, if_true, if_false, and_self]
          rw [cP2 (i - h) (j - h) hi3 hj3, cP3 (i - h) (j - h) hi3 hj3,
            cP5 (i - h) (j - h) hi3 hj3, cP7 (i - h) (j - h) hi3 hj3]
        · simp only [strassenCombine, cC12 i j hi hj, cC11 i j hi hj, cC10 i j hi hj, cC9 i j hi hj, cC8 i j hi hj, cC7 i j hi hj, cC6 i j hi hj, cC5 i j hi hj, cC4 i j hi hj, cC3 i j hi hj, cC2 i j hi hj, cC1 i j hi hj, cC0 i j hi hj, hi1, hi2, hj1, hj2, ni, nj, Nat.zero_le, zero_add, Nat.sub_zero, Nat.add_zero, true_and, and_true, false_and, and_false, if_true, if_false, and_self]
    · simp only [strassenCombine, cC12 i j hi hj, cC11 i j hi hj, cC10 i j hi hj, cC9 i j hi hj, cC8 i j hi hj, cC7 i j hi hj, cC6 i j hi hj, cC5 i j hi hj, cC4 i j hi hj, cC3 i j hi hj, cC2 i j hi hj, cC1 i j hi hj, cC0 i j hi hj, hi1, hi2, ni, Nat.zero_le, zero_add, Nat.sub_zero, Nat.add_zero, true_and, and_true, false_and, and_false, if_true, if_false, and_self]

/-! ## The Strassen identity -/

theorem matProd_split (h : Nat) (a b : Nat → Nat → Int) (i j : Nat) :
    matProd (h + h) a b i j =
      ∑ t in Finset.range h, (a i t * b t j + a i (t + h) * b (t + h) j) := by
  unfold matProd
  rw [Finset.sum_range_add, Finset.sum_add_distrib]
  simp only [Nat.add_comm h]

/-- The Strassen identity: combining the seven half-side products gives the
product of side `h + h`. -/
theorem strassenCombine_matProd (h : Nat) (a b : Nat → Nat → Int) (i j : Nat)
    (hi : i < h + h) (hj : j < h + h) :
    strassenCombine h (matProd h) a b i j = matProd (h + h) a b i j := by
  rw [matProd_split]
  unfold strassenCombine
  by_cases hi1 : i < h
  · by_cases hj1 : j < h
    · simp only [hi1, hj1, if_true, matProd]
      simp only [← Finset.sum_add_distrib, ← Finset.sum_sub_distrib]
      exact Finset.sum_congr rfl (fun t _ => by ring)
    · obtain ⟨j', rfl⟩ : ∃ j', j = j' + h := ⟨j - h, by omega⟩
      have hj2 : j' < h := by omega
      simp only [hi1, hj1, hj, if_true, if_false, matProd, Nat.add_sub_cancel]
      simp only [← Finset.sum_add_distrib, ← Finset.sum_sub_distrib]
      exact Finset.sum_congr rfl (fun t _ => by ring)
  · obtain ⟨i', rfl⟩ : ∃ i', i = i' + h := ⟨i - h, by omega⟩
    by_cases hj1 : j < h
    · simp only [hi1, hi, hj1, if_true, if_false, matProd, Nat.add_sub_cancel]
      simp only [← Finset.sum_add_distrib, ← Finset.sum_sub_distrib]
      exact Finset.sum_congr rfl (fun t _ => by ring)
    · obtain ⟨j', rfl⟩ : ∃ j', j = j' + h := ⟨j - h, by omega⟩
      simp only [hi1, hi, hj1, hj, if_true, if_false, matProd, Nat.add_sub_cancel]
      simp only [← Finset.sum_add_distrib, ← Finset.sum_sub_distrib]
      exact Finset.sum_congr rfl (fun t _ => by ring)

/-! ## Pure Strassen on power-of-two sides -/

theorem matProd_congr {n : Nat} {a a' b b' : Nat → Nat → Int} {i j : Nat} (hi : i < n)
    (hj : j < n) (ha : ∀ i j, i < n → j < n → a i j = a' i j)
    (hb : ∀ i j, i < n → j < n → b i j = b' i j) :
    matProd n a b i j = matProd n a' b' i j := by
  unfold matProd
  refine Finset.sum_congr rfl (fun t ht => ?_)
  have ht' : t < n := Finset.mem_range.mp ht
  rw [ha i t hi ht', hb t j ht' hj]

theorem strassenMul_base (junk : Nat → Nat → Int) (fuel : Nat) (hp : Heap) {X Y Z : Matrix}
    (hX : X.row = 1) :
    strassenMul junk (fuel + 1) hp X Y Z =
      some (Z.store 0 0 Z.col
        (matrixElem X.matrix 0 0 X.col * matrixElem Y.matrix 0 0 Y.col), hp) := by
  rw [strassenMul, if_pos hX]

theorem strassenMul_step (junk : Nat → Nat → Int) (fuel : Nat) (hp : Heap) {X Y Z : Matrix}
    (hX : X.row ≠ 1) :
    strassenMul junk (fuel + 1) hp X Y Z =
      strassenFrame junk (strassenMul junk fuel) hp X Y Z := by
  rw [strassenMul, if_neg hX]

/-- Function `strassenMul` on side `2 ^ k` returns with any fuel above `k` and
computes the product. -/
theorem strassenMul_pow2 (junk : Nat → Nat → Int) (k : Nat) :
    ∀ (fuel : Nat), k < fuel → ∀ (hp : Heap) (X Y Z : Matrix) (f g : Nat → Nat → Int),
      X.IsSquare (2 ^ k) → Y.IsSquare (2 ^ k) → Z.IsSquare (2 ^ k) →
      (∀ i j, i < 2 ^ k → j < 2 ^ k → X.cell i j = f i j) →
      (∀ i j, i < 2 ^ k → j < 2 ^ k → Y.cell i j = g i j) →
      ∃ Z' hp', strassenMul junk fuel hp X Y Z = some (Z', hp') ∧ Z'.IsSquare (2 ^ k) ∧
        hp'.live = hp.live ∧
        ∀ i j, i < 2 ^ k → j < 2 ^ k → Z'.cell i j = matProd (2 ^ k) f g i j := by
  induction k with
  | zero =>
    intro fuel hfuel hp X Y Z f g hX hY hZ cX cY
    obtain ⟨fuel, rfl⟩ : ∃ m, fuel = m + 1 := ⟨fuel - 1, by omega⟩
    have hX1 : X.row = 1 := by rw [hX.1]; simp
    rw [strassenMul_base junk fuel hp hX1]
    obtain ⟨w, hc⟩ := store_plain (a := 0) (b := 0) hZ (by simp) (by simp) hZ.2.1
      (matrixElem X.matrix 0 0 X.col * matrixElem Y.matrix 0 0 Y.col)
    simp only [Nat.cast_zero] at w hc
    refine ⟨_, _, rfl, w, rfl, fun i j hi hj => ?_⟩
    have hi0 : i = 0 := by simpa using hi
    have hj0 : j = 0 := by simpa using hj
    subst hi0 hj0
    rw [hc 0 0 (by simp) (by simp), if_pos ⟨rfl, rfl⟩]
    have e1 := cX 0 0 (by simp) (by simp)
    have e2 := cY 0 0 (by simp) (by simp)
    simp only [Matrix.cell, Nat.cast_zero] at e1 e2
    rw [e1, e2]
    simp [matProd]
  | succ k ih =>
    intro fuel hfuel hp X Y Z f g hX hY hZ cX cY
    obtain ⟨fuel, rfl⟩ : ∃ m, fuel = m + 1 := ⟨fuel - 1, by omega⟩
    have hpow : 2 ^ (k + 1) = 2 ^ k + 2 ^ k := by rw [pow_succ]; omega
    have hpos : 0 < 2 ^ k := Nat.pos_pow_of_pos k (by decide)
    have hX1 : X.row ≠ 1 := by
      rw [hX.1, hpow]; intro h; have : (2 ^ k + 2 ^ k : Nat) = 1 := by exact_mod_cast h
      omega
    rw [strassenMul_step junk fuel hp hX1]
    obtain ⟨C', hp', e, w, l, hc⟩ := strassenFrame_spec junk (strassenMul junk fuel)
      (matProd (2 ^ k)) (n := 2 ^ (k + 1)) (h := 2 ^ k) (by omega)
      (fun hp X Y Z f g => ih fuel (by omega) hp X Y Z f g) hp (B := Y) hX.1 hZ
    refine ⟨C', hp', e, w, l, fun i j hi hj => ?_⟩
    rw [hc i j hi hj, strassenCombine_matProd _ _ _ _ _ (by omega) (by omega), ← hpow]
    exact matProd_congr hi hj cX cY

/-! ## The sizing utility -/

theorem testBit_top {x k : Nat} (h1 : 2 ^ k ≤ x) (h2 : x < 2 ^ (k + 1)) : x.testBit k = true := by
  rw [Nat.testBit_to_div_mod]
  have : x / 2 ^ k = 1 := by
    apply Nat.div_eq_of_lt_le
    · simpa using h1
    · rw [pow_succ] at h2; omega
  simp [this]

/-- A positive `n` with `n & (n - 1) = 0` is a power of two. -/
theorem pow2_of_and_pred {n : Nat} (hn : 0 < n) (h : n &&& (n - 1) = 0) : ∃ k, n = 2 ^ k := by
  refine ⟨Nat.log 2 n, ?_⟩
  have h1 : 2 ^ Nat.log 2 n ≤ n := Nat.pow_log_le_self 2 (by omega)
  have h2 : n < 2 ^ (Nat.log 2 n + 1) := Nat.lt_pow_succ_log_self (by decide) n
  by_contra hne
  have h3 : 2 ^ Nat.log 2 n ≤ n - 1 := by omega
  have b1 := testBit_top h1 h2
  have b2 := testBit_top h3 (by omega)
  have := Nat.testBit_and n (n - 1) (Nat.log 2 n)
  rw [h, b1, b2] at this
  simp at this

/-- For `n > 0`, `nextPowerOfTwo n` is `2 ^ k` for the least `k` with `n ≤ 2 ^ k`. -/
theorem nextPowerOfTwo_nat (n : Nat) (hn : 0 < n) :
    ∃ k : Nat, nextPowerOfTwo (n : Int) = ((2 ^ k : Nat) : Int) ∧ n ≤ 2 ^ k ∧
      ∀ j : Nat, n ≤ 2 ^ j → k ≤ j := by
  unfold nextPowerOfTwo
  have h0 : ¬ ((n : Int) ≤ 0) := by omega
  rw [if_neg h0]
  have e1 : ((n : Int)).toNat = n := Int.toNat_ofNat n
  have e2 : ((n : Int) - 1).toNat = n - 1 := by omega
  rw [e1, e2]
  by_cases hb : n &&& (n - 1) = 0
  · rw [if_pos hb]
    obtain ⟨k, hk⟩ := pow2_of_and_pred hn hb
    refine ⟨k, by rw [hk], by rw [hk], fun j hj => ?_⟩
    rw [hk] at hj
    exact (Nat.pow_le_pow_iff_right (by decide)).mp hj
  · rw [if_neg hb]
    refine ⟨Nat.clog 2 n, by rw [Nat.shiftLeft_eq, Nat.one_mul], Nat.le_pow_clog (by decide) n,
      fun j hj => (Nat.le_pow_iff_clog_le (by decide)).mp hj⟩

theorem nextPowerOfTwo_pow (k : Nat) : nextPowerOfTwo ((2 ^ k : Nat) : Int) = ((2 ^ k : Nat) : Int) := by
  unfold nextPowerOfTwo
  have hpos : 0 < 2 ^ k := Nat.pos_pow_of_pos k (by decide)
  have h0 : ¬ (((2 ^ k : Nat) : Int) ≤ 0) := by omega
  rw [if_neg h0]
  have e1 : (((2 ^ k : Nat) : Int)).toNat = 2 ^ k := Int.toNat_ofNat _
  have e2 : (((2 ^ k : Nat) : Int) - 1).toNat = 2 ^ k - 1 := by omega
  rw [e1, e2, Nat.and_pow_two_sub_one_eq_mod, Nat.mod_self, if_pos rfl]

theorem wrap32_of_range {x : Int} (h1 : -2 ^ 31 ≤ x) (h2 : x < 2 ^ 31) : wrap32 x = x := by
  unfold wrap32
  rw [Int.emod_eq_of_lt (by omega) (by omega)]
  omega

/-- For `n ≤ 2 ^ 30` the shift fits the 32-bit `int`: `nextPowerOfTwo32` returns
the value that the exact arithmetic of `nextPowerOfTwo` gives. -/
theorem nextPowerOfTwo32_eq (n : Int) (hn : n ≤ 2 ^ 30) :
    nextPowerOfTwo32 n = nextPowerOfTwo n := by
  unfold nextPowerOfTwo32 nextPowerOfTwo
  split
  · rfl
  · split
    · rfl
    · rename_i h0 _
      obtain ⟨m, rfl⟩ : ∃ m : Nat, n = (m : Int) := ⟨n.toNat, by omega⟩
      have hm2 : m ≤ 2 ^ 30 := by exact_mod_cast hn
      have hk : Nat.clog 2 m ≤ 30 := (Nat.le_pow_iff_clog_le (by decide)).mp hm2
      have hkp : (2 : Nat) ^ Nat.clog 2 m ≤ 2 ^ 30 := Nat.pow_le_pow_right (by decide) hk
      rw [Int.toNat_ofNat, Nat.shiftLeft_eq, Nat.one_mul]
      apply wrap32_of_range
      · have : (0 : Int) ≤ ((2 ^ Nat.clog 2 m : Nat) : Int) := Int.natCast_nonneg _
        omega
      · have : ((2 ^ Nat.clog 2 m : Nat) : Int) ≤ 2 ^ 30 := by exact_mod_cast hkp
        omega

/-- For `2 ^ 30 < n ≤ 2 ^ 31 - 1` the shift is `1 << 31`, which does not fit the
32-bit `int`: `nextPowerOfTwo32` returns `-2 ^ 31`. -/
theorem nextPowerOfTwo32_overflow (n : Int) (h1 : 2 ^ 30 < n) (h2 : n ≤ 2 ^ 31 - 1) :
    nextPowerOfTwo32 n = -2 ^ 31 := by
  obtain ⟨m, rfl⟩ : ∃ m : Nat, n = (m : Int) := ⟨n.toNat, by omega⟩
  have hm1 : 2 ^ 30 < m := by exact_mod_cast h1
  have hm2 : m < 2 ^ 31 := by
    have : (m : Int) < 2 ^ 31 := by omega
    exact_mod_cast this
  have hnp : ¬ (m &&& (m - 1) = 0) := by
    intro hz
    obtain ⟨k, hk⟩ := pow2_of_and_pred (by omega) hz
    rw [hk] at hm1 hm2
    have a := (Nat.pow_lt_pow_iff_right (by decide : 1 < 2)).1 hm1
    have b := (Nat.pow_lt_pow_iff_right (by decide : 1 < 2)).1 hm2
    omega
  have hclog : Nat.clog 2 m = 31 := by
    apply le_antisymm
    · exact (Nat.le_pow_iff_clog_le (by decide)).1 (by omega)
    · exact (Nat.pow_lt_iff_lt_clog (by decide)).1 hm1
  unfold nextPowerOfTwo32
  have h0 : ¬ ((m : Int) ≤ 0) := by omega
  have e1 : ((m : Int)).toNat = m := Int.toNat_ofNat m
  have e2 : ((m : Int) - 1).toNat = m - 1 := by omega
  rw [if_neg h0, e1, e2, if_neg hnp, hclog]
  decide

/-! ## Agreement of the three multipliers on power-of-two sides -/

/-- On side `2 ^ k`, `strassenMul` returns the matrix that `mul` returns. -/
theorem strassenMul_eq_mul (junk : Nat → Nat → Int) (k fuel : Nat) (hfuel : k < fuel)
    (hp : Heap) {A B C : Matrix} (hA : A.IsSquare (2 ^ k)) (hB : B.IsSquare (2 ^ k))
    (hC : C.IsSquare (2 ^ k)) :
    ∃ hp', strassenMul junk fuel hp A B C = some (mul A B C, hp') ∧ hp'.live = hp.live := by
  obtain ⟨C', hp', e, w, l, hc⟩ := strassenMul_pow2 junk k fuel hfuel hp A B C A.cell B.cell
    hA hB hC (fun _ _ _ _ => rfl) (fun _ _ _ _ => rfl)
  obtain ⟨wm, hm⟩ := mul_spec hA hB hC
  have : C' = mul A B C :=
    Matrix.ext_cells w wm (fun i j hi hj => by rw [hc i j hi hj, hm i j hi hj])
  subst this
  exact ⟨hp', e, l⟩

/-- On side `2 ^ k` and with a cutoff `≥ 1`, `strassenMul_hybrid` returns the
matrix that `mul` returns. -/
theorem strassenMul_hybrid_eq_mul (junk : Nat → Nat → Int) (k fuel : Nat) (hfuel : k ≤ fuel)
    (hp : Heap) {A B C : Matrix} (cutoff : Int) (hcut : 1 ≤ cutoff)
    (hA : A.IsSquare (2 ^ k)) (hB : B.IsSquare (2 ^ k)) (hC : C.IsSquare (2 ^ k)) :
    ∃ hp', strassenMul_hybrid junk fuel hp A B C cutoff = some (mul A B C, hp') ∧
      hp'.live = hp.live := by
  unfold strassenMul_hybrid
  by_cases hle : A.row ≤ cutoff
  · rw [if_pos hle]; exact ⟨hp, rfl, rfl⟩
  · rw [if_neg hle]
    have hk : k ≠ 0 := by
      rintro rfl
      rw [hA.1] at hle
      simp at hle
      omega
    obtain ⟨m, rfl⟩ : ∃ m, k = m + 1 := ⟨k - 1, by omega⟩
    have hpow : 2 ^ (m + 1) = 2 ^ m + 2 ^ m := by rw [pow_succ]; omega
    obtain ⟨C', hp', e, w, l, hc⟩ := strassenFrame_spec junk (strassenMul junk fuel)
      (matProd (2 ^ m)) (n := 2 ^ (m + 1)) (h := 2 ^ m) (by omega)
      (fun hp X Y Z f g => strassenMul_pow2 junk m fuel (by omega) hp X Y Z f g) hp (B := B)
      hA.1 hC
    obtain ⟨wm, hm⟩ := mul_spec hA hB hC
    have : C' = mul A B C :=
      Matrix.ext_cells w wm (fun i j hi hj => by
        rw [hc i j hi hj, hm i j hi hj,
          strassenCombine_matProd _ _ _ _ _ (by omega) (by omega), ← hpow])
    subst this
    exact ⟨hp', e, l⟩

/-! ## The operands built by the driver -/

theorem forLoop_pair {α β : Type} (lo hi : Int) (f : Int → α → α) (g : Int → β → β)
    (a : α) (b : β) :
    forLoop lo hi (fun i (p : α × β) => (f i p.1, g i p.2)) (a, b) =
      (forLoop lo hi f a, forLoop lo hi g b) := by
  unfold forLoop
  generalize List.range (hi - lo).toNat = l
  induction l generalizing a b with
  | nil => rfl
  | cons x xs ih => simp only [List.foldl_cons]; exact ih _ _

theorem mainFill_eq (o p : Int) (A B : Matrix) :
    mainFill o p (A, B) =
      (forLoop 0 p (fun i M => forLoop 0 p (fun j M =>
          M.store i j p (if i < o ∧ j < o then 1 else 0)) M) A,
       forLoop 0 p (fun i M => forLoop 0 p (fun j M =>
          M.store i j p (if i < o ∧ j < o then 1 else 0)) M) B) := by
  unfold mainFill
  rw [← forLoop_pair]
  congr 1
  funext i AB
  rw [← forLoop_pair]
  congr 1
  funext j AB
  split <;> rfl

theorem fillOnes_spec {M : Matrix} {n m : Nat} (hM : M.IsSquare m) :
    (forLoop 0 (m : Int) (fun i M => forLoop 0 (m : Int) (fun j M =>
        M.store i j (m : Int) (if i < (n : Int) ∧ j < (n : Int) then 1 else 0)) M) M).IsSquare m ∧
    ∀ i j, i < m → j < m →
      (forLoop 0 (m : Int) (fun i M => forLoop 0 (m : Int) (fun j M =>
        M.store i j (m : Int) (if i < (n : Int) ∧ j < (n : Int) then 1 else 0)) M) M).cell i j =
        if i < n ∧ j < n then 1 else 0 := by
  obtain ⟨w, hc⟩ := block_update (n := m) (s := m) (r := 0) (c := 0)
    (fun i j M => M.store i j (m : Int) (if i < (n : Int) ∧ j < (n : Int) then 1 else 0))
    (fun i j _ => if i < n ∧ j < n then 1 else 0)
    (fun a b D ha hb hD => by
      obtain ⟨w, hc⟩ := store_plain hD ha hb rfl
        (if (a : Int) < (n : Int) ∧ (b : Int) < (n : Int) then 1 else 0)
      refine ⟨w, fun i j hi hj => ?_⟩
      rw [hc i j hi hj]
      by_cases h : i = a ∧ j = b
      · obtain ⟨rfl, rfl⟩ := h
        simp
      · have h' : ¬ (i = a + 0 ∧ j = b + 0) := by simpa using h
        rw [if_neg h, if_neg h']) M hM
  refine ⟨w, fun i j hi hj => ?_⟩
  rw [hc i j hi hj, if_pos ⟨Nat.zero_le _, by omega, Nat.zero_le _, by omega⟩]

/-- The operands built by `main`: three well-formed matrices of the padded
side, `A` and `B` holding `1` in the top-left block and `0` elsewhere. -/
theorem mainOperands_spec (junk : Nat → Nat → Int) (hp : Heap) (n m : Nat)
    (hm : nextPowerOfTwo (n : Int) = (m : Int)) :
    (mainOperands junk hp n).1.1.IsSquare m ∧ (mainOperands junk hp n).1.2.1.IsSquare m ∧
    (mainOperands junk hp n).1.2.2.IsSquare m ∧
    (∀ i j, i < m → j < m →
      (mainOperands junk hp n).1.1.cell i j = if i < n ∧ j < n then 1 else 0) ∧
    (∀ i j, i < m → j < m →
      (mainOperands junk hp n).1.2.1.cell i j = if i < n ∧ j < n then 1 else 0) := by
  unfold mainOperands
  simp only [hm, mainFill_eq]
  obtain ⟨w1, c1⟩ := fillOnes_spec (n := n) (allocMatrix_IsSquare junk hp m)
  obtain ⟨w2, c2⟩ := fillOnes_spec (n := n)
    (allocMatrix_IsSquare junk (allocMatrix junk hp m).2 m)
  exact ⟨w1, w2, allocMatrix_IsSquare junk _ m, c1, c2⟩

/-! ## Products with special operands -/

theorem matProd_one_right {n : Nat} {a b : Nat → Nat → Int} {i j : Nat} (hj : j < n)
    (hb : ∀ t, t < n → b t j = if t = j then 1 else 0) : matProd n a b i j = a i j := by
  unfold matProd
  rw [Finset.sum_eq_single j]
  · rw [hb j hj, if_pos rfl, mul_one]
  · intro t ht hne
    rw [hb t (Finset.mem_range.mp ht), if_neg hne, mul_zero]
  · intro h; exact absurd (Finset.mem_range.mpr hj) h

theorem matProd_one_left {n : Nat} {a b : Nat → Nat → Int} {i j : Nat} (hi : i < n)
    (ha : ∀ t, t < n → a i t = if i = t then 1 else 0) : matProd n a b i j = b i j := by
  unfold matProd
  rw [Finset.sum_eq_single i]
  · rw [ha i hi, if_pos rfl, one_mul]
  · intro t ht hne
    rw [ha t (Finset.mem_range.mp ht), if_neg (Ne.symm hne), zero_mul]
  · intro h; exact absurd (Finset.mem_range.mpr hi) h

theorem matProd_padded {n m : Nat} (hnm : n ≤ m) {a b a' b' : Nat → Nat → Int} {i j : Nat}
    (ha : ∀ t, t < m → a' i t = if t < n then a i t else 0)
    (hb : ∀ t, t < n → b' t j = b t j) :
    matProd m a' b' i j = matProd n a b i j := by
  unfold matProd
  obtain ⟨d, rfl⟩ : ∃ d, m = n + d := ⟨m - n, by omega⟩
  rw [Finset.sum_range_add]
  have hz : ∑ x in Finset.range d, a' i (n + x) * b' (n + x) j = 0 := by
    apply Finset.sum_eq_zero
    intro x hx
    have hx' := Finset.mem_range.mp hx
    rw [ha (n + x) (by omega), if_neg (by omega), zero_mul]
  rw [hz, add_zero]
  refine Finset.sum_congr rfl (fun t ht => ?_)
  have ht' := Finset.mem_range.mp ht
  rw [ha t (by omega), if_pos ht', hb t ht']

theorem matProd_ones {n m : Nat} (hnm : n ≤ m) {a b : Nat → Nat → Int} (i j : Nat)
    (ha : ∀ t, t < m → a i t = if i < n ∧ t < n then 1 else 0)
    (hb : ∀ t, t < m → b t j = if t < n ∧ j < n then 1 else 0) :
    matProd m a b i j = if i < n ∧ j < n then (n : Int) else 0 := by
  by_cases hij : i < n ∧ j < n
  · rw [if_pos hij, matProd_padded (a := fun _ _ => 1) (b := fun _ _ => 1) hnm
      (fun t ht => by rw [ha t ht]; simp [hij.1])
      (fun t ht => by rw [hb t (by omega)]; simp [hij.2, ht])]
    simp [matProd]
  · rw [if_neg hij]
    unfold matProd
    apply Finset.sum_eq_zero
    intro t ht
    have ht' := Finset.mem_range.mp ht
    rw [ha t ht', hb t ht']
    by_cases h1 : i < n
    · have h2 : ¬ j < n := fun h => hij ⟨h1, h⟩
      simp [h2]
    · simp [h1]

theorem two_pow_of_nextPowerOfTwo (n : Nat) (hn : 0 < n) :
    ∃ k : Nat, nextPowerOfTwo (n : Int) = ((2 ^ k : Nat) : Int) ∧ n ≤ 2 ^ k ∧ k < 2 ^ k :=
  let ⟨k, h1, h2, _⟩ := nextPowerOfTwo_nat n hn
  ⟨k, h1, h2, Nat.lt_two_pow k⟩

theorem mul_identity_right {n : Nat} {A I C : Matrix} (hA : A.IsSquare n) (hI : I.IsSquare n)
    (hC : C.IsSquare n)
    (hid : ∀ i j, i < n → j < n → I.cell i j = if i = j then 1 else 0) : mul A I C = A := by
  obtain ⟨w, hc⟩ := mul_spec hA hI hC
  refine Matrix.ext_cells w hA (fun i j hi hj => ?_)
  rw [hc i j hi hj]
  exact matProd_one_right hj (fun t ht => hid t j ht hj)

theorem mul_identity_left {n : Nat} {A I C : Matrix} (hA : A.IsSquare n) (hI : I.IsSquare n)
    (hC : C.IsSquare n)
    (hid : ∀ i j, i < n → j < n → I.cell i j = if i = j then 1 else 0) : mul I A C = A := by
  obtain ⟨w, hc⟩ := mul_spec hI hA hC
  refine Matrix.ext_cells w hA (fun i j hi hj => ?_)
  rw [hc i j hi hj]
  exact matProd_one_left hi (fun t ht => hid i t hi ht)

/-! ## Claims C1 to C10 -/

/-- C1: for every `k` and all integer matrices `A`, `B` of side `n = 2 ^ k`, the
call `strassenMul(A, B, C)` returns (any fuel above `k` is enough) and leaves in
`C` the matrix product, `C[i,j] = Σ_{t < n} A[i,t] * B[t,j]` for all `i, j < n`,
which is the matrix that `mul(A, B, C)` produces. -/
theorem C1_strassenMul_product (junk : Nat → Nat → Int) (k fuel : Nat) (hfuel : k < fuel)
    (hp : Heap) (A B C : Matrix) (hA : A.IsSquare (2 ^ k)) (hB : B.IsSquare (2 ^ k))
    (hC : C.IsSquare (2 ^ k)) :
    ∃ C' hp', strassenMul junk fuel hp A B C = some (C', hp') ∧
      (∀ i j, i < 2 ^ k → j < 2 ^ k →
        C'.cell i j = ∑ t in Finset.range (2 ^ k), A.cell i t * B.cell t j) ∧
      C' = mul A B C := by
  obtain ⟨hp', e, _⟩ := strassenMul_eq_mul junk k fuel hfuel hp hA hB hC
  exact ⟨mul A B C, hp', e, (mul_spec hA hB hC).2, rfl⟩

/-- C1, witness: `A = [[1,2],[3,4]]`, `B = [[5,6],[7,8]]` give
`C = [[19,22],[43,50]]`. -/
theorem C1_strassenMul_product_witness :
    ∃ C' hp', strassenMul (fun _ _ => 7) 2 ⟨0, 0⟩ ⟨[1, 2, 3, 4], 2, 2⟩ ⟨[5, 6, 7, 8], 2, 2⟩
        ⟨[9, 9, 9, 9], 2, 2⟩ = some (C', hp') ∧
      (∀ i j, i < 2 ^ 1 → j < 2 ^ 1 →
        C'.cell i j = ∑ t in Finset.range (2 ^ 1),
          Matrix.cell ⟨[1, 2, 3, 4], 2, 2⟩ i t * Matrix.cell ⟨[5, 6, 7, 8], 2, 2⟩ t j) ∧
      C' = mul ⟨[1, 2, 3, 4], 2, 2⟩ ⟨[5, 6, 7, 8], 2, 2⟩ ⟨[9, 9, 9, 9], 2, 2⟩ ∧
      C' = ⟨[19, 22, 43, 50], 2, 2⟩ := by
  obtain ⟨C', hp', e, hc, hm⟩ := C1_strassenMul_product (fun _ _ => 7) 1 2 (by decide) ⟨0, 0⟩
    ⟨[1, 2, 3, 4], 2, 2⟩ ⟨[5, 6, 7, 8], 2, 2⟩ ⟨[9, 9, 9, 9], 2, 2⟩
    ⟨rfl, rfl, rfl⟩ ⟨rfl, rfl, rfl⟩ ⟨rfl, rfl, rfl⟩
  exact ⟨C', hp', e, hc, hm, by rw [hm]; decide⟩

/-- C2: for every power-of-two side `n = 2 ^ k`, all integer matrices `A`, `B`
of side `n` and every cutoff `≥ 1` (so in particular `1 ≤ cutoff ≤ n`), the call
`strassenMul_hybrid(A, B, C, cutoff)` returns and produces exactly the `C` that
`mul(A, B, C)` produces. -/
theorem C2_hybrid_equals_mul (junk : Nat → Nat → Int) (k fuel : Nat) (hfuel : k ≤ fuel)
    (hp : Heap) (A B C : Matrix) (cutoff : Int) (hcut : 1 ≤ cutoff)
    (hA : A.IsSquare (2 ^ k)) (hB : B.IsSquare (2 ^ k)) (hC : C.IsSquare (2 ^ k)) :
    ∃ hp', strassenMul_hybrid junk fuel hp A B C cutoff = some (mul A B C, hp') := by
  obtain ⟨hp', e, _⟩ := strassenMul_hybrid_eq_mul junk k fuel hfuel hp cutoff hcut hA hB hC
  exact ⟨hp', e⟩

/-- C2, witness: side 4 with cutoff 2. -/
theorem C2_hybrid_equals_mul_witness :
    ∃ hp', strassenMul_hybrid (fun _ _ => 7) 2 ⟨0, 0⟩
        ⟨[1, 2, 3, 4, 5, 6, 7, 8, 9, 10, 11, 12, 13, 14, 15, 16], 4, 4⟩
        ⟨[1, 0, 2, 0, 0, 1, 0, 2, 3, 0, 1, 0, 0, 3, 0, 1], 4, 4⟩
        ⟨[0, 0, 0, 0, 0, 0, 0, 0, 0, 0, 0, 0, 0, 0, 0, 0], 4, 4⟩ 2 =
      some (mul ⟨[1, 2, 3, 4, 5, 6, 7, 8, 9, 10, 11, 12, 13, 14, 15, 16], 4, 4⟩
        ⟨[1, 0, 2, 0, 0, 1, 0, 2, 3, 0, 1, 0, 0, 3, 0, 1], 4, 4⟩
        ⟨[0, 0, 0, 0, 0, 0, 0, 0, 0, 0, 0, 0, 0, 0, 0, 0], 4, 4⟩, hp') :=
  C2_hybrid_equals_mul (fun _ _ => 7) 2 2 (by decide) ⟨0, 0⟩ _ _ _ 2 (by decide)
    ⟨rfl, rfl, rfl⟩ ⟨rfl, rfl, rfl⟩ ⟨rfl, rfl, rfl⟩

/-- C3: for every side `n` and all integer matrices `A`, `B` of side `n`,
`mul(A, B, C)` sets every cell to `C[i,j] = Σ_{k < n} A[i,k] * B[k,j]` and keeps
the shape of `C`; the result is the same whatever `C` contained before the
call. -/
theorem C3_mul_product (n : Nat) (A B C : Matrix) (hA : A.IsSquare n) (hB : B.IsSquare n)
    (hC : C.IsSquare n) :
    (∀ i j, i < n → j < n →
      (mul A B C).cell i j = ∑ t in Finset.range n, A.cell i t * B.cell t j) ∧
    (mul A B C).IsSquare n ∧
    ∀ D : Matrix, D.IsSquare n → mul A B D = mul A B C := by
  obtain ⟨w, hc⟩ := mul_spec hA hB hC
  refine ⟨hc, w, fun D hD => ?_⟩
  obtain ⟨w', hc'⟩ := mul_spec hA hB hD
  exact Matrix.ext_cells w' w (fun i j hi hj => by rw [hc i j hi hj, hc' i j hi hj])

/-- C3, witness: a product of side 3 written over a result buffer that was not
zero-initialised. -/
theorem C3_mul_product_witness :
    mul ⟨[1, 2, 3, 4, 5, 6, 7, 8, 9], 3, 3⟩ ⟨[1, 0, 0, 0, 2, 0, 0, 0, 3], 3, 3⟩
        ⟨[5, 5, 5, 5, 5, 5, 5, 5, 5], 3, 3⟩ = ⟨[1, 4, 9, 4, 10, 18, 7, 16, 27], 3, 3⟩ ∧
    ∀ D : Matrix, D.IsSquare 3 →
      mul ⟨[1, 2, 3, 4, 5, 6, 7, 8, 9], 3, 3⟩ ⟨[1, 0, 0, 0, 2, 0, 0, 0, 3], 3, 3⟩ D =
      mul ⟨[1, 2, 3, 4, 5, 6, 7, 8, 9], 3, 3⟩ ⟨[1, 0, 0, 0, 2, 0, 0, 0, 3], 3, 3⟩
        ⟨[5, 5, 5, 5, 5, 5, 5, 5, 5], 3, 3⟩ :=
  ⟨by decide, (C3_mul_product 3 ⟨[1, 2, 3, 4, 5, 6, 7, 8, 9], 3, 3⟩
    ⟨[1, 0, 0, 0, 2, 0, 0, 0, 3], 3, 3⟩ ⟨[5, 5, 5, 5, 5, 5, 5, 5, 5], 3, 3⟩
    ⟨rfl, rfl, rfl⟩ ⟨rfl, rfl, rfl⟩ ⟨rfl, rfl, rfl⟩).2.2⟩

/-- C4: padding neutrality. Let `A`, `B` have side `n ≥ 1`, let
`m = nextPowerOfTwo(n)`, and let `Ap`, `Bp` be the side-`m` matrices holding `A`,
`B` in their top-left corner and `0` elsewhere. Then `strassenMul` and, for every
cutoff `≥ 1`, `strassenMul_hybrid` return on `Ap`, `Bp` (fuel `m` is enough), and
the top-left `n × n` block of their result equals the product that `mul`
computes on the unpadded `A`, `B`. -/
theorem C4_padding_neutral (junk : Nat → Nat → Int) (n m fuel : Nat) (hn : 1 ≤ n)
    (hm : nextPowerOfTwo (n : Int) = (m : Int)) (hfuel : m ≤ fuel) (hp : Heap)
    (A B C0 Ap Bp Cp : Matrix) (cutoff : Int) (hcut : 1 ≤ cutoff)
    (hA : A.IsSquare n) (hB : B.IsSquare n) (hC0 : C0.IsSquare n)
    (hAp : Ap.IsSquare m) (hBp : Bp.IsSquare m) (hCp : Cp.IsSquare m)
    (padA : ∀ i j, i < m → j < m → Ap.cell i j = if i < n ∧ j < n then A.cell i j else 0)
    (padB : ∀ i j, i < m → j < m → Bp.cell i j = if i < n ∧ j < n then B.cell i j else 0) :
    (∃ C' hp', strassenMul junk fuel hp Ap Bp Cp = some (C', hp') ∧
      ∀ i j, i < n → j < n → C'.cell i j = (mul A B C0).cell i j) ∧
    (∃ C' hp', strassenMul_hybrid junk fuel hp Ap Bp Cp cutoff = some (C', hp') ∧
      ∀ i j, i < n → j < n → C'.cell i j = (mul A B C0).cell i j) := by
  obtain ⟨k, hk, hnk, hkk⟩ := two_pow_of_nextPowerOfTwo n (by omega)
  have hmk : m = 2 ^ k := by rw [hm] at hk; exact_mod_cast hk
  subst hmk
  have key : ∀ i j, i < n → j < n → (mul Ap Bp Cp).cell i j = (mul A B C0).cell i j := by
    intro i j hi hj
    rw [(mul_spec hAp hBp hCp).2 i j (by omega) (by omega), (mul_spec hA hB hC0).2 i j hi hj]
    exact matProd_padded hnk
      (fun t ht => by rw [padA i t (by omega) ht]; simp [hi])
      (fun t ht => by rw [padB t j (by omega) (by omega)]; simp [hj, ht])
  obtain ⟨hp1, e1, _⟩ := strassenMul_eq_mul junk k fuel (by omega) hp hAp hBp hCp
  obtain ⟨hp2, e2, _⟩ := strassenMul_hybrid_eq_mul junk k fuel (by omega) hp cutoff hcut
    hAp hBp hCp
  exact ⟨⟨_, hp1, e1, key⟩, ⟨_, hp2, e2, key⟩⟩

/-- C4, witness: side 3 padded to side 4, hybrid cutoff 2. -/
theorem C4_padding_neutral_witness :
    (∃ C' hp', strassenMul (fun _ _ => 7) 4 ⟨0, 0⟩
        ⟨[1, 2, 3, 0, 4, 5, 6, 0, 7, 8, 9, 0, 0, 0, 0, 0], 4, 4⟩
        ⟨[1, 1, 0, 0, 0, 1, 1, 0, 2, 0, 1, 0, 0, 0, 0, 0], 4, 4⟩
        ⟨[5, 5, 5, 5, 5, 5, 5, 5, 5, 5, 5, 5, 5, 5, 5, 5], 4, 4⟩ = some (C', hp') ∧
      ∀ i j, i < 3 → j < 3 → C'.cell i j =
        (mul ⟨[1, 2, 3, 4, 5, 6, 7, 8, 9], 3, 3⟩ ⟨[1, 1, 0, 0, 1, 1, 2, 0, 1], 3, 3⟩
          ⟨[5, 5, 5, 5, 5, 5, 5, 5, 5], 3, 3⟩).cell i j) ∧
    (∃ C' hp', strassenMul_hybrid (fun _ _ => 7) 4 ⟨0, 0⟩
        ⟨[1, 2, 3, 0, 4, 5, 6, 0, 7, 8, 9, 0, 0, 0, 0, 0], 4, 4⟩
        ⟨[1, 1, 0, 0, 0, 1, 1, 0, 2, 0, 1, 0, 0, 0, 0, 0], 4, 4⟩
        ⟨[5, 5, 5, 5, 5, 5, 5, 5, 5, 5, 5, 5, 5, 5, 5, 5], 4, 4⟩ 2 = some (C', hp') ∧
      ∀ i j, i < 3 → j < 3 → C'.cell i j =
        (mul ⟨[1, 2, 3, 4, 5, 6, 7, 8, 9], 3, 3⟩ ⟨[1, 1, 0, 0, 1, 1, 2, 0, 1], 3, 3⟩
          ⟨[5, 5, 5, 5, 5, 5, 5, 5, 5], 3, 3⟩).cell i j) :=
  C4_padding_neutral (fun _ _ => 7) 3 4 4 (by decide)
    (by simp [nextPowerOfTwo, Nat.clog]) (by decide) ⟨0, 0⟩
    ⟨[1, 2, 3, 4, 5, 6, 7, 8, 9], 3, 3⟩ ⟨[1, 1, 0, 0, 1, 1, 2, 0, 1], 3, 3⟩
    ⟨[5, 5, 5, 5, 5, 5, 5, 5, 5], 3, 3⟩ _ _ _ 2 (by decide)
    ⟨rfl, rfl, rfl⟩ ⟨rfl, rfl, rfl⟩ ⟨rfl, rfl, rfl⟩ ⟨rfl, rfl, rfl⟩ ⟨rfl, rfl, rfl⟩
    ⟨rfl, rfl, rfl⟩
    (by intro i j hi hj; interval_cases i <;> interval_cases j <;> rfl)
    (by intro i j hi hj; interval_cases i <;> interval_cases j <;> rfl)

set_option maxRecDepth 100000 in
/-- C5, evaluation at the failing input: on the all-ones operands of side 6
with cutoff 3 the hybrid call returns a matrix whose entries are `4` and `0`,
whereas `mul` returns the product, all of whose entries are `6`. -/
theorem C5_hybrid_side6_cutoff3 :
    (strassenMul_hybrid (fun _ _ => 0) 2 ⟨0, 0⟩ ⟨List.replicate 36 1, 6, 6⟩
        ⟨List.replicate 36 1, 6, 6⟩ ⟨List.replicate 36 0, 6, 6⟩ 3).map (fun r => r.1) =
      some ⟨[4, 4, 0, 4, 4, 0, 4, 4, 0, 4, 4, 0, 0, 0, 0, 0, 0, 0,
             4, 4, 0, 4, 4, 0, 4, 4, 0, 4, 4, 0, 0, 0, 0, 0, 0, 0], 6, 6⟩ ∧
    mul ⟨List.replicate 36 1, 6, 6⟩ ⟨List.replicate 36 1, 6, 6⟩ ⟨List.replicate 36 0, 6, 6⟩ =
      ⟨List.replicate 36 6, 6, 6⟩ := by
  constructor <;> decide

/-- C6: cutoff boundary. Whenever the side `A->row` is at most the cutoff
(equality included, the test being `side <= cutoff`), for operands of any shape,
`strassenMul_hybrid(A, B, C, cutoff)` returns at once, with exactly the `C` that
`mul(A, B, C)` produces and without touching the heap. -/
theorem C6_hybrid_cutoff_boundary (junk : Nat → Nat → Int) (fuel : Nat) (hp : Heap)
    (A B C : Matrix) (cutoff : Int) (hcut : A.row ≤ cutoff) :
    strassenMul_hybrid junk fuel hp A B C cutoff = some (mul A B C, hp) := by
  unfold strassenMul_hybrid
  rw [if_pos hcut]

/-- C6, witness: side 3 with cutoff 3. -/
theorem C6_hybrid_cutoff_boundary_witness :
    strassenMul_hybrid (fun _ _ => 7) 0 ⟨0, 0⟩ ⟨[1, 2, 3, 4, 5, 6, 7, 8, 9], 3, 3⟩
        ⟨[1, 0, 0, 0, 2, 0, 0, 0, 3], 3, 3⟩ ⟨[5, 5, 5, 5, 5, 5, 5, 5, 5], 3, 3⟩ 3 =
      some (mul ⟨[1, 2, 3, 4, 5, 6, 7, 8, 9], 3, 3⟩ ⟨[1, 0, 0, 0, 2, 0, 0, 0, 3], 3, 3⟩
        ⟨[5, 5, 5, 5, 5, 5, 5, 5, 5], 3, 3⟩, ⟨0, 0⟩) :=
  C6_hybrid_cutoff_boundary (fun _ _ => 7) 0 ⟨0, 0⟩ _ _ _ 3 (by decide)

/-- C7, counterexample: `n = 2 ^ 30 + 1` is a positive value of a 32-bit `int`
and no power of two; there `nextPowerOfTwo` returns `-2 ^ 31`, which is no power
of two and is not `≥ n`. -/
theorem C7_nextPowerOfTwo_overflow :
    nextPowerOfTwo32 (2 ^ 30 + 1) = -2 ^ 31 ∧
    ¬ (∃ k : Nat, nextPowerOfTwo32 (2 ^ 30 + 1) = 2 ^ k) ∧
    ¬ ((2 : Int) ^ 30 + 1 ≤ nextPowerOfTwo32 (2 ^ 30 + 1)) := by
  have e := nextPowerOfTwo32_overflow (2 ^ 30 + 1) (by simp) (by simp)
  rw [e]
  refine ⟨rfl, ?_, by simp⟩
  rintro ⟨k, hk⟩
  have : (0 : Int) < 2 ^ k := by positivity
  omega

/-- C7, amended: for every integer `n ≤ 2 ^ 30`, `nextPowerOfTwo(n)`, evaluated
with a 32-bit `int`, is `1` when `n ≤ 0`, is `n` itself when `n` is a power of
two, and for `n > 0` is the smallest power of two that is `≥ n`: the result `r`
is a power of two, `r ≥ n`, every power of two `≥ n` is `≥ r`, and `r / 2 < n`. -/
theorem C7_nextPowerOfTwo (n : Int) (hn : n ≤ 2 ^ 30) :
    (n ≤ 0 → nextPowerOfTwo32 n = 1) ∧
    ((∃ k : Nat, n = 2 ^ k) → nextPowerOfTwo32 n = n) ∧
    (0 < n → (∃ k : Nat, nextPowerOfTwo32 n = 2 ^ k) ∧ n ≤ nextPowerOfTwo32 n ∧
      (∀ k : Nat, n ≤ 2 ^ k → nextPowerOfTwo32 n ≤ 2 ^ k) ∧ nextPowerOfTwo32 n / 2 < n) := by
  rw [nextPowerOfTwo32_eq n hn]
  refine ⟨fun h => ?_, fun ⟨k, hk⟩ => ?_, fun h => ?_⟩
  · unfold nextPowerOfTwo; rw [if_pos h]
  · have := nextPowerOfTwo_pow k
    push_cast at this
    rw [hk]; exact this
  · obtain ⟨m, rfl⟩ : ∃ m : Nat, n = (m : Int) := ⟨n.toNat, by omega⟩
    have hm : 0 < m := by omega
    obtain ⟨k, h1, h2, h3⟩ := nextPowerOfTwo_nat m hm
    rw [h1]
    refine ⟨⟨k, by push_cast; rfl⟩, by exact_mod_cast h2, fun j hj => ?_, ?_⟩
    · have hj' : m ≤ 2 ^ j := by exact_mod_cast hj
      have := Nat.pow_le_pow_right (by decide : 0 < 2) (h3 j hj')
      exact_mod_cast this
    · rcases Nat.eq_zero_or_pos k with hk | hk
      · subst hk; simp; omega
      · obtain ⟨d, rfl⟩ : ∃ d, k = d + 1 := ⟨k - 1, by omega⟩
        have hlt : 2 ^ d < m := by
          by_contra hcon
          have := h3 d (by omega)
          omega
        have e : (((2 ^ (d + 1) : Nat) : Int)) / 2 = ((2 ^ d : Nat) : Int) := by
          rw [pow_succ]; push_cast; omega
        rw [e]; exact_mod_cast hlt

/-- C7, witness: `8 -> 8`, `0 -> 1`, `-3 -> 1`, `2 ^ 30 -> 2 ^ 30`, and for `5`
and `9` the results `8` and `16` with the bounds of the claim. -/
theorem C7_nextPowerOfTwo_witness :
    nextPowerOfTwo32 8 = 8 ∧ nextPowerOfTwo32 0 = 1 ∧ nextPowerOfTwo32 (-3) = 1 ∧
    nextPowerOfTwo32 (2 ^ 30) = 2 ^ 30 ∧
    nextPowerOfTwo32 5 = 8 ∧ nextPowerOfTwo32 9 = 16 ∧
    ((∃ k : Nat, nextPowerOfTwo32 5 = 2 ^ k) ∧ (5 : Int) ≤ nextPowerOfTwo32 5 ∧
      (∀ k : Nat, (5 : Int) ≤ 2 ^ k → nextPowerOfTwo32 5 ≤ 2 ^ k) ∧
      nextPowerOfTwo32 5 / 2 < 5) :=
  ⟨(C7_nextPowerOfTwo 8 (by simp)).2.1 ⟨3, by decide⟩,
    (C7_nextPowerOfTwo 0 (by simp)).1 (by decide),
    (C7_nextPowerOfTwo (-3) (by simp)).1 (by decide),
    (C7_nextPowerOfTwo (2 ^ 30) (by simp)).2.1 ⟨30, rfl⟩,
    by simp [nextPowerOfTwo32, Nat.clog, wrap32], by simp [nextPowerOfTwo32, Nat.clog, wrap32],
    (C7_nextPowerOfTwo 5 (by simp)).2.2 (by decide)⟩

/-- C8: identity. For every power-of-two side `n = 2 ^ k`, every integer matrix
`A` of side `n` and the identity matrix `I` of side `n` (`1` on the diagonal, `0`
elsewhere), both `A * I` and `I * A` come out equal to `A` under all three
modes: `mul`, `strassenMul` (fuel above `k`), and `strassenMul_hybrid` with any
cutoff `≥ 1`. -/
theorem C8_identity (junk : Nat → Nat → Int) (k fuel : Nat) (hfuel : k < fuel) (hp : Heap)
    (A I C : Matrix) (cutoff : Int) (hcut : 1 ≤ cutoff)
    (hA : A.IsSquare (2 ^ k)) (hI : I.IsSquare (2 ^ k)) (hC : C.IsSquare (2 ^ k))
    (hid : ∀ i j, i < 2 ^ k → j < 2 ^ k → I.cell i j = if i = j then 1 else 0) :
    mul A I C = A ∧ mul I A C = A ∧
    (∃ hp', strassenMul junk fuel hp A I C = some (A, hp')) ∧
    (∃ hp', strassenMul junk fuel hp I A C = some (A, hp')) ∧
    (∃ hp', strassenMul_hybrid junk fuel hp A I C cutoff = some (A, hp')) ∧
    (∃ hp', strassenMul_hybrid junk fuel hp I A C cutoff = some (A, hp')) := by
  have r := mul_identity_right hA hI hC hid
  have l := mul_identity_left hA hI hC hid
  obtain ⟨h1, e1, _⟩ := strassenMul_eq_mul junk k fuel hfuel hp hA hI hC
  obtain ⟨h2, e2, _⟩ := strassenMul_eq_mul junk k fuel hfuel hp hI hA hC
  obtain ⟨h3, e3, _⟩ := strassenMul_hybrid_eq_mul junk k fuel (by omega) hp cutoff hcut hA hI hC
  obtain ⟨h4, e4, _⟩ := strassenMul_hybrid_eq_mul junk k fuel (by omega) hp cutoff hcut hI hA hC
  rw [r] at e1 e3
  rw [l] at e2 e4
  exact ⟨r, l, ⟨h1, e1⟩, ⟨h2, e2⟩, ⟨h3, e3⟩, ⟨h4, e4⟩⟩

/-- C8, witness: side 2, cutoff 1. -/
theorem C8_identity_witness :
    mul ⟨[1, 2, 3, 4], 2, 2⟩ ⟨[1, 0, 0, 1], 2, 2⟩ ⟨[9, 9, 9, 9], 2, 2⟩ = ⟨[1, 2, 3, 4], 2, 2⟩ ∧
    mul ⟨[1, 0, 0, 1], 2, 2⟩ ⟨[1, 2, 3, 4], 2, 2⟩ ⟨[9, 9, 9, 9], 2, 2⟩ = ⟨[1, 2, 3, 4], 2, 2⟩ ∧
    (∃ hp', strassenMul (fun _ _ => 7) 2 ⟨0, 0⟩ ⟨[1, 2, 3, 4], 2, 2⟩ ⟨[1, 0, 0, 1], 2, 2⟩
      ⟨[9, 9, 9, 9], 2, 2⟩ = some (⟨[1, 2, 3, 4], 2, 2⟩, hp')) ∧
    (∃ hp', strassenMul (fun _ _ => 7) 2 ⟨0, 0⟩ ⟨[1, 0, 0, 1], 2, 2⟩ ⟨[1, 2, 3, 4], 2, 2⟩
      ⟨[9, 9, 9, 9], 2, 2⟩ = some (⟨[1, 2, 3, 4], 2, 2⟩, hp')) ∧
    (∃ hp', strassenMul_hybrid (fun _ _ => 7) 2 ⟨0, 0⟩ ⟨[1, 2, 3, 4], 2, 2⟩ ⟨[1, 0, 0, 1], 2, 2⟩
      ⟨[9, 9, 9, 9], 2, 2⟩ 1 = some (⟨[1, 2, 3, 4], 2, 2⟩, hp')) ∧
    (∃ hp', strassenMul_hybrid (fun _ _ => 7) 2 ⟨0, 0⟩ ⟨[1, 0, 0, 1], 2, 2⟩ ⟨[1, 2, 3, 4], 2, 2⟩
      ⟨[9, 9, 9, 9], 2, 2⟩ 1 = some (⟨[1, 2, 3, 4], 2, 2⟩, hp')) :=
  C8_identity (fun _ _ => 7) 1 2 (by decide) ⟨0, 0⟩ ⟨[1, 2, 3, 4], 2, 2⟩ ⟨[1, 0, 0, 1], 2, 2⟩
    ⟨[9, 9, 9, 9], 2, 2⟩ 1 (by decide) ⟨rfl, rfl, rfl⟩ ⟨rfl, rfl, rfl⟩ ⟨rfl, rfl, rfl⟩
    (by intro i j hi hj; interval_cases i <;> interval_cases j <;> rfl)

/-- C9: base case. For 1×1 matrices `A = [a]`, `B = [b]` and any 1×1 `C`, each
of `strassenMul`, `mul` and `strassenMul_hybrid` with any cutoff `≥ 1` leaves
`C = [a * b]`. `strassenMul` does so within its first frame (fuel `fuel + 1` for
any `fuel`, so already with fuel 1, which allows no recursive call) and the
hybrid without any `strassenMul` frame (any fuel, so already fuel 0); both
return the heap unchanged, so no temporary is allocated. -/
theorem C9_base_case (junk : Nat → Nat → Int) (fuel : Nat) (hp : Heap) (a b c : Int)
    (cutoff : Int) (hcut : 1 ≤ cutoff) :
    strassenMul junk (fuel + 1) hp ⟨[a], 1, 1⟩ ⟨[b], 1, 1⟩ ⟨[c], 1, 1⟩ =
      some (⟨[a * b], 1, 1⟩, hp) ∧
    mul ⟨[a], 1, 1⟩ ⟨[b], 1, 1⟩ ⟨[c], 1, 1⟩ = ⟨[a * b], 1, 1⟩ ∧
    strassenMul_hybrid junk fuel hp ⟨[a], 1, 1⟩ ⟨[b], 1, 1⟩ ⟨[c], 1, 1⟩ cutoff =
      some (⟨[a * b], 1, 1⟩, hp) := by
  have hm : mul ⟨[a], 1, 1⟩ ⟨[b], 1, 1⟩ ⟨[c], 1, 1⟩ = ⟨[a * b], 1, 1⟩ := rfl
  refine ⟨rfl, hm, ?_⟩
  unfold strassenMul_hybrid
  rw [if_pos hcut, hm]

/-- C9, witness: `[3] * [-4] = [-12]` with cutoff 1. -/
theorem C9_base_case_witness :
    strassenMul (fun _ _ => 7) 1 ⟨0, 0⟩ ⟨[3], 1, 1⟩ ⟨[-4], 1, 1⟩ ⟨[5], 1, 1⟩ =
      some (⟨[-12], 1, 1⟩, ⟨0, 0⟩) ∧
    mul ⟨[3], 1, 1⟩ ⟨[-4], 1, 1⟩ ⟨[5], 1, 1⟩ = ⟨[-12], 1, 1⟩ ∧
    strassenMul_hybrid (fun _ _ => 7) 0 ⟨0, 0⟩ ⟨[3], 1, 1⟩ ⟨[-4], 1, 1⟩ ⟨[5], 1, 1⟩ 1 =
      some (⟨[-12], 1, 1⟩, ⟨0, 0⟩) :=
  C9_base_case (fun _ _ => 7) 0 ⟨0, 0⟩ 3 (-4) 5 1 (by decide)

/-- C10: all-ones scenario, with the operands built as `main` builds them. For
every `n ≥ 1`, with `m = nextPowerOfTwo(n)` and `A = B` the `m × m` matrix holding
`1` in its top-left `n × n` block and `0` elsewhere, the three multipliers
(`mul`, `strassenMul`, and `strassenMul_hybrid` with any cutoff `≥ 1`) return the
same matrix `C`, in which every cell of the top-left `n × n` block is `n` and
every other cell is `0`. -/
theorem C10_all_ones (junk : Nat → Nat → Int) (n fuel : Nat) (hn : 1 ≤ n)
    (hfuel : nextPowerOfTwo (n : Int) ≤ (fuel : Int)) (hp : Heap) (cutoff : Int)
    (hcut : 1 ≤ cutoff) :
    ∃ (m : Nat) (C' : Matrix), nextPowerOfTwo (n : Int) = (m : Int) ∧ C'.IsSquare m ∧
      (∀ i j, i < m → j < m → C'.cell i j = if i < n ∧ j < n then (n : Int) else 0) ∧
      mul (mainOperands junk hp n).1.1 (mainOperands junk hp n).1.2.1
        (mainOperands junk hp n).1.2.2 = C' ∧
      (∃ hp', strassenMul junk fuel (mainOperands junk hp n).2 (mainOperands junk hp n).1.1
        (mainOperands junk hp n).1.2.1 (mainOperands junk hp n).1.2.2 = some (C', hp')) ∧
      (∃ hp', strassenMul_hybrid junk fuel (mainOperands junk hp n).2
        (mainOperands junk hp n).1.1 (mainOperands junk hp n).1.2.1
        (mainOperands junk hp n).1.2.2 cutoff = some (C', hp')) := by
  obtain ⟨k, hk, hnk, hkk⟩ := two_pow_of_nextPowerOfTwo n (by omega)
  obtain ⟨wA, wB, wC, cA, cB⟩ := mainOperands_spec junk hp n (2 ^ k) hk
  have hf : 2 ^ k ≤ fuel := by rw [hk] at hfuel; exact_mod_cast hfuel
  obtain ⟨w, hc⟩ := mul_spec wA wB wC
  obtain ⟨h1, e1, _⟩ := strassenMul_eq_mul junk k fuel (by omega) (mainOperands junk hp n).2
    wA wB wC
  obtain ⟨h2, e2, _⟩ := strassenMul_hybrid_eq_mul junk k fuel (by omega)
    (mainOperands junk hp n).2 cutoff hcut wA wB wC
  refine ⟨2 ^ k, _, hk, w, fun i j hi hj => ?_, rfl, ⟨h1, e1⟩, ⟨h2, e2⟩⟩
  rw [hc i j hi hj]
  exact matProd_ones hnk i j (fun t ht => cA i t hi ht) (fun t ht => cB t j ht hj)

/-- C10, witness: `n = 4` gives the 4×4 matrix of all 4s, under `mul`, under
`strassenMul`, and under the hybrid with cutoff 1 and with cutoff 2. -/
theorem C10_all_ones_witness :
    mul (mainOperands (fun _ _ => 7) ⟨0, 0⟩ 4).1.1 (mainOperands (fun _ _ => 7) ⟨0, 0⟩ 4).1.2.1
      (mainOperands (fun _ _ => 7) ⟨0, 0⟩ 4).1.2.2 = ⟨List.replicate 16 4, 4, 4⟩ ∧
    (∃ (m : Nat) (C' : Matrix), nextPowerOfTwo ((4 : Nat) : Int) = (m : Int) ∧ C'.IsSquare m ∧
      (∀ i j, i < m → j < m → C'.cell i j = if i < 4 ∧ j < 4 then ((4 : Nat) : Int) else 0) ∧
      mul (mainOperands (fun _ _ => 7) ⟨0, 0⟩ (4 : Nat)).1.1
        (mainOperands (fun _ _ => 7) ⟨0, 0⟩ (4 : Nat)).1.2.1
        (mainOperands (fun _ _ => 7) ⟨0, 0⟩ (4 : Nat)).1.2.2 = C' ∧
      (∃ hp', strassenMul (fun _ _ => 7) 4 (mainOperands (fun _ _ => 7) ⟨0, 0⟩ (4 : Nat)).2
        (mainOperands (fun _ _ => 7) ⟨0, 0⟩ (4 : Nat)).1.1
        (mainOperands (fun _ _ => 7) ⟨0, 0⟩ (4 : Nat)).1.2.1
        (mainOperands (fun _ _ => 7) ⟨0, 0⟩ (4 : Nat)).1.2.2 = some (C', hp')) ∧
      (∃ hp', strassenMul_hybrid (fun _ _ => 7) 4
        (mainOperands (fun _ _ => 7) ⟨0, 0⟩ (4 : Nat)).2
        (mainOperands (fun _ _ => 7) ⟨0, 0⟩ (4 : Nat)).1.1
        (mainOperands (fun _ _ => 7) ⟨0, 0⟩ (4 : Nat)).1.2.1
        (mainOperands (fun _ _ => 7) ⟨0, 0⟩ (4 : Nat)).1.2.2 1 = some (C', hp'))) ∧
    (∃ (m : Nat) (C' : Matrix), nextPowerOfTwo ((4 : Nat) : Int) = (m : Int) ∧ C'.IsSquare m ∧
      (∀ i j, i < m → j < m → C'.cell i j = if i < 4 ∧ j < 4 then ((4 : Nat) : Int) else 0) ∧
      mul (mainOperands (fun _ _ => 7) ⟨0, 0⟩ (4 : Nat)).1.1
        (mainOperands (fun _ _ => 7) ⟨0, 0⟩ (4 : Nat)).1.2.1
        (mainOperands (fun _ _ => 7) ⟨0, 0⟩ (4 : Nat)).1.2.2 = C' ∧
      (∃ hp', strassenMul (fun _ _ => 7) 4 (mainOperands (fun _ _ => 7) ⟨0, 0⟩ (4 : Nat)).2
        (mainOperands (fun _ _ => 7) ⟨0, 0⟩ (4 : Nat)).1.1
        (mainOperands (fun _ _ => 7) ⟨0, 0⟩ (4 : Nat)).1.2.1
        (mainOperands (fun _ _ => 7) ⟨0, 0⟩ (4 : Nat)).1.2.2 = some (C', hp')) ∧
      (∃ hp', strassenMul_hybrid (fun _ _ => 7) 4
        (mainOperands (fun _ _ => 7) ⟨0, 0⟩ (4 : Nat)).2
        (mainOperands (fun _ _ => 7) ⟨0, 0⟩ (4 : Nat)).1.1
        (mainOperands (fun _ _ => 7) ⟨0, 0⟩ (4 : Nat)).1.2.1
        (mainOperands (fun _ _ => 7) ⟨0, 0⟩ (4 : Nat)).1.2.2 2 = some (C', hp'))) :=
  ⟨by decide,
   C10_all_ones (fun _ _ => 7) 4 4 (by decide) (by decide) ⟨0, 0⟩ 1 (by decide),
   C10_all_ones (fun _ _ => 7) 4 4 (by decide) (by decide) ⟨0, 0⟩ 2 (by decide)⟩

/-! ## Shapes are preserved -/

theorem SameShape_refl (M : Matrix) : M.SameShape M := ⟨rfl, rfl, rfl⟩

theorem SameShape_trans {M N K : Matrix} (h1 : M.SameShape N) (h2 : N.SameShape K) :
    M.SameShape K :=
  ⟨h1.1.trans h2.1, h1.2.1.trans h2.2.1, h1.2.2.trans h2.2.2⟩

theorem SameShape_store (M : Matrix) (r c cols v : Int) : (M.store r c cols v).SameShape M :=
  ⟨rfl, rfl, by simp [Matrix.store, matrixElemSet, wrBuf_length]⟩

theorem IsSquare_of_SameShape {M N : Matrix} {n : Nat} (h : M.SameShape N)
    (hN : N.IsSquare n) : M.IsSquare n :=
  ⟨h.1.trans hN.1, h.2.1.trans hN.2.1, h.2.2.trans hN.2.2⟩

/-- A property kept by every iteration of a `for` loop is kept by the loop. -/
theorem forLoop_keeps {σ : Type} (P : σ → Prop) (lo hi : Int) (body : Int → σ → σ)
    (hbody : ∀ i st, P st → P (body i st)) (s : σ) (hs : P s) : P (forLoop lo hi body s) := by
  unfold forLoop
  generalize List.range (hi - lo).toNat = l
  induction l generalizing s with
  | nil => exact hs
  | cons x xs ih => exact ih _ (hbody _ _ hs)

/-- Two nested loops whose body keeps the shape of the matrix keep its shape. -/
theorem SameShape_loops (lo1 hi1 : Int) (lo2 hi2 : Int → Matrix → Int)
    (upd : Int → Int → Matrix → Matrix)
    (hupd : ∀ i j D, (upd i j D).SameShape D) (M : Matrix) :
    (forLoop lo1 hi1 (fun i D => forLoop (lo2 i D) (hi2 i D) (fun j D => upd i j D) D)
      M).SameShape M :=
  forLoop_keeps (fun D => D.SameShape M) lo1 hi1 _
    (fun i D hD => forLoop_keeps (fun E => E.SameShape M) _ _ _
      (fun j E hE => SameShape_trans (hupd i j E) hE) D hD) M (SameShape_refl M)

theorem SameShape_initMatrixZeros (M : Matrix) : (initMatrixZeros M).SameShape M :=
  SameShape_loops 0 M.row (fun _ _ => 0) (fun _ D => D.col)
    (fun i j D => D.store i j D.col 0) (fun _ _ D => SameShape_store D _ _ _ _) M

theorem SameShape_sumMatrix (A : Matrix) (rA cA : Int) (B : Matrix) (rB cB : Int) (C : Matrix)
    (r c s : Int) : (sumMatrix A rA cA B rB cB C r c s).2.SameShape C :=
  SameShape_loops 0 s (fun _ _ => 0) (fun _ _ => s) _
    (fun _ _ D => SameShape_store D _ _ _ _) C

theorem SameShape_subMatrix (A : Matrix) (rA cA : Int) (B : Matrix) (rB cB : Int) (C : Matrix)
    (r c s : Int) : (subMatrix A rA cA B rB cB C r c s).2.SameShape C :=
  SameShape_loops 0 s (fun _ _ => 0) (fun _ _ => s) _
    (fun _ _ D => SameShape_store D _ _ _ _) C

theorem SameShape_addSubmatrix (A B : Matrix) (r c s : Int) :
    (addSubmatrix A B r c s).2.SameShape B :=
  SameShape_loops 0 s (fun _ _ => 0) (fun _ _ => s) _
    (fun _ _ D => SameShape_store D _ _ _ _) B

theorem SameShape_subSubmatrix (A B : Matrix) (r c s : Int) :
    (subSubmatrix A B r c s).2.SameShape B :=
  SameShape_loops 0 s (fun _ _ => 0) (fun _ _ => s) _
    (fun _ _ D => SameShape_store D _ _ _ _) B

theorem SameShape_copySubmatrix (A : Matrix) (rA cA : Int) (C : Matrix) (r c s : Int) :
    (copySubmatrix A rA cA C r c s).2.SameShape C :=
  SameShape_loops 0 s (fun _ _ => 0) (fun _ _ => s) _
    (fun _ _ D => SameShape_store D _ _ _ _) C

theorem SameShape_mul (A B C : Matrix) : (mul A B C).SameShape C :=
  SameShape_loops 0 A.row (fun _ _ => 0) (fun _ _ => A.col)
    (fun i j C => forLoop 1 A.row (fun k C =>
        C.store i j C.row
          (matrixElem C.matrix i j C.row +
           matrixElem A.matrix i k A.row * matrixElem B.matrix k j B.row))
      (C.store i j C.row
        (matrixElem A.matrix i 0 A.row * matrixElem B.matrix 0 j B.row)))
    (fun _ _ D => forLoop_keeps (fun E => E.SameShape D) _ _ _
      (fun _ E hE => SameShape_trans (SameShape_store E _ _ _ _) hE) _
      (SameShape_store D _ _ _ _)) C

/-! ## Pure Strassen on every side -/

/-- The combination of one level reads its operands only inside the four
quadrants. -/
theorem strassenCombine_congr {n h : Nat} (hn : h + h ≤ n)
    {R : (Nat → Nat → Int) → (Nat → Nat → Int) → Nat → Nat → Int}
    (hR : ∀ f f' g g' : Nat → Nat → Int, (∀ i j, i < h → j < h → f i j = f' i j) →
      (∀ i j, i < h → j < h → g i j = g' i j) →
      ∀ i j, i < h → j < h → R f g i j = R f' g' i j)
    {a a' b b' : Nat → Nat → Int} (ha : ∀ i j, i < n → j < n → a i j = a' i j)
    (hb : ∀ i j, i < n → j < n → b i j = b' i j) (i j : Nat) :
    strassenCombine h R a b i j = strassenCombine h R a' b' i j := by
  have e1 := hR (fun i j => a i (j + h) - a (i + h) (j + h))
    (fun i j => a' i (j + h) - a' (i + h) (j + h))
    (fun i j => b (i + h) j + b (i + h) (j + h)) (fun i j => b' (i + h) j + b' (i + h) (j + h))
    (fun i j hi hj => by
      show a i (j + h) - a (i + h) (j + h) = a' i (j + h) - a' (i + h) (j + h)
      rw [ha _ _ (by omega) (by omega), ha _ _ (by omega) (by omega)])
    (fun i j hi hj => by
      show b (i + h) j + b (i + h) (j + h) = b' (i + h) j + b' (i + h) (j + h)
      rw [hb _ _ (by omega) (by omega), hb _ _ (by omega) (by omega)])
  have e2 := hR (fun i j => a i j + a (i + h) (j + h)) (fun i j => a' i j + a' (i + h) (j + h))
    (fun i j => b i j + b (i + h) (j + h)) (fun i j => b' i j + b' (i + h) (j + h))
    (fun i j hi hj => by
      show a i j + a (i + h) (j + h) = a' i j + a' (i + h) (j + h)
      rw [ha _ _ (by omega) (by omega), ha _ _ (by omega) (by omega)])
    (fun i j hi hj => by
      show b i j + b (i + h) (j + h) = b' i j + b' (i + h) (j + h)
      rw [hb _ _ (by omega) (by omega), hb _ _ (by omega) (by omega)])
  have e3 := hR (fun i j => a i j - a (i + h) j) (fun i j => a' i j - a' (i + h) j)
    (fun i j => b i j + b i (j + h)) (fun i j => b' i j + b' i (j + h))
    (fun i j hi hj => by
      show a i j - a (i + h) j = a' i j - a' (i + h) j
      rw [ha _ _ (by omega) (by omega), ha _ _ (by omega) (by omega)])
    (fun i j hi hj => by
      show b i j + b i (j + h) = b' i j + b' i (j + h)
      rw [hb _ _ (by omega) (by omega), hb _ _ (by omega) (by omega)])
  have e4 := hR (fun i j => a i j + a i (j + h)) (fun i j => a' i j + a' i (j + h))
    (fun i j => b (i + h) (j + h)) (fun i j => b' (i + h) (j + h))
    (fun i j hi hj => by
      show a i j + a i (j + h) = a' i j + a' i (j + h)
      rw [ha _ _ (by omega) (by omega), ha _ _ (by omega) (by omega)])
    (fun i j hi hj => hb _ _ (by omega) (by omega))
  have e5 := hR (fun i j => a i j) (fun i j => a' i j)
    (fun i j => b i (j + h) - b (i + h) (j + h)) (fun i j => b' i (j + h) - b' (i + h) (j + h))
    (fun i j hi hj => ha _ _ (by omega) (by omega))
    (fun i j hi hj => by
      show b i (j + h) - b (i + h) (j + h) = b' i (j + h) - b' (i + h) (j + h)
      rw [hb _ _ (by omega) (by omega), hb _ _ (by omega) (by omega)])
  have e6 := hR (fun i j => a (i + h) (j + h)) (fun i j => a' (i + h) (j + h))
    (fun i j => b (i + h) j - b i j) (fun i j => b' (i + h) j - b' i j)
    (fun i j hi hj => ha _ _ (by omega) (by omega))
    (fun i j hi hj => by
      show b (i + h) j - b i j = b' (i + h) j - b' i j
      rw [hb _ _ (by omega) (by omega), hb _ _ (by omega) (by omega)])
  have e7 := hR (fun i j => a (i + h) j + a (i + h) (j + h))
    (fun i j => a' (i + h) j + a' (i + h) (j + h)) (fun i j => b i j) (fun i j => b' i j)
    (fun i j hi hj => by
      show a (i + h) j + a (i + h) (j + h) = a' (i + h) j + a' (i + h) (j + h)
      rw [ha _ _ (by omega) (by omega), ha _ _ (by omega) (by omega)])
    (fun i j hi hj => hb _ _ (by omega) (by omega))
  unfold strassenCombine
  by_cases hi1 : i < h
  · by_cases hj1 : j < h
    · simp only [hi1, hj1, if_true]
      rw [e1 i j hi1 hj1, e2 i j hi1 hj1, e4 i j hi1 hj1, e6 i j hi1 hj1]
    · by_cases hj2 : j < h + h
      · simp only [hi1, hj1, hj2, if_true, if_false]
        rw [e4 i (j - h) hi1 (by omega), e5 i (j - h) hi1 (by omega)]
      · simp only [hi1, hj1, hj2, if_true, if_false]
  · by_cases hi2 : i < h + h
    · by_cases hj1 : j < h
      · simp only [hi1, hi2, hj1, if_true, if_false]
        rw [e6 (i - h) j (by omega) hj1, e7 (i - h) j (by omega) hj1]
      · by_cases hj2 : j < h + h
        · simp only [hi1, hi2, hj1, hj2, if_true, if_false]
          rw [e2 (i - h) (j - h) (by omega) (by omega), e3 (i - h) (j - h) (by omega) (by omega),
            e5 (i - h) (j - h) (by omega) (by omega), e7 (i - h) (j - h) (by omega) (by omega)]
        · simp only [hi1, hi2, hj1, hj2, if_true, if_false]
    · simp only [hi1, hi2, if_false]

/-- The reference recursion reads its operands only inside the leading `n × n`
block. -/
theorem strassenRef_congr (fuel : Nat) :
    ∀ (n : Nat) (a a' b b' : Nat → Nat → Int), 1 ≤ n →
      (∀ i j, i < n → j < n → a i j = a' i j) → (∀ i j, i < n → j < n → b i j = b' i j) →
      ∀ i j, strassenRef fuel n a b i j = strassenRef fuel n a' b' i j := by
  induction fuel with
  | zero => intro n a a' b b' _ _ _ i j; rfl
  | succ fuel ih =>
    intro n a a' b b' hn ha hb i j
    by_cases h1 : n = 1
    · simp only [strassenRef, h1, if_true]
      rw [ha 0 0 (by omega) (by omega), hb 0 0 (by omega) (by omega)]
    · simp only [strassenRef, h1, if_false]
      exact strassenCombine_congr (n := n) (by omega)
        (fun f f' g g' hf hg i j _ _ => ih (n / 2) f f' g g' (by omega) hf hg i j) ha hb i j

/-- Function `strassenMul` on any side `n ≥ 1`: for an operand `A` with `n` rows,
any `B`, and a well-formed `C` of side `n`, the call returns once the fuel
exceeds `log2 n`; `C` keeps its shape, its cells are those of `strassenRef`, and
the number of live allocations is the one at entry. -/
theorem strassenMul_total (junk : Nat → Nat → Int) (fuel : Nat) :
    ∀ (n : Nat), 1 ≤ n → n < 2 ^ fuel → ∀ (hp : Heap) (X Y Z : Matrix),
      X.row = (n : Int) → Z.IsSquare n →
      ∃ Z' hp', strassenMul junk fuel hp X Y Z = some (Z', hp') ∧ Z'.IsSquare n ∧
        hp'.live = hp.live ∧
        ∀ i j, i < n → j < n → Z'.cell i j = strassenRef fuel n X.cell Y.cell i j := by
  induction fuel with
  | zero => intro n h1 h2; simp at h2; omega
  | succ fuel ih =>
    intro n h1 h2 hp X Y Z hX hZ
    by_cases hn : n = 1
    · subst hn
      have hX1 : X.row = 1 := by rw [hX]; rfl
      rw [strassenMul_base junk fuel hp hX1]
      obtain ⟨w, hc⟩ := store_plain (a := 0) (b := 0) hZ (by omega) (by omega) hZ.2.1
        (matrixElem X.matrix 0 0 X.col * matrixElem Y.matrix 0 0 Y.col)
      simp only [Nat.cast_zero] at w hc
      refine ⟨_, _, rfl, w, rfl, fun i j hi hj => ?_⟩
      have hi0 : i = 0 := by omega
      have hj0 : j = 0 := by omega
      subst hi0 hj0
      rw [hc 0 0 (by omega) (by omega), if_pos ⟨rfl, rfl⟩]
      simp [strassenRef, Matrix.cell]
    · have hX1 : X.row ≠ 1 := by
        rw [hX]; intro h; exact hn (by exact_mod_cast h)
      rw [strassenMul_step junk fuel hp hX1]
      have hpow : 2 ^ (fuel + 1) = 2 ^ fuel + 2 ^ fuel := by rw [pow_succ]; omega
      obtain ⟨C', hp', e, w, l, hc⟩ := strassenFrame_spec junk (strassenMul junk fuel)
        (strassenRef fuel (n / 2)) (n := n) (h := n / 2) rfl
        (fun hp X' Y' Z' f g hX' _ hZ' cX cY => by
          obtain ⟨Z'', hp'', e, w, l, hc⟩ := ih (n / 2) (by omega) (by omega) hp X' Y' Z'
            hX'.1 hZ'
          refine ⟨Z'', hp'', e, w, l, fun i j hi hj => ?_⟩
          rw [hc i j hi hj]
          exact strassenRef_congr fuel (n / 2) _ _ _ _ (by omega) cX cY i j)
        hp (B := Y) hX hZ
      refine ⟨C', hp', e, w, l, fun i j hi hj => ?_⟩
      rw [hc i j hi hj]
      simp only [strassenRef, hn, if_false]

/-- Function `strassenMul_hybrid` on any side `n ≥ 1` with a cutoff `≥ 1`: the
call returns, `C` keeps its shape and the number of live allocations is the one
at entry. -/
theorem strassenMul_hybrid_total (junk : Nat → Nat → Int) (fuel n : Nat) (hn : 1 ≤ n)
    (hfuel : n < 2 ^ (fuel + 1)) (hp : Heap) (X Y Z : Matrix) (cutoff : Int)
    (hcut : 1 ≤ cutoff) (hX : X.row = (n : Int)) (hZ : Z.IsSquare n) :
    ∃ Z' hp', strassenMul_hybrid junk fuel hp X Y Z cutoff = some (Z', hp') ∧
      Z'.IsSquare n ∧ hp'.live = hp.live := by
  unfold strassenMul_hybrid
  by_cases hle : X.row ≤ cutoff
  · rw [if_pos hle]
    exact ⟨_, hp, rfl, IsSquare_of_SameShape (SameShape_mul X Y Z) hZ, rfl⟩
  · rw [if_neg hle]
    have h2 : 2 ≤ n := by rw [hX] at hle; omega
    have hpow : 2 ^ (fuel + 1) = 2 ^ fuel + 2 ^ fuel := by rw [pow_succ]; omega
    obtain ⟨C', hp', e, w, l, _⟩ := strassenFrame_spec junk (strassenMul junk fuel)
      (strassenRef fuel (n / 2)) (n := n) (h := n / 2) rfl
      (fun hp X' Y' Z' f g hX' _ hZ' cX cY => by
        obtain ⟨Z'', hp'', e, w, l, hc⟩ := strassenMul_total junk fuel (n / 2) (by omega)
          (by omega) hp X' Y' Z' hX'.1 hZ'
        refine ⟨Z'', hp'', e, w, l, fun i j hi hj => ?_⟩
        rw [hc i j hi hj]
        exact strassenRef_congr fuel (n / 2) _ _ _ _ (by omega) cX cY i j)
      hp (B := Y) hX hZ
    exact ⟨C', hp', e, w, l⟩

/-! ## Allocation accounting -/

theorem row_sumMatrix (A : Matrix) (rA cA : Int) (B : Matrix) (rB cB : Int) (C : Matrix)
    (r c s : Int) : (sumMatrix A rA cA B rB cB C r c s).2.row = C.row :=
  (SameShape_sumMatrix A rA cA B rB cB C r c s).1

theorem row_subMatrix (A : Matrix) (rA cA : Int) (B : Matrix) (rB cB : Int) (C : Matrix)
    (r c s : Int) : (subMatrix A rA cA B rB cB C r c s).2.row = C.row :=
  (SameShape_subMatrix A rA cA B rB cB C r c s).1

theorem row_copySubmatrix (A : Matrix) (rA cA : Int) (C : Matrix) (r c s : Int) :
    (copySubmatrix A rA cA C r c s).2.row = C.row :=
  (SameShape_copySubmatrix A rA cA C r c s).1

/-- Heap effect of one frame: if each of the seven calls keeps the number of live
allocations and makes `d` allocations, the frame keeps the number of live
allocations and makes `3 + 7 * d` allocations. -/
theorem strassenFrame_heap (junk : Nat → Nat → Int)
    (recur : Heap → Matrix → Matrix → Matrix → Option (Matrix × Heap)) (d : Nat)
    (hp : Heap) (A B C : Matrix)
    (hrec : ∀ (h : Heap) (X Y Z Z' : Matrix) (h' : Heap), X.row = A.row.tdiv 2 →
      recur h X Y Z = some (Z', h') → h'.live = h.live ∧ h'.serial = h.serial + d)
    (C' : Matrix) (hp' : Heap) (hres : strassenFrame junk recur hp A B C = some (C', hp')) :
    hp'.live = hp.live ∧ hp'.serial = hp.serial + 3 + 7 * d := by
  unfold strassenFrame at hres
  simp only [Option.bind_eq_some] at hres
  obtain ⟨r1, e1, r2, e2, r3, e3, r4, e4, r5, e5, r6, e6, r7, e7, hfin⟩ := hres
  have q1 := hrec _ _ _ _ _ _ (by simp only [row_sumMatrix, row_subMatrix, row_copySubmatrix]; rfl) e1
  have q2 := hrec _ _ _ _ _ _ (by simp only [row_sumMatrix, row_subMatrix, row_copySubmatrix]; rfl) e2
  have q3 := hrec _ _ _ _ _ _ (by simp only [row_sumMatrix, row_subMatrix, row_copySubmatrix]; rfl) e3
  have q4 := hrec _ _ _ _ _ _ (by simp only [row_sumMatrix, row_subMatrix, row_copySubmatrix]; rfl) e4
  have q5 := hrec _ _ _ _ _ _ (by simp only [row_sumMatrix, row_subMatrix, row_copySubmatrix]; rfl) e5
  have q6 := hrec _ _ _ _ _ _ (by simp only [row_sumMatrix, row_subMatrix, row_copySubmatrix]; rfl) e6
  have q7 := hrec _ _ _ _ _ _ (by simp only [row_sumMatrix, row_subMatrix, row_copySubmatrix]; rfl) e7
  simp only [Option.some.injEq, Prod.mk.injEq] at hfin
  obtain ⟨_, hh⟩ := hfin
  subst hh
  simp only [freeMatrix, allocMatrix] at q1 q2 q3 q4 q5 q6 q7 ⊢
  omega

/-- Heap effect of `strassenMul`, whenever it returns: the number of live
allocations is the one at entry and three allocations were made per frame that
went past the base case. -/
theorem strassenMul_heap (junk : Nat → Nat → Int) (fuel : Nat) :
    ∀ (hp : Heap) (A B C C' : Matrix) (hp' : Heap),
      strassenMul junk fuel hp A B C = some (C', hp') →
      hp'.live = hp.live ∧ hp'.serial = hp.serial + 3 * strassenFrames fuel A.row := by
  induction fuel with
  | zero => intro hp A B C C' hp' h; simp [strassenMul] at h
  | succ fuel ih =>
    intro hp A B C C' hp' h
    by_cases h1 : A.row = 1
    · rw [strassenMul_base junk fuel hp h1] at h
      simp only [Option.some.injEq, Prod.mk.injEq] at h
      rw [← h.2]
      simp [strassenFrames, h1]
    · rw [strassenMul_step junk fuel hp h1] at h
      obtain ⟨l, s⟩ := strassenFrame_heap junk (strassenMul junk fuel)
        (3 * strassenFrames fuel (A.row.tdiv 2)) hp A B C
        (fun h X Y Z Z' h' hX e => by
          have := ih h X Y Z Z' h' e
          rw [hX] at this
          exact this) C' hp' h
      refine ⟨l, ?_⟩
      rw [s]
      simp only [strassenFrames, h1, if_false]
      omega

/-! ## The storage invariant along the recursion -/

theorem invariantOk_of_IsSquare {M : Matrix} {n : Nat} (hn : 1 ≤ n) (hM : M.IsSquare n) :
    M.invariantOk (n : Int) = true := by
  obtain ⟨h1, h2, h3⟩ := hM
  simp only [Matrix.invariantOk, Bool.and_eq_true, decide_eq_true_eq]
  refine ⟨⟨⟨by omega, h1⟩, h2⟩, ?_⟩
  rw [h3]; push_cast; rfl

/-- The asserted run of `strassenMul` on well-formed matrices of side `n ≥ 1`
returns, with the cells of `strassenRef`: no assertion fails at any level. -/
theorem strassenMulChecked_total (junk : Nat → Nat → Int) (fuel : Nat) :
    ∀ (n : Nat), 1 ≤ n → n < 2 ^ fuel → ∀ (hp : Heap) (X Y Z : Matrix),
      X.IsSquare n → Y.IsSquare n → Z.IsSquare n →
      ∃ Z' hp', strassenMulChecked junk fuel hp X Y Z = some (Z', hp') ∧ Z'.IsSquare n ∧
        hp'.live = hp.live ∧
        ∀ i j, i < n → j < n → Z'.cell i j = strassenRef fuel n X.cell Y.cell i j := by
  induction fuel with
  | zero => intro n h1 h2; simp at h2; omega
  | succ fuel ih =>
    intro n h1 h2 hp X Y Z hX hY hZ
    have hok : (X.invariantOk X.row && Y.invariantOk X.row && Z.invariantOk X.row) = true := by
      rw [hX.1, invariantOk_of_IsSquare h1 hX, invariantOk_of_IsSquare h1 hY,
        invariantOk_of_IsSquare h1 hZ]; rfl
    rw [strassenMulChecked, if_pos hok]
    by_cases hn : n = 1
    · subst hn
      have hX1 : X.row = 1 := by rw [hX.1]; rfl
      rw [if_pos hX1]
      obtain ⟨w, hc⟩ := store_plain (a := 0) (b := 0) hZ (by omega) (by omega) hZ.2.1
        (matrixElem X.matrix 0 0 X.col * matrixElem Y.matrix 0 0 Y.col)
      simp only [Nat.cast_zero] at w hc
      refine ⟨_, _, rfl, w, rfl, fun i j hi hj => ?_⟩
      have hi0 : i = 0 := by omega
      have hj0 : j = 0 := by omega
      subst hi0 hj0
      rw [hc 0 0 (by omega) (by omega), if_pos ⟨rfl, rfl⟩]
      simp [strassenRef, Matrix.cell]
    · have hX1 : X.row ≠ 1 := by
        rw [hX.1]; intro h; exact hn (by exact_mod_cast h)
      rw [if_neg hX1]
      have hpow : 2 ^ (fuel + 1) = 2 ^ fuel + 2 ^ fuel := by rw [pow_succ]; omega
      obtain ⟨C', hp', e, w, l, hc⟩ := strassenFrame_spec junk (strassenMulChecked junk fuel)
        (strassenRef fuel (n / 2)) (n := n) (h := n / 2) rfl
        (fun hp X' Y' Z' f g hX' hY' hZ' cX cY => by
          obtain ⟨Z'', hp'', e, w, l, hc⟩ := ih (n / 2) (by omega) (by omega) hp X' Y' Z'
            hX' hY' hZ'
          refine ⟨Z'', hp'', e, w, l, fun i j hi hj => ?_⟩
          rw [hc i j hi hj]
          exact strassenRef_congr fuel (n / 2) _ _ _ _ (by omega) cX cY i j)
        hp (B := Y) hX.1 hZ
      refine ⟨C', hp', e, w, l, fun i j hi hj => ?_⟩
      rw [hc i j hi hj]
      simp only [strassenRef, hn, if_false]

/-- On well-formed matrices of side `n ≥ 1` the asserted run of `strassenMul`
returns the matrix that `strassenMul` returns. -/
theorem strassenMulChecked_agrees (junk : Nat → Nat → Int) (fuel n : Nat) (hn : 1 ≤ n)
    (hfuel : n < 2 ^ fuel) (hp : Heap) {X Y Z : Matrix} (hX : X.IsSquare n)
    (hY : Y.IsSquare n) (hZ : Z.IsSquare n) :
    ∃ Z' hp' hp'', strassenMul junk fuel hp X Y Z = some (Z', hp') ∧
      strassenMulChecked junk fuel hp X Y Z = some (Z', hp'') ∧ Z'.IsSquare n := by
  obtain ⟨Z1, h1, e1, w1, _, c1⟩ := strassenMul_total junk fuel n hn hfuel hp X Y Z hX.1 hZ
  obtain ⟨Z2, h2, e2, w2, _, c2⟩ := strassenMulChecked_total junk fuel n hn hfuel hp X Y Z
    hX hY hZ
  have : Z2 = Z1 := Matrix.ext_cells w2 w1 (fun i j hi hj => by
    rw [c1 i j hi hj, c2 i j hi hj])
  subst this
  exact ⟨Z2, h1, h2, e1, e2, w1⟩

/-- On well-formed matrices of side `n ≥ 2` and for any cutoff the asserted run
of `strassenMul_hybrid` returns the matrix that `strassenMul_hybrid` returns. -/
theorem strassenMul_hybridChecked_agrees (junk : Nat → Nat → Int) (fuel n : Nat) (hn : 2 ≤ n)
    (hfuel : n < 2 ^ (fuel + 1)) (hp : Heap) {X Y Z : Matrix} (cutoff : Int)
    (hX : X.IsSquare n) (hY : Y.IsSquare n) (hZ : Z.IsSquare n) :
    ∃ Z' hp' hp'', strassenMul_hybrid junk fuel hp X Y Z cutoff = some (Z', hp') ∧
      strassenMul_hybridChecked junk fuel hp X Y Z cutoff = some (Z', hp'') ∧
      Z'.IsSquare n := by
  have hok : (X.invariantOk X.row && Y.invariantOk X.row && Z.invariantOk X.row) = true := by
    rw [hX.1, invariantOk_of_IsSquare (by omega) hX, invariantOk_of_IsSquare (by omega) hY,
      invariantOk_of_IsSquare (by omega) hZ]; rfl
  unfold strassenMul_hybrid strassenMul_hybridChecked
  rw [if_pos hok]
  by_cases hle : X.row ≤ cutoff
  · rw [if_pos hle, if_pos hle]
    exact ⟨_, hp, hp, rfl, rfl, IsSquare_of_SameShape (SameShape_mul X Y Z) hZ⟩
  · rw [if_neg hle, if_neg hle]
    have hpow : 2 ^ (fuel + 1) = 2 ^ fuel + 2 ^ fuel := by rw [pow_succ]; omega
    obtain ⟨Z1, h1, e1, w1, _, c1⟩ := strassenFrame_spec junk (strassenMul junk fuel)
      (strassenRef fuel (n / 2)) (n := n) (h := n / 2) rfl
      (fun hp X' Y' Z' f g hX' _ hZ' cX cY => by
        obtain ⟨Z'', hp'', e, w, l, hc⟩ := strassenMul_total junk fuel (n / 2) (by omega)
          (by omega) hp X' Y' Z' hX'.1 hZ'
        refine ⟨Z'', hp'', e, w, l, fun i j hi hj => ?_⟩
        rw [hc i j hi hj]
        exact strassenRef_congr fuel (n / 2) _ _ _ _ (by omega) cX cY i j)
      hp (B := Y) hX.1 hZ
    obtain ⟨Z2, h2, e2, w2, _, c2⟩ := strassenFrame_spec junk (strassenMulChecked junk fuel)
      (strassenRef fuel (n / 2)) (n := n) (h := n / 2) rfl
      (fun hp X' Y' Z' f g hX' hY' hZ' cX cY => by
        obtain ⟨Z'', hp'', e, w, l, hc⟩ := strassenMulChecked_total junk fuel (n / 2)
          (by omega) (by omega) hp X' Y' Z' hX' hY' hZ'
        refine ⟨Z'', hp'', e, w, l, fun i j hi hj => ?_⟩
        rw [hc i j hi hj]
        exact strassenRef_congr fuel (n / 2) _ _ _ _ (by omega) cX cY i j)
      hp (B := Y) hX.1 hZ
    have : Z2 = Z1 := Matrix.ext_cells w2 w1 (fun i j hi hj => by
      rw [c1 i j hi hj, c2 i j hi hj])
    subst this
    exact ⟨Z2, h1, h2, e1, e2, w1⟩

/-! ## The temporaries of a frame -/

/-- A frame hands to its callee only matrices that are well-formed of side
`h = n / 2`, in a heap with three more live allocations than at the entry of the
frame: two callees that agree on such calls give the same frame, provided the
callee keeps the shape of its result and the number of live allocations. -/
theorem strassenFrame_congr (junk : Nat → Nat → Int)
    (recur recur' : Heap → Matrix → Matrix → Matrix → Option (Matrix × Heap)) {n h : Nat}
    (hh : h = n / 2) (hp : Heap)
    (Hrec : ∀ (q : Heap) (X Y Z Z' : Matrix) (q' : Heap), X.IsSquare h → Y.IsSquare h →
      Z.IsSquare h → q.live = hp.live + 3 → recur q X Y Z = some (Z', q') →
      Z'.IsSquare h ∧ q'.live = q.live)
    (Heq : ∀ (q : Heap) (X Y Z : Matrix), X.IsSquare h → Y.IsSquare h → Z.IsSquare h →
      q.live = hp.live + 3 → recur' q X Y Z = recur q X Y Z)
    (A B C : Matrix) (hA : A.row = (n : Int)) :
    strassenFrame junk recur' hp A B C = strassenFrame junk recur hp A B C := by
  have hside : A.row.tdiv 2 = (h : Int) := by
    rw [hA, Int.tdiv_eq_ediv (by omega) (by omega), hh]; omega
  unfold strassenFrame
  simp only [hside]
  have wt1 := allocMatrix_IsSquare junk hp h
  have wt2 := allocMatrix_IsSquare junk (allocMatrix junk hp h).2 h
  have wP0 := allocMatrix_IsSquare junk (allocMatrix junk (allocMatrix junk hp h).2 h).2 h
  have lhp0 : (allocMatrix junk (allocMatrix junk (allocMatrix junk hp h).2 h).2 h).2.live
      = hp.live + 3 := rfl
  generalize (allocMatrix junk (allocMatrix junk (allocMatrix junk hp h).2 h).2 h).2 = hp0
    at lhp0 ⊢
  generalize (allocMatrix junk (allocMatrix junk (allocMatrix junk hp h).2 h).2 h).1 = P0
    at wP0 ⊢
  generalize (allocMatrix junk (allocMatrix junk hp h).2 h).1 = t2 at wt2 ⊢
  generalize (allocMatrix junk hp h).1 = t1 at wt1 ⊢
  -- product 1
  have wT1 := IsSquare_of_SameShape (SameShape_subMatrix A 0 (h : Int) A (h : Int) (h : Int) t1 0 0 (h : Int)) wt1
  generalize (subMatrix A 0 (h : Int) A (h : Int) (h : Int) t1 0 0 (h : Int)).2 = T1 at wT1 ⊢
  have wU1 := IsSquare_of_SameShape (SameShape_sumMatrix B (h : Int) 0 B (h : Int) (h : Int) t2 0 0 (h : Int)) wt2
  generalize (sumMatrix B (h : Int) 0 B (h : Int) (h : Int) t2 0 0 (h : Int)).2 = U1 at wU1 ⊢
  rw [Heq hp0 T1 U1 P0 wT1 wU1 wP0 lhp0]
  rcases e1 : recur hp0 T1 U1 P0 with _ | ⟨P1, hp1⟩
  · rfl
  obtain ⟨wP1, l1⟩ := Hrec hp0 T1 U1 P0 P1 hp1 wT1 wU1 wP0 lhp0 e1
  have lhp1 : hp1.live = hp.live + 3 := by rw [l1, lhp0]
  simp only [Option.some_bind]
  -- product 2
  have wT2 := IsSquare_of_SameShape (SameShape_sumMatrix A 0 0 A (h : Int) (h : Int) T1 0 0 (h : Int)) wT1
  generalize (sumMatrix A 0 0 A (h : Int) (h : Int) T1 0 0 (h : Int)).2 = T2 at wT2 ⊢
  have wU2 := IsSquare_of_SameShape (SameShape_sumMatrix B 0 0 B (h : Int) (h : Int) U1 0 0 (h : Int)) wU1
  generalize (sumMatrix B 0 0 B (h : Int) (h : Int) U1 0 0 (h : Int)).2 = U2 at wU2 ⊢
  rw [Heq hp1 T2 U2 P1 wT2 wU2 wP1 lhp1]
  rcases e2 : recur hp1 T2 U2 P1 with _ | ⟨P2, hp2⟩
  · rfl
  obtain ⟨wP2, l2⟩ := Hrec hp1 T2 U2 P1 P2 hp2 wT2 wU2 wP1 lhp1 e2
  have lhp2 : hp2.live = hp.live + 3 := by rw [l2, lhp1]
  simp only [Option.some_bind]
  -- product 3
  have wT3 := IsSquare_of_SameShape (SameShape_subMatrix A 0 0 A (h : Int) 0 T2 0 0 (h : Int)) wT2
  generalize (subMatrix A 0 0 A (h : Int) 0 T2 0 0 (h : Int)).2 = T3 at wT3 ⊢
  have wU3 := IsSquare_of_SameShape (SameShape_sumMatrix B 0 0 B 0 (h : Int) U2 0 0 (h : Int)) wU2
  generalize (sumMatrix B 0 0 B 0 (h : Int) U2 0 0 (h : Int)).2 = U3 at wU3 ⊢
  rw [Heq hp2 T3 U3 P2 wT3 wU3 wP2 lhp2]
  rcases e3 : recur hp2 T3 U3 P2 with _ | ⟨P3, hp3⟩
  · rfl
  obtain ⟨wP3, l3⟩ := Hrec hp2 T3 U3 P2 P3 hp3 wT3 wU3 wP2 lhp2 e3
  have lhp3 : hp3.live = hp.live + 3 := by rw [l3, lhp2]
  simp only [Option.some_bind]
  -- product 4
  have wT4 := IsSquare_of_SameShape (SameShape_sumMatrix A 0 0 A 0 (h : Int) T3 0 0 (h : Int)) wT3
  generalize (sumMatrix A 0 0 A 0 (h : Int) T3 0 0 (h : Int)).2 = T4 at wT4 ⊢
  have wU4 := IsSquare_of_SameShape (SameShape_copySubmatrix B (h : Int) (h : Int) U3 0 0 (h : Int)) wU3
  generalize (copySubmatrix B (h : Int) (h : Int) U3 0 0 (h : Int)).2 = U4 at wU4 ⊢
  rw [Heq hp3 T4 U4 P3 wT4 wU4 wP3 lhp3]
  rcases e4 : recur hp3 T4 U4 P3 with _ | ⟨P4, hp4⟩
  · rfl
  obtain ⟨wP4, l4⟩ := Hrec hp3 T4 U4 P3 P4 hp4 wT4 wU4 wP3 lhp3 e4
  have lhp4 : hp4.live = hp.live + 3 := by rw [l4, lhp3]
  simp only [Option.some_bind]
  -- product 5
  have wT5 := IsSquare_of_SameShape (SameShape_copySubmatrix A 0 0 T4 0 0 (h : Int)) wT4
  generalize (copySubmatrix A 0 0 T4 0 0 (h : Int)).2 = T5 at wT5 ⊢
  have wU5 := IsSquare_of_SameShape (SameShape_subMatrix B 0 (h : Int) B (h : Int) (h : Int) U4 0 0 (h : Int)) wU4
  generalize (subMatrix B 0 (h : Int) B (h : Int) (h : Int) U4 0 0 (h : Int)).2 = U5 at wU5 ⊢
  rw [Heq hp4 T5 U5 P4 wT5 wU5 wP4 lhp4]
  rcases e5 : recur hp4 T5 U5 P4 with _ | ⟨P5, hp5⟩
  · rfl
  obtain ⟨wP5, l5⟩ := Hrec hp4 T5 U5 P4 P5 hp5 wT5 wU5 wP4 lhp4 e5
  have lhp5 : hp5.live = hp.live + 3 := by rw [l5, lhp4]
  simp only [Option.some_bind]
  -- product 6
  have wT6 := IsSquare_of_SameShape (SameShape_copySubmatrix A (h : Int) (h : Int) T5 0 0 (h : Int)) wT5
  generalize (copySubmatrix A (h : Int) (h : Int) T5 0 0 (h : Int)).2 = T6 at wT6 ⊢
  have wU6 := IsSquare_of_SameShape (SameShape_subMatrix B (h : Int) 0 B 0 0 U5 0 0 (h : Int)) wU5
  generalize (subMatrix B (h : Int) 0 B 0 0 U5 0 0 (h : Int)).2 = U6 at wU6 ⊢
  rw [Heq hp5 T6 U6 P5 wT6 wU6 wP5 lhp5]
  rcases e6 : recur hp5 T6 U6 P5 with _ | ⟨P6, hp6⟩
  · rfl
  obtain ⟨wP6, l6⟩ := Hrec hp5 T6 U6 P5 P6 hp6 wT6 wU6 wP5 lhp5 e6
  have lhp6 : hp6.live = hp.live + 3 := by rw [l6, lhp5]
  simp only [Option.some_bind]
  -- product 7
  have wT7 := IsSquare_of_SameShape (SameShape_sumMatrix A (h : Int) 0 A (h : Int) (h : Int) T6 0 0 (h : Int)) wT6
  generalize (sumMatrix A (h : Int) 0 A (h : Int) (h : Int) T6 0 0 (h : Int)).2 = T7 at wT7 ⊢
  have wU7 := IsSquare_of_SameShape (SameShape_copySubmatrix B 0 0 U6 0 0 (h : Int)) wU6
  generalize (copySubmatrix B 0 0 U6 0 0 (h : Int)).2 = U7 at wU7 ⊢
  rw [Heq hp6 T7 U7 P6 wT7 wU7 wP6 lhp6]

theorem assertTemps_pass {h : Nat} (h1 : 1 ≤ h) {live : Nat}
    (recur : Heap → Matrix → Matrix → Matrix → Option (Matrix × Heap)) {q : Heap}
    {X Y Z : Matrix} (wX : X.IsSquare h) (wY : Y.IsSquare h) (wZ : Z.IsSquare h)
    (hl : q.live = live) : assertTemps (h : Int) live recur q X Y Z = recur q X Y Z := by
  unfold assertTemps
  rw [invariantOk_of_IsSquare h1 wX, invariantOk_of_IsSquare h1 wY,
    invariantOk_of_IsSquare h1 wZ, hl]
  simp

/-- The asserted run of a frame whose callee is `strassenMul`: no assertion
fails. -/
theorem strassenFrame_assertTemps (junk : Nat → Nat → Int) (fuel n : Nat) (hn : 2 ≤ n)
    (hfuel : n < 2 ^ (fuel + 1))
    (recur' : Heap → Matrix → Matrix → Matrix → Option (Matrix × Heap))
    (Hagree : ∀ (q : Heap) (X Y Z : Matrix), X.IsSquare (n / 2) → Z.IsSquare (n / 2) →
      recur' q X Y Z = strassenMul junk fuel q X Y Z)
    (hp : Heap) (A B C : Matrix) (hA : A.row = (n : Int)) :
    strassenFrame junk (assertTemps (A.row / 2) (hp.live + 3) recur') hp A B C =
      strassenFrame junk (strassenMul junk fuel) hp A B C := by
  have hpow : 2 ^ (fuel + 1) = 2 ^ fuel + 2 ^ fuel := by rw [pow_succ]; omega
  have hdiv : A.row / 2 = ((n / 2 : Nat) : Int) := by rw [hA]; omega
  rw [hdiv]
  refine strassenFrame_congr junk (strassenMul junk fuel) _ (n := n) (h := n / 2) rfl hp
    (fun q X Y Z Z' q' wX _ wZ _ e => ?_) (fun q X Y Z wX wY wZ hl => ?_) A B C hA
  · obtain ⟨Z2, q2, e2, w2, l2, _⟩ :=
      strassenMul_total junk fuel (n / 2) (by omega) (by omega) q X Y Z wX.1 wZ
    rw [e] at e2
    simp only [Option.some.injEq, Prod.mk.injEq] at e2
    rw [e2.1, e2.2]
    exact ⟨w2, l2⟩
  · rw [assertTemps_pass (by omega) _ wX wY wZ hl]
    exact Hagree q X Y Z wX wZ

/-- On every side `n ≥ 1` the asserted run of `strassenMul` is the run of
`strassenMul`: no assertion fails at any level. -/
theorem strassenMulTemps_eq (junk : Nat → Nat → Int) (fuel : Nat) :
    ∀ (n : Nat), 1 ≤ n → n < 2 ^ fuel → ∀ (hp : Heap) (A B C : Matrix), A.row = (n : Int) →
      strassenMulTemps junk fuel hp A B C = strassenMul junk fuel hp A B C := by
  induction fuel with
  | zero => intro n h1 h2; simp at h2; omega
  | succ fuel ih =>
    intro n h1 h2 hp A B C hA
    by_cases hn : n = 1
    · subst hn
      have hX1 : A.row = 1 := by rw [hA]; rfl
      rw [strassenMul_base junk fuel hp hX1, strassenMulTemps, if_pos hX1]
    · have hX1 : A.row ≠ 1 := by
        rw [hA]; intro h; exact hn (by exact_mod_cast h)
      have hpow : 2 ^ (fuel + 1) = 2 ^ fuel + 2 ^ fuel := by rw [pow_succ]; omega
      rw [strassenMul_step junk fuel hp hX1, strassenMulTemps, if_neg hX1]
      exact strassenFrame_assertTemps junk fuel n (by omega) h2 _
        (fun q X Y Z wX _ => ih (n / 2) (by omega) (by omega) q X Y Z wX.1) hp A B C hA

theorem strassenMul_hybridTemps_eq (junk : Nat → Nat → Int) (fuel n : Nat) (hn : 1 ≤ n)
    (hfuel : n < 2 ^ fuel) (hp : Heap) (A B C : Matrix) (cutoff : Int) (hcut : 1 ≤ cutoff)
    (hA : A.row = (n : Int)) :
    strassenMul_hybridTemps junk fuel hp A B C cutoff =
      strassenMul_hybrid junk fuel hp A B C cutoff := by
  unfold strassenMul_hybridTemps strassenMul_hybrid
  by_cases hle : A.row ≤ cutoff
  · rw [if_pos hle, if_pos hle]
  · rw [if_neg hle, if_neg hle]
    have hpow : 2 ^ (fuel + 1) = 2 ^ fuel + 2 ^ fuel := by rw [pow_succ]; omega
    have h2 : 2 ≤ n := by rw [hA] at hle; omega
    exact strassenFrame_assertTemps junk fuel n h2 (by omega) _
      (fun q X Y Z wX _ => strassenMulTemps_eq junk fuel (n / 2) (by omega) (by omega)
        q X Y Z wX.1) hp A B C hA

/-! ## Claims C11 to C20 -/

/-- C11, evaluation at the failing input: on side 3 `strassenMul` multiplies by
the identity and returns a matrix whose last row and last column are `0`,
whereas `mul` returns the product, which is `A` itself. No padding takes
place. -/
theorem C11_strassenMul_side3 :
    strassenMul (fun _ _ => 7) 2 ⟨0, 0⟩ ⟨[1, 2, 3, 4, 5, 6, 7, 8, 9], 3, 3⟩
        ⟨[1, 0, 0, 0, 1, 0, 0, 0, 1], 3, 3⟩ ⟨[9, 9, 9, 9, 9, 9, 9, 9, 9], 3, 3⟩ =
      some (⟨[1, 2, 0, 4, 5, 0, 0, 0, 0], 3, 3⟩, ⟨0, 3⟩) ∧
    mul ⟨[1, 2, 3, 4, 5, 6, 7, 8, 9], 3, 3⟩ ⟨[1, 0, 0, 0, 1, 0, 0, 0, 1], 3, 3⟩
        ⟨[9, 9, 9, 9, 9, 9, 9, 9, 9], 3, 3⟩ = ⟨[1, 2, 3, 4, 5, 6, 7, 8, 9], 3, 3⟩ := by
  constructor <;> decide

/-- C14: `sumMatrix`. For every block size `s ≥ 0` and a destination block
`(r, c)` lying within the well-formed destination `C` (sources `A`, `B` of any
shape, so in particular with in-bounds blocks), the call returns `0` and every
cell of the destination block is
`C[r + i, c + j] = A[rA + i, cA + j] + B[rB + i, cB + j]`, each matrix being
indexed with its own column count. -/
theorem C14_sumMatrix (A B C : Matrix) (n s rA cA rB cB r c : Nat) (hC : C.IsSquare n)
    (hr : r + s ≤ n) (hc : c + s ≤ n) :
    (sumMatrix A rA cA B rB cB C r c s).1 = 0 ∧
    ∀ i j, i < s → j < s →
      (sumMatrix A rA cA B rB cB C r c s).2.cell (r + i) (c + j) =
        A.cell (rA + i) (cA + j) + B.cell (rB + i) (cB + j) := by
  refine ⟨rfl, fun i j hi hj => ?_⟩
  rw [(sumMatrix_spec A B rA cA rB cB hC hr hc).2 (r + i) (c + j) (by omega) (by omega),
    if_pos ⟨by omega, by omega, by omega, by omega⟩]
  simp only [Nat.add_sub_cancel_left, Nat.add_comm i, Nat.add_comm j]

/-- C14, witness: blocks of side 2 at three different offsets of 3×3 matrices. -/
theorem C14_sumMatrix_witness :
    sumMatrix ⟨[1, 2, 3, 4, 5, 6, 7, 8, 9], 3, 3⟩ 0 1 ⟨[10, 20, 30, 40, 50, 60, 70, 80, 90], 3, 3⟩ 1 0 ⟨[0, 0, 0, 0, 0, 0, 0, 0, 0], 3, 3⟩ 1 1 2 =
      (0, ⟨[0, 0, 0, 0, 42, 53, 0, 75, 86], 3, 3⟩) ∧
    ((sumMatrix ⟨[1, 2, 3, 4, 5, 6, 7, 8, 9], 3, 3⟩ ((0 : Nat) : Int) ((1 : Nat) : Int) ⟨[10, 20, 30, 40, 50, 60, 70, 80, 90], 3, 3⟩ ((1 : Nat) : Int) ((0 : Nat) : Int)
        ⟨[0, 0, 0, 0, 0, 0, 0, 0, 0], 3, 3⟩ ((1 : Nat) : Int) ((1 : Nat) : Int) ((2 : Nat) : Int)).1 = 0 ∧
      ∀ i j, i < 2 → j < 2 →
        (sumMatrix ⟨[1, 2, 3, 4, 5, 6, 7, 8, 9], 3, 3⟩ ((0 : Nat) : Int) ((1 : Nat) : Int) ⟨[10, 20, 30, 40, 50, 60, 70, 80, 90], 3, 3⟩ ((1 : Nat) : Int) ((0 : Nat) : Int)
          ⟨[0, 0, 0, 0, 0, 0, 0, 0, 0], 3, 3⟩ ((1 : Nat) : Int) ((1 : Nat) : Int) ((2 : Nat) : Int)).2.cell (1 + i) (1 + j) =
        Matrix.cell ⟨[1, 2, 3, 4, 5, 6, 7, 8, 9], 3, 3⟩ (0 + i) (1 + j) + Matrix.cell ⟨[10, 20, 30, 40, 50, 60, 70, 80, 90], 3, 3⟩ (1 + i) (0 + j)) :=
  ⟨by decide, C14_sumMatrix _ _ _ 3 2 0 1 1 0 1 1 ⟨rfl, rfl, rfl⟩ (by decide) (by decide)⟩

/-- C15: `subMatrix`. For every block size `s ≥ 0` and a destination block
`(r, c)` lying within the well-formed destination `C` (sources `A`, `B` of any
shape, so in particular with in-bounds blocks), the call returns `0` and every
cell of the destination block is
`C[r + i, c + j] = A[rA + i, cA + j] - B[rB + i, cB + j]`: `A` minus `B`. -/
theorem C15_subMatrix (A B C : Matrix) (n s rA cA rB cB r c : Nat) (hC : C.IsSquare n)
    (hr : r + s ≤ n) (hc : c + s ≤ n) :
    (subMatrix A rA cA B rB cB C r c s).1 = 0 ∧
    ∀ i j, i < s → j < s →
      (subMatrix A rA cA B rB cB C r c s).2.cell (r + i) (c + j) =
        A.cell (rA + i) (cA + j) - B.cell (rB + i) (cB + j) := by
  refine ⟨rfl, fun i j hi hj => ?_⟩
  rw [(subMatrix_spec A B rA cA rB cB hC hr hc).2 (r + i) (c + j) (by omega) (by omega),
    if_pos ⟨by omega, by omega, by omega, by omega⟩]
  simp only [Nat.add_sub_cancel_left, Nat.add_comm i, Nat.add_comm j]

/-- C15, witness: blocks of side 2 at three different offsets of 3×3 matrices. -/
theorem C15_subMatrix_witness :
    subMatrix ⟨[1, 2, 3, 4, 5, 6, 7, 8, 9], 3, 3⟩ 0 1 ⟨[10, 20, 30, 40, 50, 60, 70, 80, 90], 3, 3⟩ 1 0 ⟨[0, 0, 0, 0, 0, 0, 0, 0, 0], 3, 3⟩ 1 1 2 =
      (0, ⟨[0, 0, 0, 0, -38, -47, 0, -65, -74], 3, 3⟩) ∧
    ((subMatrix ⟨[1, 2, 3, 4, 5, 6, 7, 8, 9], 3, 3⟩ ((0 : Nat) : Int) ((1 : Nat) : Int) ⟨[10, 20, 30, 40, 50, 60, 70, 80, 90], 3, 3⟩ ((1 : Nat) : Int) ((0 : Nat) : Int)
        ⟨[0, 0, 0, 0, 0, 0, 0, 0, 0], 3, 3⟩ ((1 : Nat) : Int) ((1 : Nat) : Int) ((2 : Nat) : Int)).1 = 0 ∧
      ∀ i j, i < 2 → j < 2 →
        (subMatrix ⟨[1, 2, 3, 4, 5, 6, 7, 8, 9], 3, 3⟩ ((0 : Nat) : Int) ((1 : Nat) : Int) ⟨[10, 20, 30, 40, 50, 60, 70, 80, 90], 3, 3⟩ ((1 : Nat) : Int) ((0 : Nat) : Int)
          ⟨[0, 0, 0, 0, 0, 0, 0, 0, 0], 3, 3⟩ ((1 : Nat) : Int) ((1 : Nat) : Int) ((2 : Nat) : Int)).2.cell (1 + i) (1 + j) =
        Matrix.cell ⟨[1, 2, 3, 4, 5, 6, 7, 8, 9], 3, 3⟩ (0 + i) (1 + j) - Matrix.cell ⟨[10, 20, 30, 40, 50, 60, 70, 80, 90], 3, 3⟩ (1 + i) (0 + j)) :=
  ⟨by decide, C15_subMatrix _ _ _ 3 2 0 1 1 0 1 1 ⟨rfl, rfl, rfl⟩ (by decide) (by decide)⟩

/-- C16: `addSubmatrix`. For every block size `s ≥ 0`, a source `A` of any shape
(so in particular of side `≥ s`) and a block `(r, c)` lying within the
well-formed destination `B`, every cell of the block becomes
`B[r + i, c + j] + A[i, j]`, where `A` is read from its own origin with its own
column count. -/
theorem C16_addSubmatrix (A B : Matrix) (n s r c : Nat) (hB : B.IsSquare n)
    (hr : r + s ≤ n) (hc : c + s ≤ n) :
    ∀ i j, i < s → j < s →
      (addSubmatrix A B r c s).2.cell (r + i) (c + j) =
        B.cell (r + i) (c + j) + A.cell i j := by
  intro i j hi hj
  rw [(addSubmatrix_spec A hB hr hc).2 (r + i) (c + j) (by omega) (by omega),
    if_pos ⟨by omega, by omega, by omega, by omega⟩]
  simp only [Nat.add_sub_cancel_left]

/-- C16, witness: a 2×2 source added into the bottom-right block of a 3×3
destination. -/
theorem C16_addSubmatrix_witness :
    addSubmatrix ⟨[1, 2, 3, 4], 2, 2⟩ ⟨[10, 20, 30, 40, 50, 60, 70, 80, 90], 3, 3⟩ 1 1 2 =
      (0, ⟨[10, 20, 30, 40, 51, 62, 70, 83, 94], 3, 3⟩) ∧
    ∀ i j, i < 2 → j < 2 →
      (addSubmatrix ⟨[1, 2, 3, 4], 2, 2⟩ ⟨[10, 20, 30, 40, 50, 60, 70, 80, 90], 3, 3⟩ ((1 : Nat) : Int) ((1 : Nat) : Int) ((2 : Nat) : Int)).2.cell (1 + i) (1 + j) =
        Matrix.cell ⟨[10, 20, 30, 40, 50, 60, 70, 80, 90], 3, 3⟩ (1 + i) (1 + j) + Matrix.cell ⟨[1, 2, 3, 4], 2, 2⟩ i j :=
  ⟨by decide, C16_addSubmatrix _ _ 3 2 1 1 ⟨rfl, rfl, rfl⟩ (by decide) (by decide)⟩

/-- C17: `subSubmatrix`. For every block size `s ≥ 0`, a source `A` of any shape
(so in particular of side `≥ s`) and a block `(r, c)` lying within the
well-formed destination `B`, every cell of the block becomes
`B[r + i, c + j] - A[i, j]`. -/
theorem C17_subSubmatrix (A B : Matrix) (n s r c : Nat) (hB : B.IsSquare n)
    (hr : r + s ≤ n) (hc : c + s ≤ n) :
    ∀ i j, i < s → j < s →
      (subSubmatrix A B r c s).2.cell (r + i) (c + j) =
        B.cell (r + i) (c + j) - A.cell i j := by
  intro i j hi hj
  rw [(subSubmatrix_spec A hB hr hc).2 (r + i) (c + j) (by omega) (by omega),
    if_pos ⟨by omega, by omega, by omega, by omega⟩]
  simp only [Nat.add_sub_cancel_left]

/-- C17, witness: a 2×2 source subtracted from the bottom-right block of a 3×3
destination. -/
theorem C17_subSubmatrix_witness :
    subSubmatrix ⟨[1, 2, 3, 4], 2, 2⟩ ⟨[10, 20, 30, 40, 50, 60, 70, 80, 90], 3, 3⟩ 1 1 2 =
      (0, ⟨[10, 20, 30, 40, 49, 58, 70, 77, 86], 3, 3⟩) ∧
    ∀ i j, i < 2 → j < 2 →
      (subSubmatrix ⟨[1, 2, 3, 4], 2, 2⟩ ⟨[10, 20, 30, 40, 50, 60, 70, 80, 90], 3, 3⟩ ((1 : Nat) : Int) ((1 : Nat) : Int) ((2 : Nat) : Int)).2.cell (1 + i) (1 + j) =
        Matrix.cell ⟨[10, 20, 30, 40, 50, 60, 70, 80, 90], 3, 3⟩ (1 + i) (1 + j) - Matrix.cell ⟨[1, 2, 3, 4], 2, 2⟩ i j :=
  ⟨by decide, C17_subSubmatrix _ _ 3 2 1 1 ⟨rfl, rfl, rfl⟩ (by decide) (by decide)⟩

/-- C18: `copySubmatrix`. For every block size `s ≥ 0` and a destination block
`(r, c)` lying within the well-formed destination `C` (source `A` of any shape
and any side, so in particular with an in-bounds block), every cell of the
destination block is `C[r + i, c + j] = A[rA + i, cA + j]`. -/
theorem C18_copySubmatrix (A C : Matrix) (n s rA cA r c : Nat) (hC : C.IsSquare n)
    (hr : r + s ≤ n) (hc : c + s ≤ n) :
    ∀ i j, i < s → j < s →
      (copySubmatrix A rA cA C r c s).2.cell (r + i) (c + j) = A.cell (rA + i) (cA + j) := by
  intro i j hi hj
  rw [(copySubmatrix_spec A rA cA hC hr hc).2 (r + i) (c + j) (by omega) (by omega),
    if_pos ⟨by omega, by omega, by omega, by omega⟩]
  simp only [Nat.add_sub_cancel_left, Nat.add_comm i, Nat.add_comm j]

/-- C18, witness: the bottom-right quadrant of a 4×4 matrix copied into a 2×2
temporary, and a 2×2 matrix copied back into the top-right quadrant of a 4×4
matrix. -/
theorem C18_copySubmatrix_witness :
    copySubmatrix ⟨[1, 2, 3, 4, 5, 6, 7, 8, 9, 10, 11, 12, 13, 14, 15, 16], 4, 4⟩ 2 2
        ⟨[0, 0, 0, 0], 2, 2⟩ 0 0 2 = (0, ⟨[11, 12, 15, 16], 2, 2⟩) ∧
    copySubmatrix ⟨[11, 12, 15, 16], 2, 2⟩ 0 0
        ⟨[1, 2, 3, 4, 5, 6, 7, 8, 9, 10, 11, 12, 13, 14, 15, 16], 4, 4⟩ 0 2 2 =
      (0, ⟨[1, 2, 11, 12, 5, 6, 15, 16, 9, 10, 11, 12, 13, 14, 15, 16], 4, 4⟩) ∧
    ∀ i j, i < 2 → j < 2 →
      (copySubmatrix ⟨[1, 2, 3, 4, 5, 6, 7, 8, 9, 10, 11, 12, 13, 14, 15, 16], 4, 4⟩
        ((2 : Nat) : Int) ((2 : Nat) : Int) ⟨[0, 0, 0, 0], 2, 2⟩ ((0 : Nat) : Int) ((0 : Nat) : Int) ((2 : Nat) : Int)).2.cell (0 + i) (0 + j) =
        Matrix.cell ⟨[1, 2, 3, 4, 5, 6, 7, 8, 9, 10, 11, 12, 13, 14, 15, 16], 4, 4⟩
          (2 + i) (2 + j) :=
  ⟨by decide, by decide,
    C18_copySubmatrix _ _ 2 2 2 2 0 0 ⟨rfl, rfl, rfl⟩ (by decide) (by decide)⟩

/-- C19: storage invariant. A matrix returned by `allocMatrix(side)` with
`side ≥ 1` has `row = col = side` and a buffer of `side * side` elements;
`initMatrixZeros`, the five block primitives and `mul` keep `row`, `col` and the
buffer length of the matrix they write, for arguments of any shape; and on
well-formed matrices of side `n ≥ 2`, `strassenMul` and `strassenMul_hybrid`
(any cutoff) return a `C` of the same shape, and return the same `C` when the
invariant `side ≥ 1, row = col = side, buffer length = side * side` is asserted
on the operands and the result at the entry of every invocation, that is also
on the temporaries of side `n / 2` handed to every recursive call, at every
level. -/
theorem C19_storage_invariant (junk : Nat → Nat → Int) :
    (∀ (hp : Heap) (side : Nat), 1 ≤ side → (allocMatrix junk hp side).1.IsSquare side) ∧
    (∀ M : Matrix, (initMatrixZeros M).SameShape M) ∧
    (∀ (A : Matrix) (rA cA : Int) (B : Matrix) (rB cB : Int) (C : Matrix) (r c s : Int),
      (sumMatrix A rA cA B rB cB C r c s).2.SameShape C ∧
      (subMatrix A rA cA B rB cB C r c s).2.SameShape C) ∧
    (∀ (A B : Matrix) (r c s : Int),
      (addSubmatrix A B r c s).2.SameShape B ∧ (subSubmatrix A B r c s).2.SameShape B) ∧
    (∀ (A : Matrix) (rA cA : Int) (C : Matrix) (r c s : Int),
      (copySubmatrix A rA cA C r c s).2.SameShape C) ∧
    (∀ A B C : Matrix, (mul A B C).SameShape C) ∧
    (∀ (fuel n : Nat), 2 ≤ n → n < 2 ^ fuel → ∀ (hp : Heap) (A B C : Matrix) (cutoff : Int),
      A.IsSquare n → B.IsSquare n → C.IsSquare n →
      (∃ C' hp' hp'', strassenMul junk fuel hp A B C = some (C', hp') ∧
        strassenMulChecked junk fuel hp A B C = some (C', hp'') ∧ C'.IsSquare n) ∧
      (∃ C' hp' hp'', strassenMul_hybrid junk fuel hp A B C cutoff = some (C', hp') ∧
        strassenMul_hybridChecked junk fuel hp A B C cutoff = some (C', hp'') ∧
        C'.IsSquare n)) := by
  refine ⟨fun hp side _ => allocMatrix_IsSquare junk hp side, SameShape_initMatrixZeros,
    fun A rA cA B rB cB C r c s =>
      ⟨SameShape_sumMatrix A rA cA B rB cB C r c s, SameShape_subMatrix A rA cA B rB cB C r c s⟩,
    fun A B r c s => ⟨SameShape_addSubmatrix A B r c s, SameShape_subSubmatrix A B r c s⟩,
    SameShape_copySubmatrix, SameShape_mul, ?_⟩
  intro fuel n hn hfuel hp A B C cutoff hA hB hC
  have hpow : 2 ^ (fuel + 1) = 2 ^ fuel + 2 ^ fuel := by rw [pow_succ]; omega
  exact ⟨strassenMulChecked_agrees junk fuel n (by omega) hfuel hp hA hB hC,
    strassenMul_hybridChecked_agrees junk fuel n hn (by omega) hp cutoff hA hB hC⟩

/-- C19, witness: side 4 with cutoff 2; the asserted runs return the product
too. -/
theorem C19_storage_invariant_witness :
    (∃ C' hp' hp'', strassenMul (fun _ _ => 7) 3 ⟨0, 0⟩
        ⟨[1, 2, 3, 4, 5, 6, 7, 8, 9, 10, 11, 12, 13, 14, 15, 16], 4, 4⟩
        ⟨[1, 0, 2, 0, 0, 1, 0, 2, 3, 0, 1, 0, 0, 3, 0, 1], 4, 4⟩
        ⟨[5, 5, 5, 5, 5, 5, 5, 5, 5, 5, 5, 5, 5, 5, 5, 5], 4, 4⟩ = some (C', hp') ∧
      strassenMulChecked (fun _ _ => 7) 3 ⟨0, 0⟩
        ⟨[1, 2, 3, 4, 5, 6, 7, 8, 9, 10, 11, 12, 13, 14, 15, 16], 4, 4⟩
        ⟨[1, 0, 2, 0, 0, 1, 0, 2, 3, 0, 1, 0, 0, 3, 0, 1], 4, 4⟩
        ⟨[5, 5, 5, 5, 5, 5, 5, 5, 5, 5, 5, 5, 5, 5, 5, 5], 4, 4⟩ = some (C', hp'') ∧
      C'.IsSquare 4) ∧
    (∃ C' hp' hp'', strassenMul_hybrid (fun _ _ => 7) 3 ⟨0, 0⟩
        ⟨[1, 2, 3, 4, 5, 6, 7, 8, 9, 10, 11, 12, 13, 14, 15, 16], 4, 4⟩
        ⟨[1, 0, 2, 0, 0, 1, 0, 2, 3, 0, 1, 0, 0, 3, 0, 1], 4, 4⟩
        ⟨[5, 5, 5, 5, 5, 5, 5, 5, 5, 5, 5, 5, 5, 5, 5, 5], 4, 4⟩ 2 = some (C', hp') ∧
      strassenMul_hybridChecked (fun _ _ => 7) 3 ⟨0, 0⟩
        ⟨[1, 2, 3, 4, 5, 6, 7, 8, 9, 10, 11, 12, 13, 14, 15, 16], 4, 4⟩
        ⟨[1, 0, 2, 0, 0, 1, 0, 2, 3, 0, 1, 0, 0, 3, 0, 1], 4, 4⟩
        ⟨[5, 5, 5, 5, 5, 5, 5, 5, 5, 5, 5, 5, 5, 5, 5, 5], 4, 4⟩ 2 = some (C', hp'') ∧
      C'.IsSquare 4) :=
  (C19_storage_invariant (fun _ _ => 7)).2.2.2.2.2.2 3 4 (by decide) (by decide) ⟨0, 0⟩ _ _ _ 2
    ⟨rfl, rfl, rfl⟩ ⟨rfl, rfl, rfl⟩ ⟨rfl, rfl, rfl⟩

/-- C20: resource discipline. On every side `n ≥ 1` (an operand `A` with `n`
rows, a result matrix `C` of side `n`, cutoff `≥ 1`), `strassenMul` and
`strassenMul_hybrid` return with the number of live allocations they were
entered with. Every frame that goes past the base case makes exactly three
allocations of its own and releases all three: a frame whose seven calls keep
the live count and allocate `d` matrices each keeps the live count and allocates
`3 + 7 * d`; so a whole `strassenMul` call allocates three matrices per such
frame. The three temporaries have side `h = floor(side / 2)`: with the assertion
"the two operands and the result matrix handed over, that is `temp1`, `temp2`
and `P`, are well-formed of side `floor(A->row / 2)`, and the live allocations
are those at the entry of the frame and three more" placed at each of the seven
calls, a frame on side `n ≥ 2` returns what it returns without the assertion
(for every callee that keeps the shape of its result and the live count), and
so do `strassenMul` and `strassenMul_hybrid` with the assertion in every frame,
at every recursion level. Every invocation of `strassenMul` that returns, at any
level and on any operands, returns with the live count at its entry. -/
theorem C20_resource_discipline (junk : Nat → Nat → Int) (fuel n : Nat) (hn : 1 ≤ n)
    (hfuel : n < 2 ^ fuel) (hp : Heap) (A B C : Matrix) (cutoff : Int) (hcut : 1 ≤ cutoff)
    (hA : A.row = (n : Int)) (hC : C.IsSquare n) :
    (∃ C' hp', strassenMul junk fuel hp A B C = some (C', hp') ∧ hp'.live = hp.live ∧
      hp'.serial = hp.serial + 3 * strassenFrames fuel A.row) ∧
    (∃ C' hp', strassenMul_hybrid junk fuel hp A B C cutoff = some (C', hp') ∧
      hp'.live = hp.live ∧
      hp'.serial = hp.serial +
        (if A.row ≤ cutoff then 0 else 3 + 7 * (3 * strassenFrames fuel (A.row.tdiv 2)))) ∧
    (∀ (recur : Heap → Matrix → Matrix → Matrix → Option (Matrix × Heap)) (d : Nat),
      (∀ (h : Heap) (X Y Z Z' : Matrix) (h' : Heap), X.row = A.row.tdiv 2 →
        recur h X Y Z = some (Z', h') → h'.live = h.live ∧ h'.serial = h.serial + d) →
      ∀ (C' : Matrix) (hp' : Heap), strassenFrame junk recur hp A B C = some (C', hp') →
        hp'.live = hp.live ∧ hp'.serial = hp.serial + 3 + 7 * d) ∧
    (2 ≤ n → ∀ (recur : Heap → Matrix → Matrix → Matrix → Option (Matrix × Heap)),
      (∀ (q : Heap) (X Y Z Z' : Matrix) (q' : Heap), X.IsSquare (n / 2) → Y.IsSquare (n / 2) →
        Z.IsSquare (n / 2) → recur q X Y Z = some (Z', q') →
        Z'.IsSquare (n / 2) ∧ q'.live = q.live) →
      strassenFrame junk (assertTemps (A.row / 2) (hp.live + 3) recur) hp A B C =
        strassenFrame junk recur hp A B C) ∧
    strassenMulTemps junk fuel hp A B C = strassenMul junk fuel hp A B C ∧
    strassenMul_hybridTemps junk fuel hp A B C cutoff =
      strassenMul_hybrid junk fuel hp A B C cutoff ∧
    (∀ (f : Nat) (h : Heap) (X Y Z Z' : Matrix) (h' : Heap),
      strassenMul junk f h X Y Z = some (Z', h') → h'.live = h.live) := by
  have hpow : 2 ^ (fuel + 1) = 2 ^ fuel + 2 ^ fuel := by rw [pow_succ]; omega
  refine ⟨?_, ?_, fun recur d hrec C' hp' h => strassenFrame_heap junk recur d hp A B C hrec C' hp' h,
    fun h2 recur hrec => ?_, strassenMulTemps_eq junk fuel n hn hfuel hp A B C hA,
    strassenMul_hybridTemps_eq junk fuel n hn hfuel hp A B C cutoff hcut hA,
    fun f h X Y Z Z' h' e => (strassenMul_heap junk f h X Y Z Z' h' e).1⟩
  · obtain ⟨C', hp', e, _, _, _⟩ := strassenMul_total junk fuel n hn hfuel hp A B C hA hC
    obtain ⟨l, s⟩ := strassenMul_heap junk fuel hp A B C C' hp' e
    exact ⟨C', hp', e, l, s⟩
  · obtain ⟨C', hp', e, _, l⟩ := strassenMul_hybrid_total junk fuel n hn (by omega) hp A B C
      cutoff hcut hA hC
    refine ⟨C', hp', e, l, ?_⟩
    unfold strassenMul_hybrid at e
    by_cases hle : A.row ≤ cutoff
    · rw [if_pos hle] at e ⊢
      simp only [Option.some.injEq, Prod.mk.injEq] at e
      rw [← e.2]; rfl
    · rw [if_neg hle] at e ⊢
      have := (strassenFrame_heap junk (strassenMul junk fuel)
        (3 * strassenFrames fuel (A.row.tdiv 2)) hp A B C
        (fun h X Y Z Z' h' hX e => by
          have := strassenMul_heap junk fuel h X Y Z Z' h' e
          rw [hX] at this
          exact this) C' hp' e).2
      omega
  · have hdiv : A.row / 2 = ((n / 2 : Nat) : Int) := by rw [hA]; omega
    rw [hdiv]
    exact strassenFrame_congr junk recur _ (n := n) (h := n / 2) rfl hp
      (fun q X Y Z Z' q' wX wY wZ _ e => hrec q X Y Z Z' q' wX wY wZ e)
      (fun q X Y Z wX wY wZ hl => assertTemps_pass (by omega) recur wX wY wZ hl) A B C hA

/-- C20, witness: side 4 with cutoff 2, entered with 5 live allocations:
`strassenMul` runs 8 frames past the base case and makes 24 allocations, the
hybrid makes 3 + 7 * 3; the runs with the assertion on the temporaries return
the same. The assertion is a real test: it fails on a matrix of another side and
on another number of live allocations. -/
theorem C20_resource_discipline_witness :
    (strassenMul (fun _ _ => 7) 3 ⟨5, 10⟩ ⟨List.replicate 16 1, 4, 4⟩
        ⟨List.replicate 16 1, 4, 4⟩ ⟨List.replicate 16 9, 4, 4⟩).map (fun r => r.2) =
      some ⟨5, 34⟩ ∧
    (strassenMul_hybrid (fun _ _ => 7) 3 ⟨5, 10⟩ ⟨List.replicate 16 1, 4, 4⟩
        ⟨List.replicate 16 1, 4, 4⟩ ⟨List.replicate 16 9, 4, 4⟩ 2).map (fun r => r.2) =
      some ⟨5, 34⟩ ∧
    (∃ C' hp', strassenMul (fun _ _ => 7) 3 ⟨5, 10⟩ ⟨List.replicate 16 1, 4, 4⟩
        ⟨List.replicate 16 1, 4, 4⟩ ⟨List.replicate 16 9, 4, 4⟩ = some (C', hp') ∧
      hp'.live = 5 ∧ hp'.serial = 10 + 3 * strassenFrames 3 4) ∧
    strassenMulTemps (fun _ _ => 7) 3 ⟨5, 10⟩ ⟨List.replicate 16 1, 4, 4⟩
        ⟨List.replicate 16 1, 4, 4⟩ ⟨List.replicate 16 9, 4, 4⟩ =
      strassenMul (fun _ _ => 7) 3 ⟨5, 10⟩ ⟨List.replicate 16 1, 4, 4⟩
        ⟨List.replicate 16 1, 4, 4⟩ ⟨List.replicate 16 9, 4, 4⟩ ∧
    strassenMul_hybridTemps (fun _ _ => 7) 3 ⟨5, 10⟩ ⟨List.replicate 16 1, 4, 4⟩
        ⟨List.replicate 16 1, 4, 4⟩ ⟨List.replicate 16 9, 4, 4⟩ 2 =
      strassenMul_hybrid (fun _ _ => 7) 3 ⟨5, 10⟩ ⟨List.replicate 16 1, 4, 4⟩
        ⟨List.replicate 16 1, 4, 4⟩ ⟨List.replicate 16 9, 4, 4⟩ 2 ∧
    assertTemps 2 8 (strassenMul (fun _ _ => 7) 2) ⟨8, 13⟩ ⟨[1, 2, 3, 4], 2, 2⟩
        ⟨[1, 2, 3, 4], 2, 2⟩ ⟨List.replicate 16 9, 4, 4⟩ = none ∧
    assertTemps 2 8 (strassenMul (fun _ _ => 7) 2) ⟨9, 13⟩ ⟨[1, 2, 3, 4], 2, 2⟩
        ⟨[1, 2, 3, 4], 2, 2⟩ ⟨[9, 9, 9, 9], 2, 2⟩ = none ∧
    (assertTemps 2 8 (strassenMul (fun _ _ => 7) 2) ⟨8, 13⟩ ⟨[1, 2, 3, 4], 2, 2⟩
        ⟨[1, 2, 3, 4], 2, 2⟩ ⟨[9, 9, 9, 9], 2, 2⟩).map (fun r => r.1) =
      some ⟨[7, 10, 15, 22], 2, 2⟩ := by
  have key := C20_resource_discipline (fun _ _ => 7) 3 4 (by decide) (by decide) ⟨5, 10⟩
    ⟨List.replicate 16 1, 4, 4⟩ ⟨List.replicate 16 1, 4, 4⟩ ⟨List.replicate 16 9, 4, 4⟩ 2
    (by decide) rfl ⟨rfl, rfl, rfl⟩
  exact ⟨by decide, by decide, key.1, key.2.2.2.2.1, key.2.2.2.2.2.1, by decide, by decide,
    by decide⟩

/-! ## Zero-filling a matrix of any dimensions -/

theorem rowMajor_lt_rect {r c a b : Nat} (ha : a < r) (hb : b < c) : a * c + b < r * c := by
  have : (a + 1) * c ≤ r * c := Nat.mul_le_mul_right c ha
  nlinarith

theorem cell_store_rect {M : Matrix} {r c a b i j : Nat} (hcol : M.col = (c : Int))
    (hlen : M.matrix.length = r * c) (ha : a < r) (hb : b < c) (hj : j < c) (v : Int) :
    (M.store (a : Int) (b : Int) M.col v).cell i j = if i = a ∧ j = b then v else M.cell i j := by
  unfold Matrix.cell Matrix.store matrixElem matrixElemSet
  simp only [hcol]
  have e1 : ((a : Int) * (c : Int) + (b : Int)) = ((a * c + b : Nat) : Int) := by push_cast; ring
  have e2 : ((i : Int) * (c : Int) + (j : Int)) = ((i * c + j : Nat) : Int) := by push_cast; ring
  rw [e1, e2, rdBuf_wrBuf_nat _ _ _ _ (by rw [hlen]; exact rowMajor_lt_rect ha hb)]
  by_cases hij : i = a ∧ j = b
  · obtain ⟨rfl, rfl⟩ := hij; simp
  · have : ¬ (i * c + j = a * c + b) := fun e => hij (rowMajor_inj hj hb e)
    simp [this, hij]

theorem initMatrixZeros_rect {M : Matrix} {r c : Nat} (hrow : M.row = (r : Int))
    (hcol : M.col = (c : Int)) (hlen : M.matrix.length = r * c) :
    (initMatrixZeros M).row = M.row ∧ (initMatrixZeros M).col = M.col ∧
    (initMatrixZeros M).matrix.length = M.matrix.length ∧
    ∀ i j, i < r → j < c → (initMatrixZeros M).cell i j = 0 := by
  unfold initMatrixZeros
  rw [hrow, hcol, hlen]
  have key := forLoop_inv 0 r
    (fun i mat => forLoop 0 mat.col (fun j mat => mat.store i j mat.col 0) mat)
    (fun k D => D.row = (r : Int) ∧ D.col = (c : Int) ∧ D.matrix.length = r * c ∧
      ∀ i j, i < k → j < c → D.cell i j = 0) M
    ⟨hrow, hcol, hlen, fun i j hi _ => absurd hi (Nat.not_lt_zero i)⟩
    (by
      intro k D hk ⟨h1, h2, h3, h4⟩
      beta_reduce
      rw [h2, zero_add]
      have inner := forLoop_inv 0 c (fun j mat => mat.store (k : Int) j mat.col 0)
        (fun m E => E.row = (r : Int) ∧ E.col = (c : Int) ∧ E.matrix.length = r * c ∧
          (∀ i j, i < k → j < c → E.cell i j = 0) ∧ ∀ j, j < m → E.cell k j = 0) D
        ⟨h1, h2, h3, h4, fun j hj => absurd hj (Nat.not_lt_zero j)⟩
        (by
          intro m E hm ⟨e1, e2, e3, e4, e5⟩
          rw [zero_add]
          refine ⟨e1, e2, by simp [Matrix.store, matrixElemSet, wrBuf_length, e3], ?_, ?_⟩
          · intro i j hi hj
            rw [cell_store_rect e2 e3 hk hm hj, e4 i j hi hj]; simp
          · intro j hj
            rw [cell_store_rect e2 e3 hk hm (by omega)]
            by_cases e : j = m
            · simp [e]
            · rw [if_neg (by simp [e])]; exact e5 j (by omega))
      rw [zero_add] at inner
      obtain ⟨i1, i2, i3, i4, i5⟩ := inner
      refine ⟨i1, i2, i3, fun i j hi hj => ?_⟩
      by_cases e : i = k
      · subst e; exact i5 j hj
      · exact i4 i j (by omega) hj)
  rw [zero_add] at key
  exact key

/-- A `for` loop whose upper bound does not exceed its lower bound runs no
iteration. -/
theorem forLoop_empty {σ : Type} (lo hi : Int) (h : hi ≤ lo) (body : Int → σ → σ) (s : σ) :
    forLoop lo hi body s = s := by
  unfold forLoop
  have e : (hi - lo).toNat = 0 := by omega
  rw [e]; rfl

/-- With too little fuel the recursion is cut off: on an operand with `n ≥ 2 ^ fuel`
rows more than `fuel` nested frames are needed. -/
theorem strassenMul_none (junk : Nat → Nat → Int) (fuel : Nat) :
    ∀ (n : Nat), 2 ^ fuel ≤ n → ∀ (hp : Heap) (X Y Z : Matrix), X.row = (n : Int) →
      strassenMul junk fuel hp X Y Z = none := by
  induction fuel with
  | zero => intro n _ hp X Y Z _; rfl
  | succ fuel ih =>
    intro n hn hp X Y Z hX
    have h2 : 2 ≤ n := by
      have : 1 ≤ 2 ^ fuel := Nat.one_le_two_pow
      rw [pow_succ] at hn; omega
    have hne : X.row ≠ 1 := by rw [hX]; omega
    rw [strassenMul_step junk fuel hp hne]
    have hle : 2 ^ fuel ≤ n / 2 := by rw [pow_succ] at hn; omega
    have hdiv : X.row.tdiv 2 = ((n / 2 : Nat) : Int) := by
      rw [hX, Int.tdiv_eq_ediv (by omega) (by omega)]; simp
    have hcall := fun hp X' Y' Z' (h : X'.row = ((n / 2 : Nat) : Int)) =>
      ih (n / 2) hle hp X' Y' Z' h
    unfold strassenFrame
    simp only []
    rw [hcall]
    · rfl
    · rw [row_subMatrix]; exact hdiv

/-! ## Claims C21 to C30 -/

/-- C21: `initMatrixZeros`. For every matrix of dimensions `row × col` (with a
buffer of `row * col` elements), after `initMatrixZeros` every element `(i, j)`
with `i < row` and `j < col` is `0`, and `row`, `col` and the buffer length are
unchanged. -/
theorem C21_initMatrixZeros (M : Matrix) (row col : Nat) (hrow : M.row = (row : Int))
    (hcol : M.col = (col : Int)) (hlen : M.matrix.length = row * col) :
    (initMatrixZeros M).row = M.row ∧ (initMatrixZeros M).col = M.col ∧
    (initMatrixZeros M).matrix.length = M.matrix.length ∧
    ∀ i j, i < row → j < col →
      matrixElem (initMatrixZeros M).matrix (i : Int) (j : Int) (initMatrixZeros M).col = 0 :=
  initMatrixZeros_rect hrow hcol hlen

/-- C21, witness: a 2×3 matrix. -/
theorem C21_initMatrixZeros_witness :
    initMatrixZeros ⟨[1, 2, 3, 4, 5, 6], 2, 3⟩ = ⟨[0, 0, 0, 0, 0, 0], 2, 3⟩ ∧
    ∀ i j : Nat, i < 2 → j < 3 →
      matrixElem (initMatrixZeros ⟨[1, 2, 3, 4, 5, 6], 2, 3⟩).matrix (i : Int) (j : Int)
        (initMatrixZeros ⟨[1, 2, 3, 4, 5, 6], 2, 3⟩).col = 0 :=
  ⟨by decide, (C21_initMatrixZeros ⟨[1, 2, 3, 4, 5, 6], 2, 3⟩ 2 3 rfl rfl rfl).2.2.2⟩

/-- C24: the hybrid recurses through the pure Strassen call. For every side
`n ≥ 2` and every cutoff below `n`, `strassenMul_hybrid(A, B, C, cutoff)` is the
same computation as `strassenMul(A, B, C)` (same `C`, same heap; the hybrid's
frame counts as one of the nested frames of `strassenMul`), it does not depend on
which cutoff below `n` is passed, and the computation returns. -/
theorem C24_hybrid_is_strassenMul (junk : Nat → Nat → Int) (fuel n : Nat) (hn : 2 ≤ n)
    (hfuel : n < 2 ^ (fuel + 1)) (hp : Heap) (A B C : Matrix) (cutoff cutoff' : Int)
    (hcut : cutoff < (n : Int)) (hcut' : cutoff' < (n : Int)) (hA : A.row = (n : Int))
    (hC : C.IsSquare n) :
    strassenMul_hybrid junk fuel hp A B C cutoff = strassenMul junk (fuel + 1) hp A B C ∧
    strassenMul_hybrid junk fuel hp A B C cutoff' =
      strassenMul_hybrid junk fuel hp A B C cutoff ∧
    ∃ C' hp', strassenMul_hybrid junk fuel hp A B C cutoff = some (C', hp') ∧
      C'.IsSquare n := by
  have hne : A.row ≠ 1 := by rw [hA]; omega
  have e : ∀ c : Int, c < (n : Int) →
      strassenMul_hybrid junk fuel hp A B C c = strassenMul junk (fuel + 1) hp A B C := by
    intro c hc
    rw [strassenMul_step junk fuel hp hne]
    unfold strassenMul_hybrid
    rw [if_neg (by rw [hA]; omega)]
  refine ⟨e cutoff hcut, by rw [e cutoff' hcut', e cutoff hcut], ?_⟩
  obtain ⟨C', hp', h1, h2, _, _⟩ :=
    strassenMul_total junk (fuel + 1) n (by omega) hfuel hp A B C hA hC
  exact ⟨C', hp', by rw [e cutoff hcut]; exact h1, h2⟩

/-- C24, witness: side 3 (not a power of two) with cutoffs 1 and 2; both calls
return the matrix `strassenMul` returns. -/
theorem C24_hybrid_is_strassenMul_witness :
    strassenMul_hybrid (fun _ _ => 7) 1 ⟨0, 0⟩ ⟨[1, 2, 3, 4, 5, 6, 7, 8, 9], 3, 3⟩
        ⟨[1, 0, 0, 0, 1, 0, 0, 0, 1], 3, 3⟩ ⟨List.replicate 9 5, 3, 3⟩ 1 =
      some (⟨[1, 2, 0, 4, 5, 0, 0, 0, 0], 3, 3⟩, ⟨0, 3⟩) ∧
    strassenMul_hybrid (fun _ _ => 7) 1 ⟨0, 0⟩ ⟨[1, 2, 3, 4, 5, 6, 7, 8, 9], 3, 3⟩
        ⟨[1, 0, 0, 0, 1, 0, 0, 0, 1], 3, 3⟩ ⟨List.replicate 9 5, 3, 3⟩ 1 =
      strassenMul (fun _ _ => 7) 2 ⟨0, 0⟩ ⟨[1, 2, 3, 4, 5, 6, 7, 8, 9], 3, 3⟩
        ⟨[1, 0, 0, 0, 1, 0, 0, 0, 1], 3, 3⟩ ⟨List.replicate 9 5, 3, 3⟩ ∧
    strassenMul_hybrid (fun _ _ => 7) 1 ⟨0, 0⟩ ⟨[1, 2, 3, 4, 5, 6, 7, 8, 9], 3, 3⟩
        ⟨[1, 0, 0, 0, 1, 0, 0, 0, 1], 3, 3⟩ ⟨List.replicate 9 5, 3, 3⟩ 2 =
      strassenMul_hybrid (fun _ _ => 7) 1 ⟨0, 0⟩ ⟨[1, 2, 3, 4, 5, 6, 7, 8, 9], 3, 3⟩
        ⟨[1, 0, 0, 0, 1, 0, 0, 0, 1], 3, 3⟩ ⟨List.replicate 9 5, 3, 3⟩ 1 := by
  have h := C24_hybrid_is_strassenMul (fun _ _ => 7) 1 3 (by decide) (by decide) ⟨0, 0⟩
    ⟨[1, 2, 3, 4, 5, 6, 7, 8, 9], 3, 3⟩ ⟨[1, 0, 0, 0, 1, 0, 0, 0, 1], 3, 3⟩
    ⟨List.replicate 9 5, 3, 3⟩ 1 2 (by decide) (by decide) rfl ⟨rfl, rfl, rfl⟩
  exact ⟨by decide, h.1, h.2.1⟩

/-- C25: termination. For every side `n ≥ 1`, `strassenMul` returns: each frame
past the base case calls on side `n / 2`, which is `< n` and `≥ 1` when `n ≥ 2`,
so side 1 is reached after `⌊log₂ n⌋` levels: the call returns within
`⌊log₂ n⌋ + 1` nested frames (the last one being the base case) and not within
fewer. Likewise `strassenMul_hybrid` returns for every side `n ≥ 1` and every
cutoff `≥ 1`, its `strassenMul` calls needing at most `⌊log₂ n⌋` nested frames. -/
theorem C25_termination (junk : Nat → Nat → Int) (n : Nat) (hn : 1 ≤ n) (hp : Heap)
    (A B C : Matrix) (hA : A.row = (n : Int)) (hC : C.IsSquare n) :
    (∀ fuel, Nat.log 2 n < fuel → ∃ C' hp', strassenMul junk fuel hp A B C = some (C', hp')) ∧
    (∀ fuel, fuel ≤ Nat.log 2 n → strassenMul junk fuel hp A B C = none) ∧
    (∀ fuel (cutoff : Int), Nat.log 2 n ≤ fuel → 1 ≤ cutoff →
      ∃ C' hp', strassenMul_hybrid junk fuel hp A B C cutoff = some (C', hp')) ∧
    (2 ≤ n → n / 2 < n ∧ 1 ≤ n / 2 ∧ Nat.log 2 (n / 2) + 1 = Nat.log 2 n) := by
  refine ⟨fun fuel hf => ?_, fun fuel hf => ?_, fun fuel cutoff hf hcut => ?_, fun h2 => ?_⟩
  · have : n < 2 ^ fuel := (Nat.lt_pow_iff_log_lt (by decide) (by omega)).2 hf
    obtain ⟨C', hp', h, _⟩ := strassenMul_total junk fuel n hn this hp A B C hA hC
    exact ⟨C', hp', h⟩
  · have : 2 ^ fuel ≤ n := by
      by_contra hlt
      have := (Nat.lt_pow_iff_log_lt (by decide) (by omega)).1 (not_le.mp hlt)
      omega
    exact strassenMul_none junk fuel n this hp A B C hA
  · have : n < 2 ^ (fuel + 1) :=
      (Nat.lt_pow_iff_log_lt (by decide) (by omega)).2 (by omega)
    obtain ⟨C', hp', h, _⟩ :=
      strassenMul_hybrid_total junk fuel n hn this hp A B C cutoff hcut hA hC
    exact ⟨C', hp', h⟩
  · refine ⟨by omega, by omega, ?_⟩
    have := Nat.log_pos (b := 2) (by decide) h2
    rw [Nat.log_div_base]; omega

/-- C25, witness: side 5 needs `⌊log₂ 5⌋ + 1 = 3` nested frames. -/
theorem C25_termination_witness :
    (∃ C' hp', strassenMul (fun _ _ => 7) 3 ⟨0, 0⟩ ⟨List.replicate 25 1, 5, 5⟩
        ⟨List.replicate 25 1, 5, 5⟩ ⟨List.replicate 25 9, 5, 5⟩ = some (C', hp')) ∧
    strassenMul (fun _ _ => 7) 2 ⟨0, 0⟩ ⟨List.replicate 25 1, 5, 5⟩
        ⟨List.replicate 25 1, 5, 5⟩ ⟨List.replicate 25 9, 5, 5⟩ = none ∧
    Nat.log 2 5 = 2 := by
  have h := C25_termination (fun _ _ => 7) 5 (by decide) ⟨0, 0⟩ ⟨List.replicate 25 1, 5, 5⟩
    ⟨List.replicate 25 1, 5, 5⟩ ⟨List.replicate 25 9, 5, 5⟩ rfl ⟨rfl, rfl, rfl⟩
  have e : Nat.log 2 5 = 2 := by simp [Nat.log]
  exact ⟨h.1 3 (by rw [e]; decide), h.2.1 2 (by rw [e]), e⟩

/-- C28: odd sides are truncated. For every odd side `n ≥ 3`, `strassenMul`
returns a `C` whose last row and last column are `0` (whatever `C` held before),
and the last row and column of `A` and `B` are never read: operands that agree
with `A` and `B` on the top-left `(n-1) × (n-1)` region give the same `C`. -/
theorem C28_odd_truncated (junk : Nat → Nat → Int) (fuel n : Nat) (hn : 3 ≤ n)
    (hodd : n % 2 = 1) (hfuel : n < 2 ^ fuel) (hp : Heap) (A B C : Matrix)
    (hA : A.IsSquare n) (hC : C.IsSquare n) :
    ∃ C' hp', strassenMul junk fuel hp A B C = some (C', hp') ∧
      (∀ j, j < n → C'.cell (n - 1) j = 0 ∧ C'.cell j (n - 1) = 0) ∧
      ∀ (A' B' C₀ : Matrix) (hp₀ : Heap), A'.IsSquare n → C₀.IsSquare n →
        (∀ i j, i < n - 1 → j < n - 1 → A'.cell i j = A.cell i j) →
        (∀ i j, i < n - 1 → j < n - 1 → B'.cell i j = B.cell i j) →
        ∃ hp'', strassenMul junk fuel hp₀ A' B' C₀ = some (C', hp'') := by
  obtain ⟨C', hp', h1, h2, _, h4⟩ :=
    strassenMul_total junk fuel n (by omega) hfuel hp A B C hA.1 hC
  obtain ⟨f, rfl⟩ : ∃ f, fuel = f + 1 := by
    cases fuel with
    | zero => simp at hfuel; omega
    | succ f => exact ⟨f, rfl⟩
  have hne : n ≠ 1 := by omega
  have href : ∀ a b, strassenRef (f + 1) n a b =
      strassenCombine (n / 2) (strassenRef f (n / 2)) a b := by
    intro a b; simp [strassenRef, hne]
  refine ⟨C', hp', h1, fun j hj => ⟨?_, ?_⟩, ?_⟩
  · rw [h4 (n - 1) j (by omega) hj, href]
    unfold strassenCombine
    simp only []
    rw [if_neg (by omega), if_neg (by omega)]
  · rw [h4 j (n - 1) hj (by omega), href]
    unfold strassenCombine
    simp only []
    split
    · rw [if_neg (by omega), if_neg (by omega)]
    · split
      · rw [if_neg (by omega), if_neg (by omega)]
      · rfl
  · intro A' B' C₀ hp₀ hA' hC₀ ha hb
    obtain ⟨C'', hp'', k1, k2, _, k4⟩ :=
      strassenMul_total junk (f + 1) n (by omega) hfuel hp₀ A' B' C₀ hA'.1 hC₀
    refine ⟨hp'', ?_⟩
    have : C'' = C' := by
      apply Matrix.ext_cells k2 h2
      intro i j hi hj
      rw [k4 i j hi hj, h4 i j hi hj, href, href]
      exact strassenCombine_congr (n := n / 2 + n / 2) (le_refl _)
        (fun f1 f2 g1 g2 hf hg i j _ _ =>
          strassenRef_congr f (n / 2) f1 f2 g1 g2 (by omega) hf hg i j)
        (fun i j hi hj => ha i j (by omega) (by omega))
        (fun i j hi hj => hb i j (by omega) (by omega)) i j
    rw [k1, this]

/-- C28, witness: side 3; the operands of the second call differ from those of
the first in their last row and column only. -/
theorem C28_odd_truncated_witness :
    strassenMul (fun _ _ => 7) 2 ⟨0, 0⟩ ⟨[1, 2, 3, 4, 5, 6, 7, 8, 9], 3, 3⟩
        ⟨[1, 1, 1, 1, 1, 1, 1, 1, 1], 3, 3⟩ ⟨List.replicate 9 5, 3, 3⟩ =
      some (⟨[3, 3, 0, 9, 9, 0, 0, 0, 0], 3, 3⟩, ⟨0, 3⟩) ∧
    strassenMul (fun _ _ => 7) 2 ⟨0, 0⟩ ⟨[1, 2, 30, 4, 5, 60, 70, 80, 90], 3, 3⟩
        ⟨[1, 1, -1, 1, 1, -1, -1, -1, -1], 3, 3⟩ ⟨List.replicate 9 5, 3, 3⟩ =
      some (⟨[3, 3, 0, 9, 9, 0, 0, 0, 0], 3, 3⟩, ⟨0, 3⟩) ∧
    ∃ C' hp', strassenMul (fun _ _ => 7) 2 ⟨0, 0⟩ ⟨[1, 2, 3, 4, 5, 6, 7, 8, 9], 3, 3⟩
        ⟨[1, 1, 1, 1, 1, 1, 1, 1, 1], 3, 3⟩ ⟨List.replicate 9 5, 3, 3⟩ = some (C', hp') ∧
      ∀ j, j < 3 → C'.cell (3 - 1) j = 0 ∧ C'.cell j (3 - 1) = 0 := by
  refine ⟨by decide, by decide, ?_⟩
  obtain ⟨C', hp', h1, h2, _⟩ := C28_odd_truncated (fun _ _ => 7) 2 3 (by decide) (by decide)
    (by decide) ⟨0, 0⟩ ⟨[1, 2, 3, 4, 5, 6, 7, 8, 9], 3, 3⟩ ⟨[1, 1, 1, 1, 1, 1, 1, 1, 1], 3, 3⟩
    ⟨List.replicate 9 5, 3, 3⟩ ⟨rfl, rfl, rfl⟩ ⟨rfl, rfl, rfl⟩
  exact ⟨C', hp', h1, h2⟩

/-- C30: the block primitives write only their block. When the destination block
`[r, r + s) × [c, c + s)` lies within the well-formed destination, every
destination cell outside the block keeps its value and the destination keeps its
dimensions and buffer length; with a block size `t ≤ 0` the destination (of any
shape) is returned exactly as it was. -/
theorem C30_block_frame (A B D : Matrix) (n s r c rA cA rB cB : Nat) (hD : D.IsSquare n)
    (hr : r + s ≤ n) (hc : c + s ≤ n) :
    (∀ i j, i < n → j < n → ¬ (r ≤ i ∧ i < r + s ∧ c ≤ j ∧ j < c + s) →
      (sumMatrix A rA cA B rB cB D r c s).2.cell i j = D.cell i j ∧
      (subMatrix A rA cA B rB cB D r c s).2.cell i j = D.cell i j ∧
      (addSubmatrix A D r c s).2.cell i j = D.cell i j ∧
      (subSubmatrix A D r c s).2.cell i j = D.cell i j ∧
      (copySubmatrix A rA cA D r c s).2.cell i j = D.cell i j) ∧
    ((sumMatrix A rA cA B rB cB D r c s).2.SameShape D ∧
      (subMatrix A rA cA B rB cB D r c s).2.SameShape D ∧
      (addSubmatrix A D r c s).2.SameShape D ∧
      (subSubmatrix A D r c s).2.SameShape D ∧
      (copySubmatrix A rA cA D r c s).2.SameShape D) ∧
    ∀ (t x y u v p q : Int) (E : Matrix), t ≤ 0 →
      (sumMatrix A x y B u v E p q t).2 = E ∧ (subMatrix A x y B u v E p q t).2 = E ∧
      (addSubmatrix A E p q t).2 = E ∧ (subSubmatrix A E p q t).2 = E ∧
      (copySubmatrix A x y E p q t).2 = E := by
  refine ⟨fun i j hi hj hout => ⟨?_, ?_, ?_, ?_, ?_⟩,
    ⟨SameShape_sumMatrix _ _ _ _ _ _ _ _ _ _, SameShape_subMatrix _ _ _ _ _ _ _ _ _ _,
      SameShape_addSubmatrix _ _ _ _ _, SameShape_subSubmatrix _ _ _ _ _,
      SameShape_copySubmatrix _ _ _ _ _ _ _⟩,
    fun t x y u v p q E ht => ⟨?_, ?_, ?_, ?_, ?_⟩⟩
  · rw [(sumMatrix_spec A B rA cA rB cB hD hr hc).2 i j hi hj, if_neg hout]
  · rw [(subMatrix_spec A B rA cA rB cB hD hr hc).2 i j hi hj, if_neg hout]
  · rw [(addSubmatrix_spec A hD hr hc).2 i j hi hj, if_neg hout]
  · rw [(subSubmatrix_spec A hD hr hc).2 i j hi hj, if_neg hout]
  · rw [(copySubmatrix_spec A rA cA hD hr hc).2 i j hi hj, if_neg hout]
  · unfold sumMatrix; dsimp only; exact forLoop_empty 0 t ht _ E
  · unfold subMatrix; dsimp only; exact forLoop_empty 0 t ht _ E
  · unfold addSubmatrix; dsimp only; exact forLoop_empty 0 t ht _ E
  · unfold subSubmatrix; dsimp only; exact forLoop_empty 0 t ht _ E
  · unfold copySubmatrix; dsimp only; exact forLoop_empty 0 t ht _ E

/-- C30, witness: a block of side 2 at offset `(1, 1)` of a 3×3 destination (the
first row and the first column keep their values), and block sizes `0` and `-1`. -/
theorem C30_block_frame_witness :
    sumMatrix ⟨[1, 2, 3, 4, 5, 6, 7, 8, 9], 3, 3⟩ 0 1 ⟨[10, 20, 30, 40, 50, 60, 70, 80, 90], 3, 3⟩ 1 0
        ⟨[11, 12, 13, 14, 15, 16, 17, 18, 19], 3, 3⟩ 1 1 2 =
      (0, ⟨[11, 12, 13, 14, 42, 53, 17, 75, 86], 3, 3⟩) ∧
    addSubmatrix ⟨[1, 2, 3, 4, 5, 6, 7, 8, 9], 3, 3⟩ ⟨[11, 12, 13, 14, 15, 16, 17, 18, 19], 3, 3⟩
        1 1 (-1) = (0, ⟨[11, 12, 13, 14, 15, 16, 17, 18, 19], 3, 3⟩) ∧
    (copySubmatrix ⟨[1, 2, 3, 4, 5, 6, 7, 8, 9], 3, 3⟩ 0 1
        ⟨[11, 12, 13, 14, 15, 16, 17, 18, 19], 3, 3⟩ 1 1 0).2 =
      ⟨[11, 12, 13, 14, 15, 16, 17, 18, 19], 3, 3⟩ ∧
    ∀ i j, i < 3 → j < 3 → ¬ (1 ≤ i ∧ i < 1 + 2 ∧ 1 ≤ j ∧ j < 1 + 2) →
      (sumMatrix ⟨[1, 2, 3, 4, 5, 6, 7, 8, 9], 3, 3⟩ ((0 : Nat) : Int) ((1 : Nat) : Int)
        ⟨[10, 20, 30, 40, 50, 60, 70, 80, 90], 3, 3⟩ ((1 : Nat) : Int) ((0 : Nat) : Int)
        ⟨[11, 12, 13, 14, 15, 16, 17, 18, 19], 3, 3⟩ ((1 : Nat) : Int) ((1 : Nat) : Int)
        ((2 : Nat) : Int)).2.cell i j =
      Matrix.cell ⟨[11, 12, 13, 14, 15, 16, 17, 18, 19], 3, 3⟩ i j := by
  have h := C30_block_frame ⟨[1, 2, 3, 4, 5, 6, 7, 8, 9], 3, 3⟩
    ⟨[10, 20, 30, 40, 50, 60, 70, 80, 90], 3, 3⟩ ⟨[11, 12, 13, 14, 15, 16, 17, 18, 19], 3, 3⟩
    3 2 1 1 0 1 1 0 ⟨rfl, rfl, rfl⟩ (by decide) (by decide)
  exact ⟨by decide, by decide, (h.2.2 0 0 1 0 0 1 1 _ (by decide)).2.2.2.2,
    fun i j hi hj hout => (h.1 i j hi hj hout).1⟩

/-! ## One level of pure Strassen in terms of its seven results -/

theorem strassenReturns_cell {junk : Nat → Nat → Int} {fuel h : Nat} {f g : Nat → Nat → Int}
    {P : Matrix} (hP : strassenReturns junk fuel h f g P) (h1 : 1 ≤ h) (hfuel : h < 2 ^ fuel) :
    ∀ i j, i < h → j < h → P.cell i j = strassenRef fuel h f g i j := by
  obtain ⟨hp, X, Y, Z, hp', hX, hY, hZ, cX, cY, e⟩ := hP
  obtain ⟨Z', hp'', e', _, _, c⟩ := strassenMul_total junk fuel h h1 hfuel hp X Y Z hX.1 hZ
  rw [e] at e'
  simp only [Option.some.injEq, Prod.mk.injEq] at e'
  obtain ⟨rfl, _⟩ := e'
  intro i j hi hj
  rw [c i j hi hj]
  exact strassenRef_congr fuel h _ _ _ _ h1 cX cY i j

/-- C22: one Strassen level. For every even side `n = h + h ≥ 2` (`h` any
positive number) `strassenMul` returns a `C` whose four `h × h` quadrants, at
offsets `(0,0)`, `(0,h)`, `(h,0)`, `(h,h)`, are
`C11 = P1 + P2 - P4 + P6`, `C12 = P4 + P5`, `C21 = P6 + P7`,
`C22 = P2 - P3 + P5 - P7`, where `P1 … P7` are the matrices `strassenMul` itself
returns on the side-`h` operand pairs `(A12 - A22, B21 + B22)`,
`(A11 + A22, B11 + B22)`, `(A11 - A21, B11 + B12)`, `(A11 + A12, B22)`,
`(A11, B12 - B22)`, `(A22, B21 - B11)`, `(A21 + A22, B11)`. -/
theorem C22_one_level (junk : Nat → Nat → Int) (fuel h : Nat) (h1 : 1 ≤ h)
    (hfuel : h < 2 ^ fuel) (hp : Heap) (A B C : Matrix) (hA : A.IsSquare (h + h))
    (hC : C.IsSquare (h + h)) (P1 P2 P3 P4 P5 P6 P7 : Matrix)
    (hP1 : strassenReturns junk fuel h
      (fun i j => A.cell i (j + h) - A.cell (i + h) (j + h))
      (fun i j => B.cell (i + h) j + B.cell (i + h) (j + h)) P1)
    (hP2 : strassenReturns junk fuel h
      (fun i j => A.cell i j + A.cell (i + h) (j + h))
      (fun i j => B.cell i j + B.cell (i + h) (j + h)) P2)
    (hP3 : strassenReturns junk fuel h
      (fun i j => A.cell i j - A.cell (i + h) j)
      (fun i j => B.cell i j + B.cell i (j + h)) P3)
    (hP4 : strassenReturns junk fuel h
      (fun i j => A.cell i j + A.cell i (j + h))
      (fun i j => B.cell (i + h) (j + h)) P4)
    (hP5 : strassenReturns junk fuel h
      (fun i j => A.cell i j)
      (fun i j => B.cell i (j + h) - B.cell (i + h) (j + h)) P5)
    (hP6 : strassenReturns junk fuel h
      (fun i j => A.cell (i + h) (j + h))
      (fun i j => B.cell (i + h) j - B.cell i j) P6)
    (hP7 : strassenReturns junk fuel h
      (fun i j => A.cell (i + h) j + A.cell (i + h) (j + h))
      (fun i j => B.cell i j) P7) :
    ∃ C' hp', strassenMul junk (fuel + 1) hp A B C = some (C', hp') ∧
      ∀ i j, i < h → j < h →
        C'.cell i j = P1.cell i j + P2.cell i j - P4.cell i j + P6.cell i j ∧
        C'.cell i (j + h) = P4.cell i j + P5.cell i j ∧
        C'.cell (i + h) j = P6.cell i j + P7.cell i j ∧
        C'.cell (i + h) (j + h) = P2.cell i j - P3.cell i j + P5.cell i j - P7.cell i j := by
  have hf2 : h + h < 2 ^ (fuel + 1) := by rw [pow_succ]; omega
  obtain ⟨C', hp', e, _, _, c⟩ :=
    strassenMul_total junk (fuel + 1) (h + h) (by omega) hf2 hp A B C hA.1 hC
  have hne : h + h ≠ 1 := by omega
  have hdiv : (h + h) / 2 = h := by omega
  have href : strassenRef (fuel + 1) (h + h) A.cell B.cell =
      strassenCombine h (strassenRef fuel h) A.cell B.cell := by
    simp [strassenRef, hne, hdiv]
  refine ⟨C', hp', e, fun i j hi hj => ?_⟩
  have c1 := strassenReturns_cell hP1 h1 hfuel i j hi hj
  have c2 := strassenReturns_cell hP2 h1 hfuel i j hi hj
  have c3 := strassenReturns_cell hP3 h1 hfuel i j hi hj
  have c4 := strassenReturns_cell hP4 h1 hfuel i j hi hj
  have c5 := strassenReturns_cell hP5 h1 hfuel i j hi hj
  have c6 := strassenReturns_cell hP6 h1 hfuel i j hi hj
  have c7 := strassenReturns_cell hP7 h1 hfuel i j hi hj
  rw [c1, c2, c3, c4, c5, c6, c7]
  rw [c i j (by omega) (by omega), c i (j + h) (by omega) (by omega),
    c (i + h) j (by omega) (by omega), c (i + h) (j + h) (by omega) (by omega), href]
  have nj : ¬ j + h < h := by omega
  have ni : ¬ i + h < h := by omega
  have lj : j + h < h + h := by omega
  have li : i + h < h + h := by omega
  refine ⟨?_, ?_, ?_, ?_⟩ <;>
    simp only [strassenCombine, hi, hj, nj, ni, lj, li, if_true, if_false, Nat.add_sub_cancel]

/-- C22, witness: side 2 (`h = 1`), `A = [[1,2],[3,4]]`, `B = [[5,6],[7,8]]`; the
seven results are the 1×1 matrices `-30, 65, -22, 24, -2, 8, 35`. -/
theorem C22_one_level_witness :
    strassenMul (fun _ _ => 7) 2 ⟨0, 0⟩ ⟨[1, 2, 3, 4], 2, 2⟩ ⟨[5, 6, 7, 8], 2, 2⟩ ⟨[9, 9, 9, 9], 2, 2⟩ =
      some (⟨[19, 22, 43, 50], 2, 2⟩, ⟨0, 3⟩) ∧
    ∃ C' hp', strassenMul (fun _ _ => 7) (1 + 1) ⟨0, 0⟩ ⟨[1, 2, 3, 4], 2, 2⟩ ⟨[5, 6, 7, 8], 2, 2⟩ ⟨[9, 9, 9, 9], 2, 2⟩ = some (C', hp') ∧
      ∀ i j, i < 1 → j < 1 →
        C'.cell i j = Matrix.cell ⟨[-30], 1, 1⟩ i j + Matrix.cell ⟨[65], 1, 1⟩ i j - Matrix.cell ⟨[24], 1, 1⟩ i j + Matrix.cell ⟨[8], 1, 1⟩ i j ∧
        C'.cell i (j + 1) = Matrix.cell ⟨[24], 1, 1⟩ i j + Matrix.cell ⟨[-2], 1, 1⟩ i j ∧
        C'.cell (i + 1) j = Matrix.cell ⟨[8], 1, 1⟩ i j + Matrix.cell ⟨[35], 1, 1⟩ i j ∧
        C'.cell (i + 1) (j + 1) = Matrix.cell ⟨[65], 1, 1⟩ i j - Matrix.cell ⟨[-22], 1, 1⟩ i j + Matrix.cell ⟨[-2], 1, 1⟩ i j - Matrix.cell ⟨[35], 1, 1⟩ i j :=
  ⟨by decide, C22_one_level (fun _ _ => 7) 1 1 (by decide) (by decide) ⟨0, 0⟩ ⟨[1, 2, 3, 4], 2, 2⟩ ⟨[5, 6, 7, 8], 2, 2⟩ ⟨[9, 9, 9, 9], 2, 2⟩
    ⟨rfl, rfl, rfl⟩ ⟨rfl, rfl, rfl⟩ ⟨[-30], 1, 1⟩ ⟨[65], 1, 1⟩ ⟨[-22], 1, 1⟩ ⟨[24], 1, 1⟩ ⟨[-2], 1, 1⟩ ⟨[8], 1, 1⟩ ⟨[35], 1, 1⟩
    ⟨⟨0, 0⟩, ⟨[-2], 1, 1⟩, ⟨[15], 1, 1⟩, ⟨[0], 1, 1⟩, ⟨0, 0⟩, ⟨rfl, rfl, rfl⟩, ⟨rfl, rfl, rfl⟩, ⟨rfl, rfl, rfl⟩,
      fun i j hi hj => by rw [Nat.lt_one_iff] at hi hj; subst hi hj; decide,
      fun i j hi hj => by rw [Nat.lt_one_iff] at hi hj; subst hi hj; decide, by decide⟩
    ⟨⟨0, 0⟩, ⟨[5], 1, 1⟩, ⟨[13], 1, 1⟩, ⟨[0], 1, 1⟩, ⟨0, 0⟩, ⟨rfl, rfl, rfl⟩, ⟨rfl, rfl, rfl⟩, ⟨rfl, rfl, rfl⟩,
      fun i j hi hj => by rw [Nat.lt_one_iff] at hi hj; subst hi hj; decide,
      fun i j hi hj => by rw [Nat.lt_one_iff] at hi hj; subst hi hj; decide, by decide⟩
    ⟨⟨0, 0⟩, ⟨[-2], 1, 1⟩, ⟨[11], 1, 1⟩, ⟨[0], 1, 1⟩, ⟨0, 0⟩, ⟨rfl, rfl, rfl⟩, ⟨rfl, rfl, rfl⟩, ⟨rfl, rfl, rfl⟩,
      fun i j hi hj => by rw [Nat.lt_one_iff] at hi hj; subst hi hj; decide,
      fun i j hi hj => by rw [Nat.lt_one_iff] at hi hj; subst hi hj; decide, by decide⟩
    ⟨⟨0, 0⟩, ⟨[3], 1, 1⟩, ⟨[8], 1, 1⟩, ⟨[0], 1, 1⟩, ⟨0, 0⟩, ⟨rfl, rfl, rfl⟩, ⟨rfl, rfl, rfl⟩, ⟨rfl, rfl, rfl⟩,
      fun i j hi hj => by rw [Nat.lt_one_iff] at hi hj; subst hi hj; decide,
      fun i j hi hj => by rw [Nat.lt_one_iff] at hi hj; subst hi hj; decide, by decide⟩
    ⟨⟨0, 0⟩, ⟨[1], 1, 1⟩, ⟨[-2], 1, 1⟩, ⟨[0], 1, 1⟩, ⟨0, 0⟩, ⟨rfl, rfl, rfl⟩, ⟨rfl, rfl, rfl⟩, ⟨rfl, rfl, rfl⟩,
      fun i j hi hj => by rw [Nat.lt_one_iff] at hi hj; subst hi hj; decide,
      fun i j hi hj => by rw [Nat.lt_one_iff] at hi hj; subst hi hj; decide, by decide⟩
    ⟨⟨0, 0⟩, ⟨[4], 1, 1⟩, ⟨[2], 1, 1⟩, ⟨[0], 1, 1⟩, ⟨0, 0⟩, ⟨rfl, rfl, rfl⟩, ⟨rfl, rfl, rfl⟩, ⟨rfl, rfl, rfl⟩,
      fun i j hi hj => by rw [Nat.lt_one_iff] at hi hj; subst hi hj; decide,
      fun i j hi hj => by rw [Nat.lt_one_iff] at hi hj; subst hi hj; decide, by decide⟩
    ⟨⟨0, 0⟩, ⟨[7], 1, 1⟩, ⟨[5], 1, 1⟩, ⟨[0], 1, 1⟩, ⟨0, 0⟩, ⟨rfl, rfl, rfl⟩, ⟨rfl, rfl, rfl⟩, ⟨rfl, rfl, rfl⟩,
      fun i j hi hj => by rw [Nat.lt_one_iff] at hi hj; subst hi hj; decide,
      fun i j hi hj => by rw [Nat.lt_one_iff] at hi hj; subst hi hj; decide, by decide⟩⟩

set_option maxRecDepth 100000 in
/-- C23, evaluation at the failing input: on side 6 with cutoff 3 the reference
recursion `hybridRef` multiplies the 3×3 halves with `mul` and returns the
product, while `strassenMul_hybrid` hands them to `strassenMul` and returns a
different matrix. -/
theorem C23_hybrid_differs_from_hybridRef :
    (hybridRef (fun _ _ => 0) 2 ⟨0, 0⟩ ⟨List.replicate 36 1, 6, 6⟩
        ⟨List.replicate 36 1, 6, 6⟩ ⟨List.replicate 36 0, 6, 6⟩ 3).map (fun r => r.1) =
      some ⟨List.replicate 36 6, 6, 6⟩ ∧
    (strassenMul_hybrid (fun _ _ => 0) 2 ⟨0, 0⟩ ⟨List.replicate 36 1, 6, 6⟩
        ⟨List.replicate 36 1, 6, 6⟩ ⟨List.replicate 36 0, 6, 6⟩ 3).map (fun r => r.1) ≠
      (hybridRef (fun _ _ => 0) 2 ⟨0, 0⟩ ⟨List.replicate 36 1, 6, 6⟩
        ⟨List.replicate 36 1, 6, 6⟩ ⟨List.replicate 36 0, 6, 6⟩ 3).map (fun r => r.1) ∧
    (strassenMul_hybrid (fun _ _ => 0) 2 ⟨0, 0⟩ ⟨List.replicate 36 1, 6, 6⟩
        ⟨List.replicate 36 1, 6, 6⟩ ⟨List.replicate 36 0, 6, 6⟩ 3).map
          (fun r => r.1.cell 0 2) = some 0 := by
  refine ⟨by decide, by decide, by decide⟩

/-! ## The recursion without the zero-filling of the result -/

/-- One frame without the zero-filling, on an even side `n = h + h`: under the
same assumption on the callee as in `strassenFrame_spec` the frame returns and
the cells of `C` are those of `strassenCombine`, whatever `C` held before. -/
theorem strassenFrameNoInit_spec (junk : Nat → Nat → Int)
    (recur : Heap → Matrix → Matrix → Matrix → Option (Matrix × Heap))
    (R : (Nat → Nat → Int) → (Nat → Nat → Int) → Nat → Nat → Int) {n h : Nat}
    (hh : n = h + h)
    (Hrec : ∀ (hp : Heap) (X Y Z : Matrix) (f g : Nat → Nat → Int),
      X.IsSquare h → Y.IsSquare h → Z.IsSquare h →
      (∀ i j, i < h → j < h → X.cell i j = f i j) →
      (∀ i j, i < h → j < h → Y.cell i j = g i j) →
      ∃ Z' hp', recur hp X Y Z = some (Z', hp') ∧ Z'.IsSquare h ∧ hp'.live = hp.live ∧
        ∀ i j, i < h → j < h → Z'.cell i j = R f g i j)
    (hp : Heap) {A B C : Matrix} (hA : A.row = (n : Int)) (hC : C.IsSquare n) :
    ∃ C' hp', strassenFrameNoInit junk recur hp A B C = some (C', hp') ∧ C'.IsSquare n ∧
      hp'.live = hp.live ∧
      ∀ i j, i < n → j < n → C'.cell i j = strassenCombine h R A.cell B.cell i j := by
  have hside : A.row.tdiv 2 = (h : Int) := by
    rw [hA, Int.tdiv_eq_ediv (by omega) (by omega)]; omega
  have h2 : h + h ≤ n := by omega
  unfold strassenFrameNoInit
  simp only [hside]
  -- the three temporaries and the zeroed result
  have wt1 := allocMatrix_IsSquare junk hp h
  have wt2 := allocMatrix_IsSquare junk (allocMatrix junk hp h).2 h
  have wP0 := allocMatrix_IsSquare junk (allocMatrix junk (allocMatrix junk hp h).2 h).2 h
  have hlive : (allocMatrix junk (allocMatrix junk (allocMatrix junk hp h).2 h).2 h).2.live
      = hp.live + 3 := rfl
  generalize (allocMatrix junk (allocMatrix junk (allocMatrix junk hp h).2 h).2 h).2 = hp0
    at hlive ⊢
  generalize (allocMatrix junk (allocMatrix junk (allocMatrix junk hp h).2 h).2 h).1 = P0
    at wP0 ⊢
  generalize (allocMatrix junk (allocMatrix junk hp h).2 h).1 = t2 at wt2 ⊢
  generalize (allocMatrix junk hp h).1 = t1 at wt1 ⊢
  have wC0 := hC
  -- product 1
  obtain ⟨wT1, cT1⟩ := subMatrix_temp A A 0 h h h wt1
  try simp only [Nat.cast_zero] at wT1 cT1
  generalize (subMatrix A 0 h A h h t1 0 0 h).2 = T1 at wT1 cT1 ⊢
  obtain ⟨wU1, cU1⟩ := sumMatrix_temp B B h 0 h h wt2
  try simp only [Nat.cast_zero] at wU1 cU1
  generalize (sumMatrix B h 0 B h h t2 0 0 h).2 = U1 at wU1 cU1 ⊢
  obtain ⟨P1, hp1, e1, wP1, l1, cP1⟩ := Hrec hp0 T1 U1 P0
    (fun i j => A.cell i (j + h) - A.cell (i + h) (j + h))
    (fun i j => B.cell (i + h) j + B.cell (i + h) (j + h))
    wT1 wU1 wP0 cT1 cU1
  rw [e1]
  simp only [Option.some_bind]
  obtain ⟨wC1, cC1⟩ := copySubmatrix_spec P1 (r := 0) (c := 0) (s := h) 0 0 wC0 (by omega) (by omega)
  try simp only [Nat.cast_zero] at wC1 cC1
  generalize (copySubmatrix P1 0 0 C 0 0 h).2 = C1 at wC1 cC1 ⊢
  -- product 2
  obtain ⟨wT2, cT2⟩ := sumMatrix_temp A A 0 0 h h wT1
  try simp only [Nat.cast_zero] at wT2 cT2
  generalize (sumMatrix A 0 0 A h h T1 0 0 h).2 = T2 at wT2 cT2 ⊢
  obtain ⟨wU2, cU2⟩ := sumMatrix_temp B B 0 0 h h wU1
  try simp only [Nat.cast_zero] at wU2 cU2
  generalize (sumMatrix B 0 0 B h h U1 0 0 h).2 = U2 at wU2 cU2 ⊢
  obtain ⟨P2, hp2, e2, wP2, l2, cP2⟩ := Hrec hp1 T2 U2 P1
    (fun i j => A.cell i j + A.cell (i + h) (j + h))
    (fun i j => B.cell i j + B.cell (i + h) (j + h))
    wT2 wU2 wP1 cT2 cU2
  rw [e2]
  simp only [Option.some_bind]
  obtain ⟨wC2, cC2⟩ := addSubmatrix_spec P2 (r := 0) (c := 0) (s := h) wC1 (by omega) (by omega)
  try simp only [Nat.cast_zero] at wC2 cC2
  generalize (addSubmatrix P2 C1 0 0 h).2 = C2 at wC2 cC2 ⊢
  obtain ⟨wC3, cC3⟩ := copySubmatrix_spec P2 (r := h) (c := h) (s := h) 0 0 wC2 (by omega) (by omega)
  try simp only [Nat.cast_zero] at wC3 cC3
  generalize (copySubmatrix P2 0 0 C2 h h h).2 = C3 at wC3 cC3 ⊢
  -- product 3
  obtain ⟨wT3, cT3⟩ := subMatrix_temp A A 0 0 h 0 wT2
  try simp only [Nat.cast_zero] at wT3 cT3
  generalize (subMatrix A 0 0 A h 0 T2 0 0 h).2 = T3 at wT3 cT3 ⊢
  obtain ⟨wU3, cU3⟩ := sumMatrix_temp B B 0 0 0 h wU2
  try simp only [Nat.cast_zero] at wU3 cU3
  generalize (sumMatrix B 0 0 B 0 h U2 0 0 h).2 = U3 at wU3 cU3 ⊢
  obtain ⟨P3, hp3, e3, wP3, l3, cP3⟩ := Hrec hp2 T3 U3 P2
    (fun i j => A.cell i j - A.cell (i + h) j)
    (fun i j => B.cell i j + B.cell i (j + h))
    wT3 wU3 wP2 cT3 cU3
  rw [e3]
  simp only [Option.some_bind]
  obtain ⟨wC4, cC4⟩ := subSubmatrix_spec P3 (r := h) (c := h) (s := h) wC3 (by omega) (by omega)
  try simp only [Nat.cast_zero] at wC4 cC4
  generalize (subSubmatrix P3 C3 h h h).2 = C4 at wC4 cC4 ⊢
  -- product 4
  obtain ⟨wT4, cT4⟩ := sumMatrix_temp A A 0 0 0 h wT3
  try simp only [Nat.cast_zero] at wT4 cT4
  generalize (sumMatrix A 0 0 A 0 h T3 0 0 h).2 = T4 at wT4 cT4 ⊢
  obtain ⟨wU4, cU4⟩ := copySubmatrix_temp B h h wU3
  try simp only [Nat.cast_zero] at wU4 cU4
  generalize (copySubmatrix B h h U3 0 0 h).2 = U4 at wU4 cU4 ⊢
  obtain ⟨P4, hp4, e4, wP4, l4, cP4⟩ := Hrec hp3 T4 U4 P3
    (fun i j => A.cell i j + A.cell i (j + h))
    (fun i j => B.cell (i + h) (j + h))
    wT4 wU4 wP3 cT4 cU4
  rw [e4]
  simp only [Option.some_bind]
  obtain ⟨wC5, cC5⟩ := subSubmatrix_spec P4 (r := 0) (c := 0) (s := h) wC4 (by omega) (by omega)
  try simp only [Nat.cast_zero] at wC5 cC5
  generalize (subSubmatrix P4 C4 0 0 h).2 = C5 at wC5 cC5 ⊢
  obtain ⟨wC6, cC6⟩ := copySubmatrix_spec P4 (r := 0) (c := h) (s := h) 0 0 wC5 (by omega) (by omega)
  try simp only [Nat.cast_zero] at wC6 cC6
  generalize (copySubmatrix P4 0 0 C5 0 h h).2 = C6 at wC6 cC6 ⊢
  -- product 5
  obtain ⟨wT5, cT5⟩ := copySubmatrix_temp A 0 0 wT4
  try simp only [Nat.cast_zero] at wT5 cT5
  generalize (copySubmatrix A 0 0 T4 0 0 h).2 = T5 at wT5 cT5 ⊢
  obtain ⟨wU5, cU5⟩ := subMatrix_temp B B 0 h h h wU4
  try simp only [Nat.cast_zero] at wU5 cU5
  generalize (subMatrix B 0 h B h h U4 0 0 h).2 = U5 at wU5 cU5 ⊢
  obtain ⟨P5, hp5, e5, wP5, l5, cP5⟩ := Hrec hp4 T5 U5 P4
    (fun i j => A.cell i j)
    (fun i j => B.cell i (j + h) - B.cell (i + h) (j + h))
    wT5 wU5 wP4 cT5 cU5
  rw [e5]
  simp only [Option.some_bind]
  obtain ⟨wC7, cC7⟩ := addSubmatrix_spec P5 (r := 0) (c := h) (s := h) wC6 (by omega) (by omega)
  try simp only [Nat.cast_zero] at wC7 cC7
  generalize (addSubmatrix P5 C6 0 h h).2 = C7 at wC7 cC7 ⊢
  obtain ⟨wC8, cC8⟩ := addSubmatrix_spec P5 (r := h) (c := h) (s := h) wC7 (by omega) (by omega)
  try simp only [Nat.cast_zero] at wC8 cC8
  generalize (addSubmatrix P5 C7 h h h).2 = C8 at wC8 cC8 ⊢
  -- product 6
  obtain ⟨wT6, cT6⟩ := copySubmatrix_temp A h h wT5
  try simp only [Nat.cast_zero] at wT6 cT6
  generalize (copySubmatrix A h h T5 0 0 h).2 = T6 at wT6 cT6 ⊢
  obtain ⟨wU6, cU6⟩ := subMatrix_temp B B h 0 0 0 wU5
  try simp only [Nat.cast_zero] at wU6 cU6
  generalize (subMatrix B h 0 B 0 0 U5 0 0 h).2 = U6 at wU6 cU6 ⊢
  obtain ⟨P6, hp6, e6, wP6, l6, cP6⟩ := Hrec hp5 T6 U6 P5
    (fun i j => A.cell (i + h) (j + h))
    (fun i j => B.cell (i + h) j - B.cell i j)
    wT6 wU6 wP5 cT6 cU6
  rw [e6]
  simp only [Option.some_bind]
  obtain ⟨wC9, cC9⟩ := addSubmatrix_spec P6 (r := 0) (c := 0) (s := h) wC8 (by omega) (by omega)
  try simp only [Nat.cast_zero] at wC9 cC9
  generalize (addSubmatrix P6 C8 0 0 h).2 = C9 at wC9 cC9 ⊢
  obtain ⟨wC10, cC10⟩ := copySubmatrix_spec P6 (r := h) (c := 0) (s := h) 0 0 wC9 (by omega) (by omega)
  try simp only [Nat.cast_zero] at wC10 cC10
  generalize (copySubmatrix P6 0 0 C9 h 0 h).2 = C10 at wC10 cC10 ⊢
  -- product 7
  obtain ⟨wT7, cT7⟩ := sumMatrix_temp A A h 0 h h wT6
  try simp only [Nat.cast_zero] at wT7 cT7
  generalize (sumMatrix A h 0 A h h T6 0 0 h).2 = T7 at wT7 cT7 ⊢
  obtain ⟨wU7, cU7⟩ := copySubmatrix_temp B 0 0 wU6
  try simp only [Nat.cast_zero] at wU7 cU7
  generalize (copySubmatrix B 0 0 U6 0 0 h).2 = U7 at wU7 cU7 ⊢
  obtain ⟨P7, hp7, e7, wP7, l7, cP7⟩ := Hrec hp6 T7 U7 P6
    (fun i j => A.cell (i + h) j + A.cell (i + h) (j + h))
    (fun i j => B.cell i j)
    wT7 wU7 wP6 cT7 cU7
  rw [e7]
  simp only [Option.some_bind]
  obtain ⟨wC11, cC11⟩ := addSubmatrix_spec P7 (r := h) (c := 0) (s := h) wC10 (by omega) (by omega)
  try simp only [Nat.cast_zero] at wC11 cC11
  generalize (addSubmatrix P7 C10 h 0 h).2 = C11 at wC11 cC11 ⊢
  obtain ⟨wC12, cC12⟩ := subSubmatrix_spec P7 (r := h) (c := h) (s := h) wC11 (by omega) (by omega)
  try simp only [Nat.cast_zero] at wC12 cC12
  generalize (subSubmatrix P7 C11 h h h).2 = C12 at wC12 cC12 ⊢

  simp only [freeMatrix]
  refine ⟨_, _, rfl, wC12, by simp only; omega, ?_⟩
  intro i j hi hj
  by_cases hi1 : i < h
  · have ni : ¬ h ≤ i := by omega
    by_cases hj1 : j < h
    · have nj : ¬ h ≤ j := by omega
      simp only [strassenCombine, cC12 i j hi hj, cC11 i j hi hj, cC10 i j hi hj, cC9 i j hi hj, cC8 i j hi hj, cC7 i j hi hj, cC6 i j hi hj, cC5 i j hi hj, cC4 i j hi hj, cC3 i j hi hj, cC2 i j hi hj, cC1 i j hi hj, hi1, hj1, ni, nj, Nat.zero_le, zero_add, Nat.sub_zero, Nat.add_zero, true_and, and_true, false_and, and_false, if_true, if_false, and_self]
      rw [cP1 i j hi1 hj1, cP2 i j hi1 hj1, cP4 i j hi1 hj1, cP6 i j hi1 hj1]
    · have nj : h ≤ j := by omega
      by_cases hj2 : j < h + h
      · have hj3 : j - h < h := by omega
        simp only [strassenCombine, cC12 i j hi hj, cC11 i j hi hj, cC10 i j hi hj, cC9 i j hi hj, cC8 i j hi hj, cC7 i j hi hj, cC6 i j hi hj, cC5 i j hi hj, cC4 i j hi hj, cC3 i j hi hj, cC2 i j hi hj, cC1 i j hi hj, hi1, hj1, hj2, ni, nj, Nat.zero_le, zero_add, Nat.sub_zero, Nat.add_zero, true_and, and_true, false_and, and_false, if_true, if_false, and_self]
        rw [cP4 i (j - h) hi1 hj3, cP5 i (j - h) hi1 hj3]
      · exfalso; omega
  · have ni : h ≤ i := by omega
    by_cases hi2 : i < h + h
    · have hi3 : i - h < h := by omega
      by_cases hj1 : j < h
      · have nj : ¬ h ≤ j := by omega
        simp only [strassenCombine, cC12 i j hi hj, cC11 i j hi hj, cC10 i j hi hj, cC9 i j hi hj, cC8 i j hi hj, cC7 i j hi hj, cC6 i j hi hj, cC5 i j hi hj, cC4 i j hi hj, cC3 i j hi hj, cC2 i j hi hj, cC1 i j hi hj, hi1, hi2, hj1, ni, nj, Nat.zero_le, zero_add, Nat.sub_zero, Nat.add_zero, true_and, and_true, false_and, and_false, if_true, if_false, and_self]
        rw [cP6 (i - h) j hi3 hj1, cP7 (i - h) j hi3 hj1]
      · have nj : h ≤ j := by omega
        by_cases hj2 : j < h + h
        · have hj3 : j - h < h := by omega
          simp only [strassenCombine, cC12 i j hi hj, cC11 i j hi hj, cC10 i j hi hj, cC9 i j hi hj, cC8 i j hi hj, cC7 i j hi hj, cC6 i j hi hj, cC5 i j hi hj, cC4 i j hi hj, cC3 i j hi hj, cC2 i j hi hj, cC1 i j hi hj, hi1, hi2, hj1, hj2, ni, nj, Nat.zero_le, zero_add, Nat.sub_zero, Nat.add_zero, true_and, and_true, false_and, and_false, if_true, if_false, and_self]
          rw [cP2 (i - h) (j - h) hi3 hj3, cP3 (i - h) (j - h) hi3 hj3,
            cP5 (i - h) (j - h) hi3 hj3, cP7 (i - h) (j - h) hi3 hj3]
        · exfalso; omega
    · exfalso; omega

/-- The variant without the zero-filling on power-of-two sides: with any fuel
above `k` it returns the product of its operands, whatever `Z` held before. -/
theorem strassenMulNoInit_pow2 (junk : Nat → Nat → Int) (k : Nat) :
    ∀ (fuel : Nat), k < fuel → ∀ (hp : Heap) (X Y Z : Matrix) (f g : Nat → Nat → Int),
      X.IsSquare (2 ^ k) → Y.IsSquare (2 ^ k) → Z.IsSquare (2 ^ k) →
      (∀ i j, i < 2 ^ k → j < 2 ^ k → X.cell i j = f i j) →
      (∀ i j, i < 2 ^ k → j < 2 ^ k → Y.cell i j = g i j) →
      ∃ Z' hp', strassenMulNoInit junk fuel hp X Y Z = some (Z', hp') ∧ Z'.IsSquare (2 ^ k) ∧
        hp'.live = hp.live ∧
        ∀ i j, i < 2 ^ k → j < 2 ^ k → Z'.cell i j = matProd (2 ^ k) f g i j := by
  induction k with
  | zero =>
    intro fuel hfuel hp X Y Z f g hX hY hZ cX cY
    obtain ⟨fuel, rfl⟩ : ∃ m, fuel = m + 1 := ⟨fuel - 1, by omega⟩
    have hX1 : X.row = 1 := by rw [hX.1]; simp
    have hb : strassenMulNoInit junk (fuel + 1) hp X Y Z =
        some (Z.store 0 0 Z.col
          (matrixElem X.matrix 0 0 X.col * matrixElem Y.matrix 0 0 Y.col), hp) := by
      simp [strassenMulNoInit, hX1]
    rw [hb]
    obtain ⟨w, hc⟩ := store_plain (a := 0) (b := 0) hZ (by simp) (by simp) hZ.2.1
      (matrixElem X.matrix 0 0 X.col * matrixElem Y.matrix 0 0 Y.col)
    simp only [Nat.cast_zero] at w hc
    refine ⟨_, _, rfl, w, rfl, fun i j hi hj => ?_⟩
    have hi0 : i = 0 := by simpa using hi
    have hj0 : j = 0 := by simpa using hj
    subst hi0 hj0
    rw [hc 0 0 (by simp) (by simp), if_pos ⟨rfl, rfl⟩]
    have e1 := cX 0 0 (by simp) (by simp)
    have e2 := cY 0 0 (by simp) (by simp)
    simp only [Matrix.cell, Nat.cast_zero] at e1 e2
    rw [e1, e2]
    simp [matProd]
  | succ k ih =>
    intro fuel hfuel hp X Y Z f g hX hY hZ cX cY
    obtain ⟨fuel, rfl⟩ : ∃ m, fuel = m + 1 := ⟨fuel - 1, by omega⟩
    have hpow : 2 ^ (k + 1) = 2 ^ k + 2 ^ k := by rw [pow_succ]; omega
    have hpos : 0 < 2 ^ k := Nat.pos_pow_of_pos k (by decide)
    have hX1 : X.row ≠ 1 := by
      rw [hX.1, hpow]; intro h; have : (2 ^ k + 2 ^ k : Nat) = 1 := by exact_mod_cast h
      omega
    have hs : strassenMulNoInit junk (fuel + 1) hp X Y Z =
        strassenFrameNoInit junk (strassenMulNoInit junk fuel) hp X Y Z := by
      simp [strassenMulNoInit, hX1]
    rw [hs]
    obtain ⟨C', hp', e, w, l, hc⟩ := strassenFrameNoInit_spec junk (strassenMulNoInit junk fuel)
      (matProd (2 ^ k)) (n := 2 ^ (k + 1)) (h := 2 ^ k) hpow
      (fun hp X Y Z f g => ih fuel (by omega) hp X Y Z f g) hp (B := Y) hX.1 hZ
    refine ⟨C', hp', e, w, l, fun i j hi hj => ?_⟩
    rw [hc i j hi hj, strassenCombine_matProd _ _ _ _ _ (by omega) (by omega), ← hpow]
    exact matProd_congr hi hj cX cY

/-- On an even side the frame without the zero-filling, making its seven calls
to `strassenMul`, returns the matrix `strassenMul` returns, whatever the result
matrix held before. -/
theorem strassenFrameNoInit_agrees (junk : Nat → Nat → Int) (fuel h : Nat) (h1 : 1 ≤ h)
    (hfuel : h < 2 ^ fuel) (hp : Heap) (A B C C₀ : Matrix) (hA : A.row = ((h + h : Nat) : Int))
    (hC : C.IsSquare (h + h)) (hC₀ : C₀.IsSquare (h + h)) :
    ∃ C' hp₁ hp₂, strassenMul junk (fuel + 1) hp A B C = some (C', hp₁) ∧
      strassenFrameNoInit junk (strassenMul junk fuel) hp A B C₀ = some (C', hp₂) := by
  have hf2 : h + h < 2 ^ (fuel + 1) := by rw [pow_succ]; omega
  obtain ⟨C', hp₁, e, w, _, c⟩ :=
    strassenMul_total junk (fuel + 1) (h + h) (by omega) hf2 hp A B C hA hC
  obtain ⟨C'', hp₂, e', w', _, c'⟩ := strassenFrameNoInit_spec junk (strassenMul junk fuel)
    (strassenRef fuel h) (n := h + h) (h := h) rfl
    (fun hp X' Y' Z' f g hX' _ hZ' cX cY => by
      obtain ⟨Z'', hp'', e, w, l, hc⟩ := strassenMul_total junk fuel h h1 hfuel hp X' Y' Z'
        hX'.1 hZ'
      refine ⟨Z'', hp'', e, w, l, fun i j hi hj => ?_⟩
      rw [hc i j hi hj]
      exact strassenRef_congr fuel h _ _ _ _ h1 cX cY i j)
    hp (B := B) hA hC₀
  have hne : h + h ≠ 1 := by omega
  have hdiv : (h + h) / 2 = h := by omega
  have : C'' = C' := by
    apply Matrix.ext_cells w' w
    intro i j hi hj
    rw [c i j hi hj, c' i j hi hj]
    simp [strassenRef, hne, hdiv]
  exact ⟨C', hp₁, hp₂, e, by rw [e', this]⟩

set_option maxRecDepth 100000 in
/-- C26, counterexample: on the even side 6 the variant of `strassenMul` without
the zero-filling returns another matrix than `strassenMul`: its calls on the odd
side 3 leave the last row and column of their result matrix as allocated, and
these cells are copied and accumulated into `C`. -/
theorem C26_variant_differs_side6 :
    (strassenMul (fun _ _ => 7) 3 ⟨0, 0⟩ ⟨List.replicate 36 1, 6, 6⟩
        ⟨List.replicate 36 1, 6, 6⟩ ⟨List.replicate 36 0, 6, 6⟩).map (fun r => r.1) =
      some ⟨[4, 4, 0, 4, 4, 0, 4, 4, 0, 4, 4, 0, 0, 0, 0, 0, 0, 0,
             4, 4, 0, 4, 4, 0, 4, 4, 0, 4, 4, 0, 0, 0, 0, 0, 0, 0], 6, 6⟩ ∧
    (strassenMulNoInit (fun _ _ => 7) 3 ⟨0, 0⟩ ⟨List.replicate 36 1, 6, 6⟩
        ⟨List.replicate 36 1, 6, 6⟩ ⟨List.replicate 36 0, 6, 6⟩).map (fun r => r.1) =
      some ⟨[4, 4, 14, 4, 4, 14, 4, 4, 14, 4, 4, 14, 14, 14, 14, 14, 14, 14,
             4, 4, 14, 4, 4, 0, 4, 4, 14, 4, 4, 0, 14, 14, 14, 0, 0, 0], 6, 6⟩ := by
  constructor <;> decide

/-- C26 (amended): first-write-is-copy. On every even side `n = h + h ≥ 2` each
quadrant of `C` is established by a copy before it is read and the four
quadrants cover `C`: the frame without the call `initMatrixZeros(C)`, its seven
products still computed by `strassenMul`, returns the `C` that `strassenMul`
returns, for any prior contents `C₀` of the result matrix. When `n` is a power of
two the same holds for the variant with the call removed at every level. -/
theorem C26_first_write_is_copy (junk : Nat → Nat → Int) (fuel h : Nat) (h1 : 1 ≤ h)
    (hfuel : h < 2 ^ fuel) (hp : Heap) (A B C C₀ : Matrix) (hA : A.IsSquare (h + h))
    (hB : B.IsSquare (h + h)) (hC : C.IsSquare (h + h)) (hC₀ : C₀.IsSquare (h + h)) :
    (∃ C' hp₁ hp₂, strassenMul junk (fuel + 1) hp A B C = some (C', hp₁) ∧
      strassenFrameNoInit junk (strassenMul junk fuel) hp A B C₀ = some (C', hp₂)) ∧
    ∀ k, h + h = 2 ^ k →
      ∃ C' hp₁ hp₂, strassenMul junk (fuel + 1) hp A B C = some (C', hp₁) ∧
        strassenMulNoInit junk (fuel + 1) hp A B C₀ = some (C', hp₂) := by
  refine ⟨strassenFrameNoInit_agrees junk fuel h h1 hfuel hp A B C C₀ hA.1 hC hC₀,
    fun k hk => ?_⟩
  have hk' : k < fuel + 1 := by
    have : 2 ^ k < 2 ^ (fuel + 1) := by rw [← hk, pow_succ]; omega
    exact (Nat.pow_lt_pow_iff_right (by decide)).1 this
  rw [hk] at hA hB hC hC₀
  obtain ⟨C', hp₁, e, w, _, c⟩ := strassenMul_pow2 junk k (fuel + 1) hk' hp A B C A.cell B.cell
    hA hB hC (fun _ _ _ _ => rfl) (fun _ _ _ _ => rfl)
  obtain ⟨C'', hp₂, e', w', _, c'⟩ := strassenMulNoInit_pow2 junk k (fuel + 1) hk' hp A B C₀
    A.cell B.cell hA hB hC₀ (fun _ _ _ _ => rfl) (fun _ _ _ _ => rfl)
  have : C'' = C' := Matrix.ext_cells w' w (fun i j hi hj => by rw [c i j hi hj, c' i j hi hj])
  exact ⟨C', hp₁, hp₂, e, by rw [e', this]⟩

/-- C26 (amended), witness: side 2 with the result matrix holding `9`s in the
variant runs. -/
theorem C26_first_write_is_copy_witness :
    strassenFrameNoInit (fun _ _ => 7) (strassenMul (fun _ _ => 7) 1) ⟨0, 0⟩
        ⟨[1, 2, 3, 4], 2, 2⟩ ⟨[5, 6, 7, 8], 2, 2⟩ ⟨[9, 9, 9, 9], 2, 2⟩ =
      some (⟨[19, 22, 43, 50], 2, 2⟩, ⟨0, 3⟩) ∧
    (∃ C' hp₁ hp₂, strassenMul (fun _ _ => 7) (1 + 1) ⟨0, 0⟩ ⟨[1, 2, 3, 4], 2, 2⟩
        ⟨[5, 6, 7, 8], 2, 2⟩ ⟨[0, 0, 0, 0], 2, 2⟩ = some (C', hp₁) ∧
      strassenMulNoInit (fun _ _ => 7) (1 + 1) ⟨0, 0⟩ ⟨[1, 2, 3, 4], 2, 2⟩
        ⟨[5, 6, 7, 8], 2, 2⟩ ⟨[9, 9, 9, 9], 2, 2⟩ = some (C', hp₂)) :=
  ⟨by decide, (C26_first_write_is_copy (fun _ _ => 7) 1 1 (by decide) (by decide) ⟨0, 0⟩
    ⟨[1, 2, 3, 4], 2, 2⟩ ⟨[5, 6, 7, 8], 2, 2⟩ ⟨[0, 0, 0, 0], 2, 2⟩ ⟨[9, 9, 9, 9], 2, 2⟩
    ⟨rfl, rfl, rfl⟩ ⟨rfl, rfl, rfl⟩ ⟨rfl, rfl, rfl⟩ ⟨rfl, rfl, rfl⟩).2 1 rfl⟩

/-! ## Checked accesses through pointers -/

theorem inBounds_of_IsSquare {M : Matrix} {n : Nat} (hM : M.IsSquare n) {r c : Int}
    (hr0 : 0 ≤ r) (hr : r < (n : Int)) (hc0 : 0 ≤ c) (hc : c < (n : Int)) :
    M.inBounds r c (n : Int) = true := by
  unfold Matrix.inBounds
  rw [decide_eq_true_iff, hM.1, hM.2.1, hM.2.2]
  refine ⟨hr0, hr, hc0, hc, by positivity, ?_⟩
  push_cast
  nlinarith

theorem readAt_eq {mem : List Matrix} {p : Nat} {M : Matrix} {n : Nat} (hp : mem[p]? = some M)
    (hM : M.IsSquare n) (stride : Matrix → Int) (hs : stride M = (n : Int)) {r c : Int}
    (hr0 : 0 ≤ r) (hr : r < (n : Int)) (hc0 : 0 ≤ c) (hc : c < (n : Int)) :
    readAt mem p stride r c = some (matrixElem M.matrix r c (n : Int)) := by
  unfold readAt
  rw [hp, Option.some_bind, hs, if_pos (inBounds_of_IsSquare hM hr0 hr hc0 hc)]

theorem storeAt_eq {mem : List Matrix} {p : Nat} {M : Matrix} {n : Nat} (hp : mem[p]? = some M)
    (hM : M.IsSquare n) (stride : Matrix → Int) (hs : stride M = (n : Int)) {r c : Int}
    (hr0 : 0 ≤ r) (hr : r < (n : Int)) (hc0 : 0 ≤ c) (hc : c < (n : Int)) (v : Int) :
    storeAt mem p stride r c v = some (mem.set p (M.store r c (n : Int) v)) := by
  unfold storeAt
  rw [hp, Option.some_bind, hs, if_pos (inBounds_of_IsSquare hM hr0 hr hc0 hc)]

theorem blockAt_eq {mem : List Matrix} {p : Nat} {M : Matrix} {n : Nat} (hp : mem[p]? = some M)
    (hM : M.IsSquare n) {r c s : Int}
    (hb : 0 ≤ r ∧ 0 ≤ c ∧ r + s ≤ (n : Int) ∧ c + s ≤ (n : Int)) :
    blockAt mem p r c s = true := by
  unfold blockAt
  rw [hp]
  simp only [decide_eq_true_iff, hM.1, hM.2.1]
  exact hb

theorem lt_length_of_get {mem : List Matrix} {p : Nat} {M : Matrix}
    (hp : mem[p]? = some M) : p < mem.length := by
  by_contra hlt
  rw [List.getElem?_eq_none (not_lt.mp hlt)] at hp
  exact absurd hp (by simp)

theorem set_self_of_get {mem : List Matrix} {p : Nat} {M : Matrix}
    (hp : mem[p]? = some M) : mem.set p M = mem := by
  apply List.ext_getElem?
  intro i
  by_cases h : i = p
  · subst h
    rw [hp]
    simp [lt_length_of_get hp]
  · rw [List.getElem?_set_ne (Ne.symm h)]

theorem get_set_self_of {mem : List Matrix} {p : Nat} {M : Matrix} (D : Matrix)
    (hp : mem[p]? = some M) : (mem.set p D)[p]? = some D := by
  simp [lt_length_of_get hp]

theorem get_set_other {mem : List Matrix} {p q : Nat} {M : Matrix} (D : Matrix)
    (hq : mem[q]? = some M) (hne : p ≠ q) : (mem.set p D)[q]? = some M := by
  rw [List.getElem?_set_ne hne, hq]

/-- Simulation rule for a checked loop: if every iteration of the checked body, run
on the state `rel D`, succeeds with the state `rel (body D)`, so does the loop. -/
theorem forLoopM_sim {σ τ : Type} (rel : τ → σ) (Inv : τ → Prop) (lo hi : Int)
    (bodyM : Int → σ → Option σ) (body : Int → τ → τ)
    (hstep : ∀ (k : Int) (D : τ), lo ≤ k → k < hi → Inv D →
      bodyM k (rel D) = some (rel (body k D)) ∧ Inv (body k D))
    (D0 : τ) (h0 : Inv D0) :
    forLoopM lo hi bodyM (rel D0) = some (rel (forLoop lo hi body D0)) ∧
    Inv (forLoop lo hi body D0) := by
  unfold forLoopM forLoop
  have key : ∀ m, m ≤ (hi - lo).toNat →
      (List.range m).foldl (fun st (k : Nat) => st.bind (bodyM (lo + (k : Int)))) (some (rel D0)) =
        some (rel ((List.range m).foldl (fun st (k : Nat) => body (lo + (k : Int)) st) D0)) ∧
      Inv ((List.range m).foldl (fun st (k : Nat) => body (lo + (k : Int)) st) D0) := by
    intro m
    induction m with
    | zero => intro _; exact ⟨rfl, h0⟩
    | succ m ih =>
      intro hm
      obtain ⟨i1, i2⟩ := ih (by omega)
      rw [List.range_succ, List.foldl_append, List.foldl_append, i1]
      simp only [List.foldl_cons, List.foldl_nil, Option.some_bind]
      exact hstep _ _ (by omega) (by omega) i2
  exact key _ le_rfl

/-- Two nested checked loops over a block of side `s` that act on the matrix at
`p` only. -/
theorem blockLoopM_sim (mem : List Matrix) (p : Nat) (n : Nat) (s : Int)
    (bodyM : Int → Int → List Matrix → Option (List Matrix))
    (body : Int → Int → Matrix → Matrix)
    (hbody : ∀ (a b : Int) (D : Matrix), 0 ≤ a → a < s → 0 ≤ b → b < s → D.IsSquare n →
      bodyM a b (mem.set p D) = some (mem.set p (body a b D)) ∧ (body a b D).IsSquare n)
    (D0 : Matrix) (h0 : D0.IsSquare n) :
    forLoopM 0 s (fun i m => forLoopM 0 s (fun j m => bodyM i j m) m) (mem.set p D0) =
      some (mem.set p (forLoop 0 s (fun i D => forLoop 0 s (fun j D => body i j D) D) D0)) :=
  (forLoopM_sim (fun D => mem.set p D) (fun D => D.IsSquare n) 0 s
    (fun i m => forLoopM 0 s (fun j m => bodyM i j m) m)
    (fun i D => forLoop 0 s (fun j D => body i j D) D)
    (fun a D ha0 ha hD =>
      forLoopM_sim (fun D => mem.set p D) (fun D => D.IsSquare n) 0 s
        (fun j m => bodyM a j m) (fun j D => body a j D)
        (fun b D' hb0 hb hD' => hbody a b D' ha0 ha hb0 hb hD') D hD) D0 h0).1

/-! ## The checked primitives compute what the primitives compute -/

theorem sumMatrixAt_sim {mem : List Matrix} {pA pB pC : Nat} {MA MB MC : Matrix}
    {nA nB nC : Nat} (hA : mem[pA]? = some MA) (hB : mem[pB]? = some MB)
    (hC : mem[pC]? = some MC) (hCA : pC ≠ pA) (hCB : pC ≠ pB)
    (wA : MA.IsSquare nA) (wB : MB.IsSquare nB) (wC : MC.IsSquare nC)
    (rA cA rB cB rC cC s : Int)
    (bA : 0 ≤ rA ∧ 0 ≤ cA ∧ rA + s ≤ nA ∧ cA + s ≤ nA)
    (bB : 0 ≤ rB ∧ 0 ≤ cB ∧ rB + s ≤ nB ∧ cB + s ≤ nB)
    (bC : 0 ≤ rC ∧ 0 ≤ cC ∧ rC + s ≤ nC ∧ cC + s ≤ nC) :
    sumMatrixAt pA rA cA pB rB cB pC rC cC s mem =
      some (0, mem.set pC (sumMatrix MA rA cA MB rB cB MC rC cC s).2) := by
  unfold sumMatrixAt sumMatrix
  rw [blockAt_eq hA wA bA, blockAt_eq hB wB bB, blockAt_eq hC wC bC]
  simp only [Bool.and_self, if_true]
  have key := blockLoopM_sim mem pC nC s
    (fun i j mem =>
        (readAt mem pA Matrix.col (i + rA) (j + cA)).bind fun a =>
        (readAt mem pB Matrix.col (i + rB) (j + cB)).bind fun b =>
        storeAt mem pC Matrix.col (i + rC) (j + cC) (a + b))
    (fun i j C => C.store (i + rC) (j + cC) C.col
        (matrixElem MA.matrix (i + rA) (j + cA) MA.col +
         matrixElem MB.matrix (i + rB) (j + cB) MB.col))
    (by
      intro a b D ha0 ha hb0 hb hD
      refine ⟨?_, IsSquare_store hD _ _ _ _⟩
      beta_reduce
      rw [readAt_eq (get_set_other D hA hCA) wA Matrix.col wA.2.1
          (by omega) (by omega) (by omega) (by omega),
        readAt_eq (get_set_other D hB hCB) wB Matrix.col wB.2.1
          (by omega) (by omega) (by omega) (by omega)]
      simp only [Option.some_bind]
      rw [storeAt_eq (get_set_self_of D hC) hD Matrix.col hD.2.1
          (by omega) (by omega) (by omega) (by omega), List.set_set, hD.2.1, wA.2.1, wB.2.1])
    MC wC
  rw [set_self_of_get hC] at key
  rw [key]
  rfl

theorem subMatrixAt_sim {mem : List Matrix} {pA pB pC : Nat} {MA MB MC : Matrix}
    {nA nB nC : Nat} (hA : mem[pA]? = some MA) (hB : mem[pB]? = some MB)
    (hC : mem[pC]? = some MC) (hCA : pC ≠ pA) (hCB : pC ≠ pB)
    (wA : MA.IsSquare nA) (wB : MB.IsSquare nB) (wC : MC.IsSquare nC)
    (rA cA rB cB rC cC s : Int)
    (bA : 0 ≤ rA ∧ 0 ≤ cA ∧ rA + s ≤ nA ∧ cA + s ≤ nA)
    (bB : 0 ≤ rB ∧ 0 ≤ cB ∧ rB + s ≤ nB ∧ cB + s ≤ nB)
    (bC : 0 ≤ rC ∧ 0 ≤ cC ∧ rC + s ≤ nC ∧ cC + s ≤ nC) :
    subMatrixAt pA rA cA pB rB cB pC rC cC s mem =
      some (0, mem.set pC (subMatrix MA rA cA MB rB cB MC rC cC s).2) := by
  unfold subMatrixAt subMatrix
  rw [blockAt_eq hA wA bA, blockAt_eq hB wB bB, blockAt_eq hC wC bC]
  simp only [Bool.and_self, if_true]
  have key := blockLoopM_sim mem pC nC s
    (fun i j mem =>
        (readAt mem pA Matrix.col (i + rA) (j + cA)).bind fun a =>
        (readAt mem pB Matrix.col (i + rB) (j + cB)).bind fun b =>
        storeAt mem pC Matrix.col (i + rC) (j + cC) (a - b))
    (fun i j C => C.store (i + rC) (j + cC) C.col
        (matrixElem MA.matrix (i + rA) (j + cA) MA.col -
         matrixElem MB.matrix (i + rB) (j + cB) MB.col))
    (by
      intro a b D ha0 ha hb0 hb hD
      refine ⟨?_, IsSquare_store hD _ _ _ _⟩
      beta_reduce
      rw [readAt_eq (get_set_other D hA hCA) wA Matrix.col wA.2.1
          (by omega) (by omega) (by omega) (by omega),
        readAt_eq (get_set_other D hB hCB) wB Matrix.col wB.2.1
          (by omega) (by omega) (by omega) (by omega)]
      simp only [Option.some_bind]
      rw [storeAt_eq (get_set_self_of D hC) hD Matrix.col hD.2.1
          (by omega) (by omega) (by omega) (by omega), List.set_set, hD.2.1, wA.2.1, wB.2.1])
    MC wC
  rw [set_self_of_get hC] at key
  rw [key]
  rfl

theorem addSubmatrixAt_sim {mem : List Matrix} {pA pB : Nat} {MA MB : Matrix}
    {nA nB : Nat} (hA : mem[pA]? = some MA) (hB : mem[pB]? = some MB) (hBA : pB ≠ pA)
    (wA : MA.IsSquare nA) (wB : MB.IsSquare nB) (rB cB s : Int)
    (bA : (0 : Int) ≤ 0 ∧ (0 : Int) ≤ 0 ∧ 0 + s ≤ nA ∧ 0 + s ≤ nA)
    (bB : 0 ≤ rB ∧ 0 ≤ cB ∧ rB + s ≤ nB ∧ cB + s ≤ nB) :
    addSubmatrixAt pA pB rB cB s mem = some (0, mem.set pB (addSubmatrix MA MB rB cB s).2) := by
  unfold addSubmatrixAt addSubmatrix
  rw [blockAt_eq hA wA bA, blockAt_eq hB wB bB]
  simp only [Bool.and_self, if_true]
  have key := blockLoopM_sim mem pB nB s
    (fun i j mem =>
        (readAt mem pB Matrix.col (i + rB) (j + cB)).bind fun b =>
        (readAt mem pA Matrix.col i j).bind fun a =>
        storeAt mem pB Matrix.col (i + rB) (j + cB) (b + a))
    (fun i j B => B.store (i + rB) (j + cB) B.col
        (matrixElem B.matrix (i + rB) (j + cB) B.col + matrixElem MA.matrix i j MA.col))
    (by
      intro a b D ha0 ha hb0 hb hD
      refine ⟨?_, IsSquare_store hD _ _ _ _⟩
      beta_reduce
      rw [readAt_eq (get_set_self_of D hB) hD Matrix.col hD.2.1
          (by omega) (by omega) (by omega) (by omega),
        readAt_eq (get_set_other D hA hBA) wA Matrix.col wA.2.1
          (by omega) (by omega) (by omega) (by omega)]
      simp only [Option.some_bind]
      rw [storeAt_eq (get_set_self_of D hB) hD Matrix.col hD.2.1
          (by omega) (by omega) (by omega) (by omega), List.set_set, hD.2.1, wA.2.1])
    MB wB
  rw [set_self_of_get hB] at key
  rw [key]
  rfl

theorem subSubmatrixAt_sim {mem : List Matrix} {pA pB : Nat} {MA MB : Matrix}
    {nA nB : Nat} (hA : mem[pA]? = some MA) (hB : mem[pB]? = some MB) (hBA : pB ≠ pA)
    (wA : MA.IsSquare nA) (wB : MB.IsSquare nB) (rB cB s : Int)
    (bA : (0 : Int) ≤ 0 ∧ (0 : Int) ≤ 0 ∧ 0 + s ≤ nA ∧ 0 + s ≤ nA)
    (bB : 0 ≤ rB ∧ 0 ≤ cB ∧ rB + s ≤ nB ∧ cB + s ≤ nB) :
    subSubmatrixAt pA pB rB cB s mem = some (0, mem.set pB (subSubmatrix MA MB rB cB s).2) := by
  unfold subSubmatrixAt subSubmatrix
  rw [blockAt_eq hA wA bA, blockAt_eq hB wB bB]
  simp only [Bool.and_self, if_true]
  have key := blockLoopM_sim mem pB nB s
    (fun i j mem =>
        (readAt mem pB Matrix.col (i + rB) (j + cB)).bind fun b =>
        (readAt mem pA Matrix.col i j).bind fun a =>
        storeAt mem pB Matrix.col (i + rB) (j + cB) (b - a))
    (fun i j B => B.store (i + rB) (j + cB) B.col
        (matrixElem B.matrix (i + rB) (j + cB) B.col - matrixElem MA.matrix i j MA.col))
    (by
      intro a b D ha0 ha hb0 hb hD
      refine ⟨?_, IsSquare_store hD _ _ _ _⟩
      beta_reduce
      rw [readAt_eq (get_set_self_of D hB) hD Matrix.col hD.2.1
          (by omega) (by omega) (by omega) (by omega),
        readAt_eq (get_set_other D hA hBA) wA Matrix.col wA.2.1
          (by omega) (by omega) (by omega) (by omega)]
      simp only [Option.some_bind]
      rw [storeAt_eq (get_set_self_of D hB) hD Matrix.col hD.2.1
          (by omega) (by omega) (by omega) (by omega), List.set_set, hD.2.1, wA.2.1])
    MB wB
  rw [set_self_of_get hB] at key
  rw [key]
  rfl

theorem copySubmatrixAt_sim {mem : List Matrix} {pA pC : Nat} {MA MC : Matrix}
    {nA nC : Nat} (hA : mem[pA]? = some MA) (hC : mem[pC]? = some MC) (hCA : pC ≠ pA)
    (wA : MA.IsSquare nA) (wC : MC.IsSquare nC) (rA cA rC cC s : Int)
    (bA : 0 ≤ rA ∧ 0 ≤ cA ∧ rA + s ≤ nA ∧ cA + s ≤ nA)
    (bC : 0 ≤ rC ∧ 0 ≤ cC ∧ rC + s ≤ nC ∧ cC + s ≤ nC) :
    copySubmatrixAt pA rA cA pC rC cC s mem =
      some (0, mem.set pC (copySubmatrix MA rA cA MC rC cC s).2) := by
  unfold copySubmatrixAt copySubmatrix
  rw [blockAt_eq hA wA bA, blockAt_eq hC wC bC]
  simp only [Bool.and_self, if_true]
  have key := blockLoopM_sim mem pC nC s
    (fun i j mem =>
        (readAt mem pA Matrix.col (i + rA) (j + cA)).bind fun a =>
        storeAt mem pC Matrix.col (i + rC) (j + cC) a)
    (fun i j C => C.store (i + rC) (j + cC) C.col
        (matrixElem MA.matrix (i + rA) (j + cA) MA.col))
    (by
      intro a b D ha0 ha hb0 hb hD
      refine ⟨?_, IsSquare_store hD _ _ _ _⟩
      beta_reduce
      rw [readAt_eq (get_set_other D hA hCA) wA Matrix.col wA.2.1
          (by omega) (by omega) (by omega) (by omega)]
      simp only [Option.some_bind]
      rw [storeAt_eq (get_set_self_of D hC) hD Matrix.col hD.2.1
          (by omega) (by omega) (by omega) (by omega), List.set_set, hD.2.1, wA.2.1])
    MC wC
  rw [set_self_of_get hC] at key
  rw [key]
  rfl

theorem initMatrixZerosAt_sim {mem : List Matrix} {p : Nat} {M : Matrix} {n : Nat}
    (hp : mem[p]? = some M) (hM : M.IsSquare n) :
    initMatrixZerosAt p mem = some (mem.set p (initMatrixZeros M)) := by
  unfold initMatrixZerosAt initMatrixZeros
  rw [hp, Option.some_bind, hM.1, hM.2.1]
  have key := forLoopM_sim (fun D => mem.set p D) (fun D => D.IsSquare n) 0 (n : Int)
    (fun i mem => forLoopM 0 (n : Int) (fun j mem => storeAt mem p Matrix.col i j 0) mem)
    (fun i mat => forLoop 0 mat.col (fun j mat => mat.store i j mat.col 0) mat)
    (by
      intro a D ha0 ha hD
      beta_reduce
      rw [hD.2.1]
      exact forLoopM_sim (fun D => mem.set p D) (fun D => D.IsSquare n) 0 (n : Int)
        (fun j mem => storeAt mem p Matrix.col a j 0) (fun j mat => mat.store a j mat.col 0)
        (by
          intro b D' hb0 hb hD'
          refine ⟨?_, IsSquare_store hD' _ _ _ _⟩
          beta_reduce
          rw [storeAt_eq (get_set_self_of D' hp) hD' Matrix.col hD'.2.1 ha0 ha hb0 hb,
            List.set_set, hD'.2.1]) D hD)
    M hM
  beta_reduce at key
  rw [set_self_of_get hp] at key
  exact key.1

theorem mulAt_sim_le {mem : List Matrix} {pA pB pC : Nat} {MA MB MC : Matrix} {n m : Nat}
    (hm : n ≤ m)
    (hA : mem[pA]? = some MA) (hB : mem[pB]? = some MB) (hC : mem[pC]? = some MC)
    (hCA : pC ≠ pA) (hCB : pC ≠ pB) (wA : MA.IsSquare n) (wB : MB.IsSquare m)
    (wC : MC.IsSquare n) :
    mulAt pA pB pC mem = some (mem.set pC (mul MA MB MC)) := by
  unfold mulAt mul
  rw [hA, Option.some_bind]
  simp only [wA.1, wA.2.1, wB.1]
  have key := forLoopM_sim (fun D => mem.set pC D) (fun D => D.IsSquare n) 0 (n : Int)
    (fun i mem =>
      forLoopM 0 (n : Int) (fun j mem =>
        (readAt mem pA Matrix.row i 0).bind fun a =>
        (readAt mem pB Matrix.row 0 j).bind fun b =>
        (storeAt mem pC Matrix.row i j (a * b)).bind fun mem =>
        forLoopM 1 (n : Int) (fun k mem =>
          (readAt mem pC Matrix.row i j).bind fun c =>
          (readAt mem pA Matrix.row i k).bind fun a =>
          (readAt mem pB Matrix.row k j).bind fun b =>
          storeAt mem pC Matrix.row i j (c + a * b)) mem) mem)
    (fun i C =>
      forLoop 0 (n : Int) (fun j C =>
        let C := C.store i j C.row
          (matrixElem MA.matrix i 0 (n : Int) * matrixElem MB.matrix 0 j (m : Int))
        forLoop 1 (n : Int) (fun k C =>
          C.store i j C.row
            (matrixElem C.matrix i j C.row +
             matrixElem MA.matrix i k (n : Int) * matrixElem MB.matrix k j (m : Int))) C) C)
    (by
      intro a D ha0 ha hD
      beta_reduce
      refine forLoopM_sim (fun D => mem.set pC D) (fun D => D.IsSquare n) 0 (n : Int) _ _ ?_ D hD
      intro b D' hb0 hb hD'
      beta_reduce
      rw [readAt_eq (get_set_other D' hA hCA) wA Matrix.row wA.1 ha0 ha (le_refl 0) (by omega),
        readAt_eq (get_set_other D' hB hCB) wB Matrix.row wB.1 (le_refl 0) (by omega) hb0
          (by omega)]
      simp only [Option.some_bind]
      rw [storeAt_eq (get_set_self_of D' hC) hD' Matrix.row hD'.1 ha0 ha hb0 hb, List.set_set]
      simp only [Option.some_bind]
      rw [hD'.1]
      refine forLoopM_sim (fun D => mem.set pC D) (fun D => D.IsSquare n) 1 (n : Int) _ _ ?_ _
        (IsSquare_store hD' _ _ _ _)
      intro k E hk1 hk hE
      refine ⟨?_, IsSquare_store hE _ _ _ _⟩
      beta_reduce
      rw [readAt_eq (get_set_self_of E hC) hE Matrix.row hE.1 ha0 ha hb0 hb,
        readAt_eq (get_set_other E hA hCA) wA Matrix.row wA.1 ha0 ha (by omega) hk,
        readAt_eq (get_set_other E hB hCB) wB Matrix.row wB.1 (by omega) (by omega) hb0
          (by omega)]
      simp only [Option.some_bind]
      rw [storeAt_eq (get_set_self_of E hC) hE Matrix.row hE.1 ha0 ha hb0 hb, List.set_set,
        hE.1])
    MC wC
  beta_reduce at key
  rw [set_self_of_get hC] at key
  exact key.1

theorem mulAt_sim {mem : List Matrix} {pA pB pC : Nat} {MA MB MC : Matrix} {n : Nat}
    (hA : mem[pA]? = some MA) (hB : mem[pB]? = some MB) (hC : mem[pC]? = some MC)
    (hCA : pC ≠ pA) (hCB : pC ≠ pB) (wA : MA.IsSquare n) (wB : MB.IsSquare n)
    (wC : MC.IsSquare n) :
    mulAt pA pB pC mem = some (mem.set pC (mul MA MB MC)) :=
  mulAt_sim_le (le_refl n) hA hB hC hCA hCB wA wB wC

/-! ## One frame on the memory -/

theorem seqStep_some {α β : Type} (a : α) (f : α → Option β) : seqStep (some a) f = f a :=
  rfl

theorem fm_old {mem : List Matrix} {q pC : Nat} {M : Matrix} (hq : mem[q]? = some M)
    (hne : q ≠ pC) (Cv T U P : Matrix) : (frameMem mem pC Cv T U P)[q]? = some M := by
  unfold frameMem
  rw [List.getElem?_append_left (by rw [List.length_set]; exact lt_length_of_get hq),
    List.getElem?_set_ne (Ne.symm hne), hq]

theorem fm_C {mem : List Matrix} {pC : Nat} (lC : pC < mem.length) (Cv T U P : Matrix) :
    (frameMem mem pC Cv T U P)[pC]? = some Cv := by
  unfold frameMem
  rw [List.getElem?_append_left (by rw [List.length_set]; exact lC)]
  simp [lC]

theorem fm_T (mem : List Matrix) (pC : Nat) (Cv T U P : Matrix) :
    (frameMem mem pC Cv T U P)[mem.length]? = some T := by
  unfold frameMem
  rw [List.getElem?_append_right (by rw [List.length_set])]
  simp

theorem fm_U (mem : List Matrix) (pC : Nat) (Cv T U P : Matrix) :
    (frameMem mem pC Cv T U P)[mem.length + 1]? = some U := by
  unfold frameMem
  rw [List.getElem?_append_right (by rw [List.length_set]; omega)]
  simp

theorem fm_P (mem : List Matrix) (pC : Nat) (Cv T U P : Matrix) :
    (frameMem mem pC Cv T U P)[mem.length + 2]? = some P := by
  unfold frameMem
  rw [List.getElem?_append_right (by rw [List.length_set]; omega)]
  simp

theorem fm_set_C {mem : List Matrix} {pC : Nat} (lC : pC < mem.length) (Cv T U P D : Matrix) :
    (frameMem mem pC Cv T U P).set pC D = frameMem mem pC D T U P := by
  unfold frameMem
  rw [List.set_append_left _ _ (by rw [List.length_set]; exact lC), List.set_set]

theorem fm_set_T (mem : List Matrix) (pC : Nat) (Cv T U P D : Matrix) :
    (frameMem mem pC Cv T U P).set mem.length D = frameMem mem pC Cv D U P := by
  unfold frameMem
  rw [List.set_append_right _ _ (by rw [List.length_set])]
  simp

theorem fm_set_U (mem : List Matrix) (pC : Nat) (Cv T U P D : Matrix) :
    (frameMem mem pC Cv T U P).set (mem.length + 1) D = frameMem mem pC Cv T D P := by
  unfold frameMem
  rw [List.set_append_right _ _ (by rw [List.length_set]; omega)]
  simp

theorem fm_set_P (mem : List Matrix) (pC : Nat) (Cv T U P D : Matrix) :
    (frameMem mem pC Cv T U P).set (mem.length + 2) D = frameMem mem pC Cv T U D := by
  unfold frameMem
  rw [List.set_append_right _ _ (by rw [List.length_set]; omega)]
  simp

theorem fm_take (mem : List Matrix) (pC : Nat) (Cv T U P : Matrix) :
    (frameMem mem pC Cv T U P).take mem.length = mem.set pC Cv := by
  unfold frameMem
  rw [List.take_append_of_le_length (by rw [List.length_set])]
  exact List.take_of_length_le (by rw [List.length_set])

theorem fm_init {mem : List Matrix} {pC : Nat} {MC : Matrix} (hC : mem[pC]? = some MC)
    (T U P : Matrix) : mem ++ [T, U, P] = frameMem mem pC MC T U P := by
  unfold frameMem
  rw [set_self_of_get hC]

/-- One frame on the memory computes what the frame computes on values: if the
callee, on operands of side `h = n / 2` at pairwise suitable pointers, changes
the memory exactly by storing the result of `recur` at its result pointer, and
`recur` returns on such operands, then the frame passes every check and changes the
memory exactly by storing the result of `strassenFrame` at `pC`. -/
theorem strassenFrameAt_sim (junk : Nat → Nat → Int)
    (recurAt : Heap → Nat → Nat → Nat → List Matrix → Option (List Matrix × Heap))
    (recur : Heap → Matrix → Matrix → Matrix → Option (Matrix × Heap)) {n m h : Nat}
    (hh : h = n / 2) (hm : n ≤ m)
    (Hrec : ∀ (hp : Heap) (X Y Z : Matrix), X.IsSquare h → Z.IsSquare h →
      ∃ Z' hp', recur hp X Y Z = some (Z', hp') ∧ Z'.IsSquare h)
    (Hsim : ∀ (hp : Heap) (m : List Matrix) (pX pY pZ : Nat) (X Y Z : Matrix),
      m[pX]? = some X → m[pY]? = some Y → m[pZ]? = some Z → pZ ≠ pX → pZ ≠ pY →
      X.IsSquare h → Y.IsSquare h → Z.IsSquare h →
      recurAt hp pX pY pZ m = (recur hp X Y Z).map (fun r => (m.set pZ r.1, r.2)))
    (hp : Heap) {mem : List Matrix} {pA pB pC : Nat} {MA MB MC : Matrix}
    (hA : mem[pA]? = some MA) (hB : mem[pB]? = some MB) (hC : mem[pC]? = some MC)
    (hCA : pC ≠ pA) (hCB : pC ≠ pB) (wA : MA.IsSquare n) (wB : MB.IsSquare m)
    (wC : MC.IsSquare n) :
    strassenFrameAt junk recurAt hp pA pB pC mem =
      (strassenFrame junk recur hp MA MB MC).map (fun r => (mem.set pC r.1, r.2)) := by
  have hside : MA.row.tdiv 2 = (h : Int) := by
    rw [wA.1, Int.tdiv_eq_ediv (by omega) (by omega), hh]; omega
  have h2 : h + h ≤ n := by omega
  have lA := lt_length_of_get hA
  have lB := lt_length_of_get hB
  have lC := lt_length_of_get hC
  have hAC : pA ≠ pC := Ne.symm hCA
  have hBC : pB ≠ pC := Ne.symm hCB
  have b00 : (0 : Int) ≤ 0 ∧ (0 : Int) ≤ 0 ∧ 0 + (h : Int) ≤ (n : Int) ∧ 0 + (h : Int) ≤ (n : Int) := by
    refine ⟨?_, ?_, ?_, ?_⟩ <;> omega
  have b0h : (0 : Int) ≤ 0 ∧ (0 : Int) ≤ (h : Int) ∧ 0 + (h : Int) ≤ (n : Int) ∧
      (h : Int) + (h : Int) ≤ (n : Int) := by
    refine ⟨?_, ?_, ?_, ?_⟩ <;> omega
  have bh0 : (0 : Int) ≤ (h : Int) ∧ (0 : Int) ≤ 0 ∧ (h : Int) + (h : Int) ≤ (n : Int) ∧
      0 + (h : Int) ≤ (n : Int) := by
    refine ⟨?_, ?_, ?_, ?_⟩ <;> omega
  have bhh : (0 : Int) ≤ (h : Int) ∧ (0 : Int) ≤ (h : Int) ∧ (h : Int) + (h : Int) ≤ (n : Int) ∧
      (h : Int) + (h : Int) ≤ (n : Int) := by
    refine ⟨?_, ?_, ?_, ?_⟩ <;> omega
  have B00 : (0 : Int) ≤ 0 ∧ (0 : Int) ≤ 0 ∧ 0 + (h : Int) ≤ (m : Int) ∧ 0 + (h : Int) ≤ (m : Int) := by
    refine ⟨?_, ?_, ?_, ?_⟩ <;> omega
  have B0h : (0 : Int) ≤ 0 ∧ (0 : Int) ≤ (h : Int) ∧ 0 + (h : Int) ≤ (m : Int) ∧
      (h : Int) + (h : Int) ≤ (m : Int) := by
    refine ⟨?_, ?_, ?_, ?_⟩ <;> omega
  have Bh0 : (0 : Int) ≤ (h : Int) ∧ (0 : Int) ≤ 0 ∧ (h : Int) + (h : Int) ≤ (m : Int) ∧
      0 + (h : Int) ≤ (m : Int) := by
    refine ⟨?_, ?_, ?_, ?_⟩ <;> omega
  have Bhh : (0 : Int) ≤ (h : Int) ∧ (0 : Int) ≤ (h : Int) ∧ (h : Int) + (h : Int) ≤ (m : Int) ∧
      (h : Int) + (h : Int) ≤ (m : Int) := by
    refine ⟨?_, ?_, ?_, ?_⟩ <;> omega
  have bt : (0 : Int) ≤ 0 ∧ (0 : Int) ≤ 0 ∧ 0 + (h : Int) ≤ (h : Int) ∧ 0 + (h : Int) ≤ (h : Int) := by
    refine ⟨?_, ?_, ?_, ?_⟩ <;> omega
  unfold strassenFrameAt strassenFrame
  rw [hA, seqStep_some]
  simp only [hside]
  have wt1 := allocMatrix_IsSquare junk hp h
  have wt2 := allocMatrix_IsSquare junk (allocMatrix junk hp h).2 h
  have wP0 := allocMatrix_IsSquare junk (allocMatrix junk (allocMatrix junk hp h).2 h).2 h
  generalize (allocMatrix junk (allocMatrix junk (allocMatrix junk hp h).2 h).2 h).2 = hp0
  generalize (allocMatrix junk (allocMatrix junk (allocMatrix junk hp h).2 h).2 h).1 = P0
    at wP0 ⊢
  generalize (allocMatrix junk (allocMatrix junk hp h).2 h).1 = t2 at wt2 ⊢
  generalize (allocMatrix junk hp h).1 = t1 at wt1 ⊢
  rw [fm_init hC t1 t2 P0, initMatrixZerosAt_sim (fm_C lC MC t1 t2 P0) wC]
  simp only [seqStep_some, Option.some_bind, fm_set_C lC]
  have wC0 := (initMatrixZeros_spec wC).1
  generalize initMatrixZeros MC = C0 at wC0 ⊢
  -- product 1
  rw [subMatrixAt_sim (fm_old hA hAC C0 t1 t2 P0) (fm_old hA hAC C0 t1 t2 P0)
    (fm_T mem pC C0 t1 t2 P0) (by omega) (by omega) wA wA wt1
    0 (h : Int) (h : Int) (h : Int) 0 0 (h : Int) b0h bhh bt]
  simp only [seqStep_some, Option.some_bind, fm_set_T]
  have wT1 := IsSquare_of_SameShape (SameShape_subMatrix MA 0 (h : Int) MA (h : Int) (h : Int) t1 0 0 (h : Int)) wt1
  generalize (subMatrix MA 0 (h : Int) MA (h : Int) (h : Int) t1 0 0 (h : Int)).2 = T1 at wT1 ⊢
  rw [sumMatrixAt_sim (fm_old hB hBC C0 T1 t2 P0) (fm_old hB hBC C0 T1 t2 P0)
    (fm_U mem pC C0 T1 t2 P0) (by omega) (by omega) wB wB wt2
    (h : Int) 0 (h : Int) (h : Int) 0 0 (h : Int) Bh0 Bhh bt]
  simp only [seqStep_some, Option.some_bind, fm_set_U]
  have wU1 := IsSquare_of_SameShape (SameShape_sumMatrix MB (h : Int) 0 MB (h : Int) (h : Int) t2 0 0 (h : Int)) wt2
  generalize (sumMatrix MB (h : Int) 0 MB (h : Int) (h : Int) t2 0 0 (h : Int)).2 = U1 at wU1 ⊢
  rw [Hsim hp0 _ _ _ _ T1 U1 P0 (fm_T mem pC C0 T1 U1 P0) (fm_U mem pC C0 T1 U1 P0)
    (fm_P mem pC C0 T1 U1 P0) (by omega) (by omega) wT1 wU1 wP0]
  obtain ⟨P1, hp1, e1, wP1⟩ := Hrec hp0 T1 U1 P0 wT1 wP0
  rw [e1]
  simp only [Option.map_some', seqStep_some, Option.some_bind, fm_set_P]
  rw [copySubmatrixAt_sim (fm_P mem pC C0 T1 U1 P1) (fm_C lC C0 T1 U1 P1) (by omega) wP1 wC0
    0 0 0 0 (h : Int) bt b00]
  simp only [seqStep_some, Option.some_bind, fm_set_C lC]
  have wC1 := IsSquare_of_SameShape (SameShape_copySubmatrix P1 0 0 C0 0 0 (h : Int)) wC0
  generalize (copySubmatrix P1 0 0 C0 0 0 (h : Int)).2 = C1 at wC1 ⊢
  -- product 2
  rw [sumMatrixAt_sim (fm_old hA hAC C1 T1 U1 P1) (fm_old hA hAC C1 T1 U1 P1)
    (fm_T mem pC C1 T1 U1 P1) (by omega) (by omega) wA wA wT1
    0 0 (h : Int) (h : Int) 0 0 (h : Int) b00 bhh bt]
  simp only [seqStep_some, Option.some_bind, fm_set_T]
  have wT2 := IsSquare_of_SameShape (SameShape_sumMatrix MA 0 0 MA (h : Int) (h : Int) T1 0 0 (h : Int)) wT1
  generalize (sumMatrix MA 0 0 MA (h : Int) (h : Int) T1 0 0 (h : Int)).2 = T2 at wT2 ⊢
  rw [sumMatrixAt_sim (fm_old hB hBC C1 T2 U1 P1) (fm_old hB hBC C1 T2 U1 P1)
    (fm_U mem pC C1 T2 U1 P1) (by omega) (by omega) wB wB wU1
    0 0 (h : Int) (h : Int) 0 0 (h : Int) B00 Bhh bt]
  simp only [seqStep_some, Option.some_bind, fm_set_U]
  have wU2 := IsSquare_of_SameShape (SameShape_sumMatrix MB 0 0 MB (h : Int) (h : Int) U1 0 0 (h : Int)) wU1
  generalize (sumMatrix MB 0 0 MB (h : Int) (h : Int) U1 0 0 (h : Int)).2 = U2 at wU2 ⊢
  rw [Hsim hp1 _ _ _ _ T2 U2 P1 (fm_T mem pC C1 T2 U2 P1) (fm_U mem pC C1 T2 U2 P1)
    (fm_P mem pC C1 T2 U2 P1) (by omega) (by omega) wT2 wU2 wP1]
  obtain ⟨P2, hp2, e2, wP2⟩ := Hrec hp1 T2 U2 P1 wT2 wP1
  rw [e2]
  simp only [Option.map_some', seqStep_some, Option.some_bind, fm_set_P]
  rw [addSubmatrixAt_sim (fm_P mem pC C1 T2 U2 P2) (fm_C lC C1 T2 U2 P2) (by omega) wP2 wC1
    0 0 (h : Int) bt b00]
  simp only [seqStep_some, Option.some_bind, fm_set_C lC]
  have wC2 := IsSquare_of_SameShape (SameShape_addSubmatrix P2 C1 0 0 (h : Int)) wC1
  generalize (addSubmatrix P2 C1 0 0 (h : Int)).2 = C2 at wC2 ⊢
  rw [copySubmatrixAt_sim (fm_P mem pC C2 T2 U2 P2) (fm_C lC C2 T2 U2 P2) (by omega) wP2 wC2
    0 0 (h : Int) (h : Int) (h : Int) bt bhh]
  simp only [seqStep_some, Option.some_bind, fm_set_C lC]
  have wC3 := IsSquare_of_SameShape (SameShape_copySubmatrix P2 0 0 C2 (h : Int) (h : Int) (h : Int)) wC2
  generalize (copySubmatrix P2 0 0 C2 (h : Int) (h : Int) (h : Int)).2 = C3 at wC3 ⊢
  -- product 3
  rw [subMatrixAt_sim (fm_old hA hAC C3 T2 U2 P2) (fm_old hA hAC C3 T2 U2 P2)
    (fm_T mem pC C3 T2 U2 P2) (by omega) (by omega) wA wA wT2
    0 0 (h : Int) 0 0 0 (h : Int) b00 bh0 bt]
  simp only [seqStep_some, Option.some_bind, fm_set_T]
  have wT3 := IsSquare_of_SameShape (SameShape_subMatrix MA 0 0 MA (h : Int) 0 T2 0 0 (h : Int)) wT2
  generalize (subMatrix MA 0 0 MA (h : Int) 0 T2 0 0 (h : Int)).2 = T3 at wT3 ⊢
  rw [sumMatrixAt_sim (fm_old hB hBC C3 T3 U2 P2) (fm_old hB hBC C3 T3 U2 P2)
    (fm_U mem pC C3 T3 U2 P2) (by omega) (by omega) wB wB wU2
    0 0 0 (h : Int) 0 0 (h : Int) B00 B0h bt]
  simp only [seqStep_some, Option.some_bind, fm_set_U]
  have wU3 := IsSquare_of_SameShape (SameShape_sumMatrix MB 0 0 MB 0 (h : Int) U2 0 0 (h : Int)) wU2
  generalize (sumMatrix MB 0 0 MB 0 (h : Int) U2 0 0 (h : Int)).2 = U3 at wU3 ⊢
  rw [Hsim hp2 _ _ _ _ T3 U3 P2 (fm_T mem pC C3 T3 U3 P2) (fm_U mem pC C3 T3 U3 P2)
    (fm_P mem pC C3 T3 U3 P2) (by omega) (by omega) wT3 wU3 wP2]
  obtain ⟨P3, hp3, e3, wP3⟩ := Hrec hp2 T3 U3 P2 wT3 wP2
  rw [e3]
  simp only [Option.map_some', seqStep_some, Option.some_bind, fm_set_P]
  rw [subSubmatrixAt_sim (fm_P mem pC C3 T3 U3 P3) (fm_C lC C3 T3 U3 P3) (by omega) wP3 wC3
    (h : Int) (h : Int) (h : Int) bt bhh]
  simp only [seqStep_some, Option.some_bind, fm_set_C lC]
  have wC4 := IsSquare_of_SameShape (SameShape_subSubmatrix P3 C3 (h : Int) (h : Int) (h : Int)) wC3
  generalize (subSubmatrix P3 C3 (h : Int) (h : Int) (h : Int)).2 = C4 at wC4 ⊢
  -- product 4
  rw [sumMatrixAt_sim (fm_old hA hAC C4 T3 U3 P3) (fm_old hA hAC C4 T3 U3 P3)
    (fm_T mem pC C4 T3 U3 P3) (by omega) (by omega) wA wA wT3
    0 0 0 (h : Int) 0 0 (h : Int) b00 b0h bt]
  simp only [seqStep_some, Option.some_bind, fm_set_T]
  have wT4 := IsSquare_of_SameShape (SameShape_sumMatrix MA 0 0 MA 0 (h : Int) T3 0 0 (h : Int)) wT3
  generalize (sumMatrix MA 0 0 MA 0 (h : Int) T3 0 0 (h : Int)).2 = T4 at wT4 ⊢
  rw [copySubmatrixAt_sim (fm_old hB hBC C4 T4 U3 P3)
    (fm_U mem pC C4 T4 U3 P3) (by omega) wB wU3
    (h : Int) (h : Int) 0 0 (h : Int) Bhh bt]
  simp only [seqStep_some, Option.some_bind, fm_set_U]
  have wU4 := IsSquare_of_SameShape (SameShape_copySubmatrix MB (h : Int) (h : Int) U3 0 0 (h : Int)) wU3
  generalize (copySubmatrix MB (h : Int) (h : Int) U3 0 0 (h : Int)).2 = U4 at wU4 ⊢
  rw [Hsim hp3 _ _ _ _ T4 U4 P3 (fm_T mem pC C4 T4 U4 P3) (fm_U mem pC C4 T4 U4 P3)
    (fm_P mem pC C4 T4 U4 P3) (by omega) (by omega) wT4 wU4 wP3]
  obtain ⟨P4, hp4, e4, wP4⟩ := Hrec hp3 T4 U4 P3 wT4 wP3
  rw [e4]
  simp only [Option.map_some', seqStep_some, Option.some_bind, fm_set_P]
  rw [subSubmatrixAt_sim (fm_P mem pC C4 T4 U4 P4) (fm_C lC C4 T4 U4 P4) (by omega) wP4 wC4
    0 0 (h : Int) bt b00]
  simp only [seqStep_some, Option.some_bind, fm_set_C lC]
  have wC5 := IsSquare_of_SameShape (SameShape_subSubmatrix P4 C4 0 0 (h : Int)) wC4
  generalize (subSubmatrix P4 C4 0 0 (h : Int)).2 = C5 at wC5 ⊢
  rw [copySubmatrixAt_sim (fm_P mem pC C5 T4 U4 P4) (fm_C lC C5 T4 U4 P4) (by omega) wP4 wC5
    0 0 0 (h : Int) (h : Int) bt b0h]
  simp only [seqStep_some, Option.some_bind, fm_set_C lC]
  have wC6 := IsSquare_of_SameShape (SameShape_copySubmatrix P4 0 0 C5 0 (h : Int) (h : Int)) wC5
  generalize (copySubmatrix P4 0 0 C5 0 (h : Int) (h : Int)).2 = C6 at wC6 ⊢
  -- product 5
  rw [copySubmatrixAt_sim (fm_old hA hAC C6 T4 U4 P4)
    (fm_T mem pC C6 T4 U4 P4) (by omega) wA wT4
    0 0 0 0 (h : Int) b00 bt]
  simp only [seqStep_some, Option.some_bind, fm_set_T]
  have wT5 := IsSquare_of_SameShape (SameShape_copySubmatrix MA 0 0 T4 0 0 (h : Int)) wT4
  generalize (copySubmatrix MA 0 0 T4 0 0 (h : Int)).2 = T5 at wT5 ⊢
  rw [subMatrixAt_sim (fm_old hB hBC C6 T5 U4 P4) (fm_old hB hBC C6 T5 U4 P4)
    (fm_U mem pC C6 T5 U4 P4) (by omega) (by omega) wB wB wU4
    0 (h : Int) (h : Int) (h : Int) 0 0 (h : Int) B0h Bhh bt]
  simp only [seqStep_some, Option.some_bind, fm_set_U]
  have wU5 := IsSquare_of_SameShape (SameShape_subMatrix MB 0 (h : Int) MB (h : Int) (h : Int) U4 0 0 (h : Int)) wU4
  generalize (subMatrix MB 0 (h : Int) MB (h : Int) (h : Int) U4 0 0 (h : Int)).2 = U5 at wU5 ⊢
  rw [Hsim hp4 _ _ _ _ T5 U5 P4 (fm_T mem pC C6 T5 U5 P4) (fm_U mem pC C6 T5 U5 P4)
    (fm_P mem pC C6 T5 U5 P4) (by omega) (by omega) wT5 wU5 wP4]
  obtain ⟨P5, hp5, e5, wP5⟩ := Hrec hp4 T5 U5 P4 wT5 wP4
  rw [e5]
  simp only [Option.map_some', seqStep_some, Option.some_bind, fm_set_P]
  rw [addSubmatrixAt_sim (fm_P mem pC C6 T5 U5 P5) (fm_C lC C6 T5 U5 P5) (by omega) wP5 wC6
    0 (h : Int) (h : Int) bt b0h]
  simp only [seqStep_some, Option.some_bind, fm_set_C lC]
  have wC7 := IsSquare_of_SameShape (SameShape_addSubmatrix P5 C6 0 (h : Int) (h : Int)) wC6
  generalize (addSubmatrix P5 C6 0 (h : Int) (h : Int)).2 = C7 at wC7 ⊢
  rw [addSubmatrixAt_sim (fm_P mem pC C7 T5 U5 P5) (fm_C lC C7 T5 U5 P5) (by omega) wP5 wC7
    (h : Int) (h : Int) (h : Int) bt bhh]
  simp only [seqStep_some, Option.some_bind, fm_set_C lC]
  have wC8 := IsSquare_of_SameShape (SameShape_addSubmatrix P5 C7 (h : Int) (h : Int) (h : Int)) wC7
  generalize (addSubmatrix P5 C7 (h : Int) (h : Int) (h : Int)).2 = C8 at wC8 ⊢
  -- product 6
  rw [copySubmatrixAt_sim (fm_old hA hAC C8 T5 U5 P5)
    (fm_T mem pC C8 T5 U5 P5) (by omega) wA wT5
    (h : Int) (h : Int) 0 0 (h : Int) bhh bt]
  simp only [seqStep_some, Option.some_bind, fm_set_T]
  have wT6 := IsSquare_of_SameShape (SameShape_copySubmatrix MA (h : Int) (h : Int) T5 0 0 (h : Int)) wT5
  generalize (copySubmatrix MA (h : Int) (h : Int) T5 0 0 (h : Int)).2 = T6 at wT6 ⊢
  rw [subMatrixAt_sim (fm_old hB hBC C8 T6 U5 P5) (fm_old hB hBC C8 T6 U5 P5)
    (fm_U mem pC C8 T6 U5 P5) (by omega) (by omega) wB wB wU5
    (h : Int) 0 0 0 0 0 (h : Int) Bh0 B00 bt]
  simp only [seqStep_some, Option.some_bind, fm_set_U]
  have wU6 := IsSquare_of_SameShape (SameShape_subMatrix MB (h : Int) 0 MB 0 0 U5 0 0 (h : Int)) wU5
  generalize (subMatrix MB (h : Int) 0 MB 0 0 U5 0 0 (h : Int)).2 = U6 at wU6 ⊢
  rw [Hsim hp5 _ _ _ _ T6 U6 P5 (fm_T mem pC C8 T6 U6 P5) (fm_U mem pC C8 T6 U6 P5)
    (fm_P mem pC C8 T6 U6 P5) (by omega) (by omega) wT6 wU6 wP5]
  obtain ⟨P6, hp6, e6, wP6⟩ := Hrec hp5 T6 U6 P5 wT6 wP5
  rw [e6]
  simp only [Option.map_some', seqStep_some, Option.some_bind, fm_set_P]
  rw [addSubmatrixAt_sim (fm_P mem pC C8 T6 U6 P6) (fm_C lC C8 T6 U6 P6) (by omega) wP6 wC8
    0 0 (h : Int) bt b00]
  simp only [seqStep_some, Option.some_bind, fm_set_C lC]
  have wC9 := IsSquare_of_SameShape (SameShape_addSubmatrix P6 C8 0 0 (h : Int)) wC8
  generalize (addSubmatrix P6 C8 0 0 (h : Int)).2 = C9 at wC9 ⊢
  rw [copySubmatrixAt_sim (fm_P mem pC C9 T6 U6 P6) (fm_C lC C9 T6 U6 P6) (by omega) wP6 wC9
    0 0 (h : Int) 0 (h : Int) bt bh0]
  simp only [seqStep_some, Option.some_bind, fm_set_C lC]
  have wC10 := IsSquare_of_SameShape (SameShape_copySubmatrix P6 0 0 C9 (h : Int) 0 (h : Int)) wC9
  generalize (copySubmatrix P6 0 0 C9 (h : Int) 0 (h : Int)).2 = C10 at wC10 ⊢
  -- product 7
  rw [sumMatrixAt_sim (fm_old hA hAC C10 T6 U6 P6) (fm_old hA hAC C10 T6 U6 P6)
    (fm_T mem pC C10 T6 U6 P6) (by omega) (by omega) wA wA wT6
    (h : Int) 0 (h : Int) (h : Int) 0 0 (h : Int) bh0 bhh bt]
  simp only [seqStep_some, Option.some_bind, fm_set_T]
  have wT7 := IsSquare_of_SameShape (SameShape_sumMatrix MA (h : Int) 0 MA (h : Int) (h : Int) T6 0 0 (h : Int)) wT6
  generalize (sumMatrix MA (h : Int) 0 MA (h : Int) (h : Int) T6 0 0 (h : Int)).2 = T7 at wT7 ⊢
  rw [copySubmatrixAt_sim (fm_old hB hBC C10 T7 U6 P6)
    (fm_U mem pC C10 T7 U6 P6) (by omega) wB wU6
    0 0 0 0 (h : Int) B00 bt]
  simp only [seqStep_some, Option.some_bind, fm_set_U]
  have wU7 := IsSquare_of_SameShape (SameShape_copySubmatrix MB 0 0 U6 0 0 (h : Int)) wU6
  generalize (copySubmatrix MB 0 0 U6 0 0 (h : Int)).2 = U7 at wU7 ⊢
  rw [Hsim hp6 _ _ _ _ T7 U7 P6 (fm_T mem pC C10 T7 U7 P6) (fm_U mem pC C10 T7 U7 P6)
    (fm_P mem pC C10 T7 U7 P6) (by omega) (by omega) wT7 wU7 wP6]
  obtain ⟨P7, hp7, e7, wP7⟩ := Hrec hp6 T7 U7 P6 wT7 wP6
  rw [e7]
  simp only [Option.map_some', seqStep_some, Option.some_bind, fm_set_P]
  rw [addSubmatrixAt_sim (fm_P mem pC C10 T7 U7 P7) (fm_C lC C10 T7 U7 P7) (by omega) wP7 wC10
    (h : Int) 0 (h : Int) bt bh0]
  simp only [seqStep_some, Option.some_bind, fm_set_C lC]
  have wC11 := IsSquare_of_SameShape (SameShape_addSubmatrix P7 C10 (h : Int) 0 (h : Int)) wC10
  generalize (addSubmatrix P7 C10 (h : Int) 0 (h : Int)).2 = C11 at wC11 ⊢
  rw [subSubmatrixAt_sim (fm_P mem pC C11 T7 U7 P7) (fm_C lC C11 T7 U7 P7) (by omega) wP7 wC11
    (h : Int) (h : Int) (h : Int) bt bhh]
  simp only [seqStep_some, Option.some_bind, fm_set_C lC]
  have wC12 := IsSquare_of_SameShape (SameShape_subSubmatrix P7 C11 (h : Int) (h : Int) (h : Int)) wC11
  generalize (subSubmatrix P7 C11 (h : Int) (h : Int) (h : Int)).2 = C12 at wC12 ⊢
  simp only [freeMatrix, fm_take, Option.map_some']

/-! ## The recursion on the memory -/

/-- Function `strassenMul` on the memory, on any side `n ≥ 1` and with a second
operand of side `m ≥ n`: every check passes and the memory changes exactly by
storing at `pC` the matrix `strassenMul` returns. -/
theorem strassenMulAt_sim_le (junk : Nat → Nat → Int) (fuel : Nat) :
    ∀ (n m : Nat), 1 ≤ n → n ≤ m → n < 2 ^ fuel →
      ∀ (hp : Heap) (mem : List Matrix) (pA pB pC : Nat)
      (MA MB MC : Matrix), mem[pA]? = some MA → mem[pB]? = some MB → mem[pC]? = some MC →
      pC ≠ pA → pC ≠ pB → MA.IsSquare n → MB.IsSquare m → MC.IsSquare n →
      strassenMulAt junk fuel hp pA pB pC mem =
        (strassenMul junk fuel hp MA MB MC).map (fun r => (mem.set pC r.1, r.2)) := by
  induction fuel with
  | zero => intro n m h1 _ h2; simp at h2; omega
  | succ fuel ih =>
    intro n m h1 hm h2 hp mem pA pB pC MA MB MC hA hB hC hCA hCB wA wB wC
    by_cases hn : n = 1
    · subst hn
      have hX1 : MA.row = 1 := by rw [wA.1]; rfl
      rw [strassenMul_base junk fuel hp hX1]
      unfold strassenMulAt
      rw [hA, Option.some_bind, if_pos hX1,
        readAt_eq hA wA Matrix.col wA.2.1 (le_refl 0) (by decide) (le_refl 0) (by decide),
        readAt_eq hB wB Matrix.col wB.2.1 (le_refl 0) (by omega) (le_refl 0) (by omega)]
      simp only [Option.some_bind]
      rw [storeAt_eq hC wC Matrix.col wC.2.1 (le_refl 0) (by decide) (le_refl 0) (by decide)]
      simp only [Option.map_some', wA.2.1, wB.2.1, wC.2.1]
    · have hX1 : MA.row ≠ 1 := by
        rw [wA.1]; intro h; exact hn (by exact_mod_cast h)
      rw [strassenMul_step junk fuel hp hX1]
      unfold strassenMulAt
      rw [hA, Option.some_bind, if_neg hX1]
      have hpow : 2 ^ (fuel + 1) = 2 ^ fuel + 2 ^ fuel := by rw [pow_succ]; omega
      exact strassenFrameAt_sim junk (strassenMulAt junk fuel) (strassenMul junk fuel)
        (n := n) (h := n / 2) rfl hm
        (fun hp X Y Z hX hZ => by
          obtain ⟨Z', hp', e, w, _⟩ :=
            strassenMul_total junk fuel (n / 2) (by omega) (by omega) hp X Y Z hX.1 hZ
          exact ⟨Z', hp', e, w⟩)
        (fun hp m' pX pY pZ X Y Z hX hY hZ hZX hZY wX wY wZ =>
          ih (n / 2) (n / 2) (by omega) (le_refl _) (by omega) hp m' pX pY pZ X Y Z hX hY hZ
            hZX hZY wX wY wZ)
        hp hA hB hC hCA hCB wA wB wC

/-- Function `strassenMul` on the memory, on any side `n ≥ 1`: every check passes
and the memory changes exactly by storing at `pC` the matrix `strassenMul`
returns. -/
theorem strassenMulAt_sim (junk : Nat → Nat → Int) (fuel : Nat) :
    ∀ (n : Nat), 1 ≤ n → n < 2 ^ fuel → ∀ (hp : Heap) (mem : List Matrix) (pA pB pC : Nat)
      (MA MB MC : Matrix), mem[pA]? = some MA → mem[pB]? = some MB → mem[pC]? = some MC →
      pC ≠ pA → pC ≠ pB → MA.IsSquare n → MB.IsSquare n → MC.IsSquare n →
      strassenMulAt junk fuel hp pA pB pC mem =
        (strassenMul junk fuel hp MA MB MC).map (fun r => (mem.set pC r.1, r.2)) :=
  fun n h1 h2 => strassenMulAt_sim_le junk fuel n n h1 (le_refl n) h2

/-- Function `strassenMul_hybrid` on the memory, on any side `n ≥ 1` with a
cutoff `≥ 1` and a second operand of side `m ≥ n`: every check passes and the
memory changes exactly by storing at `pC` the matrix `strassenMul_hybrid`
returns. -/
theorem strassenMul_hybridAt_sim_le (junk : Nat → Nat → Int) (fuel n m : Nat) (h1 : 1 ≤ n)
    (hm : n ≤ m) (h2 : n < 2 ^ (fuel + 1)) (hp : Heap) (cutoff : Int) (hcut : 1 ≤ cutoff)
    {mem : List Matrix} {pA pB pC : Nat} {MA MB MC : Matrix}
    (hA : mem[pA]? = some MA) (hB : mem[pB]? = some MB) (hC : mem[pC]? = some MC)
    (hCA : pC ≠ pA) (hCB : pC ≠ pB) (wA : MA.IsSquare n) (wB : MB.IsSquare m)
    (wC : MC.IsSquare n) :
    strassenMul_hybridAt junk fuel hp pA pB pC cutoff mem =
      (strassenMul_hybrid junk fuel hp MA MB MC cutoff).map
        (fun r => (mem.set pC r.1, r.2)) := by
  unfold strassenMul_hybridAt strassenMul_hybrid
  rw [hA, Option.some_bind]
  by_cases hc : MA.row ≤ cutoff
  · rw [if_pos hc, if_pos hc, mulAt_sim_le hm hA hB hC hCA hCB wA wB wC]
    rfl
  · rw [if_neg hc, if_neg hc]
    have hn2 : 2 ≤ n := by
      rw [wA.1] at hc; omega
    have hpow : 2 ^ (fuel + 1) = 2 ^ fuel + 2 ^ fuel := by rw [pow_succ]; omega
    exact strassenFrameAt_sim junk (strassenMulAt junk fuel) (strassenMul junk fuel)
      (n := n) (h := n / 2) rfl hm
      (fun hp X Y Z hX hZ => by
        obtain ⟨Z', hp', e, w, _⟩ :=
          strassenMul_total junk fuel (n / 2) (by omega) (by omega) hp X Y Z hX.1 hZ
        exact ⟨Z', hp', e, w⟩)
      (fun hp m' pX pY pZ X Y Z hX hY hZ hZX hZY wX wY wZ =>
        strassenMulAt_sim junk fuel (n / 2) (by omega) (by omega) hp m' pX pY pZ X Y Z
          hX hY hZ hZX hZY wX wY wZ)
      hp hA hB hC hCA hCB wA wB wC

/-- Function `strassenMul_hybrid` on the memory, on any side `n ≥ 1` with a
cutoff `≥ 1`: every check passes and the memory changes exactly by storing at
`pC` the matrix `strassenMul_hybrid` returns. -/
theorem strassenMul_hybridAt_sim (junk : Nat → Nat → Int) (fuel n : Nat) (h1 : 1 ≤ n)
    (h2 : n < 2 ^ (fuel + 1)) (hp : Heap) (cutoff : Int) (hcut : 1 ≤ cutoff)
    {mem : List Matrix} {pA pB pC : Nat} {MA MB MC : Matrix}
    (hA : mem[pA]? = some MA) (hB : mem[pB]? = some MB) (hC : mem[pC]? = some MC)
    (hCA : pC ≠ pA) (hCB : pC ≠ pB) (wA : MA.IsSquare n) (wB : MB.IsSquare n)
    (wC : MC.IsSquare n) :
    strassenMul_hybridAt junk fuel hp pA pB pC cutoff mem =
      (strassenMul_hybrid junk fuel hp MA MB MC cutoff).map
        (fun r => (mem.set pC r.1, r.2)) :=
  strassenMul_hybridAt_sim_le junk fuel n n h1 (le_refl n) h2 hp cutoff hcut hA hB hC hCA hCB
    wA wB wC

/-! ## Claims C27 and C29: the checked runs on the memory -/

theorem onlyChanges_set (mem : List Matrix) (p : Nat) (D : Matrix) :
    onlyChanges mem (mem.set p D) p :=
  ⟨List.length_set _ _ _, fun _ hq => List.getElem?_set_ne (Ne.symm hq)⟩

/-- C27: index safety. For every side `n ≥ 1` and matrices `A`, `B`, `C` of side
`n` (`C` distinct from `A` and `B`), the runs of `strassenMul`, of
`strassenMul_hybrid` with a cutoff `≥ 1` and of `mul` in which every element
access is checked (`0 ≤ row < side`, `0 ≤ column < side` of the matrix addressed,
row-major index within the buffer) and every block handed to a primitive is
checked (`offset + blockSize ≤ side`, source and destination), at every
recursion level, pass every check: they return, with the very `C` the unchecked
functions compute. -/
theorem C27_index_safety (junk : Nat → Nat → Int) (fuel n : Nat) (hn : 1 ≤ n)
    (hfuel : n < 2 ^ fuel) (hp : Heap) (cutoff : Int) (hcut : 1 ≤ cutoff)
    (mem : List Matrix) (pA pB pC : Nat) (MA MB MC : Matrix)
    (hA : mem[pA]? = some MA) (hB : mem[pB]? = some MB) (hC : mem[pC]? = some MC)
    (hCA : pC ≠ pA) (hCB : pC ≠ pB) (wA : MA.IsSquare n) (wB : MB.IsSquare n)
    (wC : MC.IsSquare n) :
    (∃ C' hp', strassenMul junk fuel hp MA MB MC = some (C', hp') ∧
      strassenMulAt junk fuel hp pA pB pC mem = some (mem.set pC C', hp')) ∧
    (∃ C' hp', strassenMul_hybrid junk fuel hp MA MB MC cutoff = some (C', hp') ∧
      strassenMul_hybridAt junk fuel hp pA pB pC cutoff mem = some (mem.set pC C', hp')) ∧
    mulAt pA pB pC mem = some (mem.set pC (mul MA MB MC)) := by
  refine ⟨?_, ?_, mulAt_sim hA hB hC hCA hCB wA wB wC⟩
  · obtain ⟨C', hp', e, _⟩ := strassenMul_total junk fuel n hn hfuel hp MA MB MC wA.1 wC
    refine ⟨C', hp', e, ?_⟩
    rw [strassenMulAt_sim junk fuel n hn hfuel hp mem pA pB pC MA MB MC hA hB hC hCA hCB
      wA wB wC, e]
    rfl
  · have hf : n < 2 ^ (fuel + 1) := by rw [pow_succ]; omega
    obtain ⟨C', hp', e, _⟩ :=
      strassenMul_hybrid_total junk fuel n hn hf hp MA MB MC cutoff hcut wA.1 wC
    refine ⟨C', hp', e, ?_⟩
    rw [strassenMul_hybridAt_sim junk fuel n hn hf hp cutoff hcut hA hB hC hCA hCB wA wB wC, e]
    rfl

/-- C27, witness: side 2 with the operands at pointers 0 and 1 and the result at
pointer 2. A block that does not fit and a result matrix that is too small are
caught by the checks. -/
theorem C27_index_safety_witness :
    strassenMulAt (fun _ _ => 7) 2 ⟨0, 0⟩ 0 1 2
        [⟨[1, 2, 3, 4], 2, 2⟩, ⟨[5, 6, 7, 8], 2, 2⟩, ⟨[9, 9, 9, 9], 2, 2⟩] =
      some ([⟨[1, 2, 3, 4], 2, 2⟩, ⟨[5, 6, 7, 8], 2, 2⟩, ⟨[19, 22, 43, 50], 2, 2⟩], ⟨0, 3⟩) ∧
    sumMatrixAt 0 0 1 1 0 0 2 0 0 2
        [⟨[1, 2, 3, 4], 2, 2⟩, ⟨[5, 6, 7, 8], 2, 2⟩, ⟨[9, 9, 9, 9], 2, 2⟩] = none ∧
    mulAt 0 1 2 [⟨[1, 2, 3, 4], 2, 2⟩, ⟨[5, 6, 7, 8], 2, 2⟩, ⟨[9], 1, 1⟩] = none ∧
    mulAt 0 1 2 [⟨[1, 2, 3, 4], 2, 2⟩, ⟨[5, 6, 7, 8], 2, 2⟩, ⟨[9, 9, 9, 9], 2, 2⟩] =
      some (List.set [⟨[1, 2, 3, 4], 2, 2⟩, ⟨[5, 6, 7, 8], 2, 2⟩, ⟨[9, 9, 9, 9], 2, 2⟩] 2
        (mul ⟨[1, 2, 3, 4], 2, 2⟩ ⟨[5, 6, 7, 8], 2, 2⟩ ⟨[9, 9, 9, 9], 2, 2⟩)) :=
  ⟨by decide, by decide, by decide,
    (C27_index_safety (fun _ _ => 7) 2 2 (by decide) (by decide) ⟨0, 0⟩ 1 (by decide)
      [⟨[1, 2, 3, 4], 2, 2⟩, ⟨[5, 6, 7, 8], 2, 2⟩, ⟨[9, 9, 9, 9], 2, 2⟩] 0 1 2 _ _ _ rfl rfl rfl
      (by decide) (by decide) ⟨rfl, rfl, rfl⟩ ⟨rfl, rfl, rfl⟩ ⟨rfl, rfl, rfl⟩).2.2⟩

/-- C29: operands are read-only. For every side `n ≥ 1` and `C` distinct from `A`
and `B` (which may be one object), `mul`, `strassenMul` and `strassenMul_hybrid`
(cutoff `≥ 1`), run on the memory through their pointers, return with the
records of `A` and `B` (elements and dimensions) exactly as before the call: the
memory differs from the one at entry in the record of `C` only, and the
temporaries of the call are gone. -/
theorem C29_operands_read_only (junk : Nat → Nat → Int) (fuel n : Nat) (hn : 1 ≤ n)
    (hfuel : n < 2 ^ fuel) (hp : Heap) (cutoff : Int) (hcut : 1 ≤ cutoff)
    (mem : List Matrix) (pA pB pC : Nat) (MA MB MC : Matrix)
    (hA : mem[pA]? = some MA) (hB : mem[pB]? = some MB) (hC : mem[pC]? = some MC)
    (hCA : pC ≠ pA) (hCB : pC ≠ pB) (wA : MA.IsSquare n) (wB : MB.IsSquare n)
    (wC : MC.IsSquare n) :
    (∃ mem', mulAt pA pB pC mem = some mem' ∧
      mem'[pA]? = some MA ∧ mem'[pB]? = some MB ∧ onlyChanges mem mem' pC) ∧
    (∃ mem' hp', strassenMulAt junk fuel hp pA pB pC mem = some (mem', hp') ∧
      mem'[pA]? = some MA ∧ mem'[pB]? = some MB ∧ onlyChanges mem mem' pC) ∧
    (∃ mem' hp', strassenMul_hybridAt junk fuel hp pA pB pC cutoff mem = some (mem', hp') ∧
      mem'[pA]? = some MA ∧ mem'[pB]? = some MB ∧ onlyChanges mem mem' pC) := by
  have key : ∀ D : Matrix, (mem.set pC D)[pA]? = some MA ∧ (mem.set pC D)[pB]? = some MB ∧
      onlyChanges mem (mem.set pC D) pC := fun D =>
    ⟨get_set_other D hA hCA, get_set_other D hB hCB, onlyChanges_set mem pC D⟩
  refine ⟨⟨_, mulAt_sim hA hB hC hCA hCB wA wB wC, key _⟩, ?_, ?_⟩
  · obtain ⟨C', hp', e, _⟩ := strassenMul_total junk fuel n hn hfuel hp MA MB MC wA.1 wC
    refine ⟨mem.set pC C', hp', ?_, key C'⟩
    rw [strassenMulAt_sim junk fuel n hn hfuel hp mem pA pB pC MA MB MC hA hB hC hCA hCB
      wA wB wC, e]
    rfl
  · have hf : n < 2 ^ (fuel + 1) := by rw [pow_succ]; omega
    obtain ⟨C', hp', e, _⟩ :=
      strassenMul_hybrid_total junk fuel n hn hf hp MA MB MC cutoff hcut wA.1 wC
    refine ⟨mem.set pC C', hp', ?_, key C'⟩
    rw [strassenMul_hybridAt_sim junk fuel n hn hf hp cutoff hcut hA hB hC hCA hCB wA wB wC, e]
    rfl

/-- C29, witness: side 2, both operands being the same object at pointer 0, the
result at pointer 1, and a bystander record at pointer 2. -/
theorem C29_operands_read_only_witness :
    strassenMul_hybridAt (fun _ _ => 7) 1 ⟨0, 0⟩ 0 0 1 1
        [⟨[1, 2, 3, 4], 2, 2⟩, ⟨[9, 9, 9, 9], 2, 2⟩, ⟨[5], 1, 1⟩] =
      some ([⟨[1, 2, 3, 4], 2, 2⟩, ⟨[7, 10, 15, 22], 2, 2⟩, ⟨[5], 1, 1⟩], ⟨0, 3⟩) ∧
    ∃ mem' hp', strassenMulAt (fun _ _ => 7) 2 ⟨0, 0⟩ 0 0 1
        [⟨[1, 2, 3, 4], 2, 2⟩, ⟨[9, 9, 9, 9], 2, 2⟩, ⟨[5], 1, 1⟩] = some (mem', hp') ∧
      mem'[0]? = some ⟨[1, 2, 3, 4], 2, 2⟩ ∧ mem'[0]? = some ⟨[1, 2, 3, 4], 2, 2⟩ ∧
      onlyChanges [⟨[1, 2, 3, 4], 2, 2⟩, ⟨[9, 9, 9, 9], 2, 2⟩, ⟨[5], 1, 1⟩] mem' 1 :=
  ⟨by decide, (C29_operands_read_only (fun _ _ => 7) 2 2 (by decide) (by decide) ⟨0, 0⟩ 1
    (by decide) [⟨[1, 2, 3, 4], 2, 2⟩, ⟨[9, 9, 9, 9], 2, 2⟩, ⟨[5], 1, 1⟩] 0 0 1 _ _ _ rfl rfl rfl
    (by decide) (by decide) ⟨rfl, rfl, rfl⟩ ⟨rfl, rfl, rfl⟩ ⟨rfl, rfl, rfl⟩).2.1⟩

/-! ## Claim C12: no validation of the operands -/

/-- C12, counterexample: no precondition violation is rejected. On side 3 (not
a power of two) `strassenMul` returns normally, having overwritten `C`; so it
does when the sides of `A` (2) and `B` (3) differ; and on side 5 with cutoff 2
(not evenly halvable) `strassenMul_hybrid` returns normally with `C`
overwritten. -/
theorem C12_rejection_counterexample :
    strassenMul (fun _ _ => 7) 2 ⟨0, 0⟩ ⟨[1, 2, 3, 4, 5, 6, 7, 8, 9], 3, 3⟩
        ⟨[1, 0, 0, 0, 1, 0, 0, 0, 1], 3, 3⟩ ⟨[9, 9, 9, 9, 9, 9, 9, 9, 9], 3, 3⟩ =
      some (⟨[1, 2, 0, 4, 5, 0, 0, 0, 0], 3, 3⟩, ⟨0, 3⟩) ∧
    strassenMul (fun _ _ => 7) 2 ⟨0, 0⟩ ⟨[1, 2, 3, 4], 2, 2⟩
        ⟨[1, 0, 0, 0, 1, 0, 0, 0, 1], 3, 3⟩ ⟨[9, 9, 9, 9], 2, 2⟩ =
      some (⟨[1, 2, 3, 4], 2, 2⟩, ⟨0, 3⟩) ∧
    (strassenMul_hybrid (fun _ _ => 7) 2 ⟨0, 0⟩ ⟨List.replicate 25 1, 5, 5⟩
        ⟨List.replicate 25 1, 5, 5⟩ ⟨List.replicate 25 9, 5, 5⟩ 2).map (fun r => r.1) =
      some ⟨[4, 4, 4, 4, 0, 4, 4, 4, 4, 0, 4, 4, 4, 4, 0, 4, 4, 4, 4, 0, 0, 0, 0, 0, 0],
        5, 5⟩ := by
  refine ⟨?_, ?_, ?_⟩ <;> decide

/-- C12, amended: precondition violations are not rejected. Neither function has
an error result and neither tests its operands: for every side `n ≥ 1`, a power
of two or not, well-formed `A` and `C` of side `n` (`C` distinct from `A` and
`B`), a well-formed `B` of side `m ≥ n` (so its side may differ from that of
`A`) and every cutoff `≥ 1` (whether or not `n` halves evenly down to it),
`strassenMul` and `strassenMul_hybrid` run to completion and return normally,
`C` keeping its shape; the operands fit, in that the run in which every element
access and every block is checked passes every check and stores that very
result in `C`. -/
theorem C12_no_validation (junk : Nat → Nat → Int) (fuel n m : Nat) (hn : 1 ≤ n)
    (hm : n ≤ m) (hfuel : n < 2 ^ fuel) (hp : Heap) (cutoff : Int) (hcut : 1 ≤ cutoff)
    (mem : List Matrix) (pA pB pC : Nat) (MA MB MC : Matrix)
    (hA : mem[pA]? = some MA) (hB : mem[pB]? = some MB) (hC : mem[pC]? = some MC)
    (hCA : pC ≠ pA) (hCB : pC ≠ pB) (wA : MA.IsSquare n) (wB : MB.IsSquare m)
    (wC : MC.IsSquare n) :
    (∃ C' hp', strassenMul junk fuel hp MA MB MC = some (C', hp') ∧ C'.IsSquare n ∧
      strassenMulAt junk fuel hp pA pB pC mem = some (mem.set pC C', hp')) ∧
    (∃ C' hp', strassenMul_hybrid junk fuel hp MA MB MC cutoff = some (C', hp') ∧
      C'.IsSquare n ∧
      strassenMul_hybridAt junk fuel hp pA pB pC cutoff mem = some (mem.set pC C', hp')) := by
  constructor
  · obtain ⟨C', hp', e, w, _⟩ := strassenMul_total junk fuel n hn hfuel hp MA MB MC wA.1 wC
    refine ⟨C', hp', e, w, ?_⟩
    rw [strassenMulAt_sim_le junk fuel n m hn hm hfuel hp mem pA pB pC MA MB MC hA hB hC
      hCA hCB wA wB wC, e]
    rfl
  · have hf : n < 2 ^ (fuel + 1) := by rw [pow_succ]; omega
    obtain ⟨C', hp', e, w, _⟩ :=
      strassenMul_hybrid_total junk fuel n hn hf hp MA MB MC cutoff hcut wA.1 wC
    refine ⟨C', hp', e, w, ?_⟩
    rw [strassenMul_hybridAt_sim_le junk fuel n m hn hm hf hp cutoff hcut hA hB hC hCA hCB
      wA wB wC, e]
    rfl

/-- C12, witness of the amended claim: side 3 (no power of two, and not evenly
halvable down to the cutoff 1) with an operand `B` of side 4, the operands at
pointers 0 and 1 and the result at pointer 2. An operand `B` that is too small
(side 1 against side 2) does not fit: the checked run stops at a check. -/
theorem C12_no_validation_witness :
    (∃ C' hp', strassenMul (fun _ _ => 7) 2 ⟨0, 0⟩ ⟨[1, 2, 3, 4, 5, 6, 7, 8, 9], 3, 3⟩
        ⟨[1, 0, 0, 0, 0, 1, 0, 0, 0, 0, 1, 0, 0, 0, 0, 1], 4, 4⟩
        ⟨[9, 9, 9, 9, 9, 9, 9, 9, 9], 3, 3⟩ = some (C', hp') ∧ C'.IsSquare 3 ∧
      strassenMulAt (fun _ _ => 7) 2 ⟨0, 0⟩ 0 1 2
        [⟨[1, 2, 3, 4, 5, 6, 7, 8, 9], 3, 3⟩,
          ⟨[1, 0, 0, 0, 0, 1, 0, 0, 0, 0, 1, 0, 0, 0, 0, 1], 4, 4⟩,
          ⟨[9, 9, 9, 9, 9, 9, 9, 9, 9], 3, 3⟩] =
        some (List.set [⟨[1, 2, 3, 4, 5, 6, 7, 8, 9], 3, 3⟩,
          ⟨[1, 0, 0, 0, 0, 1, 0, 0, 0, 0, 1, 0, 0, 0, 0, 1], 4, 4⟩,
          ⟨[9, 9, 9, 9, 9, 9, 9, 9, 9], 3, 3⟩] 2 C', hp')) ∧
    (∃ C' hp', strassenMul_hybrid (fun _ _ => 7) 2 ⟨0, 0⟩ ⟨[1, 2, 3, 4, 5, 6, 7, 8, 9], 3, 3⟩
        ⟨[1, 0, 0, 0, 0, 1, 0, 0, 0, 0, 1, 0, 0, 0, 0, 1], 4, 4⟩
        ⟨[9, 9, 9, 9, 9, 9, 9, 9, 9], 3, 3⟩ 1 = some (C', hp') ∧ C'.IsSquare 3 ∧
      strassenMul_hybridAt (fun _ _ => 7) 2 ⟨0, 0⟩ 0 1 2 1
        [⟨[1, 2, 3, 4, 5, 6, 7, 8, 9], 3, 3⟩,
          ⟨[1, 0, 0, 0, 0, 1, 0, 0, 0, 0, 1, 0, 0, 0, 0, 1], 4, 4⟩,
          ⟨[9, 9, 9, 9, 9, 9, 9, 9, 9], 3, 3⟩] =
        some (List.set [⟨[1, 2, 3, 4, 5, 6, 7, 8, 9], 3, 3⟩,
          ⟨[1, 0, 0, 0, 0, 1, 0, 0, 0, 0, 1, 0, 0, 0, 0, 1], 4, 4⟩,
          ⟨[9, 9, 9, 9, 9, 9, 9, 9, 9], 3, 3⟩] 2 C', hp')) ∧
    strassenMulAt (fun _ _ => 7) 2 ⟨0, 0⟩ 0 1 2
        [⟨[1, 2, 3, 4], 2, 2⟩, ⟨[5], 1, 1⟩, ⟨[9, 9, 9, 9], 2, 2⟩] = none := by
  have key := C12_no_validation (fun _ _ => 7) 2 3 4 (by decide) (by decide) (by decide)
    ⟨0, 0⟩ 1 (by decide)
    [⟨[1, 2, 3, 4, 5, 6, 7, 8, 9], 3, 3⟩,
      ⟨[1, 0, 0, 0, 0, 1, 0, 0, 0, 0, 1, 0, 0, 0, 0, 1], 4, 4⟩,
      ⟨[9, 9, 9, 9, 9, 9, 9, 9, 9], 3, 3⟩] 0 1 2
    ⟨[1, 2, 3, 4, 5, 6, 7, 8, 9], 3, 3⟩
    ⟨[1, 0, 0, 0, 0, 1, 0, 0, 0, 0, 1, 0, 0, 0, 0, 1], 4, 4⟩
    ⟨[9, 9, 9, 9, 9, 9, 9, 9, 9], 3, 3⟩ rfl rfl rfl (by decide) (by decide)
    ⟨rfl, rfl, rfl⟩ ⟨rfl, rfl, rfl⟩ ⟨rfl, rfl, rfl⟩
  exact ⟨key.1, key.2, by decide⟩

/-! ## Side 0 -/

/-- On an operand with 0 rows the recursion never reaches the base case: every
amount of fuel runs out. -/
theorem strassenMul_side0 (junk : Nat → Nat → Int) (fuel : Nat) :
    ∀ (hp : Heap) (X Y Z : Matrix), X.row = 0 → strassenMul junk fuel hp X Y Z = none := by
  induction fuel with
  | zero => intro hp X Y Z _; rfl
  | succ fuel ih =>
    intro hp X Y Z hX
    have hne : X.row ≠ 1 := by rw [hX]; decide
    rw [strassenMul_step junk fuel hp hne]
    unfold strassenFrame
    simp only []
    rw [ih]
    · rfl
    · rw [row_subMatrix, hX]; rfl

/-! ## Counting frames and base cases -/

theorem strassenFrames_pow2 (k : Nat) :
    ∀ fuel, k < fuel → 6 * strassenFrames fuel ((2 ^ k : Nat) : Int) + 1 = 7 ^ k := by
  induction k with
  | zero =>
    intro fuel hf
    obtain ⟨f, rfl⟩ : ∃ f, fuel = f + 1 := ⟨fuel - 1, by omega⟩
    simp [strassenFrames]
  | succ k ih =>
    intro fuel hf
    obtain ⟨f, rfl⟩ : ∃ f, fuel = f + 1 := ⟨fuel - 1, by omega⟩
    have hpos : 0 < 2 ^ k := Nat.pos_pow_of_pos k (by decide)
    have hne : ¬ (((2 ^ (k + 1) : Nat) : Int) = 1) := by
      rw [pow_succ]; omega
    have hdiv : (((2 ^ (k + 1) : Nat) : Int)).tdiv 2 = ((2 ^ k : Nat) : Int) := by
      rw [Int.tdiv_eq_ediv (by omega) (by omega), pow_succ]; omega
    have := ih f (by omega)
    simp only [strassenFrames, hne, if_false, hdiv]
    rw [pow_succ]
    omega

theorem strassenBaseCases_pow2 (k : Nat) :
    ∀ fuel, k < fuel → strassenBaseCases fuel ((2 ^ k : Nat) : Int) = 7 ^ k := by
  induction k with
  | zero =>
    intro fuel hf
    obtain ⟨f, rfl⟩ : ∃ f, fuel = f + 1 := ⟨fuel - 1, by omega⟩
    simp [strassenBaseCases]
  | succ k ih =>
    intro fuel hf
    obtain ⟨f, rfl⟩ : ∃ f, fuel = f + 1 := ⟨fuel - 1, by omega⟩
    have hpos : 0 < 2 ^ k := Nat.pos_pow_of_pos k (by decide)
    have hne : ¬ (((2 ^ (k + 1) : Nat) : Int) = 1) := by
      rw [pow_succ]; omega
    have hdiv : (((2 ^ (k + 1) : Nat) : Int)).tdiv 2 = ((2 ^ k : Nat) : Int) := by
      rw [Int.tdiv_eq_ediv (by omega) (by omega), pow_succ]; omega
    simp only [strassenBaseCases, hne, if_false, hdiv, ih f (by omega)]
    rw [pow_succ]
    omega

/-- Heap effect of the counting run, whenever it returns: the live count is kept
and `serial` advances by three per frame past the base case plus one per
base-case multiplication. -/
theorem strassenMulCounting_heap (junk : Nat → Nat → Int) (fuel : Nat) :
    ∀ (hp : Heap) (A B C C' : Matrix) (hp' : Heap),
      strassenMulCounting junk fuel hp A B C = some (C', hp') →
      hp'.live = hp.live ∧
      hp'.serial = hp.serial + (3 * strassenFrames fuel A.row + strassenBaseCases fuel A.row) := by
  induction fuel with
  | zero => intro hp A B C C' hp' h; simp [strassenMulCounting] at h
  | succ fuel ih =>
    intro hp A B C C' hp' h
    by_cases h1 : A.row = 1
    · simp only [strassenMulCounting, h1, if_true, Option.some.injEq, Prod.mk.injEq] at h
      rw [← h.2]
      simp [strassenFrames, strassenBaseCases, h1]
    · simp only [strassenMulCounting, h1, if_false] at h
      obtain ⟨l, s⟩ := strassenFrame_heap junk (strassenMulCounting junk fuel)
        (3 * strassenFrames fuel (A.row.tdiv 2) + strassenBaseCases fuel (A.row.tdiv 2))
        hp A B C
        (fun h X Y Z Z' h' hX e => by
          have := ih h X Y Z Z' h' e
          rw [hX] at this
          exact this) C' hp' h
      refine ⟨l, ?_⟩
      rw [s]
      simp only [strassenFrames, strassenBaseCases, h1, if_false]
      omega

/-- The counting run on power-of-two sides returns, with the product. -/
theorem strassenMulCounting_pow2 (junk : Nat → Nat → Int) (k : Nat) :
    ∀ (fuel : Nat), k < fuel → ∀ (hp : Heap) (X Y Z : Matrix) (f g : Nat → Nat → Int),
      X.IsSquare (2 ^ k) → Y.IsSquare (2 ^ k) → Z.IsSquare (2 ^ k) →
      (∀ i j, i < 2 ^ k → j < 2 ^ k → X.cell i j = f i j) →
      (∀ i j, i < 2 ^ k → j < 2 ^ k → Y.cell i j = g i j) →
      ∃ Z' hp', strassenMulCounting junk fuel hp X Y Z = some (Z', hp') ∧
        Z'.IsSquare (2 ^ k) ∧ hp'.live = hp.live ∧
        ∀ i j, i < 2 ^ k → j < 2 ^ k → Z'.cell i j = matProd (2 ^ k) f g i j := by
  induction k with
  | zero =>
    intro fuel hfuel hp X Y Z f g hX hY hZ cX cY
    obtain ⟨fuel, rfl⟩ : ∃ m, fuel = m + 1 := ⟨fuel - 1, by omega⟩
    have hX1 : X.row = 1 := by rw [hX.1]; simp
    have hb : strassenMulCounting junk (fuel + 1) hp X Y Z =
        some (Z.store 0 0 Z.col
          (matrixElem X.matrix 0 0 X.col * matrixElem Y.matrix 0 0 Y.col),
          { hp with serial := hp.serial + 1 }) := by
      simp [strassenMulCounting, hX1]
    rw [hb]
    obtain ⟨w, hc⟩ := store_plain (a := 0) (b := 0) hZ (by simp) (by simp) hZ.2.1
      (matrixElem X.matrix 0 0 X.col * matrixElem Y.matrix 0 0 Y.col)
    simp only [Nat.cast_zero] at w hc
    refine ⟨_, _, rfl, w, rfl, fun i j hi hj => ?_⟩
    have hi0 : i = 0 := by simpa using hi
    have hj0 : j = 0 := by simpa using hj
    subst hi0 hj0
    rw [hc 0 0 (by simp) (by simp), if_pos ⟨rfl, rfl⟩]
    have e1 := cX 0 0 (by simp) (by simp)
    have e2 := cY 0 0 (by simp) (by simp)
    simp only [Matrix.cell, Nat.cast_zero] at e1 e2
    rw [e1, e2]
    simp [matProd]
  | succ k ih =>
    intro fuel hfuel hp X Y Z f g hX hY hZ cX cY
    obtain ⟨fuel, rfl⟩ : ∃ m, fuel = m + 1 := ⟨fuel - 1, by omega⟩
    have hpow : 2 ^ (k + 1) = 2 ^ k + 2 ^ k := by rw [pow_succ]; omega
    have hpos : 0 < 2 ^ k := Nat.pos_pow_of_pos k (by decide)
    have hX1 : X.row ≠ 1 := by
      rw [hX.1, hpow]; intro h; have : (2 ^ k + 2 ^ k : Nat) = 1 := by exact_mod_cast h
      omega
    have hs : strassenMulCounting junk (fuel + 1) hp X Y Z =
        strassenFrame junk (strassenMulCounting junk fuel) hp X Y Z := by
      simp [strassenMulCounting, hX1]
    rw [hs]
    obtain ⟨C', hp', e, w, l, hc⟩ := strassenFrame_spec junk (strassenMulCounting junk fuel)
      (matProd (2 ^ k)) (n := 2 ^ (k + 1)) (h := 2 ^ k) (by omega)
      (fun hp X Y Z f g => ih fuel (by omega) hp X Y Z f g) hp (B := Y) hX.1 hZ
    refine ⟨C', hp', e, w, l, fun i j hi hj => ?_⟩
    rw [hc i j hi hj, strassenCombine_matProd _ _ _ _ _ (by omega) (by omega), ← hpow]
    exact matProd_congr hi hj cX cY

/-! ## Claims C31 to C36 -/

/-- C31: the result does not depend on the prior contents of `C`. For every side
`n ≥ 1` and all `A`, `B` of side `n`, two runs of `strassenMul`, of
`strassenMul_hybrid` with the same cutoff `≥ 1`, or of `mul`, on the same `A` and
`B` but with different initial contents of `C` (and, for the allocating
functions, from any two heaps with any contents of fresh storage) end with the
same `C`. -/
theorem C31_result_independent_of_C (junk₁ junk₂ : Nat → Nat → Int) (fuel n : Nat)
    (hn : 1 ≤ n) (hfuel : n < 2 ^ fuel) (hp₁ hp₂ : Heap) (cutoff : Int) (hcut : 1 ≤ cutoff)
    (A B C₁ C₂ : Matrix) (hA : A.IsSquare n) (hB : B.IsSquare n) (h₁ : C₁.IsSquare n)
    (h₂ : C₂.IsSquare n) :
    (∃ C' hp₁' hp₂', strassenMul junk₁ fuel hp₁ A B C₁ = some (C', hp₁') ∧
      strassenMul junk₂ fuel hp₂ A B C₂ = some (C', hp₂')) ∧
    (∃ C' hp₁' hp₂', strassenMul_hybrid junk₁ fuel hp₁ A B C₁ cutoff = some (C', hp₁') ∧
      strassenMul_hybrid junk₂ fuel hp₂ A B C₂ cutoff = some (C', hp₂')) ∧
    mul A B C₁ = mul A B C₂ := by
  have hmul : mul A B C₁ = mul A B C₂ := by
    obtain ⟨w, hc⟩ := mul_spec hA hB h₁
    obtain ⟨w', hc'⟩ := mul_spec hA hB h₂
    exact Matrix.ext_cells w w' (fun i j hi hj => by rw [hc i j hi hj, hc' i j hi hj])
  have key : ∀ f, n < 2 ^ f → ∃ C' hp₁' hp₂', strassenMul junk₁ f hp₁ A B C₁ = some (C', hp₁') ∧
      strassenMul junk₂ f hp₂ A B C₂ = some (C', hp₂') := by
    intro f hf
    obtain ⟨Z, q, e, w, _, c⟩ := strassenMul_total junk₁ f n hn hf hp₁ A B C₁ hA.1 h₁
    obtain ⟨Z', q', e', w', _, c'⟩ := strassenMul_total junk₂ f n hn hf hp₂ A B C₂ hA.1 h₂
    have : Z' = Z := Matrix.ext_cells w' w (fun i j hi hj => by rw [c i j hi hj, c' i j hi hj])
    exact ⟨Z, q, q', e, by rw [e', this]⟩
  refine ⟨key fuel hfuel, ?_, hmul⟩
  by_cases hc : A.row ≤ cutoff
  · refine ⟨mul A B C₁, hp₁, hp₂, ?_, ?_⟩
    · unfold strassenMul_hybrid; rw [if_pos hc]
    · unfold strassenMul_hybrid; rw [if_pos hc, hmul]
  · have hne : A.row ≠ 1 := by omega
    have e : ∀ (j : Nat → Nat → Int) (q : Heap) (D : Matrix),
        strassenMul_hybrid j fuel q A B D cutoff = strassenMul j (fuel + 1) q A B D := by
      intro j q D
      rw [strassenMul_step j fuel q hne]
      unfold strassenMul_hybrid
      rw [if_neg hc]
    rw [e, e]
    exact key (fuel + 1) (by rw [pow_succ]; omega)

/-- C31, witness: side 3, cutoff 2, result matrices holding `5`s and `-1`s. -/
theorem C31_result_independent_of_C_witness :
    strassenMul_hybrid (fun _ _ => 7) 2 ⟨0, 0⟩ ⟨[1, 2, 3, 4, 5, 6, 7, 8, 9], 3, 3⟩
        ⟨[1, 1, 1, 1, 1, 1, 1, 1, 1], 3, 3⟩ ⟨List.replicate 9 5, 3, 3⟩ 2 =
      some (⟨[3, 3, 0, 9, 9, 0, 0, 0, 0], 3, 3⟩, ⟨0, 3⟩) ∧
    ∃ C' hp₁' hp₂', strassenMul (fun _ _ => 7) 2 ⟨0, 0⟩ ⟨[1, 2, 3, 4, 5, 6, 7, 8, 9], 3, 3⟩
        ⟨[1, 1, 1, 1, 1, 1, 1, 1, 1], 3, 3⟩ ⟨List.replicate 9 5, 3, 3⟩ = some (C', hp₁') ∧
      strassenMul (fun _ _ => 0) 2 ⟨4, 9⟩ ⟨[1, 2, 3, 4, 5, 6, 7, 8, 9], 3, 3⟩
        ⟨[1, 1, 1, 1, 1, 1, 1, 1, 1], 3, 3⟩ ⟨List.replicate 9 (-1), 3, 3⟩ = some (C', hp₂') :=
  ⟨by decide, (C31_result_independent_of_C (fun _ _ => 7) (fun _ _ => 0) 2 3 (by decide)
    (by decide) ⟨0, 0⟩ ⟨4, 9⟩ 2 (by decide) ⟨[1, 2, 3, 4, 5, 6, 7, 8, 9], 3, 3⟩
    ⟨[1, 1, 1, 1, 1, 1, 1, 1, 1], 3, 3⟩ ⟨List.replicate 9 5, 3, 3⟩
    ⟨List.replicate 9 (-1), 3, 3⟩ ⟨rfl, rfl, rfl⟩ ⟨rfl, rfl, rfl⟩ ⟨rfl, rfl, rfl⟩
    ⟨rfl, rfl, rfl⟩).1⟩

/-- C34: side 0 never reaches the base case. On operands with 0 rows
`strassenMul` fails the test `side == 1`, takes `newSide = 0 / 2 = 0` and makes
its first call again on operands with 0 rows: for every amount of fuel the
embedding runs out. The same call is reached from `strassenMul_hybrid` on side 1
with a cutoff `≤ 0`. -/
theorem C34_side0_diverges (junk : Nat → Nat → Int) (fuel : Nat) (hp : Heap)
    (A B C : Matrix) (hA : A.row = 0) :
    strassenMul junk fuel hp A B C = none ∧
    (A.row ≠ 1 ∧ A.row.tdiv 2 = 0 ∧
      (subMatrix A 0 (A.row.tdiv 2) A (A.row.tdiv 2) (A.row.tdiv 2)
        (allocMatrix junk hp (A.row.tdiv 2)).1 0 0 (A.row.tdiv 2)).2.row = 0) ∧
    ∀ (A' B' C' : Matrix) (cutoff : Int), A'.row = 1 → cutoff ≤ 0 →
      strassenMul_hybrid junk fuel hp A' B' C' cutoff = none := by
  refine ⟨strassenMul_side0 junk fuel hp A B C hA, ⟨by rw [hA]; decide, by rw [hA]; rfl, ?_⟩,
    fun A' B' C' cutoff h1 hc => ?_⟩
  · rw [row_subMatrix, hA]; rfl
  · unfold strassenMul_hybrid
    rw [if_neg (by rw [h1]; omega)]
    unfold strassenFrame
    simp only []
    rw [strassenMul_side0]
    · rfl
    · rw [row_subMatrix, h1]; rfl

/-- C34, witness: the empty matrix of side 0 with 50 units of fuel, and the
hybrid on side 1 with cutoff 0. -/
theorem C34_side0_diverges_witness :
    strassenMul (fun _ _ => 7) 50 ⟨0, 0⟩ ⟨[], 0, 0⟩ ⟨[], 0, 0⟩ ⟨[], 0, 0⟩ = none ∧
    strassenMul_hybrid (fun _ _ => 7) 50 ⟨0, 0⟩ ⟨[2], 1, 1⟩ ⟨[3], 1, 1⟩ ⟨[0], 1, 1⟩ 0 = none ∧
    strassenMul_hybrid (fun _ _ => 7) 50 ⟨0, 0⟩ ⟨[2], 1, 1⟩ ⟨[3], 1, 1⟩ ⟨[0], 1, 1⟩ 1 =
      some (⟨[6], 1, 1⟩, ⟨0, 0⟩) :=
  have h := C34_side0_diverges (fun _ _ => 7) 50 ⟨0, 0⟩ ⟨[], 0, 0⟩ ⟨[], 0, 0⟩ ⟨[], 0, 0⟩ rfl
  ⟨h.1, h.2.2 ⟨[2], 1, 1⟩ ⟨[3], 1, 1⟩ ⟨[0], 1, 1⟩ 0 rfl (le_refl 0), by decide⟩

/-- C35: seven products per level. A frame past the base case makes exactly seven
calls, each on operands with `side / 2` rows (if each such call makes `d`
allocations, the frame makes `3 + 7 * d`). For side `2 ^ k` the call runs
`(7 ^ k - 1) / 6` frames past the base case, allocates `(7 ^ k - 1) / 2`
temporaries, and executes the base-case multiplication exactly `7 ^ k` times (the
counting run advances its counter by the allocations plus `7 ^ k`). -/
theorem C35_seven_products (junk : Nat → Nat → Int) (k fuel : Nat) (hfuel : k < fuel)
    (hp : Heap) (A B C : Matrix) (hA : A.IsSquare (2 ^ k)) (hB : B.IsSquare (2 ^ k))
    (hC : C.IsSquare (2 ^ k)) :
    (∀ (recur : Heap → Matrix → Matrix → Matrix → Option (Matrix × Heap)) (d : Nat)
      (C' : Matrix) (hp' : Heap),
      (∀ (q : Heap) (X Y Z Z' : Matrix) (q' : Heap), X.row = A.row.tdiv 2 →
        recur q X Y Z = some (Z', q') → q'.live = q.live ∧ q'.serial = q.serial + d) →
      strassenFrame junk recur hp A B C = some (C', hp') →
      hp'.serial = hp.serial + 3 + 7 * d) ∧
    (∃ C' hp', strassenMul junk fuel hp A B C = some (C', hp') ∧
      6 * strassenFrames fuel A.row + 1 = 7 ^ k ∧
      hp'.serial = hp.serial + 3 * strassenFrames fuel A.row ∧
      2 * (hp'.serial - hp.serial) + 1 = 7 ^ k) ∧
    (∃ C' hp', strassenMulCounting junk fuel hp A B C = some (C', hp') ∧
      hp'.serial = hp.serial + 3 * strassenFrames fuel A.row + 7 ^ k) := by
  have hF := strassenFrames_pow2 k fuel hfuel
  have hB7 := strassenBaseCases_pow2 k fuel hfuel
  have hrow : A.row = ((2 ^ k : Nat) : Int) := hA.1
  refine ⟨fun recur d C' hp' hrec hres =>
      (strassenFrame_heap junk recur d hp A B C hrec C' hp' hres).2, ?_, ?_⟩
  · obtain ⟨C', hp', e, _⟩ := strassenMul_pow2 junk k fuel hfuel hp A B C A.cell B.cell hA hB hC
      (fun _ _ _ _ => rfl) (fun _ _ _ _ => rfl)
    have hs := (strassenMul_heap junk fuel hp A B C C' hp' e).2
    refine ⟨C', hp', e, by rw [hrow]; exact hF, hs, ?_⟩
    rw [hs, hrow]
    omega
  · obtain ⟨C', hp', e, _⟩ := strassenMulCounting_pow2 junk k fuel hfuel hp A B C A.cell B.cell
      hA hB hC (fun _ _ _ _ => rfl) (fun _ _ _ _ => rfl)
    have hs := (strassenMulCounting_heap junk fuel hp A B C C' hp' e).2
    refine ⟨C', hp', e, ?_⟩
    rw [hs, hrow, hB7]
    omega

/-- C35, witness: side 4 (`k = 2`): 8 frames past the base case, 24 temporaries,
49 base-case multiplications. -/
theorem C35_seven_products_witness :
    (strassenMul (fun _ _ => 7) 3 ⟨0, 0⟩ ⟨List.replicate 16 1, 4, 4⟩
        ⟨List.replicate 16 1, 4, 4⟩ ⟨List.replicate 16 9, 4, 4⟩).map (fun r => r.2.serial) =
      some 24 ∧
    (strassenMulCounting (fun _ _ => 7) 3 ⟨0, 0⟩ ⟨List.replicate 16 1, 4, 4⟩
        ⟨List.replicate 16 1, 4, 4⟩ ⟨List.replicate 16 9, 4, 4⟩).map (fun r => r.2.serial) =
      some (24 + 49) ∧
    ∃ C' hp', strassenMulCounting (fun _ _ => 7) 3 ⟨0, 0⟩ ⟨List.replicate 16 1, 4, 4⟩
        ⟨List.replicate 16 1, 4, 4⟩ ⟨List.replicate 16 9, 4, 4⟩ = some (C', hp') ∧
      hp'.serial = 0 + 3 * strassenFrames 3 4 + 7 ^ 2 :=
  ⟨by decide, by decide, (C35_seven_products (fun _ _ => 7) 2 3 (by decide) ⟨0, 0⟩
    ⟨List.replicate 16 1, 4, 4⟩ ⟨List.replicate 16 1, 4, 4⟩ ⟨List.replicate 16 9, 4, 4⟩
    ⟨rfl, rfl, rfl⟩ ⟨rfl, rfl, rfl⟩ ⟨rfl, rfl, rfl⟩).2.2⟩

/-! ## The sizing utility in 32-bit arithmetic -/

/-- C36: 32-bit range of `nextPowerOfTwo`. Evaluated in signed 32-bit arithmetic,
for every `n` with `1 ≤ n ≤ 2 ^ 30` the function returns the smallest power of
two `≥ n` (the value computed in exact arithmetic), and `n ≤ result < 2 n`; for
every `n` with `2 ^ 30 < n ≤ 2 ^ 31 - 1` the shift `1 << 31` does not fit: the
returned value is `-2 ^ 31`, which is no power of two `≥ n`. -/
theorem C36_nextPowerOfTwo32 (n : Int) :
    (1 ≤ n → n ≤ 2 ^ 30 →
      nextPowerOfTwo32 n = nextPowerOfTwo n ∧
      (∃ k : Nat, nextPowerOfTwo32 n = 2 ^ k ∧ ∀ j : Nat, n ≤ 2 ^ j → k ≤ j) ∧
      n ≤ nextPowerOfTwo32 n ∧ nextPowerOfTwo32 n < 2 * n) ∧
    (2 ^ 30 < n → n ≤ 2 ^ 31 - 1 →
      nextPowerOfTwo32 n = -2 ^ 31 ∧ ¬ (0 < nextPowerOfTwo32 n) ∧
      ¬ ∃ k : Nat, nextPowerOfTwo32 n = 2 ^ k ∧ n ≤ nextPowerOfTwo32 n) := by
  constructor
  · intro h1 h2
    obtain ⟨m, rfl⟩ : ∃ m : Nat, n = (m : Int) := ⟨n.toNat, by omega⟩
    have hm : 0 < m := by omega
    have hm2 : m ≤ 2 ^ 30 := by exact_mod_cast h2
    obtain ⟨k, e, hle, hmin⟩ := nextPowerOfTwo_nat m hm
    have hk : k ≤ 30 := hmin 30 hm2
    have hkp : (2 : Nat) ^ k ≤ 2 ^ 30 := Nat.pow_le_pow_right (by decide) hk
    have e32 : nextPowerOfTwo32 (m : Int) = nextPowerOfTwo (m : Int) := by
      unfold nextPowerOfTwo32 nextPowerOfTwo
      split
      · rfl
      · split
        · rfl
        · rename_i h0 hp
          have e' := e
          unfold nextPowerOfTwo at e'
          rw [if_neg h0, if_neg hp] at e'
          rw [e']
          apply wrap32_of_range
          · have : (0 : Int) ≤ ((2 ^ k : Nat) : Int) := Int.natCast_nonneg _
            omega
          · have : ((2 ^ k : Nat) : Int) ≤ 2 ^ 30 := by exact_mod_cast hkp
            omega
    rw [e32, e]
    refine ⟨rfl, ⟨k, by push_cast; rfl, fun j hj => hmin j (by exact_mod_cast hj)⟩,
      by exact_mod_cast hle, ?_⟩
    rcases Nat.eq_zero_or_pos k with h0 | hpos
    · subst h0; simp; omega
    · have hlt : ¬ m ≤ 2 ^ (k - 1) := fun hc => by
        have := hmin (k - 1) hc
        omega
      have e2 : 2 ^ k = 2 * 2 ^ (k - 1) := by
        rw [← pow_succ']; congr 1; omega
      have : 2 ^ k < 2 * m := by omega
      exact_mod_cast this
  · intro h1 h2
    obtain ⟨m, rfl⟩ : ∃ m : Nat, n = (m : Int) := ⟨n.toNat, by omega⟩
    have hm1 : 2 ^ 30 < m := by exact_mod_cast h1
    have hm2 : m < 2 ^ 31 := by
      have : (m : Int) < 2 ^ 31 := by omega
      exact_mod_cast this
    have hnp : ¬ (m &&& (m - 1) = 0) := by
      intro hz
      obtain ⟨k, hk⟩ := pow2_of_and_pred (by omega) hz
      rw [hk] at hm1 hm2
      have a := (Nat.pow_lt_pow_iff_right (by decide : 1 < 2)).1 hm1
      have b := (Nat.pow_lt_pow_iff_right (by decide : 1 < 2)).1 hm2
      omega
    have hclog : Nat.clog 2 m = 31 := by
      apply le_antisymm
      · exact (Nat.le_pow_iff_clog_le (by decide)).1 (by omega)
      · exact (Nat.pow_lt_iff_lt_clog (by decide)).1 hm1
    have e : nextPowerOfTwo32 (m : Int) = -2 ^ 31 := by
      unfold nextPowerOfTwo32
      have h0 : ¬ ((m : Int) ≤ 0) := by omega
      have e1 : ((m : Int)).toNat = m := Int.toNat_ofNat m
      have e2 : ((m : Int) - 1).toNat = m - 1 := by omega
      rw [if_neg h0, e1, e2, if_neg hnp, hclog]
      decide
    rw [e]
    refine ⟨rfl, by decide, ?_⟩
    rintro ⟨k, hk, _⟩
    have : (0 : Int) < 2 ^ k := by positivity
    omega

/-- C36, witness: `n = 1000` within the range and `n = 2 ^ 30 + 1` past it. -/
theorem C36_nextPowerOfTwo32_witness :
    (nextPowerOfTwo32 1000 = nextPowerOfTwo 1000 ∧
      (∃ k : Nat, nextPowerOfTwo32 1000 = 2 ^ k ∧ ∀ j : Nat, (1000 : Int) ≤ 2 ^ j → k ≤ j) ∧
      1000 ≤ nextPowerOfTwo32 1000 ∧ nextPowerOfTwo32 1000 < 2 * 1000) ∧
    (nextPowerOfTwo32 (2 ^ 30 + 1) = -2 ^ 31 ∧ ¬ (0 < nextPowerOfTwo32 (2 ^ 30 + 1)) ∧
      ¬ ∃ k : Nat, nextPowerOfTwo32 (2 ^ 30 + 1) = 2 ^ k ∧
        2 ^ 30 + 1 ≤ nextPowerOfTwo32 (2 ^ 30 + 1)) :=
  ⟨(C36_nextPowerOfTwo32 1000).1 (by simp) (by simp),
    (C36_nextPowerOfTwo32 (2 ^ 30 + 1)).2 (by simp) (by simp)⟩

/-! ## The raw-buffer variant computes what `strassenMul` computes -/

/-- Simulation rule for a loop: if every iteration of `body'` on the state `rel D`
yields `rel (body D)`, so does the loop. -/
theorem forLoop_sim {σ τ : Type} (rel : τ → σ) (Inv : τ → Prop) (lo hi : Int)
    (body' : Int → σ → σ) (body : Int → τ → τ)
    (hstep : ∀ (k : Int) (D : τ), Inv D → body' k (rel D) = rel (body k D) ∧ Inv (body k D))
    (D0 : τ) (h0 : Inv D0) :
    forLoop lo hi body' (rel D0) = rel (forLoop lo hi body D0) ∧ Inv (forLoop lo hi body D0) := by
  unfold forLoop
  generalize (hi - lo).toNat = n
  induction n with
  | zero => exact ⟨rfl, h0⟩
  | succ m ih =>
    rw [List.range_succ, List.foldl_append, List.foldl_append, ih.1]
    exact hstep _ _ ih.2

/-- Two nested loops on a buffer that is the element buffer of a matrix whose
column count stays `c`. -/
theorem blockLoop_buf (c : Int) (s : Int) (body' : Int → Int → List Int → List Int)
    (body : Int → Int → Matrix → Matrix)
    (hbody : ∀ (i j : Int) (D : Matrix), D.col = c →
      body' i j D.matrix = (body i j D).matrix ∧ (body i j D).col = c)
    (D0 : Matrix) (h0 : D0.col = c) :
    forLoop 0 s (fun i m => forLoop 0 s (fun j m => body' i j m) m) D0.matrix =
      (forLoop 0 s (fun i D => forLoop 0 s (fun j D => body i j D) D) D0).matrix ∧
    (forLoop 0 s (fun i D => forLoop 0 s (fun j D => body i j D) D) D0).col = c :=
  forLoop_sim (fun D : Matrix => D.matrix) (fun D => D.col = c) 0 s
    (fun i m => forLoop 0 s (fun j m => body' i j m) m)
    (fun i D => forLoop 0 s (fun j D => body i j D) D)
    (fun i D hD => forLoop_sim (fun D : Matrix => D.matrix) (fun D => D.col = c) 0 s
      (fun j m => body' i j m) (fun j D => body i j D) (fun j D' hD' => hbody i j D' hD') D hD)
    D0 h0

theorem sum_matrix_eq (A B C : Matrix) {sS sD : Int} (hA : A.col = sS) (hB : B.col = sS)
    (hC : C.col = sD) (rA cA rB cB rC cC s : Int) :
    (sum_matrix A.matrix B.matrix C.matrix rA cA rB cB rC cC s sS sD).2 =
      (sumMatrix A rA cA B rB cB C rC cC s).2.matrix := by
  unfold sum_matrix sumMatrix
  exact (blockLoop_buf sD s
    (fun i j m => matrixElemSet m (i + rC) (j + cC) sD
      (matrixElem A.matrix (i + rA) (j + cA) sS + matrixElem B.matrix (i + rB) (j + cB) sS))
    (fun i j C => C.store (i + rC) (j + cC) C.col
      (matrixElem A.matrix (i + rA) (j + cA) A.col +
       matrixElem B.matrix (i + rB) (j + cB) B.col))
    (fun i j D hD => by beta_reduce; rw [hD, hA, hB]; exact ⟨rfl, hD⟩) C hC).1

theorem sub_matrix_eq (A B C : Matrix) {sS sD : Int} (hA : A.col = sS) (hB : B.col = sS)
    (hC : C.col = sD) (rA cA rB cB rC cC s : Int) :
    (sub_matrix A.matrix B.matrix C.matrix rA cA rB cB rC cC s sS sD).2 =
      (subMatrix A rA cA B rB cB C rC cC s).2.matrix := by
  unfold sub_matrix subMatrix
  exact (blockLoop_buf sD s
    (fun i j m => matrixElemSet m (i + rC) (j + cC) sD
      (matrixElem A.matrix (i + rA) (j + cA) sS - matrixElem B.matrix (i + rB) (j + cB) sS))
    (fun i j C => C.store (i + rC) (j + cC) C.col
      (matrixElem A.matrix (i + rA) (j + cA) A.col -
       matrixElem B.matrix (i + rB) (j + cB) B.col))
    (fun i j D hD => by beta_reduce; rw [hD, hA, hB]; exact ⟨rfl, hD⟩) C hC).1

theorem add_submatrix_eq (A B : Matrix) {sA sB : Int} (hA : A.col = sA) (hB : B.col = sB)
    (rB cB s : Int) :
    (add_submatrix A.matrix B.matrix rB cB s sA sB).2 = (addSubmatrix A B rB cB s).2.matrix := by
  unfold add_submatrix addSubmatrix
  exact (blockLoop_buf sB s
    (fun i j m => matrixElemSet m (i + rB) (j + cB) sB
      (matrixElem m (i + rB) (j + cB) sB + matrixElem A.matrix i j sA))
    (fun i j B => B.store (i + rB) (j + cB) B.col
      (matrixElem B.matrix (i + rB) (j + cB) B.col + matrixElem A.matrix i j A.col))
    (fun i j D hD => by beta_reduce; rw [hD, hA]; exact ⟨rfl, hD⟩) B hB).1

theorem sub_submatrix_eq (A B : Matrix) {sA sB : Int} (hA : A.col = sA) (hB : B.col = sB)
    (rB cB s : Int) :
    (sub_submatrix A.matrix B.matrix rB cB s sA sB).2 = (subSubmatrix A B rB cB s).2.matrix := by
  unfold sub_submatrix subSubmatrix
  exact (blockLoop_buf sB s
    (fun i j m => matrixElemSet m (i + rB) (j + cB) sB
      (matrixElem m (i + rB) (j + cB) sB - matrixElem A.matrix i j sA))
    (fun i j B => B.store (i + rB) (j + cB) B.col
      (matrixElem B.matrix (i + rB) (j + cB) B.col - matrixElem A.matrix i j A.col))
    (fun i j D hD => by beta_reduce; rw [hD, hA]; exact ⟨rfl, hD⟩) B hB).1

theorem copy_submatrix_eq (A C : Matrix) {sA sC : Int} (hA : A.col = sA) (hC : C.col = sC)
    (rA cA rC cC s : Int) :
    (copy_submatrix A.matrix rA cA C.matrix rC cC s sA sC).2 =
      (copySubmatrix A rA cA C rC cC s).2.matrix := by
  unfold copy_submatrix copySubmatrix
  exact (blockLoop_buf sC s
    (fun i j m => matrixElemSet m (i + rC) (j + cC) sC
      (matrixElem A.matrix (i + rA) (j + cA) sA))
    (fun i j C => C.store (i + rC) (j + cC) C.col
      (matrixElem A.matrix (i + rA) (j + cA) A.col))
    (fun i j D hD => by beta_reduce; rw [hD, hA]; exact ⟨rfl, hD⟩) C hC).1

theorem init_matrix_zeros_eq (C : Matrix) {side : Int} (hr : C.row = side) (hc : C.col = side) :
    init_matrix_zeros C.matrix side = (initMatrixZeros C).matrix := by
  unfold init_matrix_zeros initMatrixZeros
  rw [hr]
  exact (forLoop_sim (fun D : Matrix => D.matrix) (fun D => D.col = side) 0 side
    (fun i m => forLoop 0 side (fun j m => matrixElemSet m i j side 0) m)
    (fun i mat => forLoop 0 mat.col (fun j mat => mat.store i j mat.col 0) mat)
    (fun i D hD => by
      beta_reduce
      rw [hD]
      exact forLoop_sim (fun D : Matrix => D.matrix) (fun D => D.col = side) 0 side
        (fun j m => matrixElemSet m i j side 0) (fun j mat => mat.store i j mat.col 0)
        (fun j D' hD' => by beta_reduce; rw [hD']; exact ⟨rfl, hD'⟩) D hD) C hc).1

theorem alloc_matrix_fst (junk : Nat → Nat → Int) (hp : Heap) (s : Int) :
    (alloc_matrix junk hp s).1 = (allocMatrix junk hp s).1.matrix :=
  rfl

theorem alloc_matrix_snd (junk : Nat → Nat → Int) (hp : Heap) (s : Int) :
    (alloc_matrix junk hp s).2 = (allocMatrix junk hp s).2 :=
  rfl

/-- One frame of `strassen_mul` on the element buffers of well-formed matrices of
side `n` computes the element buffer of what `strassenFrame` computes, if the
callees correspond in the same way on side `n / 2` and `recur` returns there. -/
theorem strassen_mulFrame_sim (junk : Nat → Nat → Int)
    (recur' : Heap → List Int → List Int → List Int → Int → Option (List Int × Heap))
    (recur : Heap → Matrix → Matrix → Matrix → Option (Matrix × Heap)) {n h : Nat}
    (hh : h = n / 2)
    (Hrec : ∀ (hp : Heap) (X Y Z : Matrix), X.IsSquare h → Z.IsSquare h →
      ∃ Z' hp', recur hp X Y Z = some (Z', hp') ∧ Z'.IsSquare h)
    (Hsim : ∀ (hp : Heap) (X Y Z : Matrix), X.IsSquare h → Y.IsSquare h → Z.IsSquare h →
      recur' hp X.matrix Y.matrix Z.matrix (h : Int) =
        (recur hp X Y Z).map (fun r => (r.1.matrix, r.2)))
    (hp : Heap) {MA MB MC : Matrix} (wA : MA.IsSquare n) (wB : MB.IsSquare n)
    (wC : MC.IsSquare n) :
    strassen_mulFrame junk recur' hp MA.matrix MB.matrix MC.matrix (n : Int) =
      (strassenFrame junk recur hp MA MB MC).map (fun r => (r.1.matrix, r.2)) := by
  have hside : ((n : Nat) : Int).tdiv 2 = (h : Int) := by
    rw [Int.tdiv_eq_ediv (by omega) (by omega), hh]; omega
  have hside' : MA.row.tdiv 2 = (h : Int) := by rw [wA.1]; exact hside
  unfold strassen_mulFrame strassenFrame
  simp only [hside, hside', alloc_matrix_fst, alloc_matrix_snd]
  have wt1 := allocMatrix_IsSquare junk hp h
  have wt2 := allocMatrix_IsSquare junk (allocMatrix junk hp h).2 h
  have wP0 := allocMatrix_IsSquare junk (allocMatrix junk (allocMatrix junk hp h).2 h).2 h
  generalize (allocMatrix junk (allocMatrix junk (allocMatrix junk hp h).2 h).2 h).2 = hp0
  generalize (allocMatrix junk (allocMatrix junk (allocMatrix junk hp h).2 h).2 h).1 = P0
    at wP0 ⊢
  generalize (allocMatrix junk (allocMatrix junk hp h).2 h).1 = t2 at wt2 ⊢
  generalize (allocMatrix junk hp h).1 = t1 at wt1 ⊢
  rw [init_matrix_zeros_eq MC wC.1 wC.2.1]
  have wC0 := (initMatrixZeros_spec wC).1
  generalize initMatrixZeros MC = C0 at wC0 ⊢
  -- product 1
  rw [sub_matrix_eq MA MA t1 wA.2.1 wA.2.1 wt1.2.1]
  have wT1 := IsSquare_of_SameShape (SameShape_subMatrix MA 0 (h : Int) MA (h : Int) (h : Int) t1 0 0 (h : Int)) wt1
  generalize (subMatrix MA 0 (h : Int) MA (h : Int) (h : Int) t1 0 0 (h : Int)).2 = T1 at wT1 ⊢
  rw [sum_matrix_eq MB MB t2 wB.2.1 wB.2.1 wt2.2.1]
  have wU1 := IsSquare_of_SameShape (SameShape_sumMatrix MB (h : Int) 0 MB (h : Int) (h : Int) t2 0 0 (h : Int)) wt2
  generalize (sumMatrix MB (h : Int) 0 MB (h : Int) (h : Int) t2 0 0 (h : Int)).2 = U1 at wU1 ⊢
  rw [Hsim hp0 T1 U1 P0 wT1 wU1 wP0]
  obtain ⟨P1, hp1, e1, wP1⟩ := Hrec hp0 T1 U1 P0 wT1 wP0
  rw [e1]
  simp only [Option.map_some', Option.some_bind]
  rw [copy_submatrix_eq P1 C0 wP1.2.1 wC0.2.1]
  have wC1 := IsSquare_of_SameShape (SameShape_copySubmatrix P1 0 0 C0 0 0 (h : Int)) wC0
  generalize (copySubmatrix P1 0 0 C0 0 0 (h : Int)).2 = C1 at wC1 ⊢
  -- product 2
  rw [sum_matrix_eq MA MA T1 wA.2.1 wA.2.1 wT1.2.1]
  have wT2 := IsSquare_of_SameShape (SameShape_sumMatrix MA 0 0 MA (h : Int) (h : Int) T1 0 0 (h : Int)) wT1
  generalize (sumMatrix MA 0 0 MA (h : Int) (h : Int) T1 0 0 (h : Int)).2 = T2 at wT2 ⊢
  rw [sum_matrix_eq MB MB U1 wB.2.1 wB.2.1 wU1.2.1]
  have wU2 := IsSquare_of_SameShape (SameShape_sumMatrix MB 0 0 MB (h : Int) (h : Int) U1 0 0 (h : Int)) wU1
  generalize (sumMatrix MB 0 0 MB (h : Int) (h : Int) U1 0 0 (h : Int)).2 = U2 at wU2 ⊢
  rw [Hsim hp1 T2 U2 P1 wT2 wU2 wP1]
  obtain ⟨P2, hp2, e2, wP2⟩ := Hrec hp1 T2 U2 P1 wT2 wP1
  rw [e2]
  simp only [Option.map_some', Option.some_bind]
  rw [add_submatrix_eq P2 C1 wP2.2.1 wC1.2.1]
  have wC2 := IsSquare_of_SameShape (SameShape_addSubmatrix P2 C1 0 0 (h : Int)) wC1
  generalize (addSubmatrix P2 C1 0 0 (h : Int)).2 = C2 at wC2 ⊢
  rw [copy_submatrix_eq P2 C2 wP2.2.1 wC2.2.1]
  have wC3 := IsSquare_of_SameShape (SameShape_copySubmatrix P2 0 0 C2 (h : Int) (h : Int) (h : Int)) wC2
  generalize (copySubmatrix P2 0 0 C2 (h : Int) (h : Int) (h : Int)).2 = C3 at wC3 ⊢
  -- product 3
  rw [sub_matrix_eq MA MA T2 wA.2.1 wA.2.1 wT2.2.1]
  have wT3 := IsSquare_of_SameShape (SameShape_subMatrix MA 0 0 MA (h : Int) 0 T2 0 0 (h : Int)) wT2
  generalize (subMatrix MA 0 0 MA (h : Int) 0 T2 0 0 (h : Int)).2 = T3 at wT3 ⊢
  rw [sum_matrix_eq MB MB U2 wB.2.1 wB.2.1 wU2.2.1]
  have wU3 := IsSquare_of_SameShape (SameShape_sumMatrix MB 0 0 MB 0 (h : Int) U2 0 0 (h : Int)) wU2
  generalize (sumMatrix MB 0 0 MB 0 (h : Int) U2 0 0 (h : Int)).2 = U3 at wU3 ⊢
  rw [Hsim hp2 T3 U3 P2 wT3 wU3 wP2]
  obtain ⟨P3, hp3, e3, wP3⟩ := Hrec hp2 T3 U3 P2 wT3 wP2
  rw [e3]
  simp only [Option.map_some', Option.some_bind]
  rw [sub_submatrix_eq P3 C3 wP3.2.1 wC3.2.1]
  have wC4 := IsSquare_of_SameShape (SameShape_subSubmatrix P3 C3 (h : Int) (h : Int) (h : Int)) wC3
  generalize (subSubmatrix P3 C3 (h : Int) (h : Int) (h : Int)).2 = C4 at wC4 ⊢
  -- product 4
  rw [sum_matrix_eq MA MA T3 wA.2.1 wA.2.1 wT3.2.1]
  have wT4 := IsSquare_of_SameShape (SameShape_sumMatrix MA 0 0 MA 0 (h : Int) T3 0 0 (h : Int)) wT3
  generalize (sumMatrix MA 0 0 MA 0 (h : Int) T3 0 0 (h : Int)).2 = T4 at wT4 ⊢
  rw [copy_submatrix_eq MB U3 wB.2.1 wU3.2.1]
  have wU4 := IsSquare_of_SameShape (SameShape_copySubmatrix MB (h : Int) (h : Int) U3 0 0 (h : Int)) wU3
  generalize (copySubmatrix MB (h : Int) (h : Int) U3 0 0 (h : Int)).2 = U4 at wU4 ⊢
  rw [Hsim hp3 T4 U4 P3 wT4 wU4 wP3]
  obtain ⟨P4, hp4, e4, wP4⟩ := Hrec hp3 T4 U4 P3 wT4 wP3
  rw [e4]
  simp only [Option.map_some', Option.some_bind]
  rw [sub_submatrix_eq P4 C4 wP4.2.1 wC4.2.1]
  have wC5 := IsSquare_of_SameShape (SameShape_subSubmatrix P4 C4 0 0 (h : Int)) wC4
  generalize (subSubmatrix P4 C4 0 0 (h : Int)).2 = C5 at wC5 ⊢
  rw [copy_submatrix_eq P4 C5 wP4.2.1 wC5.2.1]
  have wC6 := IsSquare_of_SameShape (SameShape_copySubmatrix P4 0 0 C5 0 (h : Int) (h : Int)) wC5
  generalize (copySubmatrix P4 0 0 C5 0 (h : Int) (h : Int)).2 = C6 at wC6 ⊢
  -- product 5
  rw [copy_submatrix_eq MA T4 wA.2.1 wT4.2.1]
  have wT5 := IsSquare_of_SameShape (SameShape_copySubmatrix MA 0 0 T4 0 0 (h : Int)) wT4
  generalize (copySubmatrix MA 0 0 T4 0 0 (h : Int)).2 = T5 at wT5 ⊢
  rw [sub_matrix_eq MB MB U4 wB.2.1 wB.2.1 wU4.2.1]
  have wU5 := IsSquare_of_SameShape (SameShape_subMatrix MB 0 (h : Int) MB (h : Int) (h : Int) U4 0 0 (h : Int)) wU4
  generalize (subMatrix MB 0 (h : Int) MB (h : Int) (h : Int) U4 0 0 (h : Int)).2 = U5 at wU5 ⊢
  rw [Hsim hp4 T5 U5 P4 wT5 wU5 wP4]
  obtain ⟨P5, hp5, e5, wP5⟩ := Hrec hp4 T5 U5 P4 wT5 wP4
  rw [e5]
  simp only [Option.map_some', Option.some_bind]
  rw [add_submatrix_eq P5 C6 wP5.2.1 wC6.2.1]
  have wC7 := IsSquare_of_SameShape (SameShape_addSubmatrix P5 C6 0 (h : Int) (h : Int)) wC6
  generalize (addSubmatrix P5 C6 0 (h : Int) (h : Int)).2 = C7 at wC7 ⊢
  rw [add_submatrix_eq P5 C7 wP5.2.1 wC7.2.1]
  have wC8 := IsSquare_of_SameShape (SameShape_addSubmatrix P5 C7 (h : Int) (h : Int) (h : Int)) wC7
  generalize (addSubmatrix P5 C7 (h : Int) (h : Int) (h : Int)).2 = C8 at wC8 ⊢
  -- product 6
  rw [copy_submatrix_eq MA T5 wA.2.1 wT5.2.1]
  have wT6 := IsSquare_of_SameShape (SameShape_copySubmatrix MA (h : Int) (h : Int) T5 0 0 (h : Int)) wT5
  generalize (copySubmatrix MA (h : Int) (h : Int) T5 0 0 (h : Int)).2 = T6 at wT6 ⊢
  rw [sub_matrix_eq MB MB U5 wB.2.1 wB.2.1 wU5.2.1]
  have wU6 := IsSquare_of_SameShape (SameShape_subMatrix MB (h : Int) 0 MB 0 0 U5 0 0 (h : Int)) wU5
  generalize (subMatrix MB (h : Int) 0 MB 0 0 U5 0 0 (h : Int)).2 = U6 at wU6 ⊢
  rw [Hsim hp5 T6 U6 P5 wT6 wU6 wP5]
  obtain ⟨P6, hp6, e6, wP6⟩ := Hrec hp5 T6 U6 P5 wT6 wP5
  rw [e6]
  simp only [Option.map_some', Option.some_bind]
  rw [add_submatrix_eq P6 C8 wP6.2.1 wC8.2.1]
  have wC9 := IsSquare_of_SameShape (SameShape_addSubmatrix P6 C8 0 0 (h : Int)) wC8
  generalize (addSubmatrix P6 C8 0 0 (h : Int)).2 = C9 at wC9 ⊢
  rw [copy_submatrix_eq P6 C9 wP6.2.1 wC9.2.1]
  have wC10 := IsSquare_of_SameShape (SameShape_copySubmatrix P6 0 0 C9 (h : Int) 0 (h : Int)) wC9
  generalize (copySubmatrix P6 0 0 C9 (h : Int) 0 (h : Int)).2 = C10 at wC10 ⊢
  -- product 7
  rw [sum_matrix_eq MA MA T6 wA.2.1 wA.2.1 wT6.2.1]
  have wT7 := IsSquare_of_SameShape (SameShape_sumMatrix MA (h : Int) 0 MA (h : Int) (h : Int) T6 0 0 (h : Int)) wT6
  generalize (sumMatrix MA (h : Int) 0 MA (h : Int) (h : Int) T6 0 0 (h : Int)).2 = T7 at wT7 ⊢
  rw [copy_submatrix_eq MB U6 wB.2.1 wU6.2.1]
  have wU7 := IsSquare_of_SameShape (SameShape_copySubmatrix MB 0 0 U6 0 0 (h : Int)) wU6
  generalize (copySubmatrix MB 0 0 U6 0 0 (h : Int)).2 = U7 at wU7 ⊢
  rw [Hsim hp6 T7 U7 P6 wT7 wU7 wP6]
  obtain ⟨P7, hp7, e7, wP7⟩ := Hrec hp6 T7 U7 P6 wT7 wP6
  rw [e7]
  simp only [Option.map_some', Option.some_bind]
  rw [add_submatrix_eq P7 C10 wP7.2.1 wC10.2.1]
  have wC11 := IsSquare_of_SameShape (SameShape_addSubmatrix P7 C10 (h : Int) 0 (h : Int)) wC10
  generalize (addSubmatrix P7 C10 (h : Int) 0 (h : Int)).2 = C11 at wC11 ⊢
  rw [sub_submatrix_eq P7 C11 wP7.2.1 wC11.2.1]
  have wC12 := IsSquare_of_SameShape (SameShape_subSubmatrix P7 C11 (h : Int) (h : Int) (h : Int)) wC11
  generalize (subSubmatrix P7 C11 (h : Int) (h : Int) (h : Int)).2 = C12 at wC12 ⊢
  simp only [free, freeMatrix]

theorem strassenMul_copy_eq (junk : Nat → Nat → Int) (fuel : Nat) :
    StrassenMulFile.strassenMul junk fuel = strassenMul junk fuel := by
  induction fuel with
  | zero => rfl
  | succ fuel ih =>
    funext hp A B C
    show (if A.row = 1 then _ else
        StrassenMulFile.strassenFrame junk (StrassenMulFile.strassenMul junk fuel) hp A B C) =
      (if A.row = 1 then _ else strassenFrame junk (strassenMul junk fuel) hp A B C)
    rw [ih]
    rfl

/-- Function `strassen_mul` of `strassenV1.c` on the element buffers of well-formed
matrices of side `n ≥ 1` computes the element buffer of what `strassenMul`
computes. -/
theorem strassen_mul_sim (junk : Nat → Nat → Int) (fuel : Nat) :
    ∀ (n : Nat), 1 ≤ n → n < 2 ^ fuel → ∀ (hp : Heap) (MA MB MC : Matrix),
      MA.IsSquare n → MB.IsSquare n → MC.IsSquare n →
      strassen_mul junk fuel hp MA.matrix MB.matrix MC.matrix (n : Int) =
        (strassenMul junk fuel hp MA MB MC).map (fun r => (r.1.matrix, r.2)) := by
  induction fuel with
  | zero => intro n h1 h2; simp at h2; omega
  | succ fuel ih =>
    intro n h1 h2 hp MA MB MC wA wB wC
    by_cases hn : n = 1
    · subst hn
      have hX1 : MA.row = 1 := by rw [wA.1]; rfl
      rw [strassenMul_base junk fuel hp hX1]
      simp only [strassen_mul, Nat.cast_one, if_true, Option.map_some', wA.2.1, wB.2.1,
        wC.2.1]
      rfl
    · have hX1 : MA.row ≠ 1 := by
        rw [wA.1]; intro h; exact hn (by exact_mod_cast h)
      have hn1 : ¬ ((n : Int) = 1) := fun h => hn (by exact_mod_cast h)
      rw [strassenMul_step junk fuel hp hX1]
      simp only [strassen_mul, hn1, if_false]
      have hpow : 2 ^ (fuel + 1) = 2 ^ fuel + 2 ^ fuel := by rw [pow_succ]; omega
      exact strassen_mulFrame_sim junk (strassen_mul junk fuel) (strassenMul junk fuel)
        (n := n) (h := n / 2) rfl
        (fun hp X Y Z hX hZ => by
          obtain ⟨Z', hp', e, w, _⟩ :=
            strassenMul_total junk fuel (n / 2) (by omega) (by omega) hp X Y Z hX.1 hZ
          exact ⟨Z', hp', e, w⟩)
        (fun hp X Y Z wX wY wZ => ih (n / 2) (by omega) (by omega) hp X Y Z wX wY wZ)
        hp wA wB wC

/-- C33: the duplicate variants have not drifted. For every side `n ≥ 1` and all
`A`, `B`, `C` of side `n`: `strassenMul` of `StrassenMul/strassen.c` is the same
function as `strassenMul` of `matrix_operation/matrix.c`, and `strassen_mul(A, B,
C, n)` of `StrassenMul/strassenV1.c`, run on the element buffers, returns and
leaves in the buffer `C` exactly the elements that `strassenMul` leaves in `C`
(with the same allocations); the diagnostic printing is left out. -/
theorem C33_copies_agree (junk : Nat → Nat → Int) (fuel n : Nat) (hn : 1 ≤ n)
    (hfuel : n < 2 ^ fuel) (hp : Heap) (A B C : Matrix) (hA : A.IsSquare n)
    (hB : B.IsSquare n) (hC : C.IsSquare n) :
    ∃ C' hp', strassenMul junk fuel hp A B C = some (C', hp') ∧
      StrassenMulFile.strassenMul junk fuel hp A B C = some (C', hp') ∧
      strassen_mul junk fuel hp A.matrix B.matrix C.matrix (n : Int) =
        some (C'.matrix, hp') := by
  obtain ⟨C', hp', e, _⟩ := strassenMul_total junk fuel n hn hfuel hp A B C hA.1 hC
  refine ⟨C', hp', e, by rw [strassenMul_copy_eq, e], ?_⟩
  rw [strassen_mul_sim junk fuel n hn hfuel hp A B C hA hB hC, e]
  rfl

/-- C33, witness: side 2 and side 3 (on which all three copies leave the last row
and column of `C` zero). -/
theorem C33_copies_agree_witness :
    strassen_mul (fun _ _ => 7) 2 ⟨0, 0⟩ [1, 2, 3, 4] [5, 6, 7, 8] [9, 9, 9, 9] 2 =
      some ([19, 22, 43, 50], ⟨0, 3⟩) ∧
    StrassenMulFile.strassenMul (fun _ _ => 7) 2 ⟨0, 0⟩ ⟨[1, 2, 3, 4], 2, 2⟩
        ⟨[5, 6, 7, 8], 2, 2⟩ ⟨[9, 9, 9, 9], 2, 2⟩ =
      some (⟨[19, 22, 43, 50], 2, 2⟩, ⟨0, 3⟩) ∧
    ∃ C' hp', strassenMul (fun _ _ => 7) 2 ⟨0, 0⟩ ⟨[1, 2, 3, 4, 5, 6, 7, 8, 9], 3, 3⟩
        ⟨[1, 1, 1, 1, 1, 1, 1, 1, 1], 3, 3⟩ ⟨List.replicate 9 5, 3, 3⟩ = some (C', hp') ∧
      StrassenMulFile.strassenMul (fun _ _ => 7) 2 ⟨0, 0⟩ ⟨[1, 2, 3, 4, 5, 6, 7, 8, 9], 3, 3⟩
        ⟨[1, 1, 1, 1, 1, 1, 1, 1, 1], 3, 3⟩ ⟨List.replicate 9 5, 3, 3⟩ = some (C', hp') ∧
      strassen_mul (fun _ _ => 7) 2 ⟨0, 0⟩ [1, 2, 3, 4, 5, 6, 7, 8, 9]
        [1, 1, 1, 1, 1, 1, 1, 1, 1] (List.replicate 9 5) ((3 : Nat) : Int) =
        some (C'.matrix, hp') :=
  ⟨by decide, by decide, C33_copies_agree (fun _ _ => 7) 2 3 (by decide) (by decide) ⟨0, 0⟩
    ⟨[1, 2, 3, 4, 5, 6, 7, 8, 9], 3, 3⟩ ⟨[1, 1, 1, 1, 1, 1, 1, 1, 1], 3, 3⟩
    ⟨List.replicate 9 5, 3, 3⟩ ⟨rfl, rfl, rfl⟩ ⟨rfl, rfl, rfl⟩ ⟨rfl, rfl, rfl⟩⟩

/-! ## Arithmetic modulo `2 ^ 32` -/

theorem wrap32_modEq (x : Int) : wrap32 x ≡ x [ZMOD 2 ^ 32] := by
  unfold wrap32
  have h : (x + 2 ^ 31) % 2 ^ 32 ≡ x + 2 ^ 31 [ZMOD 2 ^ 32] := Int.mod_modEq _ _
  have := h.sub_right (2 ^ 31)
  simpa using this

theorem wrap32_congr {x y : Int} (h : x ≡ y [ZMOD 2 ^ 32]) : wrap32 x = wrap32 y := by
  unfold wrap32
  have : (x + 2 ^ 31) % 2 ^ 32 = (y + 2 ^ 31) % 2 ^ 32 := h.add_right (2 ^ 31)
  rw [this]

theorem wrap32_add (a b : Int) : wrap32 (wrap32 a + wrap32 b) = wrap32 (a + b) :=
  wrap32_congr ((wrap32_modEq a).add (wrap32_modEq b))

theorem wrap32_sub (a b : Int) : wrap32 (wrap32 a - wrap32 b) = wrap32 (a - b) :=
  wrap32_congr ((wrap32_modEq a).sub (wrap32_modEq b))

theorem wrap32_mul (a b : Int) : wrap32 (wrap32 a * wrap32 b) = wrap32 (a * b) :=
  wrap32_congr ((wrap32_modEq a).mul (wrap32_modEq b))

theorem wrap32_add_mul (c a b : Int) :
    wrap32 (wrap32 c + wrap32 (wrap32 a * wrap32 b)) = wrap32 (c + a * b) :=
  wrap32_congr ((wrap32_modEq c).add
    ((wrap32_modEq _).trans ((wrap32_modEq a).mul (wrap32_modEq b))))

theorem wrap32_zero : wrap32 0 = 0 := by
  unfold wrap32; norm_num

/-! ## The 32-bit program computes the residues of the exact program -/

theorem toInt32_col (M : Matrix) : M.toInt32.col = M.col :=
  rfl

theorem toInt32_row (M : Matrix) : M.toInt32.row = M.row :=
  rfl

theorem matrixElem_toInt32 (M : Matrix) (r c cols : Int) :
    matrixElem M.toInt32.matrix r c cols = wrap32 (matrixElem M.matrix r c cols) := by
  unfold matrixElem rdBuf Matrix.toInt32
  split
  · simp only [List.getD_eq_getElem?_getD, List.getElem?_map]
    cases M.matrix[(r * cols + c).toNat]? with
    | none => simp [wrap32_zero]
    | some v => simp
  · exact wrap32_zero.symm

theorem store_toInt32 (M : Matrix) (r c cols v : Int) :
    M.toInt32.store r c cols (wrap32 v) = (M.store r c cols v).toInt32 := by
  unfold Matrix.store matrixElemSet wrBuf Matrix.toInt32
  split
  · simp [List.map_set]
  · rfl

theorem cell_toInt32 (M : Matrix) (i j : Nat) : M.toInt32.cell i j = wrap32 (M.cell i j) :=
  matrixElem_toInt32 M _ _ _

theorem IsSquare_toInt32 {M : Matrix} {n : Nat} (h : M.IsSquare n) : M.toInt32.IsSquare n :=
  ⟨h.1, h.2.1, by simp [Matrix.toInt32, h.2.2]⟩

theorem toInt32_of_IsInt32 {M : Matrix} (h : M.IsInt32) : M.toInt32 = M := by
  unfold Matrix.toInt32
  have : M.matrix.map wrap32 = M.matrix := by
    conv_rhs => rw [← List.map_id M.matrix]
    exact List.map_congr_left (fun x hx => wrap32_of_range (h x hx).1 (h x hx).2)
  rw [this]

theorem blockLoop_toInt32 (s : Int) (body' body : Int → Int → Matrix → Matrix)
    (hbody : ∀ (i j : Int) (D : Matrix), body' i j D.toInt32 = (body i j D).toInt32)
    (D0 : Matrix) :
    forLoop 0 s (fun i D => forLoop 0 s (fun j D => body' i j D) D) D0.toInt32 =
      (forLoop 0 s (fun i D => forLoop 0 s (fun j D => body i j D) D) D0).toInt32 :=
  (forLoop_sim Matrix.toInt32 (fun _ => True) 0 s
    (fun i D => forLoop 0 s (fun j D => body' i j D) D)
    (fun i D => forLoop 0 s (fun j D => body i j D) D)
    (fun i D _ => ⟨(forLoop_sim Matrix.toInt32 (fun _ => True) 0 s
      (fun j D => body' i j D) (fun j D => body i j D)
      (fun j D' _ => ⟨hbody i j D', trivial⟩) D trivial).1, trivial⟩) D0 trivial).1

theorem sumMatrix32_toInt32 (A B C : Matrix) (rA cA rB cB rC cC s : Int) :
    (sumMatrix32 A.toInt32 rA cA B.toInt32 rB cB C.toInt32 rC cC s).2 =
      (sumMatrix A rA cA B rB cB C rC cC s).2.toInt32 := by
  unfold sumMatrix32 sumMatrix
  dsimp only
  refine blockLoop_toInt32 s _ _ (fun i j D => ?_) C
  beta_reduce
  rw [toInt32_col, toInt32_col, toInt32_col, matrixElem_toInt32, matrixElem_toInt32,
      wrap32_add, store_toInt32]

theorem subMatrix32_toInt32 (A B C : Matrix) (rA cA rB cB rC cC s : Int) :
    (subMatrix32 A.toInt32 rA cA B.toInt32 rB cB C.toInt32 rC cC s).2 =
      (subMatrix A rA cA B rB cB C rC cC s).2.toInt32 := by
  unfold subMatrix32 subMatrix
  dsimp only
  refine blockLoop_toInt32 s _ _ (fun i j D => ?_) C
  beta_reduce
  rw [toInt32_col, toInt32_col, toInt32_col, matrixElem_toInt32, matrixElem_toInt32,
      wrap32_sub, store_toInt32]

theorem addSubmatrix32_toInt32 (A B : Matrix) (rB cB s : Int) :
    (addSubmatrix32 A.toInt32 B.toInt32 rB cB s).2 = (addSubmatrix A B rB cB s).2.toInt32 := by
  unfold addSubmatrix32 addSubmatrix
  dsimp only
  refine blockLoop_toInt32 s _ _ (fun i j D => ?_) B
  beta_reduce
  rw [toInt32_col, toInt32_col, matrixElem_toInt32, matrixElem_toInt32,
      wrap32_add, store_toInt32]

theorem subSubmatrix32_toInt32 (A B : Matrix) (rB cB s : Int) :
    (subSubmatrix32 A.toInt32 B.toInt32 rB cB s).2 = (subSubmatrix A B rB cB s).2.toInt32 := by
  unfold subSubmatrix32 subSubmatrix
  dsimp only
  refine blockLoop_toInt32 s _ _ (fun i j D => ?_) B
  beta_reduce
  rw [toInt32_col, toInt32_col, matrixElem_toInt32, matrixElem_toInt32,
      wrap32_sub, store_toInt32]

theorem copySubmatrix_toInt32 (A C : Matrix) (rA cA rC cC s : Int) :
    (copySubmatrix A.toInt32 rA cA C.toInt32 rC cC s).2 =
      (copySubmatrix A rA cA C rC cC s).2.toInt32 := by
  unfold copySubmatrix
  dsimp only
  refine blockLoop_toInt32 s _ _ (fun i j D => ?_) C
  beta_reduce
  rw [toInt32_col, toInt32_col, matrixElem_toInt32, store_toInt32]

theorem initMatrixZeros_toInt32 (C : Matrix) :
    initMatrixZeros C.toInt32 = (initMatrixZeros C).toInt32 := by
  unfold initMatrixZeros
  rw [toInt32_row]
  exact (forLoop_sim Matrix.toInt32 (fun _ => True) 0 C.row
    (fun i mat => forLoop 0 mat.col (fun j mat => mat.store i j mat.col 0) mat)
    (fun i mat => forLoop 0 mat.col (fun j mat => mat.store i j mat.col 0) mat)
    (fun i D _ => ⟨by
      beta_reduce
      rw [toInt32_col]
      exact (forLoop_sim Matrix.toInt32 (fun _ => True) 0 D.col
        (fun j mat => mat.store i j mat.col 0) (fun j mat => mat.store i j mat.col 0)
        (fun j D' _ => ⟨by
          beta_reduce
          rw [toInt32_col]
          conv_lhs => rw [← wrap32_zero]
          exact store_toInt32 D' _ _ _ 0, trivial⟩) D trivial).1, trivial⟩) C trivial).1

theorem mul32_toInt32 (A B C : Matrix) :
    mul32 A.toInt32 B.toInt32 C.toInt32 = (mul A B C).toInt32 := by
  unfold mul32 mul
  simp only [toInt32_row, toInt32_col]
  refine (forLoop_sim Matrix.toInt32 (fun _ => True) 0 A.row _ _ (fun i D _ => ⟨?_, trivial⟩)
    C trivial).1
  beta_reduce
  refine (forLoop_sim Matrix.toInt32 (fun _ => True) 0 A.col _ _ (fun j D' _ => ⟨?_, trivial⟩)
    D trivial).1
  beta_reduce
  rw [toInt32_row, matrixElem_toInt32, matrixElem_toInt32, wrap32_mul, store_toInt32]
  refine (forLoop_sim Matrix.toInt32 (fun _ => True) 1 A.row _ _ (fun k E _ => ⟨?_, trivial⟩)
    _ trivial).1
  beta_reduce
  rw [toInt32_row, matrixElem_toInt32, matrixElem_toInt32, matrixElem_toInt32,
    wrap32_add_mul, store_toInt32]

theorem allocMatrix_wrap_fst (junk : Nat → Nat → Int) (hp : Heap) (s : Int) :
    (allocMatrix (fun a i => wrap32 (junk a i)) hp s).1 = (allocMatrix junk hp s).1.toInt32 := by
  simp [allocMatrix, Matrix.toInt32, List.map_map, Function.comp_def]

theorem allocMatrix_wrap_snd (junk : Nat → Nat → Int) (hp : Heap) (s : Int) :
    (allocMatrix (fun a i => wrap32 (junk a i)) hp s).2 = (allocMatrix junk hp s).2 :=
  rfl

/-- One frame of the 32-bit program, run on the residues of the operands and with
fresh storage holding residues, computes the residues of what the exact frame
computes, if the callees correspond in the same way on side `n / 2` and `recur`
returns there. -/
theorem strassenFrame32_sim (junk : Nat → Nat → Int)
    (recur32 recur : Heap → Matrix → Matrix → Matrix → Option (Matrix × Heap)) {n h : Nat}
    (hh : h = n / 2)
    (Hrec : ∀ (hp : Heap) (X Y Z : Matrix), X.IsSquare h → Z.IsSquare h →
      ∃ Z' hp', recur hp X Y Z = some (Z', hp') ∧ Z'.IsSquare h)
    (Hsim : ∀ (hp : Heap) (X Y Z : Matrix), X.IsSquare h → Y.IsSquare h → Z.IsSquare h →
      recur32 hp X.toInt32 Y.toInt32 Z.toInt32 =
        (recur hp X Y Z).map (fun r => (r.1.toInt32, r.2)))
    (hp : Heap) {MA MB MC : Matrix} (wA : MA.IsSquare n) (wC : MC.IsSquare n) :
    strassenFrame32 (fun a i => wrap32 (junk a i)) recur32 hp MA.toInt32 MB.toInt32 MC.toInt32 =
      (strassenFrame junk recur hp MA MB MC).map (fun r => (r.1.toInt32, r.2)) := by
  have hside : MA.row.tdiv 2 = (h : Int) := by
    rw [wA.1, Int.tdiv_eq_ediv (by omega) (by omega), hh]; omega
  unfold strassenFrame32 strassenFrame
  simp only [toInt32_row, hside, allocMatrix_wrap_fst, allocMatrix_wrap_snd]
  have wt1 := allocMatrix_IsSquare junk hp h
  have wt2 := allocMatrix_IsSquare junk (allocMatrix junk hp h).2 h
  have wP0 := allocMatrix_IsSquare junk (allocMatrix junk (allocMatrix junk hp h).2 h).2 h
  generalize (allocMatrix junk (allocMatrix junk (allocMatrix junk hp h).2 h).2 h).2 = hp0
  generalize (allocMatrix junk (allocMatrix junk (allocMatrix junk hp h).2 h).2 h).1 = P0
    at wP0 ⊢
  generalize (allocMatrix junk (allocMatrix junk hp h).2 h).1 = t2 at wt2 ⊢
  generalize (allocMatrix junk hp h).1 = t1 at wt1 ⊢
  rw [initMatrixZeros_toInt32 MC]
  have wC0 := (initMatrixZeros_spec wC).1
  generalize initMatrixZeros MC = C0 at wC0 ⊢
  -- product 1
  rw [subMatrix32_toInt32 MA MA t1]
  have wT1 := IsSquare_of_SameShape (SameShape_subMatrix MA 0 (h : Int) MA (h : Int) (h : Int) t1 0 0 (h : Int)) wt1
  generalize (subMatrix MA 0 (h : Int) MA (h : Int) (h : Int) t1 0 0 (h : Int)).2 = T1 at wT1 ⊢
  rw [sumMatrix32_toInt32 MB MB t2]
  have wU1 := IsSquare_of_SameShape (SameShape_sumMatrix MB (h : Int) 0 MB (h : Int) (h : Int) t2 0 0 (h : Int)) wt2
  generalize (sumMatrix MB (h : Int) 0 MB (h : Int) (h : Int) t2 0 0 (h : Int)).2 = U1 at wU1 ⊢
  rw [Hsim hp0 T1 U1 P0 wT1 wU1 wP0]
  obtain ⟨P1, hp1, e1, wP1⟩ := Hrec hp0 T1 U1 P0 wT1 wP0
  rw [e1]
  simp only [Option.map_some', Option.some_bind]
  rw [copySubmatrix_toInt32 P1 C0]
  have wC1 := IsSquare_of_SameShape (SameShape_copySubmatrix P1 0 0 C0 0 0 (h : Int)) wC0
  generalize (copySubmatrix P1 0 0 C0 0 0 (h : Int)).2 = C1 at wC1 ⊢
  -- product 2
  rw [sumMatrix32_toInt32 MA MA T1]
  have wT2 := IsSquare_of_SameShape (SameShape_sumMatrix MA 0 0 MA (h : Int) (h : Int) T1 0 0 (h : Int)) wT1
  generalize (sumMatrix MA 0 0 MA (h : Int) (h : Int) T1 0 0 (h : Int)).2 = T2 at wT2 ⊢
  rw [sumMatrix32_toInt32 MB MB U1]
  have wU2 := IsSquare_of_SameShape (SameShape_sumMatrix MB 0 0 MB (h : Int) (h : Int) U1 0 0 (h : Int)) wU1
  generalize (sumMatrix MB 0 0 MB (h : Int) (h : Int) U1 0 0 (h : Int)).2 = U2 at wU2 ⊢
  rw [Hsim hp1 T2 U2 P1 wT2 wU2 wP1]
  obtain ⟨P2, hp2, e2, wP2⟩ := Hrec hp1 T2 U2 P1 wT2 wP1
  rw [e2]
  simp only [Option.map_some', Option.some_bind]
  rw [addSubmatrix32_toInt32 P2 C1]
  have wC2 := IsSquare_of_SameShape (SameShape_addSubmatrix P2 C1 0 0 (h : Int)) wC1
  generalize (addSubmatrix P2 C1 0 0 (h : Int)).2 = C2 at wC2 ⊢
  rw [copySubmatrix_toInt32 P2 C2]
  have wC3 := IsSquare_of_SameShape (SameShape_copySubmatrix P2 0 0 C2 (h : Int) (h : Int) (h : Int)) wC2
  generalize (copySubmatrix P2 0 0 C2 (h : Int) (h : Int) (h : Int)).2 = C3 at wC3 ⊢
  -- product 3
  rw [subMatrix32_toInt32 MA MA T2]
  have wT3 := IsSquare_of_SameShape (SameShape_subMatrix MA 0 0 MA (h : Int) 0 T2 0 0 (h : Int)) wT2
  generalize (subMatrix MA 0 0 MA (h : Int) 0 T2 0 0 (h : Int)).2 = T3 at wT3 ⊢
  rw [sumMatrix32_toInt32 MB MB U2]
  have wU3 := IsSquare_of_SameShape (SameShape_sumMatrix MB 0 0 MB 0 (h : Int) U2 0 0 (h : Int)) wU2
  generalize (sumMatrix MB 0 0 MB 0 (h : Int) U2 0 0 (h : Int)).2 = U3 at wU3 ⊢
  rw [Hsim hp2 T3 U3 P2 wT3 wU3 wP2]
  obtain ⟨P3, hp3, e3, wP3⟩ := Hrec hp2 T3 U3 P2 wT3 wP2
  rw [e3]
  simp only [Option.map_some', Option.some_bind]
  rw [subSubmatrix32_toInt32 P3 C3]
  have wC4 := IsSquare_of_SameShape (SameShape_subSubmatrix P3 C3 (h : Int) (h : Int) (h : Int)) wC3
  generalize (subSubmatrix P3 C3 (h : Int) (h : Int) (h : Int)).2 = C4 at wC4 ⊢
  -- product 4
  rw [sumMatrix32_toInt32 MA MA T3]
  have wT4 := IsSquare_of_SameShape (SameShape_sumMatrix MA 0 0 MA 0 (h : Int) T3 0 0 (h : Int)) wT3
  generalize (sumMatrix MA 0 0 MA 0 (h : Int) T3 0 0 (h : Int)).2 = T4 at wT4 ⊢
  rw [copySubmatrix_toInt32 MB U3]
  have wU4 := IsSquare_of_SameShape (SameShape_copySubmatrix MB (h : Int) (h : Int) U3 0 0 (h : Int)) wU3
  generalize (copySubmatrix MB (h : Int) (h : Int) U3 0 0 (h : Int)).2 = U4 at wU4 ⊢
  rw [Hsim hp3 T4 U4 P3 wT4 wU4 wP3]
  obtain ⟨P4, hp4, e4, wP4⟩ := Hrec hp3 T4 U4 P3 wT4 wP3
  rw [e4]
  simp only [Option.map_some', Option.some_bind]
  rw [subSubmatrix32_toInt32 P4 C4]
  have wC5 := IsSquare_of_SameShape (SameShape_subSubmatrix P4 C4 0 0 (h : Int)) wC4
  generalize (subSubmatrix P4 C4 0 0 (h : Int)).2 = C5 at wC5 ⊢
  rw [copySubmatrix_toInt32 P4 C5]
  have wC6 := IsSquare_of_SameShape (SameShape_copySubmatrix P4 0 0 C5 0 (h : Int) (h : Int)) wC5
  generalize (copySubmatrix P4 0 0 C5 0 (h : Int) (h : Int)).2 = C6 at wC6 ⊢
  -- product 5
  rw [copySubmatrix_toInt32 MA T4]
  have wT5 := IsSquare_of_SameShape (SameShape_copySubmatrix MA 0 0 T4 0 0 (h : Int)) wT4
  generalize (copySubmatrix MA 0 0 T4 0 0 (h : Int)).2 = T5 at wT5 ⊢
  rw [subMatrix32_toInt32 MB MB U4]
  have wU5 := IsSquare_of_SameShape (SameShape_subMatrix MB 0 (h : Int) MB (h : Int) (h : Int) U4 0 0 (h : Int)) wU4
  generalize (subMatrix MB 0 (h : Int) MB (h : Int) (h : Int) U4 0 0 (h : Int)).2 = U5 at wU5 ⊢
  rw [Hsim hp4 T5 U5 P4 wT5 wU5 wP4]
  obtain ⟨P5, hp5, e5, wP5⟩ := Hrec hp4 T5 U5 P4 wT5 wP4
  rw [e5]
  simp only [Option.map_some', Option.some_bind]
  rw [addSubmatrix32_toInt32 P5 C6]
  have wC7 := IsSquare_of_SameShape (SameShape_addSubmatrix P5 C6 0 (h : Int) (h : Int)) wC6
  generalize (addSubmatrix P5 C6 0 (h : Int) (h : Int)).2 = C7 at wC7 ⊢
  rw [addSubmatrix32_toInt32 P5 C7]
  have wC8 := IsSquare_of_SameShape (SameShape_addSubmatrix P5 C7 (h : Int) (h : Int) (h : Int)) wC7
  generalize (addSubmatrix P5 C7 (h : Int) (h : Int) (h : Int)).2 = C8 at wC8 ⊢
  -- product 6
  rw [copySubmatrix_toInt32 MA T5]
  have wT6 := IsSquare_of_SameShape (SameShape_copySubmatrix MA (h : Int) (h : Int) T5 0 0 (h : Int)) wT5
  generalize (copySubmatrix MA (h : Int) (h : Int) T5 0 0 (h : Int)).2 = T6 at wT6 ⊢
  rw [subMatrix32_toInt32 MB MB U5]
  have wU6 := IsSquare_of_SameShape (SameShape_subMatrix MB (h : Int) 0 MB 0 0 U5 0 0 (h : Int)) wU5
  generalize (subMatrix MB (h : Int) 0 MB 0 0 U5 0 0 (h : Int)).2 = U6 at wU6 ⊢
  rw [Hsim hp5 T6 U6 P5 wT6 wU6 wP5]
  obtain ⟨P6, hp6, e6, wP6⟩ := Hrec hp5 T6 U6 P5 wT6 wP5
  rw [e6]
  simp only [Option.map_some', Option.some_bind]
  rw [addSubmatrix32_toInt32 P6 C8]
  have wC9 := IsSquare_of_SameShape (SameShape_addSubmatrix P6 C8 0 0 (h : Int)) wC8
  generalize (addSubmatrix P6 C8 0 0 (h : Int)).2 = C9 at wC9 ⊢
  rw [copySubmatrix_toInt32 P6 C9]
  have wC10 := IsSquare_of_SameShape (SameShape_copySubmatrix P6 0 0 C9 (h : Int) 0 (h : Int)) wC9
  generalize (copySubmatrix P6 0 0 C9 (h : Int) 0 (h : Int)).2 = C10 at wC10 ⊢
  -- product 7
  rw [sumMatrix32_toInt32 MA MA T6]
  have wT7 := IsSquare_of_SameShape (SameShape_sumMatrix MA (h : Int) 0 MA (h : Int) (h : Int) T6 0 0 (h : Int)) wT6
  generalize (sumMatrix MA (h : Int) 0 MA (h : Int) (h : Int) T6 0 0 (h : Int)).2 = T7 at wT7 ⊢
  rw [copySubmatrix_toInt32 MB U6]
  have wU7 := IsSquare_of_SameShape (SameShape_copySubmatrix MB 0 0 U6 0 0 (h : Int)) wU6
  generalize (copySubmatrix MB 0 0 U6 0 0 (h : Int)).2 = U7 at wU7 ⊢
  rw [Hsim hp6 T7 U7 P6 wT7 wU7 wP6]
  obtain ⟨P7, hp7, e7, wP7⟩ := Hrec hp6 T7 U7 P6 wT7 wP6
  rw [e7]
  simp only [Option.map_some', Option.some_bind]
  rw [addSubmatrix32_toInt32 P7 C10]
  have wC11 := IsSquare_of_SameShape (SameShape_addSubmatrix P7 C10 (h : Int) 0 (h : Int)) wC10
  generalize (addSubmatrix P7 C10 (h : Int) 0 (h : Int)).2 = C11 at wC11 ⊢
  rw [subSubmatrix32_toInt32 P7 C11]
  have wC12 := IsSquare_of_SameShape (SameShape_subSubmatrix P7 C11 (h : Int) (h : Int) (h : Int)) wC11
  generalize (subSubmatrix P7 C11 (h : Int) (h : Int) (h : Int)).2 = C12 at wC12 ⊢
  simp only [freeMatrix]

/-- The 32-bit `strassenMul`, run on the residues of well-formed operands of side
`n ≥ 1`, computes the residues of what the exact `strassenMul` computes. -/
theorem strassenMul32_sim (junk : Nat → Nat → Int) (fuel : Nat) :
    ∀ (n : Nat), 1 ≤ n → n < 2 ^ fuel → ∀ (hp : Heap) (MA MB MC : Matrix),
      MA.IsSquare n → MB.IsSquare n → MC.IsSquare n →
      strassenMul32 (fun a i => wrap32 (junk a i)) fuel hp MA.toInt32 MB.toInt32 MC.toInt32 =
        (strassenMul junk fuel hp MA MB MC).map (fun r => (r.1.toInt32, r.2)) := by
  induction fuel with
  | zero => intro n h1 h2; simp at h2; omega
  | succ fuel ih =>
    intro n h1 h2 hp MA MB MC wA wB wC
    by_cases hn : n = 1
    · subst hn
      have hX1 : MA.row = 1 := by rw [wA.1]; rfl
      rw [strassenMul_base junk fuel hp hX1]
      simp only [strassenMul32, toInt32_row, hX1, if_true, Option.map_some', toInt32_col,
        matrixElem_toInt32, wrap32_mul, store_toInt32]
    · have hX1 : MA.row ≠ 1 := by
        rw [wA.1]; intro h; exact hn (by exact_mod_cast h)
      rw [strassenMul_step junk fuel hp hX1]
      simp only [strassenMul32, toInt32_row, hX1, if_false]
      have hpow : 2 ^ (fuel + 1) = 2 ^ fuel + 2 ^ fuel := by rw [pow_succ]; omega
      exact strassenFrame32_sim junk (strassenMul32 (fun a i => wrap32 (junk a i)) fuel)
        (strassenMul junk fuel) (n := n) (h := n / 2) rfl
        (fun hp X Y Z hX hZ => by
          obtain ⟨Z', hp', e, w, _⟩ :=
            strassenMul_total junk fuel (n / 2) (by omega) (by omega) hp X Y Z hX.1 hZ
          exact ⟨Z', hp', e, w⟩)
        (fun hp X Y Z wX wY wZ => ih (n / 2) (by omega) (by omega) hp X Y Z wX wY wZ)
        hp wA wC

/-- C32: agreement under 32-bit wraparound. With every `+`, `-` and `*` on the
elements taken modulo `2 ^ 32` (two's complement), on every power-of-two side and
for all `A`, `B` holding 32-bit values, `strassenMul` returns exactly the `C` that
`mul` produces; every entry is the residue of the entry of the true product, so
the true product itself wherever its entries fit in 32 bits, whether or not the
intermediate sums and products of Strassen's formulas overflow. -/
theorem C32_wraparound_agreement (junk : Nat → Nat → Int) (k fuel : Nat) (hfuel : k < fuel)
    (hp : Heap) (A B C : Matrix) (hA : A.IsSquare (2 ^ k)) (hB : B.IsSquare (2 ^ k))
    (hC : C.IsSquare (2 ^ k)) (rA : A.IsInt32) (rB : B.IsInt32) (rC : C.IsInt32)
    (hjunk : ∀ a i, -2 ^ 31 ≤ junk a i ∧ junk a i < 2 ^ 31) :
    (∃ hp', strassenMul32 junk fuel hp A B C = some (mul32 A B C, hp')) ∧
    (∀ i j, i < 2 ^ k → j < 2 ^ k →
      (mul32 A B C).cell i j = wrap32 (matProd (2 ^ k) A.cell B.cell i j)) ∧
    ((∀ i j, i < 2 ^ k → j < 2 ^ k → -2 ^ 31 ≤ matProd (2 ^ k) A.cell B.cell i j ∧
        matProd (2 ^ k) A.cell B.cell i j < 2 ^ 31) →
      ∀ i j, i < 2 ^ k → j < 2 ^ k →
        (mul32 A B C).cell i j = matProd (2 ^ k) A.cell B.cell i j) := by
  have eA := toInt32_of_IsInt32 rA
  have eB := toInt32_of_IsInt32 rB
  have eC := toInt32_of_IsInt32 rC
  have ej : (fun a i => wrap32 (junk a i)) = junk :=
    funext fun a => funext fun i => wrap32_of_range (hjunk a i).1 (hjunk a i).2
  have hpos : 0 < 2 ^ k := Nat.pos_pow_of_pos k (by decide)
  have hlt : 2 ^ k < 2 ^ fuel := Nat.pow_lt_pow_right (by decide) hfuel
  have hm := mul32_toInt32 A B C
  rw [eA, eB, eC] at hm
  have hcell : ∀ i j, i < 2 ^ k → j < 2 ^ k →
      (mul32 A B C).cell i j = wrap32 (matProd (2 ^ k) A.cell B.cell i j) := by
    intro i j hi hj
    rw [hm, cell_toInt32, (mul_spec hA hB hC).2 i j hi hj]
  refine ⟨?_, hcell, fun hfit i j hi hj => ?_⟩
  · obtain ⟨hp', e, _⟩ := strassenMul_eq_mul junk k fuel hfuel hp hA hB hC
    have key := strassenMul32_sim junk fuel (2 ^ k) hpos hlt hp A B C hA hB hC
    rw [eA, eB, eC, ej, e] at key
    exact ⟨hp', by rw [key, hm]; rfl⟩
  · rw [hcell i j hi hj]
    exact wrap32_of_range (hfit i j hi hj).1 (hfit i j hi hj).2

/-- C32, witness: side 2 with `A = [[2^30, 0], [0, 2^30]]` and `B` the identity:
`A11 + A22 = 2^31` overflows in the second of Strassen's products, and both
functions return `A`. -/
theorem C32_wraparound_agreement_witness :
    wrap32 (1073741824 + 1073741824) = -2147483648 ∧
    strassenMul32 (fun _ _ => 7) 2 ⟨0, 0⟩ ⟨[1073741824, 0, 0, 1073741824], 2, 2⟩
        ⟨[1, 0, 0, 1], 2, 2⟩ ⟨[9, 9, 9, 9], 2, 2⟩ =
      some (⟨[1073741824, 0, 0, 1073741824], 2, 2⟩, ⟨0, 3⟩) ∧
    ∃ hp', strassenMul32 (fun _ _ => 7) 2 ⟨0, 0⟩ ⟨[1073741824, 0, 0, 1073741824], 2, 2⟩
        ⟨[1, 0, 0, 1], 2, 2⟩ ⟨[9, 9, 9, 9], 2, 2⟩ =
      some (mul32 ⟨[1073741824, 0, 0, 1073741824], 2, 2⟩ ⟨[1, 0, 0, 1], 2, 2⟩
        ⟨[9, 9, 9, 9], 2, 2⟩, hp') :=
  ⟨by decide, by decide,
    (C32_wraparound_agreement (fun _ _ => 7) 1 2 (by decide) ⟨0, 0⟩
      ⟨[1073741824, 0, 0, 1073741824], 2, 2⟩ ⟨[1, 0, 0, 1], 2, 2⟩ ⟨[9, 9, 9, 9], 2, 2⟩
      ⟨rfl, rfl, rfl⟩ ⟨rfl, rfl, rfl⟩ ⟨rfl, rfl, rfl⟩
      (by simp [Matrix.IsInt32]) (by simp [Matrix.IsInt32]) (by simp [Matrix.IsInt32])
      (fun _ _ => by simp)).1⟩

end Strassen
